import Mathlib

/-! The settlement contract of db3-near, its election and its finalizer.

A shallow embedding of `pkg/near/types.go`, `pkg/db3/spec.go`, `pkg/db3/vote.go`
and `pkg/db3/db3.go`.

* Go maps are association lists (`GoMap`). Reading a missing key gives `none`
  (the zero value at the use site), writing replaces the binding in place or
  appends a new one, `delete` removes the binding. The order of the list is the
  order in which `range` visits the map, so a statement quantified over all
  lists covers every iteration order.
* `near.Money` is `uint64`: a natural number, every operation reduced modulo
  `2 ^ 64`.
* `int` values that only count votes are natural numbers (a vote list cannot
  hold the `2 ^ 63 / 200` entries needed to overflow the threshold product);
  `Manifest.RoyaltyBips` and block heights are signed integers.
* A Go `panic` is `Except.error` with the panic message.
-/

namespace Db3

/-! ## Go maps -/

/-- A Go map as an association list. Well-formed maps have pairwise distinct keys. -/
abbrev GoMap (K V : Type) := List (K × V)

namespace GoMap

variable {K V : Type} [DecidableEq K]

/-- The lookup `v, ok := m[k]`. -/
def get? : GoMap K V → K → Option V
  | [], _ => none
  | (k', v) :: m, k => if k' = k then some v else get? m k

/-- The assignment `m[k] = v`. -/
def set : GoMap K V → K → V → GoMap K V
  | [], k, v => [(k, v)]
  | (k', v') :: m, k, v => if k' = k then (k, v) :: m else (k', v') :: set m k v

/-- The statement `delete(m, k)`. -/
def del : GoMap K V → K → GoMap K V
  | [], _ => []
  | (k', v') :: m, k => if k' = k then del m k else (k', v') :: del m k

/-- Applies `f` to the value bound to `k`, when there is one (an update through the
reference `m[k]` of an inner map). -/
def modify : GoMap K V → K → (V → V) → GoMap K V
  | [], _, _ => []
  | (k', v') :: m, k, f => if k' = k then (k', f v') :: m else (k', v') :: modify m k f

/-- The keys of the map, in iteration order. -/
def keys (m : GoMap K V) : List K := m.map Prod.fst

end GoMap

/-! ## `pkg/near/types.go` -/

abbrev AccountID := String

/-- The modulus of `uint64`. -/
def U64 : Nat := 2 ^ 64

/-- The type `near.Money` is `uint64`. -/
abbrev Money := Nat

/-- The conversion `Money(n)` of an `int` to `uint64`. -/
def Money.ofInt (n : Int) : Money := (n % (U64 : Int)).toNat

/-- The method `Money.Mul`: `m * Money(n)`. -/
def Money.Mul (m : Money) (n : Int) : Money := (m * Money.ofInt n) % U64

/-- The method `Money.Div`: `m / Money(n)`; dividing by zero panics. -/
def Money.Div (m : Money) (n : Int) : Except String Money :=
  if Money.ofInt n = 0 then .error "integer divide by zero" else .ok (m / Money.ofInt n)

/-- Addition of `uint64`. -/
def Money.add (a b : Money) : Money := (a + b) % U64

/-- Subtraction of `uint64`. -/
def Money.sub (a b : Money) : Money := (a + (U64 - b % U64)) % U64

/-- The struct `near.CallContext`. -/
structure CallContext where
  Caller : AccountID
  SignedBy : String
  Amount : Money
  Height : Int
deriving DecidableEq, Repr

/-! ## `pkg/db3/vote.go` -/

abbrev ResultCID := String

structure Vote where
  AccountId : AccountID
  ResultCID : ResultCID
deriving DecidableEq, Repr

structure Election where
  votes : List Vote
  results : GoMap ResultCID Nat
deriving DecidableEq, Repr

def NewElection : Election := { votes := [], results := [] }

namespace Election

/-- The method `AddVote`: appends the vote and increments `results[vote]`. -/
def AddVote (e : Election) (voter : AccountID) (vote : ResultCID) : Election :=
  { votes := e.votes ++ [{ AccountId := voter, ResultCID := vote }],
    results := e.results.set vote ((e.results.get? vote).getD 0 + 1) }

def NumVoters (e : Election) : Nat := e.votes.length

/-- The value `cutoff := 200 * numVoters / 3`. -/
def cutoff (e : Election) : Nat := 200 * e.votes.length / 3

def IsUnanimous (e : Election) : Bool := e.results.length == 1

def IsSuperMajority (e : Election) : Bool :=
  e.results.any (fun kv => decide (kv.2 * 100 ≥ e.cutoff))

def Minority (e : Election) : List Vote :=
  e.votes.filter (fun vote => decide ((e.results.get? vote.ResultCID).getD 0 * 100 < e.cutoff))

def SuperMajority (e : Election) : List Vote :=
  e.votes.filter (fun vote => decide ((e.results.get? vote.ResultCID).getD 0 * 100 ≥ e.cutoff))

def NumSuperMajority (e : Election) : Nat := e.SuperMajority.length

/-- The election obtained from `NewElection` by one `AddVote` per listed pair. -/
def ofVotes (l : List (AccountID × ResultCID)) : Election :=
  l.foldl (fun e p => e.AddVote p.1 p.2) NewElection

end Election

/-! ## `pkg/db3/spec.go` -/

def MAX_BLOCKS_TO_SETTLE : Int := 120
def SECURITY_DEPOSIT : Nat := 10000
def SLASHED_DEPOSIT_BIPS : Nat := 1000

abbrev DBId := Nat
abbrev ApiEndpoint := String
abbrev CodeCID := String
abbrev QueryCID := String

structure Manifest where
  Author : AccountID
  Name : String
  License : String
  CID : CodeCID
  RoyaltyBips : Int
deriving DecidableEq, Repr

instance : Inhabited Manifest := ⟨{ Author := "", Name := "", License := "", CID := "", RoyaltyBips := 0 }⟩

/-- The struct `ContractState`. -/
structure DB3 where
  Owner : AccountID
  NextId : DBId
  Owners : GoMap DBId AccountID
  Manifests : GoMap DBId Manifest
  ApiRegistry : GoMap DBId (GoMap AccountID ApiEndpoint)
  Deposits : GoMap DBId (GoMap AccountID Money)
  Slashed : Money
  ResultTTL : GoMap DBId (GoMap QueryCID Int)
  PendingResults : GoMap DBId (GoMap QueryCID (GoMap AccountID ResultCID))
  PendingFees : GoMap DBId (GoMap QueryCID Money)
  SettledFees : GoMap AccountID Money
  SettledRoyalties : GoMap AccountID Money
deriving DecidableEq, Repr

/-! ## `pkg/db3/db3.go` -/

/-- The wrap-around of `int64` arithmetic. -/
def wrapInt64 (x : Int) : Int := (x + 2 ^ 63) % 2 ^ 64 - 2 ^ 63

/-- The panic of Go on `m[a][b] = v` when `m[a]` is a nil map. -/
def nilMapPanic : String := "assignment to entry in nil map"

/-- The read `m[a][b]` of a two-level map (a missing `m[a]` reads as an empty map). -/
def get2 {A B V : Type} [DecidableEq A] [DecidableEq B]
    (m : GoMap A (GoMap B V)) (a : A) (b : B) : Option V :=
  (m.get? a).bind (fun inner => inner.get? b)

/-- The write `m[a][b] = v` of a two-level map; panics when `m[a]` is missing. -/
def set2 {A B V : Type} [DecidableEq A] [DecidableEq B]
    (m : GoMap A (GoMap B V)) (a : A) (b : B) (v : V) : Except String (GoMap A (GoMap B V)) :=
  match m.get? a with
  | none => .error nilMapPanic
  | some _ => .ok (m.modify a (fun inner => inner.set b v))

/-- The statement `delete(m[a], b)` on a two-level map (no effect when `m[a]` is missing). -/
def del2 {A B V : Type} [DecidableEq A] [DecidableEq B]
    (m : GoMap A (GoMap B V)) (a : A) (b : B) : GoMap A (GoMap B V) :=
  m.modify a (fun inner => inner.del b)

def NewDB3 : DB3 :=
  { Owner := "blockwatch.near", NextId := 0, Owners := [], Manifests := [], ApiRegistry := [],
    Deposits := [], Slashed := 0, ResultTTL := [], PendingResults := [], PendingFees := [],
    SettledFees := [], SettledRoyalties := [] }

/-- An outgoing transfer: the receiving account and the amount. -/
abbrev Transfer := AccountID × Money

/-- Modelled from the spec: `near.TransferTo` is called by the contract but is not among the
sources. The host runtime's `transferTo(account, amount)` credits `account` with `amount` from
the contract's balance; the embedding records it in the list of outgoing transfers of the call.
Whether the contract's balance suffices is decided by the runtime, see `World.exec`. -/
def TransferTo (acc : AccountID) (amount : Money) (out : List Transfer) : List Transfer :=
  out ++ [(acc, amount)]

namespace DB3

/-- Registers a new database. -/
def Deploy (d : DB3) (ctx : CallContext) (m : Manifest) : DB3 × DBId :=
  let dbid := d.NextId
  ({ d with
      Owners := d.Owners.set dbid ctx.Caller
      Manifests := d.Manifests.set dbid m
      ApiRegistry := d.ApiRegistry.set dbid []
      Deposits := d.Deposits.set dbid []
      ResultTTL := d.ResultTTL.set dbid []
      PendingResults := d.PendingResults.set dbid []
      PendingFees := d.PendingFees.set dbid []
      NextId := (d.NextId + 1) % U64 }, dbid)

/-- Locks security deposit when joining a new database or tops up slashed deposit. -/
def Deposit (d : DB3) (ctx : CallContext) (dbid : DBId) : Except String DB3 :=
  if dbid ≥ d.NextId then .error "Database id does not exist" else
  let deposit := (get2 d.Deposits dbid ctx.Caller).getD 0
  if Money.add deposit ctx.Amount < SECURITY_DEPOSIT then .error "Security deposit too low" else do
  let deposits ← set2 d.Deposits dbid ctx.Caller (Money.add deposit ctx.Amount)
  pure { d with Deposits := deposits }

/-- Unlocks and returns security deposit on leave. -/
def Withdraw (d : DB3) (ctx : CallContext) (dbid : DBId) : Except String (DB3 × List Transfer) :=
  if dbid ≥ d.NextId then .error "Database id does not exist" else
  match get2 d.Deposits dbid ctx.Caller with
  | none => .error "Caller did not pay deposit"
  | some deposit =>
    .ok ({ d with Deposits := del2 d.Deposits dbid ctx.Caller }, TransferTo ctx.Caller deposit [])

/-- Registers the host's API endpoint for a database. -/
def Register (d : DB3) (ctx : CallContext) (dbid : DBId) (uri : ApiEndpoint) : Except String DB3 :=
  if dbid ≥ d.NextId then .error "Database id does not exist" else
  let deposit := (get2 d.Deposits dbid ctx.Caller).getD 0
  if deposit < SECURITY_DEPOSIT then .error "Security deposit too low" else
  if uri = "" then
    .ok { d with ApiRegistry := del2 d.ApiRegistry dbid ctx.Caller }
  else do
    let reg ← set2 d.ApiRegistry dbid ctx.Caller uri
    pure { d with ApiRegistry := reg }

/-- Views all registered databases. -/
def Databases (d : DB3) : GoMap DBId Manifest := d.Manifests

/-- Views all registered API endpoints for a database. -/
def Discover (d : DB3) (dbid : DBId) : Except String (List ApiEndpoint) :=
  if dbid ≥ d.NextId then .error "Database id does not exist" else
  .ok (((d.ApiRegistry.get? dbid).getD []).map Prod.snd)

/-- Pays query fee. -/
def EscrowFee (d : DB3) (ctx : CallContext) (dbid : DBId) (qid : QueryCID) (ttl : Int) :
    Except String DB3 :=
  if dbid ≥ d.NextId then .error "Database id does not exist" else
  if ttl < ctx.Height then .error "Fee payment is expired" else do
  let fees ← set2 d.PendingFees dbid qid (Money.add ((get2 d.PendingFees dbid qid).getD 0) ctx.Amount)
  let ttls ← set2 d.ResultTTL dbid qid ttl
  pure { d with PendingFees := fees, ResultTTL := ttls }

/-- The end of `Settle`: allocate the sub map `d.PendingResults[dbid][qid]` when this is the
first call for this query, then store this host's result hash. -/
def storeResult (d : DB3) (ctx : CallContext) (dbid : DBId) (qid : QueryCID) (rid : ResultCID) :
    Except String DB3 := do
  let d1 ← match get2 d.PendingResults dbid qid with
    | none => do
      let pr ← set2 d.PendingResults dbid qid []
      pure { d with PendingResults := pr }
    | some _ => pure d
  let pr := d1.PendingResults.modify dbid
    (fun qs => qs.modify qid (fun votes => votes.set ctx.Caller rid))
  pure { d1 with PendingResults := pr }

/-- Forwards fee payment tx and query execution proof. -/
def Settle (d : DB3) (ctx : CallContext) (dbid : DBId) (qid : QueryCID) (rid : ResultCID) :
    Except String DB3 :=
  if dbid ≥ d.NextId then .error "Database id does not exist" else
  if (get2 d.Deposits dbid ctx.Caller).getD 0 < SECURITY_DEPOSIT then
    .error "Security deposit too low" else
  match get2 d.ResultTTL dbid qid with
  | none => do
    let ttls ← set2 d.ResultTTL dbid qid (wrapInt64 (ctx.Height + MAX_BLOCKS_TO_SETTLE))
    storeResult { d with ResultTTL := ttls } ctx dbid qid rid
  | some ttl => if ttl ≤ ctx.Height then .ok d else storeResult d ctx dbid qid rid

/-- The body of the payout loop of `finalizeResults`, on the pair of `feeToSplit` and
`d.SettledFees`: `feeToSplit -= feeToShare; d.SettledFees[v.AccountId] += feeToShare`. -/
def payShare (feeToShare : Money) (acc : Money × GoMap AccountID Money) (v : Vote) :
    Money × GoMap AccountID Money :=
  (Money.sub acc.1 feeToShare,
   acc.2.set v.AccountId (Money.add ((acc.2.get? v.AccountId).getD 0) feeToShare))

/-- The payout of cases 1 and 2 of `finalizeResults` (the same statements in both cases):
`feeShare := 10000 / NumSuperMajority()`, `feeToShare := feeToSplit.Mul(feeShare).Div(10000)`,
one `feeToShare` per super-majority vote, the rest of `feeToSplit` to `Slashed`. -/
def payout (d : DB3) (election : Election) (feeToSplit : Money) : Except String DB3 :=
  if election.NumSuperMajority = 0 then .error "integer divide by zero" else do
  let feeShare : Int := ((10000 / election.NumSuperMajority : Nat) : Int)
  let feeToShare ← (feeToSplit.Mul feeShare).Div 10000
  let r := election.SuperMajority.foldl (payShare feeToShare) (feeToSplit, d.SettledFees)
  pure { d with SettledFees := r.2, Slashed := Money.add d.Slashed r.1 }

/-- The body of the loop `slash minority` of `finalizeResults`. -/
def slashVote (dbid : DBId) (d : DB3) (v : Vote) : Except String DB3 := do
  let amountToSlash := ((get2 d.Deposits dbid v.AccountId).getD 0 * 10000 % U64) / SLASHED_DEPOSIT_BIPS
  let slashed := Money.add d.Slashed amountToSlash
  let deposits ← set2 d.Deposits dbid v.AccountId
    (Money.sub ((get2 d.Deposits dbid v.AccountId).getD 0) amountToSlash)
  pure { d with Slashed := slashed, Deposits := deposits }

/-- The block `pay developer royalty` of `finalizeResults`: the state after the royalty was
credited and the fee that is left to split. -/
def payRoyalty (d : DB3) (dbid : DBId) (royaltyBips : Int) (feeToSplit : Money) :
    Except String (DB3 × Money) :=
  if royaltyBips > 0 then do
    let royaltyToPay ← (feeToSplit.Mul royaltyBips).Div 10000
    let owner := (d.Owners.get? dbid).getD ""
    let royalties := d.SettledRoyalties.set owner
      (Money.add ((d.SettledRoyalties.get? owner).getD 0) royaltyToPay)
    pure ({ d with SettledRoyalties := royalties }, Money.sub feeToSplit royaltyToPay)
  else pure (d, feeToSplit)

/-- The election of a query: one `AddVote` per entry of `d.PendingResults[dbid][qid]`. -/
def election (d : DB3) (dbid : DBId) (qid : QueryCID) : Election :=
  Election.ofVotes ((get2 d.PendingResults dbid qid).getD [])

/-- The `switch` of `finalizeResults` on the election, with the fee left after the royalty. -/
def settleElection (d : DB3) (dbid : DBId) (election : Election) (feeToSplit : Money) :
    Except String DB3 :=
  if election.IsUnanimous then
    payout d election feeToSplit
  else if election.IsSuperMajority then do
    let d ← payout d election feeToSplit
    election.Minority.foldlM (slashVote dbid) d
  else
    pure { d with Slashed := Money.add d.Slashed feeToSplit }

/-- The block of `finalizeResults` guarded by `feeToSplit := d.PendingFees[dbid][qid]; feeToSplit > 0`:
royalty, election and the three cases. -/
def splitFee (d : DB3) (dbid : DBId) (royaltyBips : Int) (qid : QueryCID) (feeToSplit : Money) :
    Except String DB3 := do
  let r ← payRoyalty d dbid royaltyBips feeToSplit
  settleElection r.1 dbid (election r.1 dbid qid) r.2

/-- The statements `clean up maps` of `finalizeResults`. -/
def cleanUp (d : DB3) (dbid : DBId) (qid : QueryCID) : DB3 :=
  { d with
    PendingFees := del2 d.PendingFees dbid qid
    PendingResults := del2 d.PendingResults dbid qid
    ResultTTL := del2 d.ResultTTL dbid qid }

/-- The body of the inner loop of `finalizeResults` for the entry `(qid, ttl)` of
`d.ResultTTL[dbid]`. -/
def finalizeQuery (ctx : CallContext) (dbid : DBId) (royaltyBips : Int) (d : DB3)
    (entry : QueryCID × Int) : Except String DB3 :=
  if entry.2 > ctx.Height then .ok d else do
  let feeToSplit := (get2 d.PendingFees dbid entry.1).getD 0
  let d ← if feeToSplit > 0 then splitFee d dbid royaltyBips entry.1 feeToSplit else pure d
  pure (cleanUp d dbid entry.1)

/-- The body of the outer loop of `finalizeResults` for the entry `(dbid, ttls)` of
`d.ResultTTL`. -/
def finalizeDb (ctx : CallContext) (d : DB3) (entry : DBId × GoMap QueryCID Int) :
    Except String DB3 :=
  let royaltyBips := ((d.Manifests.get? entry.1).map (fun m => m.RoyaltyBips)).getD 0
  entry.2.foldlM (finalizeQuery ctx entry.1 royaltyBips) d

/-- For all expired queries, check result ids match and split fees and slash any offenders. -/
def finalizeResults (d : DB3) (ctx : CallContext) : Except String DB3 :=
  d.ResultTTL.foldlM (finalizeDb ctx) d

/-- Sends settled fees and royalties to claimer. -/
def ClaimFees (d : DB3) (ctx : CallContext) : Except String (DB3 × List Transfer) := do
  let d ← d.finalizeResults ctx
  let earned := (d.SettledFees.get? ctx.Caller).getD 0
  if earned > 0 then
    pure ({ d with SettledFees := d.SettledFees.set ctx.Caller (Money.sub earned earned) },
          TransferTo ctx.Caller earned [])
  else pure (d, [])

/-- Sends settled royalties to claimer. -/
def ClaimRoyalties (d : DB3) (ctx : CallContext) : Except String (DB3 × List Transfer) := do
  let d ← d.finalizeResults ctx
  let earned := (d.SettledRoyalties.get? ctx.Caller).getD 0
  if earned > 0 then
    pure ({ d with SettledRoyalties := d.SettledRoyalties.set ctx.Caller (Money.sub earned earned) },
          TransferTo ctx.Caller earned [])
  else pure (d, [])

/-- Recovers and transfers slashed funds. -/
def Recover (d : DB3) (ctx : CallContext) (amount : Money) (target : AccountID) :
    Except String (DB3 × List Transfer) :=
  if ctx.Caller ≠ d.Owner then .error "Must be contract owner to recover funds" else
  if d.Slashed < amount then .error "Amount is smaller than available funds" else
  .ok ({ d with Slashed := Money.sub d.Slashed amount }, TransferTo target amount [])

end DB3

/-! ## The host runtime -/

/-- A call of one of the contract's state-changing operations. -/
inductive Op where
  | deploy (m : Manifest)
  | deposit (dbid : DBId)
  | withdraw (dbid : DBId)
  | register (dbid : DBId) (uri : ApiEndpoint)
  | escrowFee (dbid : DBId) (qid : QueryCID) (ttl : Int)
  | settle (dbid : DBId) (qid : QueryCID) (rid : ResultCID)
  | claimFees
  | claimRoyalties
  | recover (amount : Money) (target : AccountID)
deriving DecidableEq, Repr

/-- The operation `op` called under `ctx`: the new state and the outgoing transfers, or the
panic. -/
def DB3.call (d : DB3) (ctx : CallContext) : Op → Except String (DB3 × List Transfer)
  | .deploy m => .ok ((d.Deploy ctx m).1, [])
  | .deposit dbid => (d.Deposit ctx dbid).map (fun d => (d, []))
  | .withdraw dbid => d.Withdraw ctx dbid
  | .register dbid uri => (d.Register ctx dbid uri).map (fun d => (d, []))
  | .escrowFee dbid qid ttl => (d.EscrowFee ctx dbid qid ttl).map (fun d => (d, []))
  | .settle dbid qid rid => (d.Settle ctx dbid qid rid).map (fun d => (d, []))
  | .claimFees => d.ClaimFees ctx
  | .claimRoyalties => d.ClaimRoyalties ctx
  | .recover amount target => d.Recover ctx amount target

/-- The sum of the amounts of a list of transfers. -/
def sent (out : List Transfer) : Nat := (out.map Prod.snd).sum

/-- Modelled from the spec: the host runtime is not among the sources. It keeps the contract
state across calls, holds the contract's balance, and runs each call as a transaction. -/
structure World where
  db : DB3
  balance : Nat
  out : List Transfer
  calls : List (CallContext × Op)
deriving DecidableEq, Repr

def NewWorld : World := { db := NewDB3, balance := 0, out := [], calls := [] }

/-- Modelled from the spec: one call under the host runtime. An abort (a panic, or a transfer
that the balance, the attached amount included, does not cover) discards the call; otherwise the
new state is kept, the attached amount is added to the balance, the transfers leave it, and the
call is recorded in `calls`. -/
def World.exec (w : World) (c : CallContext × Op) : World :=
  match w.db.call c.1 c.2 with
  | .error _ => w
  | .ok (db, out) =>
    if w.balance + c.1.Amount < sent out then w
    else { db := db, balance := w.balance + c.1.Amount - sent out,
           out := w.out ++ out, calls := w.calls ++ [c] }

/-- A sequence of calls. -/
def World.run (w : World) (cs : List (CallContext × Op)) : World := cs.foldl World.exec w

/-! ## Sums of the balances held by the contract -/

/-- The sum of the values of a map of amounts. -/
def sum1 {K : Type} (m : GoMap K Money) : Nat := (m.map Prod.snd).sum

/-- The sum of the values of a two-level map of amounts. -/
def sum2 {A B : Type} (m : GoMap A (GoMap B Money)) : Nat := (m.map (fun kv => sum1 kv.2)).sum

/-- The funds the state accounts for: all deposits, the slashed pool, the pending fees, the
settled fees and the settled royalties. -/
def DB3.accounted (d : DB3) : Nat :=
  sum2 d.Deposits + d.Slashed + sum2 d.PendingFees + sum1 d.SettledFees + sum1 d.SettledRoyalties

/-! ## Notions used to state the properties -/

/-- The number of recorded votes that name `c`. -/
def Election.count (e : Election) (c : ResultCID) : Nat :=
  (e.votes.filter (fun w => decide (w.ResultCID = c))).length

/-- The threshold test of `vote.go` for a count `c` among `n` votes: `c*100 >= 200*n/3`. -/
def meetsThreshold (c n : Nat) : Prop := c * 100 ≥ 200 * n / 3

instance (c n : Nat) : Decidable (meetsThreshold c n) := by
  unfold meetsThreshold; infer_instance

/-- The results map records, for every result, the number of votes that name it, has no entry
for a result nobody named, and has pairwise distinct keys. -/
def Election.Consistent (e : Election) : Prop :=
  (∀ c, e.results.get? c = if e.count c = 0 then none else some (e.count c)) ∧
    e.results.keys.Nodup

/-- The royalty `feeToSplit.Mul(royaltyBips).Div(10000)` credited for a fee `F` (nothing when
`royaltyBips` is not positive). -/
def royaltyOf (F : Money) (royaltyBips : Int) : Money :=
  if royaltyBips > 0 then (F.Mul royaltyBips) / 10000 else 0

/-- The fee that remains to be split after the royalty. -/
def feeAfterRoyalty (F : Money) (royaltyBips : Int) : Money :=
  if royaltyBips > 0 then Money.sub F (royaltyOf F royaltyBips) else F

/-- The amount `feeToSplit.Mul(10000 / n).Div(10000)` that each of `n` super-majority voters is
paid out of the fee `R`. -/
def feeToShareOf (R : Money) (n : Nat) : Money :=
  Money.Mul R ((10000 / n : Nat) : Int) / 10000

/-- The state after the royalty of a fee `F` was credited to the owner of the database. -/
def DB3.creditRoyalty (d : DB3) (dbid : DBId) (royaltyBips : Int) (F : Money) : DB3 :=
  if royaltyBips > 0 then
    let owner := (d.Owners.get? dbid).getD ""
    let royalties := d.SettledRoyalties.set owner
      (Money.add ((d.SettledRoyalties.get? owner).getD 0) (royaltyOf F royaltyBips))
    { d with SettledRoyalties := royalties }
  else d

/-- A call context with the given caller, attached amount and block height. -/
def ctxOf (caller : AccountID) (amount : Money) (height : Int) : CallContext :=
  { Caller := caller, SignedBy := "", Amount := amount, Height := height }

/-- A manifest with the given royalty. -/
def manifestOf (royaltyBips : Int) : Manifest :=
  { Author := "dev.near", Name := "Hello", License := "n/a", CID := "cid-1",
    RoyaltyBips := royaltyBips }

/-- The calls of end-to-end scenario 1 before the claim: a database with a royalty of 1000 bips,
one host, a fee of 1000000 for `cid-Q` with TTL 110, and the host's result. -/
def scenario1 : List (CallContext × Op) :=
  [(ctxOf "dev.near" 0 10, .deploy (manifestOf 1000)),
   (ctxOf "h1" 10000 10, .deposit 0),
   (ctxOf "h1" 0 10, .register 0 "u1"),
   (ctxOf "user.near" 1000000 10, .escrowFee 0 "cid-Q" 110),
   (ctxOf "h1" 0 11, .settle 0 "cid-Q" "cid-R")]

/-- The calls of end-to-end scenario 2 before the claim: no royalty, three hosts with a deposit
of 10000 each, a fee of 1000, two results `cid-A` and one `cid-B`. -/
def scenario2 : List (CallContext × Op) :=
  [(ctxOf "dev.near" 0 10, .deploy (manifestOf 0)),
   (ctxOf "h1" 10000 10, .deposit 0),
   (ctxOf "h2" 10000 10, .deposit 0),
   (ctxOf "h3" 10000 10, .deposit 0),
   (ctxOf "user.near" 1000 10, .escrowFee 0 "cid-Q" 110),
   (ctxOf "h1" 0 11, .settle 0 "cid-Q" "cid-A"),
   (ctxOf "h2" 0 11, .settle 0 "cid-Q" "cid-A"),
   (ctxOf "h3" 0 11, .settle 0 "cid-Q" "cid-B")]

/-- The calls of end-to-end scenario 3 before the claim: as scenario 2, with three distinct
results. -/
def scenario3 : List (CallContext × Op) :=
  [(ctxOf "dev.near" 0 10, .deploy (manifestOf 0)),
   (ctxOf "h1" 10000 10, .deposit 0),
   (ctxOf "h2" 10000 10, .deposit 0),
   (ctxOf "h3" 10000 10, .deposit 0),
   (ctxOf "user.near" 1000 10, .escrowFee 0 "cid-Q" 110),
   (ctxOf "h1" 0 11, .settle 0 "cid-Q" "cid-A"),
   (ctxOf "h2" 0 11, .settle 0 "cid-Q" "cid-B"),
   (ctxOf "h3" 0 11, .settle 0 "cid-Q" "cid-C")]

/-- The query `(dbid, qid)` has no entry in `PendingFees`, `PendingResults` and `ResultTTL`. -/
def DB3.noEntry (d : DB3) (dbid : DBId) (qid : QueryCID) : Prop :=
  get2 d.PendingFees dbid qid = none ∧ get2 d.PendingResults dbid qid = none ∧
    get2 d.ResultTTL dbid qid = none

/-- The query `(dbid, qid)` has in `d'` the entries of `PendingFees`, `PendingResults` and
`ResultTTL` that it has in `d`. -/
def DB3.sameEntry (d d' : DB3) (dbid : DBId) (qid : QueryCID) : Prop :=
  get2 d'.PendingFees dbid qid = get2 d.PendingFees dbid qid ∧
    get2 d'.PendingResults dbid qid = get2 d.PendingResults dbid qid ∧
    get2 d'.ResultTTL dbid qid = get2 d.ResultTTL dbid qid

/-- Scenario 2 with a second query `cid-Z` whose TTL is 500. -/
def scenario4 : List (CallContext × Op) :=
  scenario2 ++ [(ctxOf "user.near" 5 12, .escrowFee 0 "cid-Z" 500)]

/-- The invariant of the maps that hold funds per database: `Deposits` and `PendingFees` have
entries only for ids below `NextId` (those `Deploy` has assigned), and their inner maps have
pairwise distinct keys. -/
def DB3.WF (d : DB3) : Prop :=
  (∀ k ∈ d.Deposits.keys, k < d.NextId) ∧ (∀ k ∈ d.PendingFees.keys, k < d.NextId) ∧
    (∀ kv ∈ d.Deposits, kv.2.keys.Nodup) ∧ (∀ kv ∈ d.PendingFees, kv.2.keys.Nodup)

/-- The amount a call pays into the contract's books: `Deposit` and `EscrowFee` credit the
attached amount; no other operation reads `ctx.Amount`. -/
def credited (c : CallContext × Op) : Nat :=
  match c.2 with
  | .deposit _ => c.1.Amount
  | .escrowFee _ _ _ => c.1.Amount
  | _ => 0

/-- The sum of the amounts credited by the calls that did not abort. -/
def World.paidIn (w : World) : Nat := (w.calls.map credited).sum

/-- The sum of `ctx.Amount` over the calls that did not abort. -/
def World.attached (w : World) : Nat := (w.calls.map (fun c => c.1.Amount)).sum

/-- The account `d.Owners[dbid]` that is credited the royalty. -/
def DB3.ownerOf (d : DB3) (dbid : DBId) : AccountID := (d.Owners.get? dbid).getD ""

/-- The value `d.Manifests[dbid].RoyaltyBips`. -/
def DB3.royaltyBips (d : DB3) (dbid : DBId) : Int :=
  ((d.Manifests.get? dbid).map (fun m => m.RoyaltyBips)).getD 0

/-- The balance `m[a]` of an account in a map of amounts (zero when absent). -/
def balanceOf (m : GoMap AccountID Money) (a : AccountID) : Money := (m.get? a).getD 0

/-- The deposit `d.Deposits[dbid][a]` (zero when absent). -/
def DB3.depositOf (d : DB3) (dbid : DBId) (a : AccountID) : Money :=
  (get2 d.Deposits dbid a).getD 0

/-- The ids returned by the `Deploy` calls of a sequence of calls run from `w`, in call order. -/
def World.deployIds (w : World) : List (CallContext × Op) → List DBId
  | [] => []
  | c :: cs =>
    match c.2 with
    | .deploy m => (w.db.Deploy c.1 m).2 :: (w.exec c).deployIds cs
    | _ => (w.exec c).deployIds cs

/-- Every assigned database id has the five per-database maps that `Deploy` allocates. -/
def DB3.Allocated (d : DB3) : Prop :=
  ∀ k, k < d.NextId → k ∈ d.ApiRegistry.keys ∧ k ∈ d.Deposits.keys ∧ k ∈ d.ResultTTL.keys ∧
    k ∈ d.PendingResults.keys ∧ k ∈ d.PendingFees.keys

/-- The parts of the state that only `Deploy` and `Register` change are the same in `d` and
`d'`, and the per-database maps of funds and pending queries have the same database ids. -/
def DB3.Static (d d' : DB3) : Prop :=
  d'.Owner = d.Owner ∧ d'.NextId = d.NextId ∧ d'.Owners = d.Owners ∧
    d'.Manifests = d.Manifests ∧ d'.ApiRegistry = d.ApiRegistry ∧
    d'.Deposits.keys = d.Deposits.keys ∧ d'.ResultTTL.keys = d.ResultTTL.keys ∧
    d'.PendingResults.keys = d.PendingResults.keys ∧ d'.PendingFees.keys = d.PendingFees.keys

/-- The states `d` and `d'` have the same `NextId` and the same database ids in the five
per-database maps. -/
def DB3.SameIds (d d' : DB3) : Prop :=
  d'.NextId = d.NextId ∧ d'.ApiRegistry.keys = d.ApiRegistry.keys ∧
    d'.Deposits.keys = d.Deposits.keys ∧ d'.ResultTTL.keys = d.ResultTTL.keys ∧
    d'.PendingResults.keys = d.PendingResults.keys ∧ d'.PendingFees.keys = d.PendingFees.keys

/-- Whether the call is a `Deploy`. -/
def Op.isDeploy : Op → Bool
  | .deploy _ => true
  | _ => false

/-- Registry admissibility (I2): every host with an entry in `ApiRegistry[dbid]` has a deposit
of at least `SECURITY_DEPOSIT` for `dbid`. -/
def DB3.Admissible (d : DB3) : Prop :=
  ∀ dbid h uri, get2 d.ApiRegistry dbid h = some uri → SECURITY_DEPOSIT ≤ d.depositOf dbid h

/-- The result `d.PendingResults[dbid][qid][h]` that host `h` submitted for a query. -/
def DB3.voteOf (d : DB3) (dbid : DBId) (qid : QueryCID) (h : AccountID) : Option ResultCID :=
  (get2 d.PendingResults dbid qid).bind (fun votes => votes.get? h)

/-- The manifest `m1` of `db3_test.go`. -/
def m1 : Manifest :=
  { Author := "blockwatch.near", Name := "Hello", License := "n/a", CID := "cid-1",
    RoyaltyBips := 1000 }

/-- The two successful calls of `TestDeploy`: the manifest `m1`, then a manifest without
author, both with a royalty of 1000. -/
def testDeploy : List (CallContext × Op) :=
  [(ctxOf "sender.near" 0 10, .deploy m1),
   (ctxOf "sender.near" 0 10, .deploy
      { Author := "", Name := "Second without author", License := "n/a", CID := "cid-2",
        RoyaltyBips := 1000 })]

/-- The manifest of `TestDeploy` with the given name and royalty, which the test expects
`Deploy` to refuse for a royalty of -1 and of 10001. -/
def testRoyalty (name : String) (royaltyBips : Int) : Manifest :=
  { Author := "blockwatch.near", Name := name, License := "n/a", CID := "cid-1",
    RoyaltyBips := royaltyBips }

/-- The state of the tests of `db3_test.go` after `db := NewDB3()` and `db.Deploy(m1)`. -/
def testDb : DB3 := (NewDB3.Deploy (ctxOf "sender.near" 10000 10) m1).1

/-- The state of the tests after `db.Deposit(id)` by `sender.near` with `SECURITY_DEPOSIT`
attached. -/
def testDeposited : Except String DB3 := testDb.Deposit (ctxOf "sender.near" 10000 10) 0

/-- The endpoints `Discover` lists for a database: the values of `ApiRegistry[dbid]`. -/
def DB3.endpoints (d : DB3) (dbid : DBId) : List ApiEndpoint :=
  ((d.ApiRegistry.get? dbid).getD []).map Prod.snd

/-- The state after host `a` registered the endpoint `uri` for `dbid` (or, with an empty
`uri`, removed its endpoint). -/
def DB3.withEndpoint (d : DB3) (dbid : DBId) (a : AccountID) (uri : ApiEndpoint) : DB3 :=
  let reg := d.ApiRegistry.modify dbid
    (fun inner => if uri = "" then inner.del a else inner.set a uri)
  { d with ApiRegistry := reg }

/-- What `Settle` by host `a` leaves behind when it stores the result `rid` for `(dbid, qid)`:
the vote of `a` is `rid`, every other vote is as before, and outside `ResultTTL` and
`PendingResults` the state is unchanged. -/
def DB3.storedVote (d d' : DB3) (dbid : DBId) (qid : QueryCID) (a : AccountID)
    (rid : ResultCID) : Prop :=
  d'.voteOf dbid qid a = some rid ∧
    (∀ k q b, ¬ (k = dbid ∧ q = qid ∧ b = a) → d'.voteOf k q b = d.voteOf k q b) ∧
    d' = { d with ResultTTL := d'.ResultTTL, PendingResults := d'.PendingResults }

/-- The hosts with an entry in `ApiRegistry[dbid]`. -/
def DB3.hosts (d : DB3) (dbid : DBId) : List AccountID :=
  ((d.ApiRegistry.get? dbid).getD []).keys

/-- The calls after which a host is listed without a deposit: a deploy, the deposit and the
registration of `"h1"`, and the withdrawal of `"h1"`. -/
def withdrawRegistered : List (CallContext × Op) :=
  [(ctxOf "sender.near" 0 10, .deploy (manifestOf 1000)),
   (ctxOf "h1" 10000 10, .deposit 0),
   (ctxOf "h1" 0 10, .register 0 "u1"),
   (ctxOf "h1" 0 10, .withdraw 0)]

/-- The calls `cs`, run from `w`, contain no `Withdraw` by a caller who is listed in the
registry of that database at the time of the call, and no `ClaimFees` or `ClaimRoyalties` after
which `Deposits` differs (a finalization that slashes). -/
def World.keepsRegistered (w : World) : List (CallContext × Op) → Bool
  | [] => true
  | c :: cs =>
    (match c.2 with
      | .withdraw dbid => (get2 w.db.ApiRegistry dbid c.1.Caller).isNone
      | .claimFees => decide ((w.exec c).db.Deposits = w.db.Deposits)
      | .claimRoyalties => decide ((w.exec c).db.Deposits = w.db.Deposits)
      | _ => true) && (w.exec c).keepsRegistered cs

/-- The calls of end-to-end scenario 4: a fee for `cid-Q` escrowed with TTL 100 at height 10,
and the result of the qualified host `h1` submitted at height 101. -/
def scenarioLate : List (CallContext × Op) :=
  [(ctxOf "dev.near" 0 10, .deploy (manifestOf 1000)),
   (ctxOf "h1" 10000 10, .deposit 0),
   (ctxOf "user.near" 1000 10, .escrowFee 0 "cid-Q" 100),
   (ctxOf "h1" 0 101, .settle 0 "cid-Q" "cid-R")]

/-- The calls of end-to-end scenario 3 followed by a claim at height 200, after which the
slashed pool holds the fee of 1000. -/
def scenarioSlashed : List (CallContext × Op) :=
  scenario3 ++ [(ctxOf "h1" 0 200, .claimFees)]

/-- The operation is `ClaimFees` or `ClaimRoyalties`. -/
def Op.isClaim : Op → Bool
  | .claimFees => true
  | .claimRoyalties => true
  | _ => false

/-- The operation is `Recover`. -/
def Op.isRecover : Op → Bool
  | .recover _ _ => true
  | _ => false

/-- The `Deploy` calls of a sequence of calls, in call order: the caller and the manifest of
each. `Deploy` never panics, so each of them is executed. -/
def deploysOf (cs : List (CallContext × Op)) : List (AccountID × Manifest) :=
  cs.filterMap (fun c =>
    match c.2 with
    | .deploy m => some (c.1.Caller, m)
    | _ => none)

/-- The databases of `d` are those of the list `L` of deploys: `NextId` is the length of `L`,
and `Manifests[k]` and `Owners[k]` are the manifest and the caller of the `k`-th deploy (and
absent for `k` beyond the list). -/
def DB3.Registered (d : DB3) (L : List (AccountID × Manifest)) : Prop :=
  d.NextId = L.length ∧
    ∀ k, d.Manifests.get? k = (L[k]?).map Prod.snd ∧ d.Owners.get? k = (L[k]?).map Prod.fst

/-- Every query without a TTL has neither a pending fee nor pending results. -/
def DB3.Timed (d : DB3) : Prop :=
  ∀ k q, get2 d.ResultTTL k q = none →
    get2 d.PendingFees k q = none ∧ get2 d.PendingResults k q = none

/-! ## Go maps as functions, and the updates of the finalizer -/

/-- A Go map seen as the function from keys to what a lookup returns; two association lists
with this same function are the same Go map, iterated in two orders. -/
def GoMap.view {K V : Type} [DecidableEq K] (m : GoMap K V) : K → Option V := m.get?

/-- A two-level Go map seen as a function. -/
def view2 {A B V : Type} [DecidableEq A] [DecidableEq B] (m : GoMap A (GoMap B V)) :
    A → Option (B → Option V) :=
  fun a => (m.get? a).map GoMap.view

/-- A three-level Go map seen as a function. -/
def view3 {A B C V : Type} [DecidableEq A] [DecidableEq B] [DecidableEq C]
    (m : GoMap A (GoMap B (GoMap C V))) : A → Option (B → Option (C → Option V)) :=
  fun a => (m.get? a).map view2

/-- The contract state with every Go map seen as a function: what the state is, whatever the
order in which `range` visits its maps. -/
structure View where
  Owner : AccountID
  NextId : DBId
  Owners : DBId → Option AccountID
  Manifests : DBId → Option Manifest
  ApiRegistry : DBId → Option (AccountID → Option ApiEndpoint)
  Deposits : DBId → Option (AccountID → Option Money)
  Slashed : Money
  ResultTTL : DBId → Option (QueryCID → Option Int)
  PendingResults : DBId → Option (QueryCID → Option (AccountID → Option ResultCID))
  PendingFees : DBId → Option (QueryCID → Option Money)
  SettledFees : AccountID → Option Money
  SettledRoyalties : AccountID → Option Money

/-- The view of a contract state. -/
def DB3.view (d : DB3) : View :=
  { Owner := d.Owner, NextId := d.NextId, Owners := d.Owners.view,
    Manifests := d.Manifests.view, ApiRegistry := view2 d.ApiRegistry,
    Deposits := view2 d.Deposits, Slashed := d.Slashed, ResultTTL := view2 d.ResultTTL,
    PendingResults := view3 d.PendingResults, PendingFees := view2 d.PendingFees,
    SettledFees := d.SettledFees.view, SettledRoyalties := d.SettledRoyalties.view }

/-- The keys of the maps that `finalizeResults` iterates are pairwise distinct, as the keys of
a Go map are: the databases of `ResultTTL`, the queries of each `ResultTTL[dbid]`, and the
hosts of each `PendingResults[dbid][qid]`. -/
def DB3.Distinct (d : DB3) : Prop :=
  d.ResultTTL.keys.Nodup ∧ (∀ kv ∈ d.ResultTTL, kv.2.keys.Nodup) ∧
    ∀ kv ∈ d.PendingResults, ∀ qv ∈ kv.2, qv.2.keys.Nodup

/-- The update `m[a] += x` of a map of amounts, on its view. -/
def creditV (f : AccountID → Option Money) (a : AccountID) (x : Money) :
    AccountID → Option Money :=
  Function.update f a (some (Money.add ((f a).getD 0) x))

/-- The update of the entry `m[a][b]` of a two-level map to `g` of its lookup, on its view
(nothing when `m[a]` is missing). -/
def upd2 {A B V : Type} [DecidableEq A] [DecidableEq B] (f : A → Option (B → Option V))
    (a : A) (b : B) (g : Option V → Option V) : A → Option (B → Option V) :=
  Function.update f a ((f a).map (fun inner => Function.update inner b (g (inner b))))

/-- The amount `deposit * 10000 / SLASHED_DEPOSIT_BIPS` taken from a deposit. -/
def slashAmount (deposit : Money) : Money := (deposit * 10000 % U64) / SLASHED_DEPOSIT_BIPS

/-- The single updates that `finalizeResults` makes: a royalty credited to an account, a fee
share credited to an account, an amount added to `Slashed`, the deposit of a host for a
database slashed, and the three entries of a query removed. -/
inductive Atom where
  | royalty (a : AccountID) (x : Money)
  | fee (a : AccountID) (x : Money)
  | slashed (x : Money)
  | slash (k : DBId) (h : AccountID)
  | clean (k : DBId) (q : QueryCID)
deriving DecidableEq, Repr

/-- The effect of a single update on the view of the state. -/
def View.apply (v : View) : Atom → View
  | .royalty a x => { v with SettledRoyalties := creditV v.SettledRoyalties a x }
  | .fee a x => { v with SettledFees := creditV v.SettledFees a x }
  | .slashed x => { v with Slashed := Money.add v.Slashed x }
  | .slash k h =>
    { v with
      Slashed := Money.add v.Slashed (slashAmount (((v.Deposits k).bind (fun m => m h)).getD 0))
      Deposits := upd2 v.Deposits k h
        (fun o => some (Money.sub (o.getD 0) (slashAmount (o.getD 0)))) }
  | .clean k q =>
    { v with
      PendingFees := upd2 v.PendingFees k q (fun _ => none)
      PendingResults := upd2 v.PendingResults k q (fun _ => none)
      ResultTTL := upd2 v.ResultTTL k q (fun _ => none) }

/-- The fee left after `n` shares of `s` were subtracted from `R`, one `feeToSplit -= feeToShare`
per super-majority vote. -/
def dustOf (R s : Money) (n : Nat) : Money := (fun r => Money.sub r s)^[n] R

/-- The updates of the payout of cases 1 and 2 of `finalizeResults`. -/
def payoutOps (e : Election) (R : Money) : List Atom :=
  e.SuperMajority.map (fun v => Atom.fee v.AccountId (feeToShareOf R e.NumSuperMajority)) ++
    [Atom.slashed (dustOf R (feeToShareOf R e.NumSuperMajority) e.NumSuperMajority)]

/-- The updates of the `switch` of `finalizeResults` for the election `e` of a query of the
database `k` and the fee `R` left after the royalty. -/
def electionOps (k : DBId) (e : Election) (R : Money) : List Atom :=
  if e.IsUnanimous then payoutOps e R
  else if e.IsSuperMajority then
    payoutOps e R ++ e.Minority.map (fun v => Atom.slash k v.AccountId)
  else [Atom.slashed R]

/-- The updates that `finalizeResults` makes at height `H` for the entry `x = (dbid, qid, ttl)`
of `ResultTTL`, computed from the state `d` the finalizer starts in. -/
def DB3.stepOps (d : DB3) (H : Int) (x : DBId × QueryCID × Int) : List Atom :=
  if x.2.2 > H then [] else
    (if 0 < (get2 d.PendingFees x.1 x.2.1).getD 0 then
      (if d.royaltyBips x.1 > 0 then
        [Atom.royalty (d.ownerOf x.1)
          (royaltyOf ((get2 d.PendingFees x.1 x.2.1).getD 0) (d.royaltyBips x.1))]
       else []) ++
      electionOps x.1 (d.election x.1 x.2.1)
        (feeAfterRoyalty ((get2 d.PendingFees x.1 x.2.1).getD 0) (d.royaltyBips x.1))
     else []) ++ [Atom.clean x.1 x.2.1]

/-- The entries `(dbid, qid, ttl)` of a two-level map of TTLs, in iteration order. -/
def flatTTL (m : GoMap DBId (GoMap QueryCID Int)) : List (DBId × QueryCID × Int) :=
  m.flatMap (fun kv => kv.2.map (fun e => (kv.1, e.1, e.2)))

/-- The state of scenario 4 (scenario 2 with the second query `cid-Z`) as another iteration
order presents it: `cid-Z` listed before `cid-Q`, and the votes of `cid-Q` in the opposite
order. -/
def scenario4Reordered : DB3 :=
  { (NewWorld.run scenario4).db with
    ResultTTL := [(0, [("cid-Z", 500), ("cid-Q", 110)])]
    PendingFees := [(0, [("cid-Z", 5), ("cid-Q", 1000)])]
    PendingResults := [(0, [("cid-Q", [("h3", "cid-B"), ("h2", "cid-A"), ("h1", "cid-A")])])] }

/-- The election is split: it has a super-majority without being unanimous, the case in which
`finalizeResults` slashes the minority. -/
def Election.IsSplit (e : Election) : Bool := e.IsSuperMajority && !e.IsUnanimous

/-- At height `H` the finalizer slashes no deposit: no entry of `ResultTTL` that is expired at
`H` and has a pending fee has a split election. -/
def DB3.noSplit (d : DB3) (H : Int) : Bool :=
  d.ResultTTL.all (fun kv => kv.2.all (fun e =>
    !(decide (e.2 ≤ H) && decide (0 < (get2 d.PendingFees kv.1 e.1).getD 0) &&
      (d.election kv.1 e.1).IsSplit)))

/-- The entries of the map of TTLs `T` that are expired at height `H` and have a pending fee in
the state `s` have no split election in `s`. -/
def DB3.NoSplitOn (T : GoMap DBId (GoMap QueryCID Int)) (H : Int) (s : DB3) : Prop :=
  ∀ kv ∈ T, ∀ e ∈ kv.2, e.2 ≤ H → 0 < (get2 s.PendingFees kv.1 e.1).getD 0 →
    (s.election kv.1 e.1).IsSplit = false

/-- The calls `cs`, run from `w`, contain no claim whose finalizer slashes a deposit. -/
def World.slashFree (w : World) : List (CallContext × Op) → Bool
  | [] => true
  | c :: cs =>
    (if c.2.isClaim then w.db.noSplit c.1.Height else true) && (w.exec c).slashFree cs

/-- The calls of a database whose royalty is 20000 bips, with a fee of 1000 for `cid-Q` (TTL 110)
that no host answers. -/
def royaltyAbove : List (CallContext × Op) :=
  [(ctxOf "dev.near" 0 10, .deploy (manifestOf 20000)),
   (ctxOf "user.near" 1000 10, .escrowFee 0 "cid-Q" 110)]

/-- The calls that bring the slashed pool to `2^64 - 1` (an unanswered fee for `cid-P`, finalized
by the claim at height 60) and escrow a fee of 2 for `cid-Q` with TTL 110. -/
def slashedFull : List (CallContext × Op) :=
  [(ctxOf "dev.near" 0 10, .deploy (manifestOf 0)),
   (ctxOf "user.near" (2 ^ 64 - 1) 10, .escrowFee 0 "cid-P" 50),
   (ctxOf "h1" 0 60, .claimFees),
   (ctxOf "user.near" 2 60, .escrowFee 0 "cid-Q" 110)]

/-- The calls that put 5000 into the slashed pool (an unanswered fee in database 0), after which
`mallory.near` deploys database 1 with a royalty of 60000 bips and escrows a fee of 1000 for a
query of it that no host answers. -/
def royaltyDrain : List (CallContext × Op) :=
  [(ctxOf "dev.near" 0 10, .deploy (manifestOf 0)),
   (ctxOf "user.near" 5000 10, .escrowFee 0 "cid-Q" 50),
   (ctxOf "h1" 0 60, .claimFees),
   (ctxOf "mallory.near" 0 60, .deploy (manifestOf 60000)),
   (ctxOf "mallory.near" 1000 60, .escrowFee 1 "cid-Q" 110)]

/-- The calls that bring the slashed pool to `2^64 - 100000` (an unanswered fee for `cid-P`),
followed by a query `cid-Q` with a fee of 1 for which `h1` and `h2` submit `cid-A` and `h3`
submits `cid-B`. -/
def slashedSplit : List (CallContext × Op) :=
  [(ctxOf "dev.near" 0 10, .deploy (manifestOf 0)),
   (ctxOf "h1" 10000 10, .deposit 0),
   (ctxOf "h2" 10000 10, .deposit 0),
   (ctxOf "h3" 10000 10, .deposit 0),
   (ctxOf "user.near" (2 ^ 64 - 100000) 10, .escrowFee 0 "cid-P" 50),
   (ctxOf "h1" 0 60, .claimFees),
   (ctxOf "user.near" 1 60, .escrowFee 0 "cid-Q" 110),
   (ctxOf "h1" 0 61, .settle 0 "cid-Q" "cid-A"),
   (ctxOf "h2" 0 61, .settle 0 "cid-Q" "cid-A"),
   (ctxOf "h3" 0 61, .settle 0 "cid-Q" "cid-B")]

/-- The state of `TestDepositSuccess` after a deposit of 10005 by `sender.near`. -/
def testDeposited5 : Except String DB3 := testDb.Deposit (ctxOf "sender.near" 10005 10) 0

/-! # Theorems -/

/-! ## Go maps -/

namespace GoMap

variable {K V : Type} [DecidableEq K]

@[simp] theorem get?_nil (k : K) : get? ([] : GoMap K V) k = none := rfl

omit [DecidableEq K] in
@[simp] theorem keys_nil : keys ([] : GoMap K V) = [] := rfl

omit [DecidableEq K] in
@[simp] theorem keys_cons (kv : K × V) (m : GoMap K V) : keys (kv :: m) = kv.1 :: keys m := rfl

theorem get?_cons (k' : K) (v : V) (m : GoMap K V) (k : K) :
    get? ((k', v) :: m) k = if k' = k then some v else get? m k := rfl

@[simp] theorem get?_set_self (m : GoMap K V) (k : K) (v : V) : (set m k v).get? k = some v := by
  induction m with
  | nil => simp [set, get?]
  | cons kv m ih =>
    obtain ⟨k', v'⟩ := kv
    by_cases h : k' = k <;> simp [set, get?, h, ih]

theorem get?_set_of_ne (m : GoMap K V) {k k' : K} (h : k ≠ k') (v : V) :
    (set m k v).get? k' = m.get? k' := by
  induction m with
  | nil => simp [set, get?, h]
  | cons kv m ih =>
    obtain ⟨k₀, v₀⟩ := kv
    by_cases h₀ : k₀ = k
    · subst h₀; simp [set, get?, h]
    · by_cases h₁ : k₀ = k' <;> simp [set, get?, h₀, h₁, ih, Ne.symm h]

theorem get?_set (m : GoMap K V) (k k' : K) (v : V) :
    (set m k v).get? k' = if k = k' then some v else m.get? k' := by
  by_cases h : k = k'
  · subst h; simp
  · simp [h, get?_set_of_ne m h]

@[simp] theorem get?_del_self (m : GoMap K V) (k : K) : (del m k).get? k = none := by
  induction m with
  | nil => rfl
  | cons kv m ih =>
    obtain ⟨k', v'⟩ := kv
    by_cases h : k' = k <;> simp [del, get?, h, ih]

theorem get?_del_of_ne (m : GoMap K V) {k k' : K} (h : k ≠ k') :
    (del m k).get? k' = m.get? k' := by
  induction m with
  | nil => rfl
  | cons kv m ih =>
    obtain ⟨k₀, v₀⟩ := kv
    by_cases h₀ : k₀ = k
    · subst h₀; simp [del, get?, h, ih]
    · by_cases h₁ : k₀ = k' <;> simp [del, get?, h₀, h₁, ih, Ne.symm h]

theorem get?_modify_self (m : GoMap K V) (k : K) (f : V → V) :
    (modify m k f).get? k = (m.get? k).map f := by
  induction m with
  | nil => rfl
  | cons kv m ih =>
    obtain ⟨k', v'⟩ := kv
    by_cases h : k' = k <;> simp [modify, get?, h, ih]

theorem get?_modify_of_ne (m : GoMap K V) {k k' : K} (h : k ≠ k') (f : V → V) :
    (modify m k f).get? k' = m.get? k' := by
  induction m with
  | nil => rfl
  | cons kv m ih =>
    obtain ⟨k₀, v₀⟩ := kv
    by_cases h₀ : k₀ = k
    · subst h₀; simp [modify, get?, h]
    · by_cases h₁ : k₀ = k' <;> simp [modify, get?, h₀, h₁, ih, Ne.symm h]

@[simp] theorem keys_modify (m : GoMap K V) (k : K) (f : V → V) :
    (modify m k f).keys = m.keys := by
  induction m with
  | nil => rfl
  | cons kv m ih =>
    obtain ⟨k', v'⟩ := kv
    by_cases h : k' = k <;> simp [modify, h, ih]

theorem get?_eq_none_iff (m : GoMap K V) (k : K) : m.get? k = none ↔ k ∉ m.keys := by
  induction m with
  | nil => simp
  | cons kv m ih =>
    obtain ⟨k', v'⟩ := kv
    by_cases h : k' = k
    · simp [get?, h]
    · simp [get?, h, ih, Ne.symm h]

theorem mem_keys_iff (m : GoMap K V) (k : K) : k ∈ m.keys ↔ ∃ v, m.get? k = some v := by
  rw [← not_iff_not, ← get?_eq_none_iff]
  cases m.get? k <;> simp

theorem mem_of_get? {m : GoMap K V} {k : K} {v : V} (h : m.get? k = some v) : (k, v) ∈ m := by
  induction m with
  | nil => simp at h
  | cons kv m ih =>
    obtain ⟨k', v'⟩ := kv
    by_cases h' : k' = k
    · simp [get?, h'] at h; simp [h, h']
    · simp [get?, h'] at h; exact List.mem_cons_of_mem _ (ih h)

theorem get?_of_mem {m : GoMap K V} (hm : m.keys.Nodup) {k : K} {v : V} (h : (k, v) ∈ m) :
    m.get? k = some v := by
  induction m with
  | nil => simp at h
  | cons kv m ih =>
    obtain ⟨k', v'⟩ := kv
    simp only [keys_cons, List.nodup_cons] at hm
    rcases List.mem_cons.1 h with h | h
    · simp only [Prod.mk.injEq] at h; simp [get?, h.1, h.2]
    · have hk : k ∈ keys m := List.mem_map.2 ⟨(k, v), h, rfl⟩
      have : k' ≠ k := fun e => hm.1 (e ▸ hk)
      simp [get?, this, ih hm.2 h]

theorem keys_set (m : GoMap K V) (k : K) (v : V) :
    (set m k v).keys = if k ∈ m.keys then m.keys else m.keys ++ [k] := by
  induction m with
  | nil => simp [set]
  | cons kv m ih =>
    obtain ⟨k', v'⟩ := kv
    by_cases h : k' = k
    · simp [set, h]
    · by_cases h' : k ∈ keys m <;> simp [set, h, ih, h', Ne.symm h]

theorem mem_keys_set (m : GoMap K V) (k k' : K) (v : V) :
    k' ∈ (set m k v).keys ↔ k' = k ∨ k' ∈ m.keys := by
  rw [keys_set]
  by_cases h : k ∈ m.keys
  · simp only [h, if_true]
    constructor
    · exact Or.inr
    · rintro (rfl | h') <;> assumption
  · simp [h, or_comm]

theorem nodup_keys_set {m : GoMap K V} (h : m.keys.Nodup) (k : K) (v : V) :
    (set m k v).keys.Nodup := by
  rw [keys_set]
  by_cases hk : k ∈ m.keys
  · simpa [hk] using h
  · simp only [hk, if_false]
    refine List.Nodup.append h (List.nodup_singleton k) ?_
    intro a ha hak
    simp only [List.mem_singleton] at hak
    exact hk (hak ▸ ha)

theorem keys_del (m : GoMap K V) (k : K) : (del m k).keys = m.keys.filter (fun x => decide (x ≠ k)) := by
  induction m with
  | nil => rfl
  | cons kv m ih =>
    obtain ⟨k', v'⟩ := kv
    by_cases h : k' = k <;> simp [del, h, ih, List.filter_cons]

theorem nodup_keys_del {m : GoMap K V} (h : m.keys.Nodup) (k : K) : (del m k).keys.Nodup := by
  rw [keys_del]; exact h.filter _

theorem length_set (m : GoMap K V) (k : K) (v : V) :
    (set m k v).length = if k ∈ m.keys then m.length else m.length + 1 := by
  induction m with
  | nil => simp [set]
  | cons kv m ih =>
    obtain ⟨k', v'⟩ := kv
    by_cases h : k' = k
    · simp [set, h]
    · by_cases h' : k ∈ keys m <;> simp [set, h, ih, h', Ne.symm h]

end GoMap

/-! ## Panics and 64-bit arithmetic -/

@[simp] theorem ok_bind {ε α β : Type} (a : α) (f : α → Except ε β) :
    (Except.ok a >>= f) = f a := rfl

@[simp] theorem error_bind {ε α β : Type} (e : ε) (f : α → Except ε β) :
    ((Except.error e : Except ε α) >>= f) = Except.error e := rfl

@[simp] theorem pure_eq_ok {ε α : Type} (a : α) : (pure a : Except ε α) = Except.ok a := rfl

theorem U64_eq : U64 = 18446744073709551616 := by decide

theorem U64_pos : 0 < U64 := by decide

@[simp] theorem Money.div_10000 (m : Money) : Money.Div m 10000 = .ok (m / 10000) := by
  have : Money.ofInt 10000 = 10000 := by decide
  simp [Money.Div, this]

theorem Money.ofInt_natCast (k : Nat) : Money.ofInt (k : Int) = k % U64 := by
  unfold Money.ofInt
  have : ((k : Int) % (U64 : Int)) = ((k % U64 : Nat) : Int) := by simp
  rw [this, Int.toNat_ofNat]

theorem Money.sub_of_le {a b : Money} (hb : b ≤ a) (ha : a < U64) : Money.sub a b = a - b := by
  unfold Money.sub
  rw [U64_eq] at *
  simp only [Money] at *
  omega

theorem Money.sub_self (a : Money) : Money.sub a a = 0 := by
  unfold Money.sub
  rw [U64_eq]
  simp only [Money] at *
  omega

theorem Money.add_lt (a b : Money) : Money.add a b < U64 := by
  unfold Money.add; exact Nat.mod_lt _ (by decide)

theorem Money.sub_lt (a b : Money) : Money.sub a b < U64 := by
  unfold Money.sub; exact Nat.mod_lt _ (by decide)

theorem Money.mul_natCast (m k : Nat) : Money.Mul m (k : Int) = (m * k) % U64 := by
  unfold Money.Mul
  rw [Money.ofInt_natCast]
  exact (Nat.mul_mod_mod m k U64)

theorem Money.mul_of_lt {m : Money} {n : Int} (hn : 0 ≤ n) (h : m * n.toNat < U64) :
    Money.Mul m n = m * n.toNat := by
  obtain ⟨k, rfl⟩ := Int.eq_ofNat_of_zero_le hn
  rw [Money.mul_natCast]
  simp only [Int.toNat_ofNat] at *
  exact Nat.mod_eq_of_lt h

/-! ## The election -/

namespace Election

theorem count_AddVote (e : Election) (a : AccountID) (c c' : ResultCID) :
    (e.AddVote a c).count c' = e.count c' + if c = c' then 1 else 0 := by
  by_cases h : c = c' <;> simp [count, AddVote, List.filter_append, List.filter_cons, h]

theorem consistent_new : NewElection.Consistent := by
  constructor
  · intro c; simp [NewElection, count]
  · simp [NewElection]

theorem Consistent.getD {e : Election} (h : e.Consistent) (c : ResultCID) :
    (e.results.get? c).getD 0 = e.count c := by
  rw [h.1 c]; by_cases h0 : e.count c = 0 <;> simp [h0]

theorem Consistent.addVote {e : Election} (h : e.Consistent) (a : AccountID) (c : ResultCID) :
    (e.AddVote a c).Consistent := by
  constructor
  · intro c'
    rw [count_AddVote]
    show (e.results.set c ((e.results.get? c).getD 0 + 1)).get? c' = _
    rw [GoMap.get?_set, h.getD]
    by_cases hc : c = c'
    · subst hc; simp
    · simp [hc, h.1 c']
  · exact GoMap.nodup_keys_set h.2 _ _

theorem consistent_foldl (l : List (AccountID × ResultCID)) :
    ∀ e : Election, e.Consistent → (l.foldl (fun e p => e.AddVote p.1 p.2) e).Consistent := by
  induction l with
  | nil => intro e h; exact h
  | cons p l ih => intro e h; exact ih _ (h.addVote p.1 p.2)

theorem consistent_ofVotes (l : List (AccountID × ResultCID)) : (ofVotes l).Consistent :=
  consistent_foldl l _ consistent_new

theorem votes_foldl (l : List (AccountID × ResultCID)) :
    ∀ e : Election, (l.foldl (fun e p => e.AddVote p.1 p.2) e).votes =
      e.votes ++ l.map (fun p => { AccountId := p.1, ResultCID := p.2 }) := by
  induction l with
  | nil => intro e; simp
  | cons p l ih =>
    intro e
    rw [List.foldl_cons, ih]
    simp [AddVote]

theorem votes_ofVotes (l : List (AccountID × ResultCID)) :
    (ofVotes l).votes = l.map (fun p => { AccountId := p.1, ResultCID := p.2 }) := by
  simp [ofVotes, votes_foldl, NewElection]

theorem Consistent.mem_SuperMajority {e : Election} (h : e.Consistent) (v : Vote) :
    v ∈ e.SuperMajority ↔ v ∈ e.votes ∧ meetsThreshold (e.count v.ResultCID) e.NumVoters := by
  simp [SuperMajority, List.mem_filter, h.getD, meetsThreshold, cutoff, NumVoters]

theorem Consistent.mem_Minority {e : Election} (h : e.Consistent) (v : Vote) :
    v ∈ e.Minority ↔ v ∈ e.votes ∧ ¬ meetsThreshold (e.count v.ResultCID) e.NumVoters := by
  simp [Minority, List.mem_filter, h.getD, meetsThreshold, cutoff, NumVoters]

theorem count_pos_iff (e : Election) (c : ResultCID) :
    0 < e.count c ↔ ∃ v ∈ e.votes, v.ResultCID = c := by
  simp [count, List.length_pos_iff_exists_mem, List.mem_filter]

theorem count_le (e : Election) (c : ResultCID) : e.count c ≤ e.NumVoters := by
  simp [count, NumVoters, List.length_filter_le]

theorem Consistent.mem_results {e : Election} (h : e.Consistent) (c : ResultCID) (n : Nat) :
    (c, n) ∈ e.results ↔ n = e.count c ∧ 0 < n := by
  constructor
  · intro hm
    have := GoMap.get?_of_mem h.2 hm
    rw [h.1 c] at this
    by_cases h0 : e.count c = 0
    · simp [h0] at this
    · simp [h0] at this; omega
  · rintro ⟨rfl, hpos⟩
    apply GoMap.mem_of_get?
    rw [h.1 c]; simp; omega

theorem Consistent.isSuperMajority_iff {e : Election} (h : e.Consistent) :
    e.IsSuperMajority = true ↔ ∃ c, 0 < e.count c ∧ meetsThreshold (e.count c) e.NumVoters := by
  simp only [IsSuperMajority, List.any_eq_true, decide_eq_true_eq]
  constructor
  · rintro ⟨⟨c, n⟩, hm, hge⟩
    obtain ⟨rfl, hpos⟩ := (h.mem_results c n).1 hm
    exact ⟨c, hpos, hge⟩
  · rintro ⟨c, hpos, hge⟩
    exact ⟨(c, e.count c), (h.mem_results c _).2 ⟨rfl, hpos⟩, hge⟩

theorem threshold_iff (c n : Nat) : meetsThreshold c n ↔ 3 * c ≥ 2 * n := by
  unfold meetsThreshold; omega

theorem filter_count_add {α : Type} [DecidableEq α] (p q : α → Bool) (hq : ∀ x, q x = !p x)
    (l : List α) (v : α) : (l.filter p).count v + (l.filter q).count v = l.count v := by
  induction l with
  | nil => simp
  | cons a l ih =>
    by_cases hp : p a = true
    · simp [List.filter_cons, hp, hq, List.count_cons, ← ih]; omega
    · simp [List.filter_cons, hp, hq, List.count_cons, ← ih]; omega

theorem filter_length_add {α : Type} (p q : α → Bool) (hq : ∀ x, q x = !p x)
    (l : List α) : (l.filter p).length + (l.filter q).length = l.length := by
  induction l with
  | nil => simp
  | cons a l ih =>
    by_cases hp : p a = true
    · simp [List.filter_cons, hp, hq, ← ih]; omega
    · simp [List.filter_cons, hp, hq, ← ih]; omega

theorem minority_pred (e : Election) (x : Vote) :
    decide ((e.results.get? x.ResultCID).getD 0 * 100 < e.cutoff) =
      !decide ((e.results.get? x.ResultCID).getD 0 * 100 ≥ e.cutoff) := by
  by_cases h : (e.results.get? x.ResultCID).getD 0 * 100 < e.cutoff
  · simp [h]
  · simp [h, Nat.le_of_not_lt h]

theorem Consistent.keys_perm {e : Election} (h : e.Consistent) :
    List.Perm e.results.keys (e.votes.map Vote.ResultCID).dedup := by
  rw [List.perm_ext_iff_of_nodup h.2 (List.nodup_dedup _)]
  intro c
  rw [List.mem_dedup, GoMap.mem_keys_iff, h.1 c]
  have := count_pos_iff e c
  by_cases h0 : e.count c = 0
  · simp only [h0, if_true]
    constructor
    · rintro ⟨v, hv⟩; simp at hv
    · intro hm
      obtain ⟨v, hv, rfl⟩ := List.mem_map.1 hm
      exact absurd (this.2 ⟨v, hv, rfl⟩) (by omega)
  · simp only [h0, if_false]
    constructor
    · intro _
      obtain ⟨v, hv, rfl⟩ := this.1 (by omega)
      exact List.mem_map.2 ⟨v, hv, rfl⟩
    · intro _; exact ⟨_, rfl⟩

theorem Consistent.isUnanimous_iff {e : Election} (h : e.Consistent) :
    e.IsUnanimous = true ↔ (e.votes.map Vote.ResultCID).dedup.length = 1 := by
  have := h.keys_perm.length_eq
  simp only [GoMap.keys, List.length_map] at this
  simp [IsUnanimous, this]

theorem Consistent.unanimous_count {e : Election} (h : e.Consistent)
    (hu : e.IsUnanimous = true) (v : Vote) (hv : v ∈ e.votes) :
    e.count v.ResultCID = e.NumVoters ∧ 0 < e.NumVoters := by
  rw [h.isUnanimous_iff] at hu
  obtain ⟨c, hc⟩ := List.length_eq_one.1 hu
  have hall : ∀ w ∈ e.votes, w.ResultCID = c := by
    intro w hw
    have : w.ResultCID ∈ (e.votes.map Vote.ResultCID).dedup :=
      List.mem_dedup.2 (List.mem_map.2 ⟨w, hw, rfl⟩)
    rw [hc] at this
    simpa using this
  constructor
  · unfold count NumVoters
    rw [List.filter_eq_self.2]
    intro w hw
    simp [hall w hw, hall v hv]
  · exact List.length_pos_of_mem hv

theorem Consistent.isSuperMajority_iff_ne_nil {e : Election} (hc : e.Consistent) :
    e.IsSuperMajority = true ↔ e.SuperMajority ≠ [] := by
  rw [hc.isSuperMajority_iff, ← List.length_pos, List.length_pos_iff_exists_mem]
  constructor
  · rintro ⟨c, hpos, hge⟩
    obtain ⟨v, hv, rfl⟩ := (count_pos_iff e c).1 hpos
    exact ⟨v, (hc.mem_SuperMajority v).2 ⟨hv, hge⟩⟩
  · rintro ⟨v, hv⟩
    obtain ⟨hv, hge⟩ := (hc.mem_SuperMajority v).1 hv
    exact ⟨v.ResultCID, (count_pos_iff e _).2 ⟨v, hv, rfl⟩, hge⟩

theorem Consistent.unanimous_superMajority {e : Election} (hc : e.Consistent)
    (hu : e.IsUnanimous = true) :
    e.IsSuperMajority = true ∧ e.SuperMajority = e.votes ∧ e.Minority = [] := by
  have hall := hc.unanimous_count hu
  have hsm : e.SuperMajority = e.votes := by
    unfold SuperMajority
    rw [List.filter_eq_self]
    intro v hv
    rw [hc.getD, (hall v hv).1]
    simp only [cutoff, NumVoters, decide_eq_true_eq]
    omega
  have hne : e.votes ≠ [] := by
    intro h0
    rw [hc.isUnanimous_iff, h0] at hu
    simp at hu
  refine ⟨?_, hsm, ?_⟩
  · rw [hc.isSuperMajority_iff_ne_nil, hsm]; exact hne
  · unfold Minority
    rw [List.filter_eq_nil_iff]
    intro v hv
    rw [hc.getD, (hall v hv).1]
    simp only [cutoff, NumVoters, decide_eq_true_eq]
    omega

/-- Whenever one of the two payout cases of the finalizer is taken, the super-majority is not
empty. -/
theorem Consistent.numSuperMajority_pos {e : Election} (hc : e.Consistent)
    (h : e.IsUnanimous = true ∨ e.IsSuperMajority = true) : 0 < e.NumSuperMajority := by
  have hs : e.IsSuperMajority = true := by
    rcases h with h | h
    · exact (hc.unanimous_superMajority h).1
    · exact h
  exact List.length_pos.2 (hc.isSuperMajority_iff_ne_nil.1 hs)

theorem superMajority_accounts_nodup (l : List (AccountID × ResultCID))
    (hl : (l.map Prod.fst).Nodup) : ((ofVotes l).SuperMajority.map Vote.AccountId).Nodup := by
  have hv : ((ofVotes l).votes.map Vote.AccountId) = l.map Prod.fst := by
    rw [votes_ofVotes, List.map_map]; rfl
  rw [← hv] at hl
  exact hl.sublist (List.Sublist.map _ (List.filter_sublist _))

theorem minority_accounts_nodup (l : List (AccountID × ResultCID))
    (hl : (l.map Prod.fst).Nodup) : ((ofVotes l).Minority.map Vote.AccountId).Nodup := by
  have hv : ((ofVotes l).votes.map Vote.AccountId) = l.map Prod.fst := by
    rw [votes_ofVotes, List.map_map]; rfl
  rw [← hv] at hl
  exact hl.sublist (List.Sublist.map _ (List.filter_sublist _))

end Election

/-! ## The election: threshold, partition, super-majority and unanimity -/

/-- C7: in an election built by `AddVote`, a recorded vote whose result was voted for `c` times
among `n` votes is in `SuperMajority()` iff `100*c >= 200*n/3` (integer division), and that test
is the same as `3*c >= 2*n`, two thirds of the voters; with three votes a count of two qualifies,
with two votes only a count of two does. -/
theorem superMajority_threshold (l : List (AccountID × ResultCID)) (v : Vote)
    (hv : v ∈ (Election.ofVotes l).votes) :
    (v ∈ (Election.ofVotes l).SuperMajority ↔
        100 * (Election.ofVotes l).count v.ResultCID ≥ 200 * (Election.ofVotes l).NumVoters / 3) ∧
      (100 * (Election.ofVotes l).count v.ResultCID ≥ 200 * (Election.ofVotes l).NumVoters / 3 ↔
        3 * (Election.ofVotes l).count v.ResultCID ≥ 2 * (Election.ofVotes l).NumVoters) ∧
      meetsThreshold 2 3 ∧ (∀ c : Nat, c ≤ 2 → (meetsThreshold c 2 ↔ c = 2)) := by
  refine ⟨?_, by omega, by decide, ?_⟩
  · rw [(Election.consistent_ofVotes l).mem_SuperMajority]
    simp only [hv, true_and, meetsThreshold]
    omega
  · intro c hc
    unfold meetsThreshold
    omega

/-- The test `TestMajority3` as a witness of C7: A and B vote `cid-1`, C votes `cid-2`. -/
theorem superMajority_threshold_witness :
    (⟨"A", "cid-1"⟩ : Vote) ∈ (Election.ofVotes [("A", "cid-1"), ("B", "cid-1"), ("C", "cid-2")]).votes ∧
      (⟨"A", "cid-1"⟩ : Vote) ∈
        (Election.ofVotes [("A", "cid-1"), ("B", "cid-1"), ("C", "cid-2")]).SuperMajority :=
  ⟨by decide,
   (superMajority_threshold [("A", "cid-1"), ("B", "cid-1"), ("C", "cid-2")] ⟨"A", "cid-1"⟩
      (by decide)).1.2 (by decide)⟩

/-- C8: `Minority()` is the complement of `SuperMajority()`: every vote occurs in the two lists
together exactly as often as it was recorded and never in both, the two lengths add up to
`NumVoters()`, and two recorded votes naming the same result are on the same side. -/
theorem minority_complement (e : Election) :
    (∀ v : Vote, e.SuperMajority.count v + e.Minority.count v = e.votes.count v) ∧
      (∀ v : Vote, ¬ (v ∈ e.SuperMajority ∧ v ∈ e.Minority)) ∧
      e.SuperMajority.length + e.Minority.length = e.NumVoters ∧
      (∀ v w : Vote, v ∈ e.votes → w ∈ e.votes → v.ResultCID = w.ResultCID →
        ((v ∈ e.SuperMajority ↔ w ∈ e.SuperMajority) ∧ (v ∈ e.Minority ↔ w ∈ e.Minority))) := by
  refine ⟨?_, ?_, ?_, ?_⟩
  · intro v
    exact Election.filter_count_add _ _ (fun x => Election.minority_pred e x) e.votes v
  · intro v
    simp only [Election.SuperMajority, Election.Minority, List.mem_filter, decide_eq_true_eq]
    rintro ⟨⟨_, h1⟩, ⟨_, h2⟩⟩
    omega
  · exact Election.filter_length_add _ _ (fun x => Election.minority_pred e x) e.votes
  · intro v w hv hw h
    simp only [Election.SuperMajority, Election.Minority, List.mem_filter, decide_eq_true_eq, hv,
      hw, h, true_and]

/-- C9: in an election built by `AddVote`, `IsSuperMajority()` is true iff some result that was
voted for meets the threshold, iff `SuperMajority()` is non-empty, iff `NumSuperMajority() > 0`;
and when it is false `Minority()` is the whole list of votes. -/
theorem isSuperMajority_spec (l : List (AccountID × ResultCID)) :
    ((Election.ofVotes l).IsSuperMajority = true ↔
        ∃ c, 0 < (Election.ofVotes l).count c ∧
          meetsThreshold ((Election.ofVotes l).count c) (Election.ofVotes l).NumVoters) ∧
      ((Election.ofVotes l).IsSuperMajority = true ↔ (Election.ofVotes l).SuperMajority ≠ []) ∧
      ((Election.ofVotes l).IsSuperMajority = true ↔ (Election.ofVotes l).NumSuperMajority > 0) ∧
      ((Election.ofVotes l).IsSuperMajority = false →
        (Election.ofVotes l).Minority = (Election.ofVotes l).votes) := by
  have hc := Election.consistent_ofVotes l
  generalize Election.ofVotes l = e at hc
  have h2 := hc.isSuperMajority_iff_ne_nil
  refine ⟨hc.isSuperMajority_iff, h2, ?_, ?_⟩
  · rw [h2, Election.NumSuperMajority, gt_iff_lt, List.length_pos]
  · intro hf
    have hnot : ¬ e.IsSuperMajority = true := by simp [hf]
    rw [hc.isSuperMajority_iff] at hnot
    unfold Election.Minority
    rw [List.filter_eq_self]
    intro v hv
    rw [hc.getD]
    have : ¬ meetsThreshold (e.count v.ResultCID) e.NumVoters := fun hge =>
      hnot ⟨v.ResultCID, (Election.count_pos_iff e _).2 ⟨v, hv, rfl⟩, hge⟩
    simp only [meetsThreshold, Election.NumVoters] at this
    simp only [Election.cutoff, decide_eq_true_eq]
    omega

/-- C10: in an election built by `AddVote`, `IsUnanimous()` is true iff the votes name exactly one
distinct result (it is false without votes); and when it is true, `IsSuperMajority()` is true,
`SuperMajority()` is the whole list of votes, `NumSuperMajority() = NumVoters()` and
`Minority()` is empty. -/
theorem isUnanimous_spec (l : List (AccountID × ResultCID)) :
    ((Election.ofVotes l).IsUnanimous = true ↔
        (((Election.ofVotes l).votes.map Vote.ResultCID).dedup.length = 1)) ∧
      (Election.ofVotes []).IsUnanimous = false ∧
      ((Election.ofVotes l).IsUnanimous = true →
        (Election.ofVotes l).IsSuperMajority = true ∧
          (Election.ofVotes l).SuperMajority = (Election.ofVotes l).votes ∧
          (Election.ofVotes l).NumSuperMajority = (Election.ofVotes l).NumVoters ∧
          (Election.ofVotes l).Minority = []) := by
  have hc := Election.consistent_ofVotes l
  refine ⟨hc.isUnanimous_iff, by decide, ?_⟩
  generalize Election.ofVotes l = e at hc
  intro hu
  obtain ⟨h1, h2, h3⟩ := hc.unanimous_superMajority hu
  exact ⟨h1, h2, by simp [Election.NumSuperMajority, h2, Election.NumVoters], h3⟩

/-! ## The finalizer: payout, royalty and slashing -/

theorem payFold_fst (s : Money) (vs : List Vote) :
    ∀ (fee : Money) (sf : GoMap AccountID Money), vs.length * s ≤ fee → fee < U64 →
      (vs.foldl (DB3.payShare s) (fee, sf)).1 = fee - vs.length * s := by
  induction vs with
  | nil => intro fee sf _ _; simp
  | cons v vs ih =>
    intro fee sf hle hfee
    simp only [List.length_cons, Nat.add_mul, Nat.one_mul] at hle
    have h1 : s ≤ fee := by simp only [Money] at *; omega
    rw [List.foldl_cons, DB3.payShare, Money.sub_of_le h1 hfee]
    simp only [Money] at *
    rw [ih _ _ (by omega) (by omega)]
    simp only [List.length_cons, Nat.add_mul, Nat.one_mul]
    omega

theorem payFold_snd_of_not_mem (s : Money) (a : AccountID) (vs : List Vote) :
    ∀ (acc : Money × GoMap AccountID Money), a ∉ vs.map Vote.AccountId →
      (vs.foldl (DB3.payShare s) acc).2.get? a = acc.2.get? a := by
  induction vs with
  | nil => intro acc _; rfl
  | cons v vs ih =>
    intro acc ha
    simp only [List.map_cons, List.mem_cons, not_or] at ha
    rw [List.foldl_cons, ih _ ha.2, DB3.payShare]
    exact GoMap.get?_set_of_ne _ (Ne.symm ha.1) _

theorem payFold_snd_of_mem (s : Money) (a : AccountID) (vs : List Vote) :
    ∀ (acc : Money × GoMap AccountID Money), (vs.map Vote.AccountId).Nodup →
      a ∈ vs.map Vote.AccountId →
      (vs.foldl (DB3.payShare s) acc).2.get? a = some (Money.add (balanceOf acc.2 a) s) := by
  induction vs with
  | nil => intro acc _ ha; simp at ha
  | cons v vs ih =>
    intro acc hnd ha
    simp only [List.map_cons, List.nodup_cons] at hnd
    rw [List.foldl_cons]
    by_cases hav : a = v.AccountId
    · subst hav
      rw [payFold_snd_of_not_mem _ _ _ _ hnd.1, DB3.payShare]
      simp [balanceOf]
    · simp only [List.map_cons, List.mem_cons, hav, false_or] at ha
      rw [ih _ hnd.2 ha, DB3.payShare]
      simp only [balanceOf]
      rw [GoMap.get?_set_of_ne _ (Ne.symm hav)]

theorem share_mul_le (R n : Nat) : n * (R * (10000 / n) / 10000) ≤ R := by
  calc n * (R * (10000 / n) / 10000) ≤ n * (R * (10000 / n)) / 10000 := Nat.mul_div_le_mul_div_assoc _ _ _
    _ = R * (n * (10000 / n)) / 10000 := by rw [Nat.mul_left_comm]
    _ ≤ R * 10000 / 10000 := Nat.div_le_div_right (Nat.mul_le_mul_left _ (Nat.mul_div_le _ _))
    _ = R := Nat.mul_div_cancel _ (by decide)

/-- The payout succeeds whenever the super-majority is not empty. -/
theorem payout_ok (d : DB3) (e : Election) (R : Money) (hn : e.NumSuperMajority ≠ 0) :
    DB3.payout d e R = .ok
      { d with
        SettledFees := (e.SuperMajority.foldl
          (DB3.payShare (feeToShareOf R e.NumSuperMajority))
          (R, d.SettledFees)).2
        Slashed := Money.add d.Slashed (e.SuperMajority.foldl
          (DB3.payShare (feeToShareOf R e.NumSuperMajority))
          (R, d.SettledFees)).1 } := by
  simp [DB3.payout, hn, feeToShareOf]

/-- An invariant of the loop body is an invariant of the loop. -/
theorem foldlM_inv {α σ : Type} (P : σ → Prop) (f : σ → α → Except String σ)
    (hf : ∀ s a s', P s → f s a = .ok s' → P s') :
    ∀ (l : List α) (s s' : σ), P s → l.foldlM f s = .ok s' → P s' := by
  intro l
  induction l with
  | nil =>
    intro s s' hs h
    simp only [List.foldlM_nil, pure_eq_ok, Except.ok.injEq] at h
    exact h ▸ hs
  | cons a l ih =>
    intro s s' hs h
    rw [List.foldlM_cons] at h
    cases hfa : f s a with
    | error e => rw [hfa] at h; simp at h
    | ok s₁ => rw [hfa] at h; exact ih s₁ s' (hf s a s₁ hs hfa) h

/-- A loop whose body cannot panic while an invariant holds does not panic. -/
theorem foldlM_ok {α σ : Type} (P : σ → Prop) (f : σ → α → Except String σ)
    (hf : ∀ s a, P s → ∃ s', f s a = .ok s' ∧ P s') :
    ∀ (l : List α) (s : σ), P s → ∃ s', l.foldlM f s = .ok s' ∧ P s' := by
  intro l
  induction l with
  | nil => intro s hs; exact ⟨s, rfl, hs⟩
  | cons a l ih =>
    intro s hs
    obtain ⟨s₁, h₁, hs₁⟩ := hf s a hs
    rw [List.foldlM_cons, h₁]
    exact ih s₁ hs₁

theorem slashVote_settledFees (dbid : DBId) (d d' : DB3) (v : Vote)
    (h : DB3.slashVote dbid d v = .ok d') : d'.SettledFees = d.SettledFees := by
  unfold DB3.slashVote at h
  cases hs : set2 d.Deposits dbid v.AccountId
      (Money.sub ((get2 d.Deposits dbid v.AccountId).getD 0)
        (((get2 d.Deposits dbid v.AccountId).getD 0 * 10000 % U64) / SLASHED_DEPOSIT_BIPS)) with
  | error e => simp [hs] at h
  | ok m => simp [hs] at h; rw [← h]

theorem payRoyalty_eq (d : DB3) (dbid : DBId) (rb : Int) (F : Money) :
    DB3.payRoyalty d dbid rb F = .ok (d.creditRoyalty dbid rb F, feeAfterRoyalty F rb) := by
  by_cases h : rb > 0
  · simp [DB3.payRoyalty, DB3.creditRoyalty, feeAfterRoyalty, royaltyOf, h]
  · simp [DB3.payRoyalty, DB3.creditRoyalty, feeAfterRoyalty, h]

theorem splitFee_eq (d : DB3) (dbid : DBId) (rb : Int) (qid : QueryCID) (F : Money) :
    DB3.splitFee d dbid rb qid F =
      DB3.settleElection (d.creditRoyalty dbid rb F) dbid (d.election dbid qid)
        (feeAfterRoyalty F rb) := by
  have he : (d.creditRoyalty dbid rb F).election dbid qid = d.election dbid qid := by
    unfold DB3.creditRoyalty DB3.election
    split <;> rfl
  simp [DB3.splitFee, payRoyalty_eq, he]

theorem Money.ofInt_of_nonneg {n : Int} (hn : 0 ≤ n) : Money.ofInt n = n.toNat % U64 := by
  obtain ⟨k, rfl⟩ := Int.eq_ofNat_of_zero_le hn
  rw [Money.ofInt_natCast]; rfl

theorem royaltyOf_le (F : Money) (b : Int) (hb : b ≤ 10000) : royaltyOf F b ≤ F := by
  unfold royaltyOf
  split
  · next hpos =>
    obtain ⟨k, rfl⟩ := Int.eq_ofNat_of_zero_le (le_of_lt hpos)
    have hk : k ≤ 10000 := by exact_mod_cast hb
    rw [Money.mul_natCast]
    calc F * k % U64 / 10000 ≤ F * k / 10000 := Nat.div_le_div_right (Nat.mod_le _ _)
      _ ≤ F * 10000 / 10000 := Nat.div_le_div_right (Nat.mul_le_mul_left _ hk)
      _ = F := Nat.mul_div_cancel _ (by decide)
  · exact Nat.zero_le _

theorem payout_frame {d d' : DB3} {e : Election} {R : Money} (h : DB3.payout d e R = .ok d') :
    d' = { d with SettledFees := d'.SettledFees, Slashed := d'.Slashed } := by
  unfold DB3.payout at h
  split at h
  · simp at h
  · simp at h; rw [← h]

theorem slashVote_frame {dbid : DBId} {d d' : DB3} {v : Vote}
    (h : DB3.slashVote dbid d v = .ok d') :
    d' = { d with Slashed := d'.Slashed, Deposits := d'.Deposits } := by
  unfold DB3.slashVote at h
  cases hs : set2 d.Deposits dbid v.AccountId
      (Money.sub ((get2 d.Deposits dbid v.AccountId).getD 0)
        (((get2 d.Deposits dbid v.AccountId).getD 0 * 10000 % U64) / SLASHED_DEPOSIT_BIPS)) with
  | error e => simp [hs] at h
  | ok m => simp [hs] at h; rw [← h]

theorem slashFold_frame {dbid : DBId} (vs : List Vote) {d d' : DB3}
    (h : vs.foldlM (DB3.slashVote dbid) d = .ok d') :
    d' = { d with Slashed := d'.Slashed, Deposits := d'.Deposits } := by
  refine foldlM_inv (fun s => s = { d with Slashed := s.Slashed, Deposits := s.Deposits })
    (DB3.slashVote dbid) ?_ vs d d' rfl h
  intro s a s' hs hsa
  have := slashVote_frame hsa
  rw [this, hs]

theorem settleElection_frame {dbid : DBId} {d d' : DB3} {e : Election} {R : Money}
    (h : DB3.settleElection d dbid e R = .ok d') :
    d' = { d with SettledFees := d'.SettledFees, Slashed := d'.Slashed, Deposits := d'.Deposits } := by
  unfold DB3.settleElection at h
  split at h
  · have := payout_frame h
    rw [this]
  · split at h
    · cases hp : DB3.payout d e R with
      | error x => simp [hp] at h
      | ok d₁ =>
        simp only [hp, ok_bind] at h
        have h1 := payout_frame hp
        have h2 := slashFold_frame _ h
        rw [h2, h1]
    · simp at h; rw [← h]

theorem splitFee_frame {dbid : DBId} {d d' : DB3} {rb : Int} {qid : QueryCID} {F : Money}
    (h : DB3.splitFee d dbid rb qid F = .ok d') :
    d' = { d with SettledFees := d'.SettledFees, Slashed := d'.Slashed, Deposits := d'.Deposits,
                  SettledRoyalties := d'.SettledRoyalties } := by
  rw [splitFee_eq] at h
  have := settleElection_frame h
  rw [this]
  unfold DB3.creditRoyalty
  split <;> rfl

/-- C1 (amended): when the election of an expired query with a positive fee is unanimous or has a
super-majority of `n` voters (one vote per host), and `R` is the fee left after the royalty, the
payout credits every super-majority voter the same amount
`feeToShare = ((R * (10000 / n)) mod 2^64) / 10000`, computed once from `R`, which is
`R * (10000 / n) / 10000` whenever that product is below `2^64`; the dust added to `Slashed` is
`R - n * feeToShare`, which is not negative; the slashing that follows in case 2 leaves
`SettledFees` as the payout made it. For `R = 1000` and `n = 2` the share is 500 and the dust 0. -/
theorem payout_shares (d : DB3) (dbid : DBId) (l : List (AccountID × ResultCID)) (R : Money)
    (hl : (l.map Prod.fst).Nodup) (hR : R < U64)
    (hmaj : (Election.ofVotes l).IsUnanimous = true ∨ (Election.ofVotes l).IsSuperMajority = true) :
    0 < (Election.ofVotes l).NumSuperMajority ∧
      (Election.ofVotes l).NumSuperMajority * feeToShareOf R (Election.ofVotes l).NumSuperMajority ≤ R ∧
      (R * (10000 / (Election.ofVotes l).NumSuperMajority) < U64 →
        feeToShareOf R (Election.ofVotes l).NumSuperMajority =
          R * (10000 / (Election.ofVotes l).NumSuperMajority) / 10000) ∧
      feeToShareOf 1000 2 = 500 ∧ 1000 - 2 * feeToShareOf 1000 2 = 0 ∧
      ∃ d₁, DB3.payout d (Election.ofVotes l) R = .ok d₁ ∧
        DB3.settleElection d dbid (Election.ofVotes l) R =
          (if (Election.ofVotes l).IsUnanimous then .ok d₁
           else (Election.ofVotes l).Minority.foldlM (DB3.slashVote dbid) d₁) ∧
        (∀ v ∈ (Election.ofVotes l).SuperMajority,
          balanceOf d₁.SettledFees v.AccountId =
            Money.add (balanceOf d.SettledFees v.AccountId)
              (feeToShareOf R (Election.ofVotes l).NumSuperMajority)) ∧
        d₁.Slashed = Money.add d.Slashed
          (R - (Election.ofVotes l).NumSuperMajority *
            feeToShareOf R (Election.ofVotes l).NumSuperMajority) ∧
        (∀ d', DB3.settleElection d dbid (Election.ofVotes l) R = .ok d' →
          d'.SettledFees = d₁.SettledFees) := by
  have hc := Election.consistent_ofVotes l
  have hnd := Election.superMajority_accounts_nodup l hl
  generalize Election.ofVotes l = e at *
  have hn := hc.numSuperMajority_pos hmaj
  have hle : e.NumSuperMajority * feeToShareOf R e.NumSuperMajority ≤ R := by
    refine le_trans (Nat.mul_le_mul_left _ ?_) (share_mul_le R e.NumSuperMajority)
    unfold feeToShareOf
    rw [Money.mul_natCast]
    exact Nat.div_le_div_right (Nat.mod_le _ _)
  have hsettle : ∀ d₁, DB3.payout d e R = .ok d₁ →
      DB3.settleElection d dbid e R =
        (if e.IsUnanimous then .ok d₁ else e.Minority.foldlM (DB3.slashVote dbid) d₁) := by
    intro d₁ h₁
    unfold DB3.settleElection
    by_cases hu : e.IsUnanimous = true
    · simp [hu, h₁]
    · have hs : e.IsSuperMajority = true := by
        rcases hmaj with h | h
        · exact absurd h hu
        · exact h
      simp [hu, hs, h₁]
  refine ⟨hn, hle, ?_, by decide, by decide, _, payout_ok d e R (by omega),
    hsettle _ (payout_ok d e R (by omega)), ?_, ?_, ?_⟩
  · intro hno
    unfold feeToShareOf
    rw [Money.mul_natCast, Nat.mod_eq_of_lt hno]
  · intro v hv
    simp only [balanceOf]
    rw [payFold_snd_of_mem _ _ _ _ hnd (List.mem_map.2 ⟨v, hv, rfl⟩)]
    rfl
  · show Money.add d.Slashed _ = _
    rw [payFold_fst _ _ _ _ hle hR]
    rfl
  · intro d' hd'
    rw [hsettle _ (payout_ok d e R (by omega))] at hd'
    by_cases hu : e.IsUnanimous = true
    · simp only [hu, if_true, Except.ok.injEq] at hd'
      rw [← hd']
    · simp only [hu] at hd'
      exact foldlM_inv
        (fun s => s.SettledFees = (e.SuperMajority.foldl
          (DB3.payShare (feeToShareOf R e.NumSuperMajority)) (R, d.SettledFees)).2)
        (DB3.slashVote dbid)
        (fun s a s' hs h => (slashVote_settledFees dbid s s' a h).trans hs) _ _ _ rfl hd'

/-- A witness of C1: two hosts agree on `A`, one votes `B`, and 1000 are left to split. -/
theorem payout_shares_witness :
    (([("h1", "A"), ("h2", "A"), ("h3", "B")] : List (AccountID × ResultCID)).map Prod.fst).Nodup ∧
      (Election.ofVotes [("h1", "A"), ("h2", "A"), ("h3", "B")]).IsSuperMajority = true ∧
      0 < (Election.ofVotes [("h1", "A"), ("h2", "A"), ("h3", "B")]).NumSuperMajority :=
  ⟨by decide, by decide,
   (payout_shares NewDB3 0 [("h1", "A"), ("h2", "A"), ("h3", "B")] 1000 (by decide) (by decide)
      (Or.inr (by decide))).1⟩

/-- C1 as stated fails when `R * (10000 / n)` does not fit 64 bits: with a single voter and
`R = 2^63` the product wraps to 0, the voter is credited 0 instead of `2^63`, and the whole fee
goes to `Slashed`. -/
theorem payout_shares_overflow :
    (Election.ofVotes [("h1", "A")]).IsUnanimous = true ∧
      (Election.ofVotes [("h1", "A")]).NumSuperMajority = 1 ∧
      (DB3.settleElection NewDB3 0 (Election.ofVotes [("h1", "A")]) (2 ^ 63)).toOption.map
          (fun d' => (balanceOf d'.SettledFees "h1", d'.Slashed)) = some (0, 2 ^ 63) ∧
      ∃ d', DB3.settleElection NewDB3 0 (Election.ofVotes [("h1", "A")]) (2 ^ 63) = .ok d' ∧
        balanceOf d'.SettledFees "h1" ≠
          balanceOf NewDB3.SettledFees "h1" + 2 ^ 63 * (10000 / 1) / 10000 :=
  ⟨by decide, by decide, by decide, _, rfl, by decide⟩

theorem get2_del2_self {A B V : Type} [DecidableEq A] [DecidableEq B]
    (m : GoMap A (GoMap B V)) (a : A) (b : B) : get2 (del2 m a b) a b = none := by
  unfold get2 del2
  rw [GoMap.get?_modify_self]
  cases m.get? a <;> simp

theorem get2_del2_of_ne {A B V : Type} [DecidableEq A] [DecidableEq B]
    (m : GoMap A (GoMap B V)) (a a' : A) (b b' : B) (h : ¬ (a = a' ∧ b = b')) :
    get2 (del2 m a b) a' b' = get2 m a' b' := by
  unfold get2 del2
  by_cases ha : a = a'
  · subst ha
    have hb : b ≠ b' := fun hb => h ⟨rfl, hb⟩
    rw [GoMap.get?_modify_self]
    cases m.get? a <;> simp [GoMap.get?_del_of_ne _ hb]
  · rw [GoMap.get?_modify_of_ne _ ha]

theorem creditRoyalty_frame (d : DB3) (dbid : DBId) (rb : Int) (F : Money) :
    d.creditRoyalty dbid rb F =
      { d with SettledRoyalties := (d.creditRoyalty dbid rb F).SettledRoyalties } := by
  unfold DB3.creditRoyalty
  split <;> rfl

theorem finalizeQuery_skip (ctx : CallContext) (dbid : DBId) (rb : Int) (d : DB3)
    (qid : QueryCID) (ttl : Int) (h : ttl > ctx.Height) :
    DB3.finalizeQuery ctx dbid rb d (qid, ttl) = .ok d := by
  simp [DB3.finalizeQuery, h]

theorem finalizeQuery_free (ctx : CallContext) (dbid : DBId) (rb : Int) (d : DB3)
    (qid : QueryCID) (ttl : Int) (h : ttl ≤ ctx.Height)
    (hfee : (get2 d.PendingFees dbid qid).getD 0 = 0) :
    DB3.finalizeQuery ctx dbid rb d (qid, ttl) = .ok (d.cleanUp dbid qid) := by
  simp [DB3.finalizeQuery, not_lt.2 h, hfee]

theorem finalizeQuery_expired (ctx : CallContext) (dbid : DBId) (rb : Int) (d : DB3)
    (qid : QueryCID) (ttl : Int) (h : ttl ≤ ctx.Height)
    (hfee : 0 < (get2 d.PendingFees dbid qid).getD 0) :
    DB3.finalizeQuery ctx dbid rb d (qid, ttl) =
      (DB3.splitFee d dbid rb qid ((get2 d.PendingFees dbid qid).getD 0)).map
        (fun d₁ => d₁.cleanUp dbid qid) := by
  simp only [DB3.finalizeQuery, gt_iff_lt, not_lt.2 h, if_false, hfee, if_true]
  cases DB3.splitFee d dbid rb qid ((get2 d.PendingFees dbid qid).getD 0) <;> rfl

/-- C2 (amended): for an expired query of database `dbid` with fee `F` and
`royaltyBips = b > 0`, the finalizer credits `royalty = ((F * b) mod 2^64) / 10000` to
`SettledRoyalties[Owners[dbid]]`, which is `F * b / 10000` (multiply, then truncating divide)
whenever `F * b` is below `2^64`, and goes on to split the fee left after the royalty; the
payout and the slashing leave `SettledRoyalties` as the royalty step made it. For `b <= 10000`
the royalty does not exceed `F` and the fee left is `F - royalty`. In scenario 1 (`b = 1000`,
`F = 1000000`, one host) the developer is credited 100000 and the host is paid 900000. -/
theorem royalty_credit (d : DB3) (dbid : DBId) (qid : QueryCID) (b : Int) (F : Money)
    (hb : 0 < b) (hF : F < U64) :
    DB3.splitFee d dbid b qid F =
        DB3.settleElection (d.creditRoyalty dbid b F) dbid (d.election dbid qid)
          (feeAfterRoyalty F b) ∧
      balanceOf (d.creditRoyalty dbid b F).SettledRoyalties (d.ownerOf dbid) =
        Money.add (balanceOf d.SettledRoyalties (d.ownerOf dbid)) (royaltyOf F b) ∧
      (∀ d', DB3.splitFee d dbid b qid F = .ok d' →
        d'.SettledRoyalties = (d.creditRoyalty dbid b F).SettledRoyalties) ∧
      (F * b.toNat < U64 → royaltyOf F b = F * b.toNat / 10000) ∧
      (b ≤ 10000 → royaltyOf F b ≤ F ∧ feeAfterRoyalty F b = F - royaltyOf F b) ∧
      ((NewWorld.run (scenario1 ++ [(ctxOf "h1" 0 200, .claimFees)])).db.SettledRoyalties,
        (NewWorld.run (scenario1 ++ [(ctxOf "h1" 0 200, .claimFees)])).out) =
          ([("dev.near", 100000)], [("h1", 900000)]) := by
  refine ⟨splitFee_eq d dbid b qid F, ?_, ?_, ?_, ?_, by decide⟩
  · simp [DB3.creditRoyalty, hb, balanceOf, DB3.ownerOf]
  · intro d' h
    rw [splitFee_eq] at h
    rw [settleElection_frame h]
  · intro hno
    simp only [royaltyOf, gt_iff_lt, hb, if_true]
    rw [Money.mul_of_lt (le_of_lt hb) hno]
  · intro hle
    have h1 := royaltyOf_le F b hle
    refine ⟨h1, ?_⟩
    simp only [feeAfterRoyalty, gt_iff_lt, hb, if_true]
    exact Money.sub_of_le h1 hF

/-- A witness of C2: the fee of scenario 1. -/
theorem royalty_credit_witness :
    (0 : Int) < 1000 ∧ (1000000 : Nat) < U64 ∧ royaltyOf 1000000 1000 = 100000 ∧
      feeAfterRoyalty 1000000 1000 = 900000 ∧
      balanceOf (((NewWorld.run scenario1).db).creditRoyalty 0 1000 1000000).SettledRoyalties
        (((NewWorld.run scenario1).db).ownerOf 0) =
        Money.add (balanceOf ((NewWorld.run scenario1).db).SettledRoyalties
          (((NewWorld.run scenario1).db).ownerOf 0)) (royaltyOf 1000000 1000) :=
  ⟨by decide, by decide, by decide, by decide,
   (royalty_credit (NewWorld.run scenario1).db 0 "cid-Q" 1000 1000000 (by decide) (by decide)).2.1⟩

/-- C2 as stated fails when `F * b` does not fit 64 bits: with `F = 2^63` and `b = 2` the product
wraps to 0 and the developer is credited 0, not `2^64 / 10000 = 1844674407370955`. -/
theorem royalty_credit_overflow :
    royaltyOf (2 ^ 63) 2 = 0 ∧ 2 ^ 63 * 2 / 10000 = 1844674407370955 ∧
      ∃ r, DB3.payRoyalty (NewWorld.run scenario1).db 0 2 (2 ^ 63) = .ok r ∧
        balanceOf r.1.SettledRoyalties "dev.near" = 0 ∧
        balanceOf r.1.SettledRoyalties "dev.near" ≠
          balanceOf (NewWorld.run scenario1).db.SettledRoyalties "dev.near" + 2 ^ 63 * 2 / 10000 :=
  ⟨by decide, by decide, _, rfl, by decide, by decide⟩

/-- C4 (the code against the claim): finalizing scenario 2 slashes the minority voter `h3`, whose
deposit is 10000, by `10000 * 10000 / 1000 = 100000`; the subtraction wraps, and the deposit
ends at `2^64 - 90000`, larger than before, instead of 0. -/
theorem slash_wraps :
    ((NewWorld.run scenario2).db.election 0 "cid-Q").Minority = [⟨"h3", "cid-B"⟩] ∧
      (NewWorld.run scenario2).db.depositOf 0 "h3" = 10000 ∧
      ((NewWorld.run scenario2).db.finalizeResults (ctxOf "h1" 0 200)).toOption.map
        (fun d' => (d'.depositOf 0 "h3", d'.Slashed)) = some (2 ^ 64 - 90000, 100000) := by
  decide

/-! ## The finalizer: the loop over the expired queries -/

theorem foldlM_inv_mem {α σ : Type} (P : σ → Prop) (f : σ → α → Except String σ) (l : List α)
    (hf : ∀ s a s', a ∈ l → P s → f s a = .ok s' → P s') :
    ∀ (s s' : σ), P s → l.foldlM f s = .ok s' → P s' := by
  induction l with
  | nil =>
    intro s s' hs h
    simp only [List.foldlM_nil, pure_eq_ok, Except.ok.injEq] at h
    exact h ▸ hs
  | cons a l ih =>
    intro s s' hs h
    rw [List.foldlM_cons] at h
    cases hfa : f s a with
    | error e => rw [hfa] at h; simp at h
    | ok s₁ =>
      rw [hfa] at h
      exact ih (fun s b s' hb => hf s b s' (List.mem_cons_of_mem _ hb)) s₁ s'
        (hf s a s₁ (List.mem_cons_self _ _) hs hfa) h

theorem foldlM_ok_mem {α σ : Type} (P : σ → Prop) (f : σ → α → Except String σ) (l : List α)
    (hf : ∀ s a, a ∈ l → P s → ∃ s', f s a = .ok s' ∧ P s') :
    ∀ (s : σ), P s → ∃ s', l.foldlM f s = .ok s' ∧ P s' := by
  induction l with
  | nil => intro s hs; exact ⟨s, rfl, hs⟩
  | cons a l ih =>
    intro s hs
    obtain ⟨s₁, h₁, hs₁⟩ := hf s a (List.mem_cons_self _ _) hs
    rw [List.foldlM_cons, h₁]
    exact ih (fun s b hb => hf s b (List.mem_cons_of_mem _ hb)) s₁ hs₁

/-- A property that one iteration establishes and every iteration keeps holds after the loop. -/
theorem foldlM_establish {α σ : Type} (Q : σ → Prop) (f : σ → α → Except String σ) (l : List α)
    (a : α) (ha : a ∈ l) (hkeep : ∀ s b s', Q s → f s b = .ok s' → Q s')
    (hest : ∀ s s', f s a = .ok s' → Q s') :
    ∀ (s s' : σ), l.foldlM f s = .ok s' → Q s' := by
  induction l with
  | nil => simp at ha
  | cons b l ih =>
    intro s s' h
    rw [List.foldlM_cons] at h
    cases hfb : f s b with
    | error e => rw [hfb] at h; simp at h
    | ok s₁ =>
      rw [hfb] at h
      rcases List.mem_cons.1 ha with rfl | ha'
      · exact foldlM_inv Q f hkeep l s₁ s' (hest s s₁ hfb) h
      · exact ih ha' s₁ s' h

theorem set2_ok {A B V : Type} [DecidableEq A] [DecidableEq B]
    (m : GoMap A (GoMap B V)) (a : A) (b : B) (v : V) (h : a ∈ m.keys) :
    set2 m a b v = .ok (m.modify a (fun inner => inner.set b v)) := by
  obtain ⟨x, hx⟩ := (GoMap.mem_keys_iff m a).1 h
  simp [set2, hx]

theorem set2_eq_ok {A B V : Type} [DecidableEq A] [DecidableEq B]
    {m m' : GoMap A (GoMap B V)} {a : A} {b : B} {v : V} (h : set2 m a b v = .ok m') :
    a ∈ m.keys ∧ m' = m.modify a (fun inner => inner.set b v) := by
  unfold set2 at h
  cases hx : m.get? a with
  | none => simp [hx] at h
  | some x =>
    simp only [hx, Except.ok.injEq] at h
    exact ⟨(GoMap.mem_keys_iff m a).2 ⟨x, hx⟩, h.symm⟩

theorem slashVote_ok (dbid : DBId) (d : DB3) (v : Vote) (h : dbid ∈ d.Deposits.keys) :
    ∃ d', DB3.slashVote dbid d v = .ok d' ∧ d'.Deposits.keys = d.Deposits.keys := by
  simp only [DB3.slashVote, set2_ok _ _ _ _ h, ok_bind, pure_eq_ok]
  exact ⟨_, rfl, GoMap.keys_modify _ _ _⟩

theorem slashVote_keys {dbid : DBId} {d d' : DB3} {v : Vote}
    (h : DB3.slashVote dbid d v = .ok d') : d'.Deposits.keys = d.Deposits.keys := by
  unfold DB3.slashVote at h
  cases hs : set2 d.Deposits dbid v.AccountId
      (Money.sub ((get2 d.Deposits dbid v.AccountId).getD 0)
        (((get2 d.Deposits dbid v.AccountId).getD 0 * 10000 % U64) / SLASHED_DEPOSIT_BIPS)) with
  | error e => simp [hs] at h
  | ok m =>
    simp [hs] at h
    rw [← h, (set2_eq_ok hs).2]
    exact GoMap.keys_modify _ _ _

theorem settleElection_ok (d : DB3) (dbid : DBId) (l : List (AccountID × ResultCID)) (R : Money)
    (h : dbid ∈ d.Deposits.keys) :
    ∃ d', DB3.settleElection d dbid (Election.ofVotes l) R = .ok d' ∧
      d'.Deposits.keys = d.Deposits.keys := by
  have hc := Election.consistent_ofVotes l
  generalize Election.ofVotes l = e at *
  unfold DB3.settleElection
  by_cases hu : e.IsUnanimous = true
  · have hn := hc.numSuperMajority_pos (Or.inl hu)
    simp only [hu, if_true]
    rw [payout_ok d e R (by omega)]
    exact ⟨_, rfl, rfl⟩
  · by_cases hs : e.IsSuperMajority = true
    · have hn := hc.numSuperMajority_pos (Or.inr hs)
      simp only [hu, hs, if_true, Bool.false_eq_true, if_false]
      rw [payout_ok d e R (by omega)]
      simp only [ok_bind]
      refine foldlM_ok (fun s => s.Deposits.keys = d.Deposits.keys) (DB3.slashVote dbid)
        (fun s a hs => ?_) _ _ ?_
      · obtain ⟨s', h1, h2⟩ := slashVote_ok dbid s a (hs ▸ h)
        exact ⟨s', h1, h2.trans hs⟩
      · rfl
    · simp only [hu, hs, Bool.false_eq_true, if_false]
      exact ⟨_, rfl, rfl⟩

theorem settleElection_keys {dbid : DBId} {d d' : DB3} {e : Election} {R : Money}
    (h : DB3.settleElection d dbid e R = .ok d') : d'.Deposits.keys = d.Deposits.keys := by
  unfold DB3.settleElection at h
  split at h
  · rw [payout_frame h]
  · split at h
    · cases hp : DB3.payout d e R with
      | error x => simp [hp] at h
      | ok d₁ =>
        simp only [hp, ok_bind] at h
        have h1 : d₁.Deposits.keys = d.Deposits.keys := by rw [payout_frame hp]
        exact foldlM_inv (fun s => s.Deposits.keys = d.Deposits.keys) (DB3.slashVote dbid)
          (fun s a s' hs hsa => (slashVote_keys hsa).trans hs) _ _ _ h1 h
    · simp at h; rw [← h]

theorem finalizeQuery_cases {ctx : CallContext} {dbid : DBId} {rb : Int} {s s' : DB3}
    {q : QueryCID} {t : Int} (h : DB3.finalizeQuery ctx dbid rb s (q, t) = .ok s') :
    (t > ctx.Height ∧ s' = s) ∨
      (t ≤ ctx.Height ∧ ∃ s₁, s' = s₁.cleanUp dbid q ∧
        (((get2 s.PendingFees dbid q).getD 0 = 0 ∧ s₁ = s) ∨
          (0 < (get2 s.PendingFees dbid q).getD 0 ∧
            DB3.splitFee s dbid rb q ((get2 s.PendingFees dbid q).getD 0) = .ok s₁))) := by
  by_cases ht : t > ctx.Height
  · rw [finalizeQuery_skip _ _ _ _ _ _ ht] at h
    simp only [Except.ok.injEq] at h
    exact Or.inl ⟨ht, h.symm⟩
  · right
    have ht' : t ≤ ctx.Height := not_lt.1 ht
    refine ⟨ht', ?_⟩
    by_cases hf : (get2 s.PendingFees dbid q).getD 0 = 0
    · rw [finalizeQuery_free _ _ _ _ _ _ ht' hf] at h
      simp only [Except.ok.injEq] at h
      exact ⟨s, h.symm, Or.inl ⟨hf, rfl⟩⟩
    · have hpos : 0 < (get2 s.PendingFees dbid q).getD 0 := Nat.pos_of_ne_zero hf
      rw [finalizeQuery_expired _ _ _ _ _ _ ht' hpos] at h
      cases hsp : DB3.splitFee s dbid rb q ((get2 s.PendingFees dbid q).getD 0) with
      | error e => rw [hsp] at h; simp [Except.map] at h
      | ok s₁ =>
        rw [hsp] at h
        simp only [Except.map, Except.ok.injEq] at h
        exact ⟨s₁, h.symm, Or.inr ⟨hpos, rfl⟩⟩

/-- What one iteration of the finalizer does to the three maps of pending queries: nothing for
an entry that is not expired, the removal of the entry's key otherwise. -/
theorem finalizeQuery_pending {ctx : CallContext} {dbid : DBId} {rb : Int} {s s' : DB3}
    {q : QueryCID} {t : Int} (h : DB3.finalizeQuery ctx dbid rb s (q, t) = .ok s') :
    (t > ctx.Height ∧ s' = s) ∨
      (t ≤ ctx.Height ∧ s'.PendingFees = del2 s.PendingFees dbid q ∧
        s'.PendingResults = del2 s.PendingResults dbid q ∧
        s'.ResultTTL = del2 s.ResultTTL dbid q) := by
  rcases finalizeQuery_cases h with h | ⟨ht, s₁, rfl, h | h⟩
  · exact Or.inl h
  · obtain ⟨_, rfl⟩ := h
    exact Or.inr ⟨ht, rfl, rfl, rfl⟩
  · have hf := splitFee_frame h.2
    refine Or.inr ⟨ht, ?_, ?_, ?_⟩
    · show del2 s₁.PendingFees dbid q = _
      rw [hf]
    · show del2 s₁.PendingResults dbid q = _
      rw [hf]
    · show del2 s₁.ResultTTL dbid q = _
      rw [hf]

theorem splitFee_ok (d : DB3) (dbid : DBId) (rb : Int) (qid : QueryCID) (F : Money)
    (h : dbid ∈ d.Deposits.keys) :
    ∃ d', DB3.splitFee d dbid rb qid F = .ok d' ∧ d'.Deposits.keys = d.Deposits.keys := by
  rw [splitFee_eq]
  have h' : dbid ∈ (d.creditRoyalty dbid rb F).Deposits.keys := by
    rw [creditRoyalty_frame]; exact h
  obtain ⟨d', h1, h2⟩ := settleElection_ok (d.creditRoyalty dbid rb F) dbid
    ((get2 d.PendingResults dbid qid).getD []) (feeAfterRoyalty F rb) h'
  refine ⟨d', h1, h2.trans ?_⟩
  rw [creditRoyalty_frame]

theorem finalizeQuery_ok (ctx : CallContext) (dbid : DBId) (rb : Int) (s : DB3)
    (e : QueryCID × Int) (h : dbid ∈ s.Deposits.keys) :
    ∃ s', DB3.finalizeQuery ctx dbid rb s e = .ok s' ∧ s'.Deposits.keys = s.Deposits.keys := by
  obtain ⟨q, t⟩ := e
  by_cases ht : t > ctx.Height
  · exact ⟨s, finalizeQuery_skip _ _ _ _ _ _ ht, rfl⟩
  · have ht' : t ≤ ctx.Height := not_lt.1 ht
    by_cases hf : (get2 s.PendingFees dbid q).getD 0 = 0
    · exact ⟨_, finalizeQuery_free _ _ _ _ _ _ ht' hf, rfl⟩
    · have hpos : 0 < (get2 s.PendingFees dbid q).getD 0 := Nat.pos_of_ne_zero hf
      obtain ⟨s₁, h1, h2⟩ := splitFee_ok s dbid rb q _ h
      refine ⟨s₁.cleanUp dbid q, ?_, h2⟩
      rw [finalizeQuery_expired _ _ _ _ _ _ ht' hpos, h1]
      rfl

/-- The finalizer does not panic in a state in which every database with pending queries has a
map of deposits. -/
theorem finalizeResults_ok (d : DB3) (ctx : CallContext)
    (hdep : ∀ k ∈ d.ResultTTL.keys, k ∈ d.Deposits.keys) :
    ∃ d', d.finalizeResults ctx = .ok d' ∧ d'.Deposits.keys = d.Deposits.keys := by
  unfold DB3.finalizeResults
  refine foldlM_ok_mem (fun s => s.Deposits.keys = d.Deposits.keys) (DB3.finalizeDb ctx)
    d.ResultTTL (fun s a ha hs => ?_) d rfl
  unfold DB3.finalizeDb
  have hk : a.1 ∈ d.Deposits.keys := hdep _ (List.mem_map.2 ⟨a, ha, rfl⟩)
  refine foldlM_ok (fun s : DB3 => s.Deposits.keys = d.Deposits.keys) _ (fun s' e hs' => ?_) _ _ hs
  obtain ⟨s'', h1, h2⟩ := finalizeQuery_ok ctx a.1 _ s' e (hs' ▸ hk)
  exact ⟨s'', h1, h2.trans hs'⟩

theorem get2_del2_none {A B V : Type} [DecidableEq A] [DecidableEq B]
    (m : GoMap A (GoMap B V)) (a a' : A) (b b' : B) (h : get2 m a b = none) :
    get2 (del2 m a' b') a b = none := by
  by_cases he : a' = a ∧ b' = b
  · obtain ⟨rfl, rfl⟩ := he; exact get2_del2_self _ _ _
  · rw [get2_del2_of_ne _ _ _ _ _ he]; exact h

theorem get2_eq_some {A B V : Type} [DecidableEq A] [DecidableEq B]
    {m : GoMap A (GoMap B V)} {a : A} {b : B} {v : V} (h : get2 m a b = some v) :
    ∃ inner, m.get? a = some inner ∧ inner.get? b = some v := by
  unfold get2 at h
  cases hm : m.get? a with
  | none => simp [hm] at h
  | some inner => exact ⟨inner, rfl, by simpa [hm] using h⟩

theorem finalizeQuery_noEntry {ctx : CallContext} {dbid' : DBId} {rb : Int} {s s' : DB3}
    {e : QueryCID × Int} (dbid : DBId) (qid : QueryCID)
    (h : DB3.finalizeQuery ctx dbid' rb s e = .ok s') (hs : s.noEntry dbid qid) :
    s'.noEntry dbid qid := by
  obtain ⟨q, t⟩ := e
  rcases finalizeQuery_pending h with ⟨_, rfl⟩ | ⟨_, h1, h2, h3⟩
  · exact hs
  · unfold DB3.noEntry
    rw [h1, h2, h3]
    exact ⟨get2_del2_none _ _ _ _ _ hs.1, get2_del2_none _ _ _ _ _ hs.2.1,
      get2_del2_none _ _ _ _ _ hs.2.2⟩

theorem finalizeDb_noEntry {ctx : CallContext} {s s' : DB3} {a : DBId × GoMap QueryCID Int}
    (dbid : DBId) (qid : QueryCID)
    (h : DB3.finalizeDb ctx s a = .ok s') (hs : s.noEntry dbid qid) : s'.noEntry dbid qid := by
  unfold DB3.finalizeDb at h
  exact foldlM_inv (fun s : DB3 => s.noEntry dbid qid) _
    (fun s e s' hs h => finalizeQuery_noEntry dbid qid h hs) _ _ _ hs h

/-- After the finalizer, a query whose TTL was not above the height has no entry left. -/
theorem finalizeResults_expired {d d' : DB3} {ctx : CallContext} {dbid : DBId} {qid : QueryCID}
    {ttl : Int} (hget : get2 d.ResultTTL dbid qid = some ttl) (ht : ttl ≤ ctx.Height)
    (h : d.finalizeResults ctx = .ok d') : d'.noEntry dbid qid := by
  obtain ⟨ttls, h1, h2⟩ := get2_eq_some hget
  unfold DB3.finalizeResults at h
  refine foldlM_establish (fun s : DB3 => s.noEntry dbid qid) (DB3.finalizeDb ctx) d.ResultTTL
    (dbid, ttls) (GoMap.mem_of_get? h1) (fun s b s' hs hb => finalizeDb_noEntry dbid qid hb hs)
    (fun s s' hs => ?_) d d' h
  unfold DB3.finalizeDb at hs
  refine foldlM_establish (fun s : DB3 => s.noEntry dbid qid) _ ttls (qid, ttl)
    (GoMap.mem_of_get? h2) (fun s b s' hs hb => finalizeQuery_noEntry dbid qid hb hs)
    (fun s s' hs => ?_) _ _ hs
  rcases finalizeQuery_pending hs with ⟨hgt, _⟩ | ⟨_, e1, e2, e3⟩
  · exact absurd ht (not_le.2 hgt)
  · unfold DB3.noEntry
    rw [e1, e2, e3]
    exact ⟨get2_del2_self _ _ _, get2_del2_self _ _ _, get2_del2_self _ _ _⟩

/-- The finalizer leaves the entries of a query whose TTL is above the height as they were. -/
theorem finalizeResults_unexpired {d d' : DB3} {ctx : CallContext} {dbid : DBId} {qid : QueryCID}
    {ttl : Int} (hk : d.ResultTTL.keys.Nodup) (hq : ∀ kv ∈ d.ResultTTL, kv.2.keys.Nodup)
    (hget : get2 d.ResultTTL dbid qid = some ttl) (ht : ttl > ctx.Height)
    (h : d.finalizeResults ctx = .ok d') : d.sameEntry d' dbid qid := by
  obtain ⟨ttls, h1, h2⟩ := get2_eq_some hget
  unfold DB3.finalizeResults at h
  refine foldlM_inv_mem (fun s : DB3 => d.sameEntry s dbid qid) (DB3.finalizeDb ctx) d.ResultTTL
    (fun s a s' ha hs hsa => ?_) d d' ⟨rfl, rfl, rfl⟩ h
  unfold DB3.finalizeDb at hsa
  refine foldlM_inv_mem (fun s : DB3 => d.sameEntry s dbid qid) _ a.2
    (fun s e s' he hs hse => ?_) _ _ hs hsa
  obtain ⟨q, t⟩ := e
  rcases finalizeQuery_pending hse with ⟨_, rfl⟩ | ⟨hle, e1, e2, e3⟩
  · exact hs
  · have hne : ¬ (a.1 = dbid ∧ q = qid) := by
      rintro ⟨rfl, rfl⟩
      have ha' : d.ResultTTL.get? a.1 = some a.2 := GoMap.get?_of_mem hk ha
      rw [h1] at ha'
      simp only [Option.some.injEq] at ha'
      subst ha'
      have := GoMap.get?_of_mem (hq _ ha) he
      rw [h2] at this
      simp only [Option.some.injEq] at this
      omega
    unfold DB3.sameEntry at hs ⊢
    rw [e1, e2, e3, get2_del2_of_ne _ _ _ _ _ hne, get2_del2_of_ne _ _ _ _ _ hne,
      get2_del2_of_ne _ _ _ _ _ hne]
    exact hs

theorem ClaimFees_eq (d : DB3) (ctx : CallContext) {d' : DB3}
    (h : d.finalizeResults ctx = .ok d') :
    ∃ d₁ out, d.ClaimFees ctx = .ok (d₁, out) ∧
      d₁ = { d' with SettledFees := d₁.SettledFees } := by
  unfold DB3.ClaimFees
  rw [h]
  simp only [ok_bind]
  split
  · exact ⟨_, _, rfl, rfl⟩
  · exact ⟨_, _, rfl, rfl⟩

theorem ClaimRoyalties_eq (d : DB3) (ctx : CallContext) {d' : DB3}
    (h : d.finalizeResults ctx = .ok d') :
    ∃ d₁ out, d.ClaimRoyalties ctx = .ok (d₁, out) ∧
      d₁ = { d' with SettledRoyalties := d₁.SettledRoyalties } := by
  unfold DB3.ClaimRoyalties
  rw [h]
  simp only [ok_bind]
  split
  · exact ⟨_, _, rfl, rfl⟩
  · exact ⟨_, _, rfl, rfl⟩

theorem ClaimFees_pending {d d' : DB3} {ctx : CallContext} {out : List Transfer}
    (h : d.ClaimFees ctx = .ok (d', out)) :
    ∃ d₁, d.finalizeResults ctx = .ok d₁ ∧ d' = { d₁ with SettledFees := d'.SettledFees } := by
  cases hf : d.finalizeResults ctx with
  | error e => simp [DB3.ClaimFees, hf] at h
  | ok d₁ =>
    obtain ⟨d₂, out₂, h2, e2⟩ := ClaimFees_eq d ctx hf
    rw [h] at h2
    simp only [Except.ok.injEq, Prod.mk.injEq] at h2
    obtain ⟨rfl, rfl⟩ := h2
    exact ⟨d₁, rfl, e2⟩

theorem ClaimRoyalties_pending {d d' : DB3} {ctx : CallContext} {out : List Transfer}
    (h : d.ClaimRoyalties ctx = .ok (d', out)) :
    ∃ d₁, d.finalizeResults ctx = .ok d₁ ∧
      d' = { d₁ with SettledRoyalties := d'.SettledRoyalties } := by
  cases hf : d.finalizeResults ctx with
  | error e => simp [DB3.ClaimRoyalties, hf] at h
  | ok d₁ =>
    obtain ⟨d₂, out₂, h2, e2⟩ := ClaimRoyalties_eq d ctx hf
    rw [h] at h2
    simp only [Except.ok.injEq, Prod.mk.injEq] at h2
    obtain ⟨rfl, rfl⟩ := h2
    exact ⟨d₁, rfl, e2⟩

/-- C6: take a state whose `ResultTTL` maps have pairwise distinct keys (as Go maps have). After
a `ClaimFees` or a `ClaimRoyalties` at height `H`, every query `(d, q)` whose `ResultTTL[d][q]`
was `<= H` before the call has no entry left in `PendingFees`, `PendingResults` and `ResultTTL`,
and every query with `ResultTTL[d][q] > H` keeps its three entries as they were. Both calls
succeed when every database with pending queries has a map of deposits (as `Deploy` creates). -/
theorem no_zombies (d : DB3) (ctx : CallContext)
    (hk : d.ResultTTL.keys.Nodup) (hq : ∀ kv ∈ d.ResultTTL, kv.2.keys.Nodup) :
    (∀ d' out, (d.ClaimFees ctx = .ok (d', out) ∨ d.ClaimRoyalties ctx = .ok (d', out)) →
        ∀ dbid qid ttl, get2 d.ResultTTL dbid qid = some ttl →
          (ttl ≤ ctx.Height → d'.noEntry dbid qid) ∧
          (ttl > ctx.Height → d.sameEntry d' dbid qid)) ∧
      ((∀ k ∈ d.ResultTTL.keys, k ∈ d.Deposits.keys) →
        ∃ d₁ out₁ d₂ out₂, d.ClaimFees ctx = .ok (d₁, out₁) ∧
          d.ClaimRoyalties ctx = .ok (d₂, out₂)) := by
  constructor
  · intro d' out h dbid qid ttl hget
    have hp : ∃ d₁, d.finalizeResults ctx = .ok d₁ ∧ d'.PendingFees = d₁.PendingFees ∧
        d'.PendingResults = d₁.PendingResults ∧ d'.ResultTTL = d₁.ResultTTL := by
      rcases h with h | h
      · obtain ⟨d₁, hf, e⟩ := ClaimFees_pending h
        exact ⟨d₁, hf, by rw [e], by rw [e], by rw [e]⟩
      · obtain ⟨d₁, hf, e⟩ := ClaimRoyalties_pending h
        exact ⟨d₁, hf, by rw [e], by rw [e], by rw [e]⟩
    obtain ⟨d₁, hf, p1, p2, p3⟩ := hp
    constructor
    · intro ht
      have := finalizeResults_expired hget ht hf
      unfold DB3.noEntry at this ⊢
      rw [p1, p2, p3]
      exact this
    · intro ht
      have := finalizeResults_unexpired hk hq hget ht hf
      unfold DB3.sameEntry at this ⊢
      rw [p1, p2, p3]
      exact this
  · intro hdep
    obtain ⟨d', hf, _⟩ := finalizeResults_ok d ctx hdep
    obtain ⟨d₁, out₁, h1, _⟩ := ClaimFees_eq d ctx hf
    obtain ⟨d₂, out₂, h2, _⟩ := ClaimRoyalties_eq d ctx hf
    exact ⟨d₁, out₁, d₂, out₂, h1, h2⟩

/-- A witness of C6: scenario 4 at height 200, with the expired query `cid-Q` and the query
`cid-Z`, whose TTL is 500. -/
theorem no_zombies_witness :
    (NewWorld.run scenario4).db.ResultTTL.keys.Nodup ∧
      (∀ kv ∈ (NewWorld.run scenario4).db.ResultTTL, kv.2.keys.Nodup) ∧
      get2 (NewWorld.run scenario4).db.ResultTTL 0 "cid-Q" = some 110 ∧
      get2 (NewWorld.run scenario4).db.ResultTTL 0 "cid-Z" = some 500 ∧
      ∃ d₁ out₁ d₂ out₂,
        (NewWorld.run scenario4).db.ClaimFees (ctxOf "h1" 0 200) = .ok (d₁, out₁) ∧
        (NewWorld.run scenario4).db.ClaimRoyalties (ctxOf "h1" 0 200) = .ok (d₂, out₂) :=
  ⟨by decide, by decide, by decide, by decide,
   (no_zombies (NewWorld.run scenario4).db (ctxOf "h1" 0 200) (by decide) (by decide)).2
     (by decide)⟩

/-! ## Conservation of funds -/

theorem sum1_set {K : Type} [DecidableEq K] (m : GoMap K Money) (k : K) (v : Money) :
    sum1 (m.set k v) + (m.get? k).getD 0 = sum1 m + v := by
  induction m with
  | nil => simp [GoMap.set, sum1]
  | cons kv m ih =>
    obtain ⟨k', v'⟩ := kv
    by_cases h : k' = k
    · simp only [GoMap.set, GoMap.get?, h, if_true, sum1, List.map_cons, List.sum_cons,
        Option.getD_some]
      simp only [Money] at *
      omega
    · simp only [GoMap.set, GoMap.get?, h, if_false, sum1, List.map_cons, List.sum_cons] at ih ⊢
      simp only [Money] at *
      omega

theorem sum1_del {K : Type} [DecidableEq K] (m : GoMap K Money) (k : K) (hm : m.keys.Nodup) :
    sum1 (m.del k) + (m.get? k).getD 0 = sum1 m := by
  induction m with
  | nil => simp [GoMap.del, sum1]
  | cons kv m ih =>
    obtain ⟨k', v'⟩ := kv
    simp only [GoMap.keys_cons, List.nodup_cons] at hm
    by_cases h : k' = k
    · subst h
      have hnone : GoMap.get? m k' = none := (GoMap.get?_eq_none_iff m k').2 hm.1
      have ih' := ih hm.2
      rw [hnone] at ih'
      simp only [GoMap.del, GoMap.get?, if_true, sum1, List.map_cons, List.sum_cons,
        Option.getD_some, Option.getD_none] at ih' ⊢
      simp only [Money] at *
      omega
    · have ih' := ih hm.2
      simp only [GoMap.del, GoMap.get?, h, if_false, sum1, List.map_cons, List.sum_cons] at ih' ⊢
      simp only [Money] at *
      omega

theorem sum2_modify {A B : Type} [DecidableEq A] (m : GoMap A (GoMap B Money)) (a : A)
    (f : GoMap B Money → GoMap B Money) (inner : GoMap B Money) (h : m.get? a = some inner) :
    sum2 (m.modify a f) + sum1 inner = sum2 m + sum1 (f inner) := by
  induction m with
  | nil => simp at h
  | cons kv m ih =>
    obtain ⟨k', v'⟩ := kv
    by_cases hk : k' = a
    · simp only [GoMap.get?, hk, if_true, Option.some.injEq] at h
      subst h
      simp only [GoMap.modify, hk, if_true, sum2, List.map_cons, List.sum_cons]
      omega
    · simp only [GoMap.get?, hk, if_false] at h
      have ih' := ih h
      simp only [GoMap.modify, hk, if_false, sum2, List.map_cons, List.sum_cons] at ih' ⊢
      omega

theorem modify_of_get?_none {K V : Type} [DecidableEq K] (m : GoMap K V) (k : K) (f : V → V)
    (h : m.get? k = none) : m.modify k f = m := by
  induction m with
  | nil => rfl
  | cons kv m ih =>
    obtain ⟨k', v'⟩ := kv
    by_cases hk : k' = k
    · simp [GoMap.get?, hk] at h
    · simp only [GoMap.get?, hk, if_false] at h
      simp [GoMap.modify, hk, ih h]

theorem sum2_set_nil {A B : Type} [DecidableEq A] (m : GoMap A (GoMap B Money)) (a : A)
    (h : a ∉ m.keys) : sum2 (m.set a []) = sum2 m := by
  induction m with
  | nil => simp [GoMap.set, sum2, sum1]
  | cons kv m ih =>
    obtain ⟨k', v'⟩ := kv
    simp only [GoMap.keys_cons, List.mem_cons, not_or] at h
    have hk : k' ≠ a := fun e => h.1 e.symm
    simp only [GoMap.set, hk, if_false, sum2, List.map_cons, List.sum_cons] at ih ⊢
    rw [ih h.2]

theorem forall_modify {K V : Type} [DecidableEq K] (P : V → Prop) (m : GoMap K V) (k : K)
    (f : V → V) (hm : ∀ kv ∈ m, P kv.2) (hf : ∀ v, P v → P (f v)) :
    ∀ kv ∈ m.modify k f, P kv.2 := by
  induction m with
  | nil => simp [GoMap.modify]
  | cons kv m ih =>
    obtain ⟨k', v'⟩ := kv
    by_cases hk : k' = k
    · simp only [GoMap.modify, hk, if_true, List.mem_cons, forall_eq_or_imp]
      exact ⟨hf _ (hm _ (List.mem_cons_self _ _)), fun kv h => hm kv (List.mem_cons_of_mem _ h)⟩
    · simp only [GoMap.modify, hk, if_false, List.mem_cons, forall_eq_or_imp]
      exact ⟨hm _ (List.mem_cons_self _ _),
        ih (fun kv h => hm kv (List.mem_cons_of_mem _ h))⟩

theorem forall_set {K V : Type} [DecidableEq K] (P : V → Prop) (m : GoMap K V) (k : K)
    (v : V) (hm : ∀ kv ∈ m, P kv.2) (hv : P v) : ∀ kv ∈ m.set k v, P kv.2 := by
  induction m with
  | nil => simpa [GoMap.set] using hv
  | cons kv m ih =>
    obtain ⟨k', v'⟩ := kv
    by_cases hk : k' = k
    · simp only [GoMap.set, hk, if_true, List.mem_cons, forall_eq_or_imp]
      exact ⟨hv, fun kv h => hm kv (List.mem_cons_of_mem _ h)⟩
    · simp only [GoMap.set, hk, if_false, List.mem_cons, forall_eq_or_imp]
      exact ⟨hm _ (List.mem_cons_self _ _),
        ih (fun kv h => hm kv (List.mem_cons_of_mem _ h))⟩

theorem payFold_conserves (s : Money) (vs : List Vote) :
    ∀ acc : Money × GoMap AccountID Money,
      ((vs.foldl (DB3.payShare s) acc).1 + sum1 (vs.foldl (DB3.payShare s) acc).2) % U64 =
        (acc.1 + sum1 acc.2) % U64 := by
  induction vs with
  | nil => intro acc; rfl
  | cons v vs ih =>
    intro acc
    rw [List.foldl_cons, ih]
    have h := sum1_set acc.2 v.AccountId (Money.add ((acc.2.get? v.AccountId).getD 0) s)
    simp only [DB3.payShare, Money.sub, Money.add, U64_eq] at h ⊢
    simp only [Money] at *
    omega

theorem payout_conserves {d d' : DB3} {e : Election} {R : Money}
    (h : DB3.payout d e R = .ok d') :
    d'.accounted % U64 = (d.accounted + R) % U64 := by
  unfold DB3.payout at h
  split at h
  · simp at h
  · simp only [Money.div_10000, ok_bind, pure_eq_ok, Except.ok.injEq] at h
    rw [← h]
    have hc := payFold_conserves
      (Money.Mul R ((10000 / e.NumSuperMajority : Nat) : Int) / 10000) e.SuperMajority
      (R, d.SettledFees)
    simp only [DB3.accounted, Money.add, U64_eq] at hc ⊢
    simp only [Money] at *
    omega

theorem get2_getD_eq {A B : Type} [DecidableEq A] [DecidableEq B]
    {m : GoMap A (GoMap B Money)} {a : A} {inner : GoMap B Money} (b : B)
    (h : m.get? a = some inner) : (get2 m a b).getD 0 = (inner.get? b).getD 0 := by
  simp [get2, h]

theorem slashVote_conserves {dbid : DBId} {d d' : DB3} {v : Vote}
    (h : DB3.slashVote dbid d v = .ok d') (hwf : d.WF) :
    d'.WF ∧ d'.NextId = d.NextId ∧ d'.accounted % U64 = d.accounted % U64 := by
  unfold DB3.slashVote at h
  cases hs : set2 d.Deposits dbid v.AccountId
      (Money.sub ((get2 d.Deposits dbid v.AccountId).getD 0)
        (((get2 d.Deposits dbid v.AccountId).getD 0 * 10000 % U64) / SLASHED_DEPOSIT_BIPS)) with
  | error e => simp [hs] at h
  | ok m =>
    simp only [hs, ok_bind, pure_eq_ok, Except.ok.injEq] at h
    obtain ⟨hmem, rfl⟩ := set2_eq_ok hs
    obtain ⟨inner, hin⟩ := (GoMap.mem_keys_iff _ _).1 hmem
    rw [← h]
    refine ⟨⟨?_, hwf.2.1, ?_, hwf.2.2.2⟩, rfl, ?_⟩
    · intro k hk
      rw [GoMap.keys_modify] at hk
      exact hwf.1 k hk
    · exact forall_modify (fun x : GoMap AccountID Money => x.keys.Nodup) _ _ _ hwf.2.2.1
        (fun x hx => GoMap.nodup_keys_set hx _ _)
    · have h1 := sum2_modify d.Deposits dbid (fun inner => inner.set v.AccountId
        (Money.sub ((get2 d.Deposits dbid v.AccountId).getD 0)
          (((get2 d.Deposits dbid v.AccountId).getD 0 * 10000 % U64) / SLASHED_DEPOSIT_BIPS)))
        inner hin
      have h2 := sum1_set inner v.AccountId
        (Money.sub ((get2 d.Deposits dbid v.AccountId).getD 0)
          (((get2 d.Deposits dbid v.AccountId).getD 0 * 10000 % U64) / SLASHED_DEPOSIT_BIPS))
      rw [get2_getD_eq v.AccountId hin] at h1 h2 ⊢
      generalize (inner.get? v.AccountId).getD 0 = dep at *
      generalize (dep * 10000 % U64) / SLASHED_DEPOSIT_BIPS = a at *
      simp only [DB3.accounted, Money.add, Money.sub, U64_eq] at h1 h2 ⊢
      simp only [Money] at *
      omega

theorem creditRoyalty_conserves (d : DB3) (dbid : DBId) (rb : Int) (F : Money) :
    (d.creditRoyalty dbid rb F).accounted % U64 = (d.accounted + royaltyOf F rb) % U64 ∧
      (royaltyOf F rb + feeAfterRoyalty F rb) % U64 = F % U64 := by
  by_cases hb : rb > 0
  · have h := sum1_set d.SettledRoyalties ((d.Owners.get? dbid).getD "")
      (Money.add ((d.SettledRoyalties.get? ((d.Owners.get? dbid).getD "")).getD 0)
        (royaltyOf F rb))
    simp only [DB3.creditRoyalty, feeAfterRoyalty, hb, if_true, DB3.accounted, Money.add,
      Money.sub, U64_eq] at h ⊢
    generalize royaltyOf F rb = roy at *
    simp only [Money] at *
    omega
  · simp [DB3.creditRoyalty, feeAfterRoyalty, royaltyOf, hb]

theorem WF_of_eq {d d' : DB3} (h1 : d'.Deposits = d.Deposits) (h2 : d'.PendingFees = d.PendingFees)
    (h3 : d'.NextId = d.NextId) (hwf : d.WF) : d'.WF := by
  unfold DB3.WF
  rw [h1, h2, h3]
  exact hwf

theorem settleElection_conserves {dbid : DBId} {d d' : DB3} {e : Election} {R : Money}
    (h : DB3.settleElection d dbid e R = .ok d') (hwf : d.WF) :
    d'.WF ∧ d'.NextId = d.NextId ∧ d'.accounted % U64 = (d.accounted + R) % U64 := by
  unfold DB3.settleElection at h
  split at h
  · have hf := payout_frame h
    exact ⟨WF_of_eq (by rw [hf]) (by rw [hf]) (by rw [hf]) hwf, by rw [hf], payout_conserves h⟩
  · split at h
    · cases hp : DB3.payout d e R with
      | error x => simp [hp] at h
      | ok d₁ =>
        simp only [hp, ok_bind] at h
        have hf := payout_frame hp
        have hwf₁ : d₁.WF := WF_of_eq (by rw [hf]) (by rw [hf]) (by rw [hf]) hwf
        have hid₁ : d₁.NextId = d.NextId := by rw [hf]
        exact foldlM_inv
          (fun s : DB3 => s.WF ∧ s.NextId = d.NextId ∧ s.accounted % U64 = (d.accounted + R) % U64)
          (DB3.slashVote dbid)
          (fun s a s' hs hsa => by
            obtain ⟨w, i, c⟩ := slashVote_conserves hsa hs.1
            exact ⟨w, i.trans hs.2.1, c.trans hs.2.2⟩)
          _ _ _ ⟨hwf₁, hid₁, payout_conserves hp⟩ h
    · simp only [pure_eq_ok, Except.ok.injEq] at h
      rw [← h]
      refine ⟨hwf, rfl, ?_⟩
      simp only [DB3.accounted, Money.add, U64_eq]
      simp only [Money] at *
      omega

theorem splitFee_conserves {dbid : DBId} {d d' : DB3} {rb : Int} {qid : QueryCID} {F : Money}
    (h : DB3.splitFee d dbid rb qid F = .ok d') (hwf : d.WF) :
    d'.WF ∧ d'.NextId = d.NextId ∧ d'.accounted % U64 = (d.accounted + F) % U64 := by
  rw [splitFee_eq] at h
  have hcr := creditRoyalty_frame d dbid rb F
  have hwf₀ : (d.creditRoyalty dbid rb F).WF :=
    WF_of_eq (by rw [hcr]) (by rw [hcr]) (by rw [hcr]) hwf
  obtain ⟨w, i, c⟩ := settleElection_conserves h hwf₀
  obtain ⟨c1, c2⟩ := creditRoyalty_conserves d dbid rb F
  refine ⟨w, i.trans (by rw [hcr]), ?_⟩
  rw [U64_eq] at *
  simp only [Money] at *
  omega

theorem sum2_del2 {A B : Type} [DecidableEq A] [DecidableEq B] (m : GoMap A (GoMap B Money))
    (a : A) (b : B) (hm : ∀ kv ∈ m, kv.2.keys.Nodup) :
    sum2 (del2 m a b) + (get2 m a b).getD 0 = sum2 m := by
  cases hin : m.get? a with
  | none =>
    unfold del2
    rw [modify_of_get?_none _ _ _ hin]
    simp [get2, hin]
  | some inner =>
    have h1 := sum2_modify m a (fun inner => inner.del b) inner hin
    have h2 := sum1_del inner b (hm _ (GoMap.mem_of_get? hin))
    rw [get2_getD_eq b hin]
    unfold del2
    simp only [Money] at *
    omega

theorem cleanUp_conserves (d : DB3) (dbid : DBId) (qid : QueryCID) (hwf : d.WF) :
    (d.cleanUp dbid qid).WF ∧ (d.cleanUp dbid qid).NextId = d.NextId ∧
      (d.cleanUp dbid qid).accounted + (get2 d.PendingFees dbid qid).getD 0 = d.accounted := by
  refine ⟨⟨hwf.1, ?_, hwf.2.2.1, ?_⟩, rfl, ?_⟩
  · intro k hk
    have hk' : k ∈ (del2 d.PendingFees dbid qid).keys := hk
    unfold del2 at hk'
    rw [GoMap.keys_modify] at hk'
    exact hwf.2.1 k hk'
  · exact forall_modify (fun x : GoMap QueryCID Money => x.keys.Nodup) _ _ _ hwf.2.2.2
      (fun x hx => GoMap.nodup_keys_del hx _)
  · have h := sum2_del2 d.PendingFees dbid qid hwf.2.2.2
    simp only [DB3.accounted, DB3.cleanUp] at h ⊢
    simp only [Money] at *
    omega

theorem finalizeQuery_conserves {ctx : CallContext} {dbid : DBId} {rb : Int} {s s' : DB3}
    {e : QueryCID × Int} (h : DB3.finalizeQuery ctx dbid rb s e = .ok s') (hwf : s.WF) :
    s'.WF ∧ s'.NextId = s.NextId ∧ s'.accounted % U64 = s.accounted % U64 := by
  obtain ⟨q, t⟩ := e
  rcases finalizeQuery_cases h with ⟨_, rfl⟩ | ⟨_, s₁, rfl, ⟨h0, rfl⟩ | ⟨_, hsp⟩⟩
  · exact ⟨hwf, rfl, rfl⟩
  · obtain ⟨w, i, c⟩ := cleanUp_conserves s₁ dbid q hwf
    refine ⟨w, i, ?_⟩
    rw [h0] at c
    rw [← c]; rfl
  · obtain ⟨w₁, i₁, c₁⟩ := splitFee_conserves hsp hwf
    obtain ⟨w, i, c⟩ := cleanUp_conserves s₁ dbid q w₁
    have hf : s₁.PendingFees = s.PendingFees := by rw [splitFee_frame hsp]
    rw [hf] at c
    refine ⟨w, i.trans i₁, ?_⟩
    rw [U64_eq] at *
    simp only [Money] at *
    omega

theorem finalizeResults_conserves {d d' : DB3} {ctx : CallContext}
    (h : d.finalizeResults ctx = .ok d') (hwf : d.WF) :
    d'.WF ∧ d'.NextId = d.NextId ∧ d'.accounted % U64 = d.accounted % U64 := by
  unfold DB3.finalizeResults at h
  refine foldlM_inv
    (fun s : DB3 => s.WF ∧ s.NextId = d.NextId ∧ s.accounted % U64 = d.accounted % U64)
    (DB3.finalizeDb ctx) (fun s a s' hs hsa => ?_) _ _ _ ⟨hwf, rfl, rfl⟩ h
  unfold DB3.finalizeDb at hsa
  refine foldlM_inv
    (fun s : DB3 => s.WF ∧ s.NextId = d.NextId ∧ s.accounted % U64 = d.accounted % U64)
    _ (fun s e s' hs hse => ?_) _ _ _ hs hsa
  obtain ⟨w, i, c⟩ := finalizeQuery_conserves hse hs.1
  exact ⟨w, i.trans hs.2.1, c.trans hs.2.2⟩

theorem sent_nil : sent [] = 0 := rfl

theorem sent_single (a : AccountID) (v : Money) : sent (TransferTo a v []) = v := by
  simp [sent, TransferTo]

theorem sent_append (l₁ l₂ : List Transfer) : sent (l₁ ++ l₂) = sent l₁ + sent l₂ := by
  simp [sent]

theorem Deploy_conserves (d : DB3) (ctx : CallContext) (m : Manifest) (hwf : d.WF)
    (hid : d.NextId + 1 < U64) :
    (d.Deploy ctx m).1.WF ∧ (d.Deploy ctx m).1.NextId = d.NextId + 1 ∧
      (d.Deploy ctx m).1.accounted = d.accounted := by
  have hmod : (d.NextId + 1) % U64 = d.NextId + 1 := Nat.mod_eq_of_lt hid
  have hn1 : d.NextId ∉ d.Deposits.keys := fun h => lt_irrefl _ (hwf.1 _ h)
  have hn2 : d.NextId ∉ d.PendingFees.keys := fun h => lt_irrefl _ (hwf.2.1 _ h)
  refine ⟨⟨?_, ?_, ?_, ?_⟩, hmod, ?_⟩
  · intro k hk
    have hk' : k ∈ (d.Deposits.set d.NextId []).keys := hk
    rw [GoMap.mem_keys_set] at hk'
    show k < (d.NextId + 1) % U64
    rw [hmod]
    rcases hk' with rfl | hk'
    · exact Nat.lt_succ_self _
    · exact Nat.lt_succ_of_lt (hwf.1 k hk')
  · intro k hk
    have hk' : k ∈ (d.PendingFees.set d.NextId []).keys := hk
    rw [GoMap.mem_keys_set] at hk'
    show k < (d.NextId + 1) % U64
    rw [hmod]
    rcases hk' with rfl | hk'
    · exact Nat.lt_succ_self _
    · exact Nat.lt_succ_of_lt (hwf.2.1 k hk')
  · exact forall_set (fun x : GoMap AccountID Money => x.keys.Nodup) _ _ _ hwf.2.2.1
      List.nodup_nil
  · exact forall_set (fun x : GoMap QueryCID Money => x.keys.Nodup) _ _ _ hwf.2.2.2
      List.nodup_nil
  · show sum2 (d.Deposits.set d.NextId []) + d.Slashed + sum2 (d.PendingFees.set d.NextId []) +
      sum1 d.SettledFees + sum1 d.SettledRoyalties = d.accounted
    rw [sum2_set_nil _ _ hn1, sum2_set_nil _ _ hn2]
    rfl

theorem sum2_set2 {A B : Type} [DecidableEq A] [DecidableEq B] {m m' : GoMap A (GoMap B Money)}
    {a : A} {b : B} {v : Money} (h : set2 m a b v = .ok m') :
    sum2 m' + (get2 m a b).getD 0 = sum2 m + v := by
  obtain ⟨hmem, rfl⟩ := set2_eq_ok h
  obtain ⟨inner, hin⟩ := (GoMap.mem_keys_iff _ _).1 hmem
  have h1 := sum2_modify m a (fun inner => inner.set b v) inner hin
  have h2 := sum1_set inner b v
  rw [get2_getD_eq b hin]
  simp only [Money] at *
  omega

theorem set2_keys {A B V : Type} [DecidableEq A] [DecidableEq B] {m m' : GoMap A (GoMap B V)}
    {a : A} {b : B} {v : V} (h : set2 m a b v = .ok m') : m'.keys = m.keys := by
  rw [(set2_eq_ok h).2]; exact GoMap.keys_modify _ _ _

theorem set2_nodup {A B V : Type} [DecidableEq A] [DecidableEq B] {m m' : GoMap A (GoMap B V)}
    {a : A} {b : B} {v : V} (h : set2 m a b v = .ok m') (hm : ∀ kv ∈ m, kv.2.keys.Nodup) :
    ∀ kv ∈ m', kv.2.keys.Nodup := by
  rw [(set2_eq_ok h).2]
  exact forall_modify (fun x : GoMap B V => x.keys.Nodup) _ _ _ hm
    (fun x hx => GoMap.nodup_keys_set hx _ _)

theorem Deposit_conserves {d d' : DB3} {ctx : CallContext} {dbid : DBId}
    (h : d.Deposit ctx dbid = .ok d') (hwf : d.WF) :
    d'.WF ∧ d'.NextId = d.NextId ∧ d'.accounted % U64 = (d.accounted + ctx.Amount) % U64 := by
  simp only [DB3.Deposit] at h
  split at h
  · simp at h
  · split at h
    · simp at h
    · cases hs : set2 d.Deposits dbid ctx.Caller
          (Money.add ((get2 d.Deposits dbid ctx.Caller).getD 0) ctx.Amount) with
      | error e => simp [hs] at h
      | ok m =>
        simp only [hs, ok_bind, pure_eq_ok, Except.ok.injEq] at h
        rw [← h]
        refine ⟨⟨?_, hwf.2.1, set2_nodup hs hwf.2.2.1, hwf.2.2.2⟩, rfl, ?_⟩
        · intro k hk
          have hk' : k ∈ m.keys := hk
          rw [set2_keys hs] at hk'
          exact hwf.1 k hk'
        · have h1 := sum2_set2 hs
          simp only [DB3.accounted, Money.add, U64_eq] at h1 ⊢
          simp only [Money] at *
          omega

theorem Withdraw_conserves {d d' : DB3} {ctx : CallContext} {dbid : DBId} {out : List Transfer}
    (h : d.Withdraw ctx dbid = .ok (d', out)) (hwf : d.WF) :
    d'.WF ∧ d'.NextId = d.NextId ∧ d'.accounted + sent out = d.accounted := by
  simp only [DB3.Withdraw] at h
  split at h
  · simp at h
  · split at h
    · simp at h
    · next deposit hdep =>
      simp only [Except.ok.injEq, Prod.mk.injEq] at h
      obtain ⟨rfl, rfl⟩ := h
      refine ⟨⟨?_, hwf.2.1, ?_, hwf.2.2.2⟩, rfl, ?_⟩
      · intro k hk
        have hk' : k ∈ (del2 d.Deposits dbid ctx.Caller).keys := hk
        unfold del2 at hk'
        rw [GoMap.keys_modify] at hk'
        exact hwf.1 k hk'
      · exact forall_modify (fun x : GoMap AccountID Money => x.keys.Nodup) _ _ _ hwf.2.2.1
          (fun x hx => GoMap.nodup_keys_del hx _)
      · have h1 := sum2_del2 d.Deposits dbid ctx.Caller hwf.2.2.1
        rw [hdep] at h1
        rw [sent_single]
        simp only [DB3.accounted, Option.getD_some] at h1 ⊢
        simp only [Money] at *
        omega

theorem Register_frame {d d' : DB3} {ctx : CallContext} {dbid : DBId} {uri : ApiEndpoint}
    (h : d.Register ctx dbid uri = .ok d') : d' = { d with ApiRegistry := d'.ApiRegistry } := by
  simp only [DB3.Register] at h
  split at h
  · simp at h
  · split at h
    · simp at h
    · split at h
      · simp only [Except.ok.injEq] at h; rw [← h]
      · cases hs : set2 d.ApiRegistry dbid ctx.Caller uri with
        | error e => simp [hs] at h
        | ok m => simp only [hs, ok_bind, pure_eq_ok, Except.ok.injEq] at h; rw [← h]

theorem EscrowFee_conserves {d d' : DB3} {ctx : CallContext} {dbid : DBId} {qid : QueryCID}
    {ttl : Int} (h : d.EscrowFee ctx dbid qid ttl = .ok d') (hwf : d.WF) :
    d'.WF ∧ d'.NextId = d.NextId ∧ d'.accounted % U64 = (d.accounted + ctx.Amount) % U64 := by
  simp only [DB3.EscrowFee] at h
  split at h
  · simp at h
  · split at h
    · simp at h
    · cases hs : set2 d.PendingFees dbid qid
          (Money.add ((get2 d.PendingFees dbid qid).getD 0) ctx.Amount) with
      | error e => simp [hs] at h
      | ok m =>
        cases hs' : set2 d.ResultTTL dbid qid ttl with
        | error e => simp [hs, hs'] at h
        | ok m' =>
          simp only [hs, hs', ok_bind, pure_eq_ok, Except.ok.injEq] at h
          rw [← h]
          refine ⟨⟨hwf.1, ?_, hwf.2.2.1, set2_nodup hs hwf.2.2.2⟩, rfl, ?_⟩
          · intro k hk
            have hk' : k ∈ m.keys := hk
            rw [set2_keys hs] at hk'
            exact hwf.2.1 k hk'
          · have h1 := sum2_set2 hs
            simp only [DB3.accounted, Money.add, U64_eq] at h1 ⊢
            simp only [Money] at *
            omega

theorem storeResult_frame {d d' : DB3} {ctx : CallContext} {dbid : DBId} {qid : QueryCID}
    {rid : ResultCID} (h : d.storeResult ctx dbid qid rid = .ok d') :
    d' = { d with PendingResults := d'.PendingResults } := by
  simp only [DB3.storeResult] at h
  split at h
  · cases hs : set2 d.PendingResults dbid qid ([] : GoMap AccountID ResultCID) with
    | error e => simp [hs] at h
    | ok m => simp only [hs, ok_bind, pure_eq_ok, Except.ok.injEq] at h; rw [← h]
  · simp only [ok_bind, pure_eq_ok, Except.ok.injEq] at h; rw [← h]

theorem Settle_frame {d d' : DB3} {ctx : CallContext} {dbid : DBId} {qid : QueryCID}
    {rid : ResultCID} (h : d.Settle ctx dbid qid rid = .ok d') :
    d' = { d with ResultTTL := d'.ResultTTL, PendingResults := d'.PendingResults } := by
  simp only [DB3.Settle] at h
  split at h
  · simp at h
  · split at h
    · simp at h
    · split at h
      · cases hs : set2 d.ResultTTL dbid qid (wrapInt64 (ctx.Height + MAX_BLOCKS_TO_SETTLE)) with
        | error e => simp [hs] at h
        | ok m =>
          simp only [hs, ok_bind] at h
          rw [storeResult_frame h]
      · split at h
        · simp only [Except.ok.injEq] at h; rw [← h]
        · rw [storeResult_frame h]

theorem ClaimFees_conserves {d d' : DB3} {ctx : CallContext} {out : List Transfer}
    (h : d.ClaimFees ctx = .ok (d', out)) (hwf : d.WF) :
    d'.WF ∧ d'.NextId = d.NextId ∧ (d'.accounted + sent out) % U64 = d.accounted % U64 := by
  simp only [DB3.ClaimFees] at h
  cases hf : d.finalizeResults ctx with
  | error e => simp [hf] at h
  | ok d₁ =>
    obtain ⟨w, i, c⟩ := finalizeResults_conserves hf hwf
    simp only [hf, ok_bind, pure_eq_ok] at h
    split at h
    · simp only [Except.ok.injEq, Prod.mk.injEq] at h
      obtain ⟨rfl, rfl⟩ := h
      refine ⟨w, i, ?_⟩
      have h1 := sum1_set d₁.SettledFees ctx.Caller
        (Money.sub ((d₁.SettledFees.get? ctx.Caller).getD 0)
          ((d₁.SettledFees.get? ctx.Caller).getD 0))
      rw [Money.sub_self] at h1 ⊢
      rw [sent_single, ← c]
      simp only [DB3.accounted, U64_eq] at h1 ⊢
      simp only [Money] at *
      omega
    · simp only [Except.ok.injEq, Prod.mk.injEq] at h
      obtain ⟨rfl, rfl⟩ := h
      exact ⟨w, i, by rw [sent_nil]; exact c⟩

theorem ClaimRoyalties_conserves {d d' : DB3} {ctx : CallContext} {out : List Transfer}
    (h : d.ClaimRoyalties ctx = .ok (d', out)) (hwf : d.WF) :
    d'.WF ∧ d'.NextId = d.NextId ∧ (d'.accounted + sent out) % U64 = d.accounted % U64 := by
  simp only [DB3.ClaimRoyalties] at h
  cases hf : d.finalizeResults ctx with
  | error e => simp [hf] at h
  | ok d₁ =>
    obtain ⟨w, i, c⟩ := finalizeResults_conserves hf hwf
    simp only [hf, ok_bind, pure_eq_ok] at h
    split at h
    · simp only [Except.ok.injEq, Prod.mk.injEq] at h
      obtain ⟨rfl, rfl⟩ := h
      refine ⟨w, i, ?_⟩
      have h1 := sum1_set d₁.SettledRoyalties ctx.Caller
        (Money.sub ((d₁.SettledRoyalties.get? ctx.Caller).getD 0)
          ((d₁.SettledRoyalties.get? ctx.Caller).getD 0))
      rw [Money.sub_self] at h1 ⊢
      rw [sent_single, ← c]
      simp only [DB3.accounted, U64_eq] at h1 ⊢
      simp only [Money] at *
      omega
    · simp only [Except.ok.injEq, Prod.mk.injEq] at h
      obtain ⟨rfl, rfl⟩ := h
      exact ⟨w, i, by rw [sent_nil]; exact c⟩

theorem Recover_conserves {d d' : DB3} {ctx : CallContext} {amount : Money} {target : AccountID}
    {out : List Transfer} (h : d.Recover ctx amount target = .ok (d', out)) (hwf : d.WF) :
    d'.WF ∧ d'.NextId = d.NextId ∧ (d'.accounted + sent out) % U64 = d.accounted % U64 := by
  simp only [DB3.Recover] at h
  split at h
  · simp at h
  · split at h
    · simp at h
    · simp only [Except.ok.injEq, Prod.mk.injEq] at h
      obtain ⟨rfl, rfl⟩ := h
      refine ⟨hwf, rfl, ?_⟩
      rw [sent_single]
      simp only [DB3.accounted, Money.sub, U64_eq]
      simp only [Money] at *
      omega

/-- Every call that does not abort keeps the invariant of the books, assigns at most one new
database id, and changes the accounted funds plus the transfers by the credited amount,
modulo `2^64`. -/
theorem call_conserves {d d' : DB3} {ctx : CallContext} {op : Op} {out : List Transfer}
    (h : d.call ctx op = .ok (d', out)) (hwf : d.WF) (hid : d.NextId + 1 < U64) :
    d'.WF ∧ d'.NextId ≤ d.NextId + 1 ∧
      (d'.accounted + sent out) % U64 = (d.accounted + credited (ctx, op)) % U64 := by
  cases op with
  | deploy m =>
    simp only [DB3.call, Except.ok.injEq, Prod.mk.injEq] at h
    obtain ⟨rfl, rfl⟩ := h
    obtain ⟨w, i, c⟩ := Deploy_conserves d ctx m hwf hid
    exact ⟨w, le_of_eq i, by rw [c]; rfl⟩
  | deposit dbid =>
    simp only [DB3.call] at h
    cases hd : d.Deposit ctx dbid with
    | error e => simp [hd, Except.map] at h
    | ok d₁ =>
      simp only [hd, Except.map, Except.ok.injEq, Prod.mk.injEq] at h
      obtain ⟨rfl, rfl⟩ := h
      obtain ⟨w, i, c⟩ := Deposit_conserves hd hwf
      exact ⟨w, by rw [i]; exact Nat.le_succ _, by rw [sent_nil]; exact c⟩
  | withdraw dbid =>
    simp only [DB3.call] at h
    obtain ⟨w, i, c⟩ := Withdraw_conserves h hwf
    exact ⟨w, by rw [i]; exact Nat.le_succ _, by rw [c]; rfl⟩
  | register dbid uri =>
    simp only [DB3.call] at h
    cases hd : d.Register ctx dbid uri with
    | error e => simp [hd, Except.map] at h
    | ok d₁ =>
      simp only [hd, Except.map, Except.ok.injEq, Prod.mk.injEq] at h
      obtain ⟨rfl, rfl⟩ := h
      have hf := Register_frame hd
      refine ⟨WF_of_eq (by rw [hf]) (by rw [hf]) (by rw [hf]) hwf, by rw [hf]; exact Nat.le_succ _, ?_⟩
      rw [hf]; rfl
  | escrowFee dbid qid ttl =>
    simp only [DB3.call] at h
    cases hd : d.EscrowFee ctx dbid qid ttl with
    | error e => simp [hd, Except.map] at h
    | ok d₁ =>
      simp only [hd, Except.map, Except.ok.injEq, Prod.mk.injEq] at h
      obtain ⟨rfl, rfl⟩ := h
      obtain ⟨w, i, c⟩ := EscrowFee_conserves hd hwf
      exact ⟨w, by rw [i]; exact Nat.le_succ _, by rw [sent_nil]; exact c⟩
  | settle dbid qid rid =>
    simp only [DB3.call] at h
    cases hd : d.Settle ctx dbid qid rid with
    | error e => simp [hd, Except.map] at h
    | ok d₁ =>
      simp only [hd, Except.map, Except.ok.injEq, Prod.mk.injEq] at h
      obtain ⟨rfl, rfl⟩ := h
      have hf := Settle_frame hd
      refine ⟨WF_of_eq (by rw [hf]) (by rw [hf]) (by rw [hf]) hwf, by rw [hf]; exact Nat.le_succ _, ?_⟩
      rw [hf]; rfl
  | claimFees =>
    simp only [DB3.call] at h
    obtain ⟨w, i, c⟩ := ClaimFees_conserves h hwf
    exact ⟨w, by rw [i]; exact Nat.le_succ _, c⟩
  | claimRoyalties =>
    simp only [DB3.call] at h
    obtain ⟨w, i, c⟩ := ClaimRoyalties_conserves h hwf
    exact ⟨w, by rw [i]; exact Nat.le_succ _, c⟩
  | recover amount target =>
    simp only [DB3.call] at h
    obtain ⟨w, i, c⟩ := Recover_conserves h hwf
    exact ⟨w, by rw [i]; exact Nat.le_succ _, c⟩

/-- The books of a world balance: accounted funds plus transfers equal, modulo `2^64`, the
amounts credited by the calls that did not abort. -/
theorem exec_conserves (w : World) (c : CallContext × Op) (hwf : w.db.WF)
    (hid : w.db.NextId + 1 < U64)
    (hc : (w.db.accounted + sent w.out) % U64 = w.paidIn % U64) :
    (w.exec c).db.WF ∧ (w.exec c).db.NextId ≤ w.db.NextId + 1 ∧
      ((w.exec c).db.accounted + sent (w.exec c).out) % U64 = (w.exec c).paidIn % U64 := by
  obtain ⟨ctx, op⟩ := c
  unfold World.exec
  cases hcall : w.db.call ctx op with
  | error e => exact ⟨hwf, Nat.le_succ _, hc⟩
  | ok r =>
    obtain ⟨db, out⟩ := r
    simp only
    split
    · exact ⟨hwf, Nat.le_succ _, hc⟩
    · obtain ⟨w', i, c'⟩ := call_conserves hcall hwf hid
      refine ⟨w', i, ?_⟩
      simp only [World.paidIn, List.map_append, List.sum_append, List.map_cons, List.map_nil,
        List.sum_cons, List.sum_nil, sent_append] at hc ⊢
      rw [U64_eq] at *
      generalize (List.map credited w.calls).sum = p at *
      omega

theorem run_conserves (cs : List (CallContext × Op)) :
    ∀ w : World, w.db.WF → w.db.NextId + cs.length < U64 →
      (w.db.accounted + sent w.out) % U64 = w.paidIn % U64 →
      ((w.run cs).db.accounted + sent (w.run cs).out) % U64 = (w.run cs).paidIn % U64 := by
  induction cs with
  | nil => intro w _ _ hc; exact hc
  | cons c cs ih =>
    intro w hwf hid hc
    simp only [List.length_cons] at hid
    obtain ⟨w', i, c'⟩ := exec_conserves w c hwf (by simp only [DBId] at *; omega) hc
    exact ih (w.exec c) w' (by simp only [DBId] at *; omega) c'

/-! ## The election: independence of the order of the votes -/

namespace Election

theorem count_perm {e₁ e₂ : Election} (h : e₁.votes.Perm e₂.votes) (c : ResultCID) :
    e₁.count c = e₂.count c := by
  unfold count
  exact (h.filter _).length_eq

theorem Consistent.superMajority_eq_filter {e : Election} (hc : e.Consistent) :
    e.SuperMajority =
      e.votes.filter (fun v => decide (meetsThreshold (e.count v.ResultCID) e.NumVoters)) := by
  unfold SuperMajority
  apply List.filter_congr
  intro v _
  rw [hc.getD]
  rfl

theorem Consistent.minority_eq_filter {e : Election} (hc : e.Consistent) :
    e.Minority =
      e.votes.filter (fun v => decide (¬ meetsThreshold (e.count v.ResultCID) e.NumVoters)) := by
  unfold Minority
  apply List.filter_congr
  intro v _
  rw [hc.getD]
  simp [meetsThreshold, cutoff, NumVoters]

/-- Two consistent elections whose vote lists are permutations of each other have the same
partitions, up to the order, and give the same answers. -/
theorem Consistent.perm {e₁ e₂ : Election} (h₁ : e₁.Consistent) (h₂ : e₂.Consistent)
    (h : e₁.votes.Perm e₂.votes) :
    e₁.SuperMajority.Perm e₂.SuperMajority ∧ e₁.Minority.Perm e₂.Minority ∧
      e₁.IsUnanimous = e₂.IsUnanimous ∧ e₁.IsSuperMajority = e₂.IsSuperMajority := by
  have hn : e₁.NumVoters = e₂.NumVoters := h.length_eq
  have hcnt : ∀ c, e₁.count c = e₂.count c := count_perm h
  refine ⟨?_, ?_, ?_, ?_⟩
  · rw [h₁.superMajority_eq_filter, h₂.superMajority_eq_filter]
    simp only [hcnt, hn]
    exact h.filter _
  · rw [h₁.minority_eq_filter, h₂.minority_eq_filter]
    simp only [hcnt, hn]
    exact h.filter _
  · rw [Bool.eq_iff_iff, h₁.isUnanimous_iff, h₂.isUnanimous_iff,
      ((h.map Vote.ResultCID).dedup).length_eq]
  · rw [Bool.eq_iff_iff, h₁.isSuperMajority_iff, h₂.isSuperMajority_iff]
    simp only [hcnt, hn]

end Election

/-- C11: two sequences of `AddVote` calls that are permutations of each other give elections
whose `SuperMajority()` hold the same votes (the same set, and the same list up to the order),
whose `Minority()` hold the same votes, and whose `IsUnanimous()` and `IsSuperMajority()` agree. -/
theorem election_order_independent (l₁ l₂ : List (AccountID × ResultCID)) (h : l₁.Perm l₂) :
    (∀ v, v ∈ (Election.ofVotes l₁).SuperMajority ↔ v ∈ (Election.ofVotes l₂).SuperMajority) ∧
      (∀ v, v ∈ (Election.ofVotes l₁).Minority ↔ v ∈ (Election.ofVotes l₂).Minority) ∧
      (Election.ofVotes l₁).SuperMajority.Perm (Election.ofVotes l₂).SuperMajority ∧
      (Election.ofVotes l₁).Minority.Perm (Election.ofVotes l₂).Minority ∧
      (Election.ofVotes l₁).IsUnanimous = (Election.ofVotes l₂).IsUnanimous ∧
      (Election.ofVotes l₁).IsSuperMajority = (Election.ofVotes l₂).IsSuperMajority := by
  have hv : (Election.ofVotes l₁).votes.Perm (Election.ofVotes l₂).votes := by
    rw [Election.votes_ofVotes, Election.votes_ofVotes]
    exact h.map _
  obtain ⟨p1, p2, p3, p4⟩ :=
    (Election.consistent_ofVotes l₁).perm (Election.consistent_ofVotes l₂) hv
  exact ⟨fun v => p1.mem_iff, fun v => p2.mem_iff, p1, p2, p3, p4⟩

/-- A witness of C11: the votes of `TestMajority3` in two orders. -/
theorem election_order_independent_witness :
    ([("A", "cid-1"), ("B", "cid-1"), ("C", "cid-2")] : List (AccountID × ResultCID)).Perm
        [("C", "cid-2"), ("A", "cid-1"), ("B", "cid-1")] ∧
      (Election.ofVotes [("A", "cid-1"), ("B", "cid-1"), ("C", "cid-2")]).SuperMajority.Perm
        (Election.ofVotes [("C", "cid-2"), ("A", "cid-1"), ("B", "cid-1")]).SuperMajority :=
  ⟨by decide,
   (election_order_independent [("A", "cid-1"), ("B", "cid-1"), ("C", "cid-2")]
      [("C", "cid-2"), ("A", "cid-1"), ("B", "cid-1")] (by decide)).2.2.1⟩

/-! ## The operations: what a call that does not panic does -/

theorem get2_modify_set_self {A B V : Type} [DecidableEq A] [DecidableEq B]
    (m : GoMap A (GoMap B V)) (a : A) (b : B) (v : V) (h : a ∈ m.keys) :
    get2 (m.modify a (fun inner => inner.set b v)) a b = some v := by
  obtain ⟨x, hx⟩ := (GoMap.mem_keys_iff m a).1 h
  simp [get2, GoMap.get?_modify_self, hx]

theorem get2_modify_set_of_ne {A B V : Type} [DecidableEq A] [DecidableEq B]
    (m : GoMap A (GoMap B V)) (a a' : A) (b b' : B) (v : V) (h : ¬ (a = a' ∧ b = b')) :
    get2 (m.modify a (fun inner => inner.set b v)) a' b' = get2 m a' b' := by
  unfold get2
  by_cases ha : a = a'
  · subst ha
    have hb : b ≠ b' := fun hb => h ⟨rfl, hb⟩
    rw [GoMap.get?_modify_self]
    cases m.get? a <;> simp [GoMap.get?_set_of_ne _ hb]
  · rw [GoMap.get?_modify_of_ne _ ha]

theorem get2_set_nil {A B V : Type} [DecidableEq A] [DecidableEq B]
    (m : GoMap A (GoMap B V)) (a a' : A) (b : B) :
    get2 (m.set a []) a' b = if a = a' then none else get2 m a' b := by
  unfold get2
  rw [GoMap.get?_set]
  by_cases ha : a = a' <;> simp [ha]

theorem Deposit_inv {d d' : DB3} {ctx : CallContext} {dbid : DBId}
    (h : d.Deposit ctx dbid = .ok d') :
    dbid < d.NextId ∧
      ¬ Money.add (d.depositOf dbid ctx.Caller) ctx.Amount < SECURITY_DEPOSIT ∧
      dbid ∈ d.Deposits.keys ∧
      d' = { d with Deposits := d.Deposits.modify dbid (fun inner =>
          inner.set ctx.Caller (Money.add (d.depositOf dbid ctx.Caller) ctx.Amount)) } := by
  simp only [DB3.Deposit] at h
  split at h
  · simp at h
  · next h1 =>
    split at h
    · simp at h
    · next h2 =>
      cases hs : set2 d.Deposits dbid ctx.Caller
          (Money.add ((get2 d.Deposits dbid ctx.Caller).getD 0) ctx.Amount) with
      | error e => simp [hs] at h
      | ok m =>
        simp only [hs, ok_bind, pure_eq_ok, Except.ok.injEq] at h
        obtain ⟨hm, rfl⟩ := set2_eq_ok hs
        exact ⟨not_le.1 h1, h2, hm, h.symm⟩

theorem Deposit_ok {d : DB3} {ctx : CallContext} {dbid : DBId} (h1 : dbid < d.NextId)
    (h2 : ¬ Money.add (d.depositOf dbid ctx.Caller) ctx.Amount < SECURITY_DEPOSIT)
    (h3 : dbid ∈ d.Deposits.keys) :
    d.Deposit ctx dbid = .ok { d with Deposits := d.Deposits.modify dbid (fun inner =>
      inner.set ctx.Caller (Money.add (d.depositOf dbid ctx.Caller) ctx.Amount)) } := by
  unfold DB3.depositOf at h2
  simp only [DB3.Deposit, ge_iff_le, not_le.2 h1, if_false, h2, set2_ok _ _ _ _ h3, ok_bind,
    pure_eq_ok]
  rfl

theorem Withdraw_inv {d d' : DB3} {ctx : CallContext} {dbid : DBId} {out : List Transfer}
    (h : d.Withdraw ctx dbid = .ok (d', out)) :
    dbid < d.NextId ∧ ∃ deposit, get2 d.Deposits dbid ctx.Caller = some deposit ∧
      d' = { d with Deposits := del2 d.Deposits dbid ctx.Caller } ∧
      out = [(ctx.Caller, deposit)] := by
  simp only [DB3.Withdraw] at h
  split at h
  · simp at h
  · next h1 =>
    split at h
    · simp at h
    · next deposit hdep =>
      simp only [Except.ok.injEq, Prod.mk.injEq] at h
      exact ⟨not_le.1 h1, deposit, hdep, h.1.symm, h.2.symm⟩

theorem Register_inv {d d' : DB3} {ctx : CallContext} {dbid : DBId} {uri : ApiEndpoint}
    (h : d.Register ctx dbid uri = .ok d') :
    dbid < d.NextId ∧ SECURITY_DEPOSIT ≤ d.depositOf dbid ctx.Caller ∧
      ((uri = "" ∧ d' = { d with ApiRegistry := del2 d.ApiRegistry dbid ctx.Caller }) ∨
        (uri ≠ "" ∧ dbid ∈ d.ApiRegistry.keys ∧
          d' = { d with ApiRegistry :=
            d.ApiRegistry.modify dbid (fun inner => inner.set ctx.Caller uri) })) := by
  simp only [DB3.Register] at h
  split at h
  · simp at h
  · next h1 =>
    split at h
    · simp at h
    · next h2 =>
      refine ⟨not_le.1 h1, not_lt.1 h2, ?_⟩
      split at h
      · next hu =>
        simp only [Except.ok.injEq] at h
        exact Or.inl ⟨hu, h.symm⟩
      · next hu =>
        cases hs : set2 d.ApiRegistry dbid ctx.Caller uri with
        | error e => simp [hs] at h
        | ok m =>
          simp only [hs, ok_bind, pure_eq_ok, Except.ok.injEq] at h
          obtain ⟨hm, rfl⟩ := set2_eq_ok hs
          exact Or.inr ⟨hu, hm, h.symm⟩

theorem EscrowFee_inv {d d' : DB3} {ctx : CallContext} {dbid : DBId} {qid : QueryCID}
    {ttl : Int} (h : d.EscrowFee ctx dbid qid ttl = .ok d') :
    dbid < d.NextId ∧ ctx.Height ≤ ttl ∧ dbid ∈ d.PendingFees.keys ∧ dbid ∈ d.ResultTTL.keys ∧
      d' = { d with
        PendingFees := d.PendingFees.modify dbid (fun inner =>
          inner.set qid (Money.add ((get2 d.PendingFees dbid qid).getD 0) ctx.Amount))
        ResultTTL := d.ResultTTL.modify dbid (fun inner => inner.set qid ttl) } := by
  simp only [DB3.EscrowFee] at h
  split at h
  · simp at h
  · next h1 =>
    split at h
    · simp at h
    · next h2 =>
      cases hs : set2 d.PendingFees dbid qid
          (Money.add ((get2 d.PendingFees dbid qid).getD 0) ctx.Amount) with
      | error e => simp [hs] at h
      | ok m =>
        cases hs' : set2 d.ResultTTL dbid qid ttl with
        | error e => simp [hs, hs'] at h
        | ok m' =>
          simp only [hs, hs', ok_bind, pure_eq_ok, Except.ok.injEq] at h
          obtain ⟨hm, rfl⟩ := set2_eq_ok hs
          obtain ⟨hm', rfl⟩ := set2_eq_ok hs'
          exact ⟨not_le.1 h1, not_lt.1 h2, hm, hm', h.symm⟩

theorem GoMap.get?_modify {K V : Type} [DecidableEq K] (m : GoMap K V) (k k' : K) (f : V → V) :
    (m.modify k f).get? k' = if k = k' then (m.get? k').map f else m.get? k' := by
  by_cases h : k = k'
  · subst h; simp [GoMap.get?_modify_self]
  · simp [h, GoMap.get?_modify_of_ne _ h]

/-- The vote map after `storeResult` wrote into `pr`, in which `(dbid, qid)` has a sub map. -/
theorem voteOf_store (pr : GoMap DBId (GoMap QueryCID (GoMap AccountID ResultCID)))
    (dbid : DBId) (qid : QueryCID) (caller : AccountID) (rid : ResultCID)
    (votes : GoMap AccountID ResultCID) (hv : get2 pr dbid qid = some votes)
    (k : DBId) (q : QueryCID) (h : AccountID) :
    (get2 (pr.modify dbid (fun qs => qs.modify qid (fun vs => vs.set caller rid))) k q).bind
        (fun vs => vs.get? h) =
      if k = dbid ∧ q = qid ∧ h = caller then some rid
      else (get2 pr k q).bind (fun vs => vs.get? h) := by
  obtain ⟨qs, h1, h2⟩ := get2_eq_some hv
  unfold get2
  rw [GoMap.get?_modify]
  by_cases hk : dbid = k
  · subst hk
    simp only [if_true, h1, Option.map_some', Option.some_bind, true_and]
    rw [GoMap.get?_modify]
    by_cases hq : qid = q
    · subst hq
      simp only [if_true, h2, Option.map_some', Option.some_bind, true_and]
      rw [GoMap.get?_set]
      by_cases hh : caller = h
      · subst hh; simp
      · simp [hh, Ne.symm hh]
    · simp [hq, Ne.symm hq]
  · simp [hk, Ne.symm hk]

theorem storeResult_inv {d d' : DB3} {ctx : CallContext} {dbid : DBId} {qid : QueryCID}
    {rid : ResultCID} (h : d.storeResult ctx dbid qid rid = .ok d') :
    d' = { d with PendingResults := d'.PendingResults } ∧
      d'.PendingResults.keys = d.PendingResults.keys ∧ dbid ∈ d.PendingResults.keys ∧
      ∀ k q a, d'.voteOf k q a =
        if k = dbid ∧ q = qid ∧ a = ctx.Caller then some rid else d.voteOf k q a := by
  simp only [DB3.storeResult] at h
  split at h
  · next hnone =>
    cases hs : set2 d.PendingResults dbid qid ([] : GoMap AccountID ResultCID) with
    | error e => simp [hs] at h
    | ok m =>
      simp only [hs, ok_bind, pure_eq_ok, Except.ok.injEq] at h
      obtain ⟨hm, rfl⟩ := set2_eq_ok hs
      rw [← h]
      refine ⟨rfl, by simp, hm, ?_⟩
      intro k q a
      have hv : get2 (d.PendingResults.modify dbid (fun inner => inner.set qid []))
          dbid qid = some ([] : GoMap AccountID ResultCID) := get2_modify_set_self _ _ _ _ hm
      show (get2 _ k q).bind _ = _
      rw [voteOf_store _ dbid qid ctx.Caller rid [] hv]
      by_cases hkq : dbid = k ∧ qid = q
      · obtain ⟨rfl, rfl⟩ := hkq
        by_cases ha : a = ctx.Caller
        · simp [ha]
        · simp [ha, hv, DB3.voteOf, hnone]
      · have hne : ¬ (k = dbid ∧ q = qid ∧ a = ctx.Caller) := fun hh => hkq ⟨hh.1.symm, hh.2.1.symm⟩
        rw [if_neg hne, if_neg hne, get2_modify_set_of_ne _ _ _ _ _ _ hkq]
        rfl
  · next votes hsome =>
    simp only [ok_bind, pure_eq_ok, Except.ok.injEq] at h
    rw [← h]
    obtain ⟨qs, h1, _⟩ := get2_eq_some hsome
    refine ⟨rfl, by simp, (GoMap.mem_keys_iff _ _).2 ⟨qs, h1⟩, ?_⟩
    intro k q a
    exact voteOf_store _ dbid qid ctx.Caller rid votes hsome k q a

theorem storeResult_ok (d : DB3) (ctx : CallContext) (dbid : DBId) (qid : QueryCID)
    (rid : ResultCID) (h : dbid ∈ d.PendingResults.keys) :
    ∃ d', d.storeResult ctx dbid qid rid = .ok d' := by
  simp only [DB3.storeResult]
  split
  · rw [set2_ok _ _ _ _ h]; exact ⟨_, rfl⟩
  · exact ⟨_, rfl⟩

theorem Settle_inv {d d' : DB3} {ctx : CallContext} {dbid : DBId} {qid : QueryCID}
    {rid : ResultCID} (h : d.Settle ctx dbid qid rid = .ok d') :
    dbid < d.NextId ∧ SECURITY_DEPOSIT ≤ d.depositOf dbid ctx.Caller ∧
      ((get2 d.ResultTTL dbid qid = none ∧ dbid ∈ d.ResultTTL.keys ∧
          DB3.storeResult { d with ResultTTL := d.ResultTTL.modify dbid (fun inner =>
            inner.set qid (wrapInt64 (ctx.Height + MAX_BLOCKS_TO_SETTLE))) } ctx dbid qid rid =
              .ok d') ∨
        (∃ ttl, get2 d.ResultTTL dbid qid = some ttl ∧ ttl ≤ ctx.Height ∧ d' = d) ∨
        (∃ ttl, get2 d.ResultTTL dbid qid = some ttl ∧ ctx.Height < ttl ∧
          d.storeResult ctx dbid qid rid = .ok d')) := by
  simp only [DB3.Settle] at h
  split at h
  · simp at h
  · next h1 =>
    split at h
    · simp at h
    · next h2 =>
      refine ⟨not_le.1 h1, not_lt.1 h2, ?_⟩
      split at h
      · next hnone =>
        cases hs : set2 d.ResultTTL dbid qid (wrapInt64 (ctx.Height + MAX_BLOCKS_TO_SETTLE)) with
        | error e => simp [hs] at h
        | ok m =>
          simp only [hs, ok_bind] at h
          obtain ⟨hm, rfl⟩ := set2_eq_ok hs
          exact Or.inl ⟨hnone, hm, h⟩
      · next ttl hsome =>
        split at h
        · next hle =>
          simp only [Except.ok.injEq] at h
          exact Or.inr (Or.inl ⟨ttl, hsome, hle, h.symm⟩)
        · next hgt =>
          exact Or.inr (Or.inr ⟨ttl, hsome, not_le.1 hgt, h⟩)

theorem DB3.Static.refl (d : DB3) : d.Static d := ⟨rfl, rfl, rfl, rfl, rfl, rfl, rfl, rfl, rfl⟩

theorem DB3.Static.trans {d₁ d₂ d₃ : DB3} (h₁ : d₁.Static d₂) (h₂ : d₂.Static d₃) : d₁.Static d₃ := by
  obtain ⟨a1, a2, a3, a4, a5, a6, a7, a8, a9⟩ := h₁
  obtain ⟨b1, b2, b3, b4, b5, b6, b7, b8, b9⟩ := h₂
  exact ⟨b1.trans a1, b2.trans a2, b3.trans a3, b4.trans a4, b5.trans a5, b6.trans a6,
    b7.trans a7, b8.trans a8, b9.trans a9⟩

theorem DB3.Static.sameIds {d d' : DB3} (h : d.Static d') : d.SameIds d' := by
  obtain ⟨_, a2, _, _, a5, a6, a7, a8, a9⟩ := h
  exact ⟨a2, by rw [a5], a6, a7, a8, a9⟩

theorem keys_del2 {A B V : Type} [DecidableEq A] [DecidableEq B] (m : GoMap A (GoMap B V))
    (a : A) (b : B) : (del2 m a b).keys = m.keys := GoMap.keys_modify _ _ _

theorem cleanUp_static (d : DB3) (dbid : DBId) (qid : QueryCID) :
    d.Static (d.cleanUp dbid qid) :=
  ⟨rfl, rfl, rfl, rfl, rfl, rfl, keys_del2 _ _ _, keys_del2 _ _ _, keys_del2 _ _ _⟩

theorem splitFee_static {dbid : DBId} {d d' : DB3} {rb : Int} {qid : QueryCID} {F : Money}
    (h : DB3.splitFee d dbid rb qid F = .ok d') : d.Static d' := by
  have hf := splitFee_frame h
  rw [splitFee_eq] at h
  have hk := settleElection_keys h
  have hk' : d'.Deposits.keys = d.Deposits.keys := by
    rw [hk, creditRoyalty_frame]
  refine ⟨?_, ?_, ?_, ?_, ?_, hk', ?_, ?_, ?_⟩ <;> rw [hf]

theorem finalizeQuery_static {ctx : CallContext} {dbid : DBId} {rb : Int} {s s' : DB3}
    {e : QueryCID × Int} (h : DB3.finalizeQuery ctx dbid rb s e = .ok s') : s.Static s' := by
  obtain ⟨q, t⟩ := e
  rcases finalizeQuery_cases h with ⟨_, rfl⟩ | ⟨_, s₁, rfl, ⟨_, rfl⟩ | ⟨_, hsp⟩⟩
  · exact DB3.Static.refl _
  · exact cleanUp_static _ _ _
  · exact (splitFee_static hsp).trans (cleanUp_static _ _ _)

theorem finalizeResults_static {d d' : DB3} {ctx : CallContext}
    (h : d.finalizeResults ctx = .ok d') : d.Static d' := by
  unfold DB3.finalizeResults at h
  refine foldlM_inv (fun s : DB3 => d.Static s) (DB3.finalizeDb ctx)
    (fun s a s' hs hsa => ?_) _ _ _ (DB3.Static.refl d) h
  unfold DB3.finalizeDb at hsa
  exact foldlM_inv (fun s : DB3 => d.Static s) _
    (fun s e s' hs hse => hs.trans (finalizeQuery_static hse)) _ _ _ hs hsa

theorem ClaimFees_static {d d' : DB3} {ctx : CallContext} {out : List Transfer}
    (h : d.ClaimFees ctx = .ok (d', out)) : d.Static d' := by
  obtain ⟨d₁, hf, e⟩ := ClaimFees_pending h
  have hs := finalizeResults_static hf
  obtain ⟨a1, a2, a3, a4, a5, a6, a7, a8, a9⟩ := hs
  refine ⟨?_, ?_, ?_, ?_, ?_, ?_, ?_, ?_, ?_⟩ <;> rw [e] <;> assumption

theorem ClaimRoyalties_static {d d' : DB3} {ctx : CallContext} {out : List Transfer}
    (h : d.ClaimRoyalties ctx = .ok (d', out)) : d.Static d' := by
  obtain ⟨d₁, hf, e⟩ := ClaimRoyalties_pending h
  have hs := finalizeResults_static hf
  obtain ⟨a1, a2, a3, a4, a5, a6, a7, a8, a9⟩ := hs
  refine ⟨?_, ?_, ?_, ?_, ?_, ?_, ?_, ?_, ?_⟩ <;> rw [e] <;> assumption

theorem Recover_inv {d d' : DB3} {ctx : CallContext} {amount : Money} {target : AccountID}
    {out : List Transfer} (h : d.Recover ctx amount target = .ok (d', out)) :
    ctx.Caller = d.Owner ∧ amount ≤ d.Slashed ∧
      d' = { d with Slashed := Money.sub d.Slashed amount } ∧ out = [(target, amount)] := by
  simp only [DB3.Recover] at h
  split at h
  · simp at h
  · next h1 =>
    split at h
    · simp at h
    · next h2 =>
      simp only [Except.ok.injEq, Prod.mk.injEq] at h
      exact ⟨not_not.1 h1, not_lt.1 h2, h.1.symm, h.2.symm⟩

/-- A call other than `Deploy` assigns no database id and allocates no per-database map. -/
theorem call_sameIds {d d' : DB3} {ctx : CallContext} {op : Op} {out : List Transfer}
    (h : d.call ctx op = .ok (d', out)) (hop : op.isDeploy = false) : d.SameIds d' := by
  cases op with
  | deploy m => simp [Op.isDeploy] at hop
  | deposit dbid =>
    simp only [DB3.call] at h
    cases hd : d.Deposit ctx dbid with
    | error e => simp [hd, Except.map] at h
    | ok d₁ =>
      simp only [hd, Except.map, Except.ok.injEq, Prod.mk.injEq] at h
      obtain ⟨rfl, rfl⟩ := h
      obtain ⟨_, _, _, e⟩ := Deposit_inv hd
      rw [e]
      exact ⟨rfl, rfl, GoMap.keys_modify _ _ _, rfl, rfl, rfl⟩
  | withdraw dbid =>
    simp only [DB3.call] at h
    obtain ⟨_, _, _, e, _⟩ := Withdraw_inv h
    rw [e]
    exact ⟨rfl, rfl, keys_del2 _ _ _, rfl, rfl, rfl⟩
  | register dbid uri =>
    simp only [DB3.call] at h
    cases hd : d.Register ctx dbid uri with
    | error e => simp [hd, Except.map] at h
    | ok d₁ =>
      simp only [hd, Except.map, Except.ok.injEq, Prod.mk.injEq] at h
      obtain ⟨rfl, rfl⟩ := h
      obtain ⟨_, _, ⟨_, e⟩ | ⟨_, _, e⟩⟩ := Register_inv hd
      · rw [e]; exact ⟨rfl, keys_del2 _ _ _, rfl, rfl, rfl, rfl⟩
      · rw [e]; exact ⟨rfl, GoMap.keys_modify _ _ _, rfl, rfl, rfl, rfl⟩
  | escrowFee dbid qid ttl =>
    simp only [DB3.call] at h
    cases hd : d.EscrowFee ctx dbid qid ttl with
    | error e => simp [hd, Except.map] at h
    | ok d₁ =>
      simp only [hd, Except.map, Except.ok.injEq, Prod.mk.injEq] at h
      obtain ⟨rfl, rfl⟩ := h
      obtain ⟨_, _, _, _, e⟩ := EscrowFee_inv hd
      rw [e]
      exact ⟨rfl, rfl, rfl, GoMap.keys_modify _ _ _, rfl, GoMap.keys_modify _ _ _⟩
  | settle dbid qid rid =>
    simp only [DB3.call] at h
    cases hd : d.Settle ctx dbid qid rid with
    | error e => simp [hd, Except.map] at h
    | ok d₁ =>
      simp only [hd, Except.map, Except.ok.injEq, Prod.mk.injEq] at h
      obtain ⟨rfl, rfl⟩ := h
      obtain ⟨_, _, ⟨_, _, hs⟩ | ⟨_, _, _, rfl⟩ | ⟨_, _, _, hs⟩⟩ := Settle_inv hd
      · obtain ⟨e, hk, _, _⟩ := storeResult_inv hs
        rw [e]
        exact ⟨rfl, rfl, rfl, GoMap.keys_modify _ _ _, hk, rfl⟩
      · exact ⟨rfl, rfl, rfl, rfl, rfl, rfl⟩
      · obtain ⟨e, hk, _, _⟩ := storeResult_inv hs
        rw [e]
        exact ⟨rfl, rfl, rfl, rfl, hk, rfl⟩
  | claimFees =>
    simp only [DB3.call] at h
    exact (ClaimFees_static h).sameIds
  | claimRoyalties =>
    simp only [DB3.call] at h
    exact (ClaimRoyalties_static h).sameIds
  | recover amount target =>
    simp only [DB3.call] at h
    obtain ⟨_, _, e, _⟩ := Recover_inv h
    rw [e]
    exact ⟨rfl, rfl, rfl, rfl, rfl, rfl⟩

/-! ## Calls under the host runtime -/

theorem exec_abort {w : World} {c : CallContext × Op} {e : String}
    (h : w.db.call c.1 c.2 = .error e) : w.exec c = w := by
  simp [World.exec, h]

theorem exec_db (w : World) (c : CallContext × Op) :
    (w.exec c).db = w.db ∨ ∃ d' out, w.db.call c.1 c.2 = .ok (d', out) ∧ (w.exec c).db = d' := by
  unfold World.exec
  cases hcall : w.db.call c.1 c.2 with
  | error e => exact Or.inl rfl
  | ok r =>
    obtain ⟨db, out⟩ := r
    simp only
    split
    · exact Or.inl rfl
    · exact Or.inr ⟨db, out, rfl, rfl⟩

theorem exec_deploy (w : World) (ctx : CallContext) (m : Manifest) :
    (w.exec (ctx, .deploy m)).db = (w.db.Deploy ctx m).1 := by
  simp [World.exec, DB3.call, sent]

theorem exec_nextId (w : World) (c : CallContext × Op) (hop : c.2.isDeploy = false) :
    (w.exec c).db.NextId = w.db.NextId := by
  rcases exec_db w c with h | ⟨d', out, hc, h⟩
  · rw [h]
  · rw [h]; exact (call_sameIds hc hop).1

theorem Deploy_allocated (d : DB3) (ctx : CallContext) (m : Manifest) (h : d.Allocated) :
    (d.Deploy ctx m).1.Allocated := by
  intro k hk
  have hk' : k < (d.NextId + 1) % U64 := hk
  have hle : (d.NextId + 1) % U64 ≤ d.NextId + 1 := Nat.mod_le _ _
  have hcase : k = d.NextId ∨ k < d.NextId := by
    simp only [DBId] at *
    omega
  have hmem : ∀ {V : Type} (mp : GoMap DBId V) (v : V), (k < d.NextId → k ∈ mp.keys) →
      k ∈ (mp.set d.NextId v).keys := by
    intro V mp v hin
    rw [GoMap.mem_keys_set]
    rcases hcase with h0 | h0
    · exact Or.inl h0
    · exact Or.inr (hin h0)
  exact ⟨hmem _ _ (fun h0 => (h k h0).1), hmem _ _ (fun h0 => (h k h0).2.1),
    hmem _ _ (fun h0 => (h k h0).2.2.1), hmem _ _ (fun h0 => (h k h0).2.2.2.1),
    hmem _ _ (fun h0 => (h k h0).2.2.2.2)⟩

theorem SameIds.allocated {d d' : DB3} (hs : d.SameIds d') (h : d.Allocated) : d'.Allocated := by
  obtain ⟨a1, a2, a3, a4, a5, a6⟩ := hs
  intro k hk
  rw [a1] at hk
  rw [a2, a3, a4, a5, a6]
  exact h k hk

theorem call_allocated {d d' : DB3} {ctx : CallContext} {op : Op} {out : List Transfer}
    (h : d.call ctx op = .ok (d', out)) (hal : d.Allocated) : d'.Allocated := by
  cases hop : op.isDeploy with
  | false => exact SameIds.allocated (call_sameIds h hop) hal
  | true =>
    cases op with
    | deploy m =>
      simp only [DB3.call, Except.ok.injEq, Prod.mk.injEq] at h
      rw [← h.1]
      exact Deploy_allocated d ctx m hal
    | _ => simp [Op.isDeploy] at hop

theorem exec_allocated (w : World) (c : CallContext × Op) (hal : w.db.Allocated) :
    (w.exec c).db.Allocated := by
  rcases exec_db w c with h | ⟨d', out, hc, h⟩
  · rw [h]; exact hal
  · rw [h]; exact call_allocated hc hal

/-- Every state reached from `NewDB3` has the per-database maps of all assigned ids. -/
theorem run_allocated (cs : List (CallContext × Op)) : (NewWorld.run cs).db.Allocated := by
  have key : ∀ (cs : List (CallContext × Op)) (w : World), w.db.Allocated →
      (w.run cs).db.Allocated := by
    intro cs
    induction cs with
    | nil => intro w h; exact h
    | cons c cs ih => intro w h; exact ih (w.exec c) (exec_allocated w c h)
  refine key cs NewWorld ?_
  intro k hk
  simp [NewWorld, NewDB3] at hk

theorem deployIds_cons_deploy (w : World) (ctx : CallContext) (m : Manifest)
    (cs : List (CallContext × Op)) :
    w.deployIds ((ctx, .deploy m) :: cs) =
      w.db.NextId :: (w.exec (ctx, .deploy m)).deployIds cs := rfl

theorem deployIds_cons_other (w : World) (c : CallContext × Op) (cs : List (CallContext × Op))
    (hop : c.2.isDeploy = false) : w.deployIds (c :: cs) = (w.exec c).deployIds cs := by
  obtain ⟨ctx, op⟩ := c
  cases op <;> first | rfl | simp [Op.isDeploy] at hop

theorem deployIds_range (cs : List (CallContext × Op)) :
    ∀ w : World, w.db.NextId + cs.length < U64 →
      w.deployIds cs = List.range' w.db.NextId (w.deployIds cs).length := by
  induction cs with
  | nil => intro w _; rfl
  | cons c cs ih =>
    intro w hlen
    simp only [List.length_cons] at hlen
    cases hop : c.2.isDeploy with
    | false =>
      have hn := exec_nextId w c hop
      have ih' := ih (w.exec c) (by rw [hn]; simp only [DBId] at *; omega)
      rw [hn] at ih'
      rw [deployIds_cons_other w c cs hop]
      exact ih'
    | true =>
      obtain ⟨ctx, op⟩ := c
      cases op with
      | deploy m =>
        have hn : (w.exec (ctx, .deploy m)).db.NextId = w.db.NextId + 1 := by
          rw [exec_deploy]
          show (w.db.NextId + 1) % U64 = _
          apply Nat.mod_eq_of_lt
          simp only [DBId] at *
          omega
        have ih' := ih (w.exec (ctx, .deploy m)) (by rw [hn]; simp only [DBId] at *; omega)
        rw [hn] at ih'
        rw [deployIds_cons_deploy, List.length_cons, List.range'_succ, ← ih']
      | _ => simp [Op.isDeploy] at hop

/-! ## Deploy -/

/-- C12: `Deploy` returns the `NextId` of before the call and increments `NextId` by one (a
`uint64` increment, which is `NextId + 1` below the wrap); hence in every sequence of fewer than
`2^64` calls starting from `NewDB3` the ids returned by the `Deploy` calls are `0, 1, 2, ...` in
call order (the call number `k + 1` returns `k`) and strictly increasing. In `TestDeploy` the
first id is 0 and the second is 1. -/
theorem deploy_monotone_ids (d : DB3) (ctx : CallContext) (m : Manifest)
    (cs : List (CallContext × Op)) (hlen : cs.length < U64) :
    (d.Deploy ctx m).2 = d.NextId ∧
      (d.Deploy ctx m).1.NextId = (d.NextId + 1) % U64 ∧
      (d.NextId + 1 < U64 → (d.Deploy ctx m).1.NextId = d.NextId + 1) ∧
      NewWorld.deployIds cs = List.range (NewWorld.deployIds cs).length ∧
      (∀ k, k < (NewWorld.deployIds cs).length → (NewWorld.deployIds cs)[k]? = some k) ∧
      (NewWorld.deployIds cs).Pairwise (fun a b => a < b) ∧
      NewWorld.deployIds testDeploy = [0, 1] := by
  have hr : NewWorld.deployIds cs = List.range (NewWorld.deployIds cs).length := by
    have h := deployIds_range cs NewWorld (by simpa [NewWorld, NewDB3] using hlen)
    rw [List.range_eq_range']
    exact h
  refine ⟨rfl, rfl, fun h => Nat.mod_eq_of_lt h, hr, ?_, ?_, by decide⟩
  · intro k hk
    rw [hr, List.getElem?_range]
    · simpa using hk
  · rw [hr]
    exact List.pairwise_lt_range _

/-- A witness of C12: the two calls of `TestDeploy` followed by a deposit and a third
`Deploy`. -/
theorem deploy_monotone_ids_witness :
    (testDeploy ++ [(ctxOf "h1" 10000 10, Op.deposit 0),
        (ctxOf "dev.near" 0 11, Op.deploy (manifestOf 0))]).length < U64 ∧
      NewWorld.deployIds (testDeploy ++ [(ctxOf "h1" 10000 10, Op.deposit 0),
        (ctxOf "dev.near" 0 11, Op.deploy (manifestOf 0))]) = [0, 1, 2] ∧
      (NewWorld.deployIds (testDeploy ++ [(ctxOf "h1" 10000 10, Op.deposit 0),
        (ctxOf "dev.near" 0 11, Op.deploy (manifestOf 0))])).Pairwise (fun a b => a < b) :=
  ⟨by decide, by decide,
   (deploy_monotone_ids NewDB3 (ctxOf "dev.near" 0 11) (manifestOf 0)
      (testDeploy ++ [(ctxOf "h1" 10000 10, Op.deposit 0),
        (ctxOf "dev.near" 0 11, Op.deploy (manifestOf 0))]) (by decide)).2.2.2.2.2.1⟩

/-- C13 (the code against the claim): `Deploy` never aborts and stores every manifest as it is,
whatever its royalty. After the two calls of `TestDeploy` it stores a manifest with a royalty of
-1 and one with a royalty of 10001 under the id 2 and moves `NextId` to 3, where the test
expects a panic and two stored manifests. -/
theorem deploy_accepts_any_royalty (d : DB3) (ctx : CallContext) (m : Manifest) :
    (d.Deploy ctx m).1.Manifests.get? d.NextId = some m ∧
      (d.Deploy ctx m).1.royaltyBips d.NextId = m.RoyaltyBips ∧
      (NewWorld.run testDeploy).db.Manifests.length = 2 ∧
      ((NewWorld.run testDeploy).db.Deploy (ctxOf "sender.near" 0 10) (testRoyalty "Negative royalty" (-1))).2 = 2 ∧
      ((NewWorld.run testDeploy).db.Deploy (ctxOf "sender.near" 0 10)
        (testRoyalty "Negative royalty" (-1))).1.Manifests.length = 3 ∧
      ((NewWorld.run testDeploy).db.Deploy (ctxOf "sender.near" 0 10)
        (testRoyalty "Negative royalty" (-1))).1.royaltyBips 2 = -1 ∧
      ((NewWorld.run testDeploy).db.Deploy (ctxOf "sender.near" 0 10)
        (testRoyalty "large royalty" 10001)).1.royaltyBips 2 = 10001 ∧
      ((NewWorld.run testDeploy).db.Deploy (ctxOf "sender.near" 0 10)
        (testRoyalty "large royalty" 10001)).1.NextId = 3 := by
  have h : (d.Deploy ctx m).1.Manifests.get? d.NextId = some m := GoMap.get?_set_self _ _ _
  refine ⟨h, ?_, by decide, by decide, by decide, by decide, by decide, by decide⟩
  unfold DB3.royaltyBips
  rw [h]
  rfl

/-- C14 (the code against the claim): `Deploy` stores the manifest with the author it was given.
The second call of `TestDeploy` passes a manifest without author as `sender.near`; the stored
author is empty and not the caller, where the test expects the caller. A non-empty author is
stored unchanged. -/
theorem deploy_keeps_empty_author (d : DB3) (ctx : CallContext) (m : Manifest) :
    ((d.Deploy ctx m).1.Manifests.get? (d.Deploy ctx m).2).map (fun x => x.Author) =
        some m.Author ∧
      ((NewWorld.run testDeploy).db.Manifests.get? 1).map (fun x => x.Author) = some "" ∧
      ((NewWorld.run testDeploy).db.Manifests.get? 1).map (fun x => x.Author) ≠
        some (ctxOf "sender.near" 0 10).Caller ∧
      ((NewWorld.run testDeploy).db.Manifests.get? 0).map (fun x => x.Author) =
        some "blockwatch.near" := by
  have h : (d.Deploy ctx m).1.Manifests.get? d.NextId = some m := GoMap.get?_set_self _ _ _
  refine ⟨?_, by decide, by decide, by decide⟩
  show ((d.Deploy ctx m).1.Manifests.get? d.NextId).map _ = _
  rw [h]
  rfl

/-! ## Deposit and Withdraw -/

theorem Deposit_error_unknown {d : DB3} {ctx : CallContext} {dbid : DBId}
    (h : dbid ≥ d.NextId) : d.Deposit ctx dbid = .error "Database id does not exist" := by
  simp [DB3.Deposit, h]

theorem Deposit_error_low {d : DB3} {ctx : CallContext} {dbid : DBId} (h1 : dbid < d.NextId)
    (h2 : Money.add (d.depositOf dbid ctx.Caller) ctx.Amount < SECURITY_DEPOSIT) :
    d.Deposit ctx dbid = .error "Security deposit too low" := by
  unfold DB3.depositOf at h2
  simp [DB3.Deposit, not_le.2 h1, h2]

theorem exec_deposit_abort {w : World} {ctx : CallContext} {dbid : DBId} {e : String}
    (h : w.db.Deposit ctx dbid = .error e) : w.exec (ctx, .deposit dbid) = w :=
  exec_abort (by simp [DB3.call, h, Except.map] : w.db.call ctx (.deposit dbid) = .error e)

theorem exec_register_abort {w : World} {ctx : CallContext} {dbid : DBId} {uri : ApiEndpoint}
    {e : String} (h : w.db.Register ctx dbid uri = .error e) :
    w.exec (ctx, .register dbid uri) = w :=
  exec_abort (by simp [DB3.call, h, Except.map] : w.db.call ctx (.register dbid uri) = .error e)

theorem exec_escrowFee_abort {w : World} {ctx : CallContext} {dbid : DBId} {qid : QueryCID}
    {ttl : Int} {e : String} (h : w.db.EscrowFee ctx dbid qid ttl = .error e) :
    w.exec (ctx, .escrowFee dbid qid ttl) = w :=
  exec_abort (by simp [DB3.call, h, Except.map] :
    w.db.call ctx (.escrowFee dbid qid ttl) = .error e)

theorem exec_settle_abort {w : World} {ctx : CallContext} {dbid : DBId} {qid : QueryCID}
    {rid : ResultCID} {e : String} (h : w.db.Settle ctx dbid qid rid = .error e) :
    w.exec (ctx, .settle dbid qid rid) = w :=
  exec_abort (by simp [DB3.call, h, Except.map] :
    w.db.call ctx (.settle dbid qid rid) = .error e)

theorem exec_withdraw_abort {w : World} {ctx : CallContext} {dbid : DBId} {e : String}
    (h : w.db.Withdraw ctx dbid = .error e) : w.exec (ctx, .withdraw dbid) = w :=
  exec_abort (by simp [DB3.call, h] : w.db.call ctx (.withdraw dbid) = .error e)

/-- C15 (amended): `Deposit(dbid)` panics when `dbid >= NextId`, and panics when the `uint64`
sum `(Deposits[dbid][caller] + ctx.Amount) mod 2^64` is below `SECURITY_DEPOSIT`; the runtime
then leaves the state as it was. Otherwise, in a state that has the maps `Deploy` allocates, it
succeeds, `Deposits[dbid][caller]` becomes that `uint64` sum, which is its previous value plus
`ctx.Amount` whenever this is below `2^64`, and no other deposit and no other part of the state
changes. In `TestDepositSuccess` the deposit becomes 10000; in `TestDepositFail` both calls
panic. -/
theorem deposit_spec (d : DB3) (ctx : CallContext) (dbid : DBId) (hal : d.Allocated) :
    (dbid ≥ d.NextId → d.Deposit ctx dbid = .error "Database id does not exist") ∧
      (dbid < d.NextId →
        Money.add (d.depositOf dbid ctx.Caller) ctx.Amount < SECURITY_DEPOSIT →
        d.Deposit ctx dbid = .error "Security deposit too low") ∧
      (∀ w : World, w.db = d →
        (dbid ≥ d.NextId ∨
          Money.add (d.depositOf dbid ctx.Caller) ctx.Amount < SECURITY_DEPOSIT) →
        w.exec (ctx, .deposit dbid) = w) ∧
      (dbid < d.NextId →
        ¬ Money.add (d.depositOf dbid ctx.Caller) ctx.Amount < SECURITY_DEPOSIT →
        ∃ d', d.Deposit ctx dbid = .ok d' ∧
          d'.depositOf dbid ctx.Caller = Money.add (d.depositOf dbid ctx.Caller) ctx.Amount ∧
          (d.depositOf dbid ctx.Caller + ctx.Amount < U64 →
            d'.depositOf dbid ctx.Caller = d.depositOf dbid ctx.Caller + ctx.Amount) ∧
          (∀ k a, ¬ (k = dbid ∧ a = ctx.Caller) → get2 d'.Deposits k a = get2 d.Deposits k a) ∧
          d' = { d with Deposits := d'.Deposits }) ∧
      (testDb.Deposit (ctxOf "sender.near" 10000 10) 0).toOption.map
          (fun d' => d'.depositOf 0 "sender.near") = some 10000 ∧
      (testDb.Deposit (ctxOf "sender.near" 1 10) 1).toOption = none ∧
      (testDb.Deposit (ctxOf "sender.near" 1 10) 0).toOption = none := by
  refine ⟨Deposit_error_unknown, Deposit_error_low, ?_, ?_, by decide, by decide, by decide⟩
  · intro w hw hcase
    subst hw
    rcases hcase with h | h
    · exact exec_deposit_abort (Deposit_error_unknown h)
    · by_cases h1 : dbid ≥ w.db.NextId
      · exact exec_deposit_abort (Deposit_error_unknown h1)
      · exact exec_deposit_abort (Deposit_error_low (not_le.1 h1) h)
  · intro h1 h2
    have h3 : dbid ∈ d.Deposits.keys := (hal dbid h1).2.1
    refine ⟨_, Deposit_ok h1 h2 h3, ?_, ?_, ?_, rfl⟩
    · show (get2 _ dbid ctx.Caller).getD 0 = _
      rw [get2_modify_set_self _ _ _ _ h3]
      rfl
    · intro hlt
      show (get2 _ dbid ctx.Caller).getD 0 = _
      rw [get2_modify_set_self _ _ _ _ h3]
      exact Nat.mod_eq_of_lt hlt
    · intro k a hne
      exact get2_modify_set_of_ne _ _ _ _ _ _ (fun hh => hne ⟨hh.1.symm, hh.2.symm⟩)

/-- A witness of C15: the call of `TestDepositSuccess`. -/
theorem deposit_spec_witness :
    testDb.Allocated ∧ (0 : Nat) < testDb.NextId ∧
      ∃ d', testDb.Deposit (ctxOf "sender.near" 10000 10) 0 = .ok d' ∧
        d'.depositOf 0 "sender.near" =
          Money.add (testDb.depositOf 0 "sender.near") (ctxOf "sender.near" 10000 10).Amount :=
  have hal : testDb.Allocated :=
    run_allocated [(ctxOf "sender.near" 0 10, .deploy (manifestOf 1000))]
  ⟨hal, by decide,
   let ⟨d', h1, h2, _⟩ := (deposit_spec testDb (ctxOf "sender.near" 10000 10) 0 hal).2.2.2.1
      (by decide) (by decide)
   ⟨d', h1, h2⟩⟩

theorem Withdraw_error_unknown {d : DB3} {ctx : CallContext} {dbid : DBId}
    (h : dbid ≥ d.NextId) : d.Withdraw ctx dbid = .error "Database id does not exist" := by
  simp [DB3.Withdraw, h]

theorem Withdraw_error_none {d : DB3} {ctx : CallContext} {dbid : DBId} (h1 : dbid < d.NextId)
    (h2 : get2 d.Deposits dbid ctx.Caller = none) :
    d.Withdraw ctx dbid = .error "Caller did not pay deposit" := by
  simp [DB3.Withdraw, not_le.2 h1, h2]

theorem Withdraw_ok {d : DB3} {ctx : CallContext} {dbid : DBId} {v : Money}
    (h1 : dbid < d.NextId) (h2 : get2 d.Deposits dbid ctx.Caller = some v) :
    d.Withdraw ctx dbid =
      .ok ({ d with Deposits := del2 d.Deposits dbid ctx.Caller }, [(ctx.Caller, v)]) := by
  simp [DB3.Withdraw, not_le.2 h1, h2, TransferTo]

/-- C16: `Withdraw(dbid)` panics when `dbid >= NextId` and when the caller has no entry in
`Deposits[dbid]`; the runtime then leaves the state as it was. Otherwise it removes the caller's
entry, so that the caller's deposit reads as zero, transfers exactly the stored amount to the
caller, and changes no other deposit and no other part of the state. In `TestWithdrawSuccess`
the deposit of 10000 is returned; in `TestWithdrawFail` the call of an account without deposit
panics. -/
theorem withdraw_spec (d : DB3) (ctx : CallContext) (dbid : DBId) :
    (dbid ≥ d.NextId → d.Withdraw ctx dbid = .error "Database id does not exist") ∧
      (dbid < d.NextId → get2 d.Deposits dbid ctx.Caller = none →
        d.Withdraw ctx dbid = .error "Caller did not pay deposit") ∧
      (∀ w : World, w.db = d →
        (dbid ≥ d.NextId ∨ get2 d.Deposits dbid ctx.Caller = none) →
        w.exec (ctx, .withdraw dbid) = w) ∧
      (∀ v, dbid < d.NextId → get2 d.Deposits dbid ctx.Caller = some v →
        ∃ d', d.Withdraw ctx dbid = .ok (d', [(ctx.Caller, v)]) ∧
          get2 d'.Deposits dbid ctx.Caller = none ∧ d'.depositOf dbid ctx.Caller = 0 ∧
          (∀ k a, ¬ (k = dbid ∧ a = ctx.Caller) → get2 d'.Deposits k a = get2 d.Deposits k a) ∧
          d' = { d with Deposits := d'.Deposits }) ∧
      ((testDb.Deposit (ctxOf "sender.near" 10000 10) 0).bind
          (fun d₁ => d₁.Withdraw (ctxOf "sender.near" 10000 10) 0)).toOption.map
        (fun r => (r.1.depositOf 0 "sender.near", r.2)) = some (0, [("sender.near", 10000)]) ∧
      (testDb.Withdraw (ctxOf "not_sender.near" 1 10) 0).toOption = none := by
  refine ⟨Withdraw_error_unknown, Withdraw_error_none, ?_, ?_, by decide, by decide⟩
  · intro w hw hcase
    subst hw
    by_cases h1 : dbid ≥ w.db.NextId
    · exact exec_withdraw_abort (Withdraw_error_unknown h1)
    · rcases hcase with h | h
      · exact absurd h h1
      · exact exec_withdraw_abort (Withdraw_error_none (not_le.1 h1) h)
  · intro v h1 h2
    refine ⟨_, Withdraw_ok h1 h2, get2_del2_self _ _ _, ?_, ?_, rfl⟩
    · show (get2 (del2 d.Deposits dbid ctx.Caller) dbid ctx.Caller).getD 0 = 0
      rw [get2_del2_self]
      rfl
    · intro k a hne
      exact get2_del2_of_ne _ _ _ _ _ (fun hh => hne ⟨hh.1.symm, hh.2.symm⟩)

/-- A witness of C16: after a deploy and a deposit of 10000 by `"h1"`, the withdrawal of `"h1"`
returns 10000 and leaves a deposit of zero. -/
theorem withdraw_spec_witness :
    ∃ d', (NewWorld.run [(ctxOf "sender.near" 0 10, .deploy m1),
        (ctxOf "h1" 10000 10, .deposit 0)]).db.Withdraw (ctxOf "h1" 0 11) 0 =
          .ok (d', [((ctxOf "h1" 0 11).Caller, 10000)]) ∧
      d'.depositOf 0 (ctxOf "h1" 0 11).Caller = 0 :=
  let ⟨d', h1, _, h3, _⟩ := (withdraw_spec (NewWorld.run [(ctxOf "sender.near" 0 10, .deploy m1),
      (ctxOf "h1" 10000 10, .deposit 0)]).db (ctxOf "h1" 0 11) 0).2.2.2.1 10000
    (by decide) (by decide)
  ⟨d', h1, h3⟩

/-! ## Register and Discover -/

theorem GoMap.length_del {K V : Type} [DecidableEq K] (m : GoMap K V) (k : K)
    (hm : m.keys.Nodup) :
    (m.del k).length + (if k ∈ m.keys then 1 else 0) = m.length := by
  induction m with
  | nil => simp [GoMap.del]
  | cons kv m ih =>
    obtain ⟨k', v'⟩ := kv
    simp only [GoMap.keys_cons, List.nodup_cons] at hm
    by_cases h : k' = k
    · subst h
      have hdel : GoMap.del m k' = m := by
        have hn := hm.1
        clear ih hm
        induction m with
        | nil => rfl
        | cons kv m ih' =>
          obtain ⟨k₀, v₀⟩ := kv
          simp only [GoMap.keys_cons, List.mem_cons, not_or] at hn
          have hne : k₀ ≠ k' := fun e => hn.1 e.symm
          simp [GoMap.del, hne, ih' hn.2]
      simp [GoMap.del, hdel]
    · have ih' := ih hm.2
      have hk : (k ∈ GoMap.keys ((k', v') :: m)) ↔ k ∈ GoMap.keys m := by
        simp [Ne.symm h]
      simp only [GoMap.del, h, if_false, List.length_cons, hk]
      omega

theorem GoMap.map_snd_eq {K V : Type} [DecidableEq K] (m : GoMap K V) (hm : m.keys.Nodup) :
    m.map Prod.snd = m.keys.filterMap (fun a => m.get? a) := by
  induction m with
  | nil => rfl
  | cons kv m ih =>
    obtain ⟨k, v⟩ := kv
    simp only [GoMap.keys_cons, List.nodup_cons] at hm
    simp only [List.map_cons, GoMap.keys_cons, List.filterMap_cons, GoMap.get?, if_true]
    rw [ih hm.2]
    congr 1
    apply List.filterMap_congr
    intro a ha
    have : k ≠ a := fun e => hm.1 (e ▸ ha)
    simp [this]

theorem GoMap.not_mem_keys_del {K V : Type} [DecidableEq K] (m : GoMap K V) (k : K) :
    k ∉ (m.del k).keys := by
  rw [← GoMap.get?_eq_none_iff]; exact GoMap.get?_del_self m k

theorem Register_error_unknown {d : DB3} {ctx : CallContext} {dbid : DBId} {uri : ApiEndpoint}
    (h : dbid ≥ d.NextId) : d.Register ctx dbid uri = .error "Database id does not exist" := by
  simp [DB3.Register, h]

theorem Register_error_low {d : DB3} {ctx : CallContext} {dbid : DBId} {uri : ApiEndpoint}
    (h1 : dbid < d.NextId) (h2 : d.depositOf dbid ctx.Caller < SECURITY_DEPOSIT) :
    d.Register ctx dbid uri = .error "Security deposit too low" := by
  unfold DB3.depositOf at h2
  simp [DB3.Register, not_le.2 h1, h2]

theorem Register_ok {d : DB3} {ctx : CallContext} {dbid : DBId} {uri : ApiEndpoint}
    (h1 : dbid < d.NextId) (h2 : SECURITY_DEPOSIT ≤ d.depositOf dbid ctx.Caller)
    (h3 : dbid ∈ d.ApiRegistry.keys) :
    d.Register ctx dbid uri = .ok (d.withEndpoint dbid ctx.Caller uri) := by
  unfold DB3.depositOf at h2
  by_cases hu : uri = ""
  · simp [DB3.Register, DB3.withEndpoint, not_le.2 h1, not_lt.2 h2, hu, del2]
  · simp [DB3.Register, DB3.withEndpoint, not_le.2 h1, not_lt.2 h2, hu, set2_ok _ _ _ _ h3]

theorem Discover_ok {d : DB3} {dbid : DBId} (h : dbid < d.NextId) :
    d.Discover dbid = .ok (d.endpoints dbid) := by
  simp [DB3.Discover, not_le.2 h, DB3.endpoints]

theorem withEndpoint_get? {d : DB3} {dbid : DBId} {inner : GoMap AccountID ApiEndpoint}
    (a : AccountID) (uri : ApiEndpoint) (hin : d.ApiRegistry.get? dbid = some inner) :
    (d.withEndpoint dbid a uri).ApiRegistry.get? dbid =
      some (if uri = "" then inner.del a else inner.set a uri) := by
  show (d.ApiRegistry.modify dbid _).get? dbid = _
  rw [GoMap.get?_modify_self, hin]
  rfl

/-- C17: `Register(dbid, uri)` panics when `dbid >= NextId` and when the caller's deposit for
`dbid` is below `SECURITY_DEPOSIT`; the runtime then leaves the state as it was. Otherwise, in a
state that has the maps `Deploy` allocates and whose registry maps have distinct keys, it
succeeds and changes only `ApiRegistry[dbid][caller]`: an empty `uri` deletes the entry, another
`uri` replaces it. `Discover(dbid)` then lists exactly the endpoints of the registered hosts, one
per host: a re-registration keeps the length and shows the new `uri`, a first registration adds
one endpoint, an un-registration removes the caller's. The calls of `TestRegisterSuccess` give
`[myurl]`, `[anotherurl2]` and `[]`; those of `TestRegisterFail` panic. -/
theorem register_spec (d : DB3) (ctx : CallContext) (dbid : DBId) (uri : ApiEndpoint)
    (hal : d.Allocated) (hnd : ∀ kv ∈ d.ApiRegistry, kv.2.keys.Nodup) :
    (dbid ≥ d.NextId → d.Register ctx dbid uri = .error "Database id does not exist") ∧
      (dbid < d.NextId → d.depositOf dbid ctx.Caller < SECURITY_DEPOSIT →
        d.Register ctx dbid uri = .error "Security deposit too low") ∧
      (∀ w : World, w.db = d →
        (dbid ≥ d.NextId ∨ d.depositOf dbid ctx.Caller < SECURITY_DEPOSIT) →
        w.exec (ctx, .register dbid uri) = w) ∧
      (dbid < d.NextId → SECURITY_DEPOSIT ≤ d.depositOf dbid ctx.Caller →
        d.Register ctx dbid uri = .ok (d.withEndpoint dbid ctx.Caller uri) ∧
        get2 (d.withEndpoint dbid ctx.Caller uri).ApiRegistry dbid ctx.Caller =
          (if uri = "" then none else some uri) ∧
        (∀ k a, ¬ (k = dbid ∧ a = ctx.Caller) →
          get2 (d.withEndpoint dbid ctx.Caller uri).ApiRegistry k a = get2 d.ApiRegistry k a) ∧
        (d.withEndpoint dbid ctx.Caller uri).Discover dbid =
          .ok ((d.withEndpoint dbid ctx.Caller uri).endpoints dbid) ∧
        ((d.withEndpoint dbid ctx.Caller uri).hosts dbid).Nodup ∧
        (d.withEndpoint dbid ctx.Caller uri).endpoints dbid =
          ((d.withEndpoint dbid ctx.Caller uri).hosts dbid).filterMap
            (fun a => get2 (d.withEndpoint dbid ctx.Caller uri).ApiRegistry dbid a) ∧
        (uri ≠ "" → uri ∈ (d.withEndpoint dbid ctx.Caller uri).endpoints dbid ∧
          ((d.withEndpoint dbid ctx.Caller uri).endpoints dbid).length =
            (d.endpoints dbid).length + (if ctx.Caller ∈ d.hosts dbid then 0 else 1)) ∧
        (uri = "" → ctx.Caller ∉ (d.withEndpoint dbid ctx.Caller uri).hosts dbid ∧
          ((d.withEndpoint dbid ctx.Caller uri).endpoints dbid).length +
            (if ctx.Caller ∈ d.hosts dbid then 1 else 0) = (d.endpoints dbid).length)) ∧
      ((testDb.Deposit (ctxOf "sender.near" 10000 10) 0).bind
          (fun d₁ => d₁.Register (ctxOf "sender.near" 10000 10) 0 "myurl")).toOption.map
        (fun d₂ => (d₂.Discover 0).toOption) = some (some ["myurl"]) ∧
      (((testDb.Deposit (ctxOf "sender.near" 10000 10) 0).bind
          (fun d₁ => d₁.Register (ctxOf "sender.near" 10000 10) 0 "myurl")).bind
          (fun d₂ => d₂.Register (ctxOf "sender.near" 10000 10) 0 "anotherurl2")).toOption.map
        (fun d₃ => (d₃.Discover 0).toOption) = some (some ["anotherurl2"]) ∧
      ((((testDb.Deposit (ctxOf "sender.near" 10000 10) 0).bind
          (fun d₁ => d₁.Register (ctxOf "sender.near" 10000 10) 0 "myurl")).bind
          (fun d₂ => d₂.Register (ctxOf "sender.near" 10000 10) 0 "anotherurl2")).bind
          (fun d₃ => d₃.Register (ctxOf "sender.near" 10000 10) 0 "")).toOption.map
        (fun d₄ => (d₄.Discover 0).toOption) = some (some []) ∧
      ((testDb.Deposit (ctxOf "sender.near" 10000 10) 0).bind
          (fun d₁ => d₁.Register (ctxOf "sender.near" 10000 10) 1 "api")).toOption = none ∧
      ((testDb.Deposit (ctxOf "sender.near" 10000 10) 0).bind
          (fun d₁ => DB3.Register { d₁ with Deposits := [(0, [("sender.near", 10000 / 2)])] }
            (ctxOf "sender.near" 10000 10) 0 "api")).toOption = none := by
  refine ⟨Register_error_unknown, Register_error_low, ?_, ?_, by decide, by decide, by decide,
    by decide, by decide⟩
  · intro w hw hcase
    subst hw
    by_cases h1 : dbid ≥ w.db.NextId
    · exact exec_register_abort (Register_error_unknown h1)
    · rcases hcase with h | h
      · exact absurd h h1
      · exact exec_register_abort (Register_error_low (not_le.1 h1) h)
  · intro h1 h2
    have h3 : dbid ∈ d.ApiRegistry.keys := (hal dbid h1).1
    obtain ⟨inner, hin⟩ := (GoMap.mem_keys_iff _ _).1 h3
    have hndi : GoMap.keys inner |>.Nodup := hnd _ (GoMap.mem_of_get? hin)
    have hget := withEndpoint_get? ctx.Caller uri hin
    have hg2 : ∀ a, get2 (d.withEndpoint dbid ctx.Caller uri).ApiRegistry dbid a =
        (if uri = "" then inner.del ctx.Caller else inner.set ctx.Caller uri).get? a := by
      intro a; simp [get2, hget]
    have hend : (d.withEndpoint dbid ctx.Caller uri).endpoints dbid =
        (if uri = "" then inner.del ctx.Caller else inner.set ctx.Caller uri).map Prod.snd := by
      simp [DB3.endpoints, hget]
    have hhosts : (d.withEndpoint dbid ctx.Caller uri).hosts dbid =
        GoMap.keys (if uri = "" then inner.del ctx.Caller else inner.set ctx.Caller uri) := by
      simp [DB3.hosts, hget]
    have hend0 : d.endpoints dbid = inner.map Prod.snd := by simp [DB3.endpoints, hin]
    have hhosts0 : d.hosts dbid = GoMap.keys inner := by simp [DB3.hosts, hin]
    have hnd' : (GoMap.keys
        (if uri = "" then inner.del ctx.Caller else inner.set ctx.Caller uri)).Nodup := by
      split
      · exact GoMap.nodup_keys_del hndi _
      · exact GoMap.nodup_keys_set hndi _ _
    refine ⟨Register_ok h1 h2 h3, ?_, ?_, Discover_ok h1, ?_, ?_, ?_, ?_⟩
    · rw [hg2]
      by_cases hu : uri = "" <;> simp [hu]
    · intro k a hne
      show get2 (d.ApiRegistry.modify dbid _) k a = _
      unfold get2
      by_cases hk : dbid = k
      · subst hk
        have ha : ctx.Caller ≠ a := fun e => hne ⟨rfl, e.symm⟩
        rw [GoMap.get?_modify_self, hin]
        by_cases hu : uri = ""
        · simp [hu, GoMap.get?_del_of_ne _ ha]
        · simp [hu, GoMap.get?_set_of_ne _ ha]
      · rw [GoMap.get?_modify_of_ne _ hk]
    · rw [hhosts]; exact hnd'
    · rw [hend, hhosts, GoMap.map_snd_eq _ hnd']
      apply List.filterMap_congr
      intro a _
      rw [hg2]
    · intro hu
      rw [hend, hend0, hhosts0]
      simp only [hu, if_false, List.length_map]
      refine ⟨?_, ?_⟩
      · exact List.mem_map.2 ⟨(ctx.Caller, uri), GoMap.mem_of_get? (GoMap.get?_set_self _ _ _), rfl⟩
      · rw [GoMap.length_set]
        split <;> rfl
    · intro hu
      rw [hend, hend0, hhosts, hhosts0]
      simp only [hu, if_true, List.length_map]
      exact ⟨GoMap.not_mem_keys_del _ _, GoMap.length_del _ _ hndi⟩

/-- A witness of C17: the first registration of `TestRegisterSuccess`. -/
theorem register_spec_witness :
    (NewWorld.run [(ctxOf "sender.near" 0 10, .deploy (manifestOf 1000)),
        (ctxOf "sender.near" 10000 10, .deposit 0)]).db.Allocated ∧
      (∀ kv ∈ (NewWorld.run [(ctxOf "sender.near" 0 10, .deploy (manifestOf 1000)),
        (ctxOf "sender.near" 10000 10, .deposit 0)]).db.ApiRegistry, kv.2.keys.Nodup) ∧
      (NewWorld.run [(ctxOf "sender.near" 0 10, .deploy (manifestOf 1000)),
        (ctxOf "sender.near" 10000 10, .deposit 0)]).db.Register
          (ctxOf "sender.near" 10000 10) 0 "myurl" =
        .ok ((NewWorld.run [(ctxOf "sender.near" 0 10, .deploy (manifestOf 1000)),
          (ctxOf "sender.near" 10000 10, .deposit 0)]).db.withEndpoint 0 "sender.near"
            "myurl") :=
  ⟨run_allocated _, by decide,
   ((register_spec _ (ctxOf "sender.near" 10000 10) 0 "myurl" (run_allocated _)
      (by decide)).2.2.2.1 (by decide) (by decide)).1⟩

/-! ## EscrowFee and Settle -/

theorem EscrowFee_error_unknown {d : DB3} {ctx : CallContext} {dbid : DBId} {qid : QueryCID}
    {ttl : Int} (h : dbid ≥ d.NextId) :
    d.EscrowFee ctx dbid qid ttl = .error "Database id does not exist" := by
  simp [DB3.EscrowFee, h]

theorem EscrowFee_error_expired {d : DB3} {ctx : CallContext} {dbid : DBId} {qid : QueryCID}
    {ttl : Int} (h1 : dbid < d.NextId) (h2 : ttl < ctx.Height) :
    d.EscrowFee ctx dbid qid ttl = .error "Fee payment is expired" := by
  simp [DB3.EscrowFee, not_le.2 h1, h2]

theorem EscrowFee_ok {d : DB3} {ctx : CallContext} {dbid : DBId} {qid : QueryCID} {ttl : Int}
    (h1 : dbid < d.NextId) (h2 : ctx.Height ≤ ttl) (h3 : dbid ∈ d.PendingFees.keys)
    (h4 : dbid ∈ d.ResultTTL.keys) :
    ∃ d', d.EscrowFee ctx dbid qid ttl = .ok d' ∧
      d'.PendingFees = d.PendingFees.modify dbid (fun inner =>
        inner.set qid (Money.add ((get2 d.PendingFees dbid qid).getD 0) ctx.Amount)) ∧
      d'.ResultTTL = d.ResultTTL.modify dbid (fun inner => inner.set qid ttl) ∧
      d' = { d with PendingFees := d'.PendingFees, ResultTTL := d'.ResultTTL } := by
  simp only [DB3.EscrowFee, ge_iff_le, not_le.2 h1, if_false, not_lt.2 h2,
    set2_ok _ _ _ _ h3, set2_ok _ _ _ _ h4, ok_bind, pure_eq_ok]
  exact ⟨_, rfl, rfl, rfl, rfl⟩

/-- C19 (amended): `EscrowFee(dbid, qid, ttl)` panics when `dbid >= NextId` and panics when
`ttl < ctx.Height`; the runtime then leaves the state, `PendingFees` and `ResultTTL` included, as
it was. Otherwise (`ttl >= ctx.Height`), in a state that has the maps `Deploy` allocates, it
succeeds, `PendingFees[dbid][qid]` becomes the `uint64` sum of its previous value (0 when absent)
and `ctx.Amount`, which is the exact sum whenever that is below `2^64`, `ResultTTL[dbid][qid]`
becomes `ttl` whatever it was before, and nothing else changes. The call of `TestFeeSuccess`
stores a fee of 1; those of `TestFeeFail` and of scenario 5 (`ttl = 5` at height 10) panic. -/
theorem escrowFee_spec (d : DB3) (ctx : CallContext) (dbid : DBId) (qid : QueryCID) (ttl : Int)
    (hal : d.Allocated) :
    (dbid ≥ d.NextId → d.EscrowFee ctx dbid qid ttl = .error "Database id does not exist") ∧
      (dbid < d.NextId → ttl < ctx.Height →
        d.EscrowFee ctx dbid qid ttl = .error "Fee payment is expired") ∧
      (∀ w : World, w.db = d → (dbid ≥ d.NextId ∨ ttl < ctx.Height) →
        w.exec (ctx, .escrowFee dbid qid ttl) = w) ∧
      (dbid < d.NextId → ctx.Height ≤ ttl →
        ∃ d', d.EscrowFee ctx dbid qid ttl = .ok d' ∧
          get2 d'.PendingFees dbid qid =
            some (Money.add ((get2 d.PendingFees dbid qid).getD 0) ctx.Amount) ∧
          ((get2 d.PendingFees dbid qid).getD 0 + ctx.Amount < U64 →
            get2 d'.PendingFees dbid qid =
              some ((get2 d.PendingFees dbid qid).getD 0 + ctx.Amount)) ∧
          get2 d'.ResultTTL dbid qid = some ttl ∧
          (∀ k q, ¬ (k = dbid ∧ q = qid) →
            get2 d'.PendingFees k q = get2 d.PendingFees k q ∧
              get2 d'.ResultTTL k q = get2 d.ResultTTL k q) ∧
          d' = { d with PendingFees := d'.PendingFees, ResultTTL := d'.ResultTTL }) ∧
      (testDeposited.bind (fun d₁ =>
          d₁.EscrowFee (ctxOf "user.near" 1 10) 0 "cid-1" (10 + 120 - 1))).toOption.map
          (fun d' => (get2 d'.PendingFees 0 "cid-1", get2 d'.ResultTTL 0 "cid-1")) =
        some (some 1, some 129) ∧
      testDeposited.toOption.isSome = true ∧
      (testDeposited.bind (fun d₁ =>
        d₁.EscrowFee (ctxOf "sender.near" 10000 10) 1 "qid-1" (10 + 120))).toOption = none ∧
      (testDeposited.bind (fun d₁ =>
        d₁.EscrowFee (ctxOf "sender.near" 10000 1000) 0 "qid-1" 120)).toOption = none ∧
      (testDb.EscrowFee (ctxOf "user.near" 1000 10) 0 "cid-Q" 5).toOption = none := by
  refine ⟨EscrowFee_error_unknown, EscrowFee_error_expired, ?_, ?_, by decide, by decide,
    by decide, by decide, by decide⟩
  · intro w hw hcase
    subst hw
    by_cases h1 : dbid ≥ w.db.NextId
    · exact exec_escrowFee_abort (EscrowFee_error_unknown h1)
    · rcases hcase with h | h
      · exact absurd h h1
      · exact exec_escrowFee_abort (EscrowFee_error_expired (not_le.1 h1) h)
  · intro h1 h2
    have h3 : dbid ∈ d.PendingFees.keys := (hal dbid h1).2.2.2.2
    have h4 : dbid ∈ d.ResultTTL.keys := (hal dbid h1).2.2.1
    obtain ⟨d', hok, e1, e2, e3⟩ := @EscrowFee_ok d ctx dbid qid ttl h1 h2 h3 h4
    refine ⟨d', hok, ?_, ?_, ?_, ?_, e3⟩
    · rw [e1]; exact get2_modify_set_self _ _ _ _ h3
    · intro hlt
      rw [e1, get2_modify_set_self _ _ _ _ h3]
      exact congrArg some (Nat.mod_eq_of_lt hlt)
    · rw [e2]; exact get2_modify_set_self _ _ _ _ h4
    · intro k q hne
      have hne' : ¬ (dbid = k ∧ qid = q) := fun hh => hne ⟨hh.1.symm, hh.2.symm⟩
      rw [e1, e2]
      exact ⟨get2_modify_set_of_ne _ _ _ _ _ _ hne', get2_modify_set_of_ne _ _ _ _ _ _ hne'⟩

/-- A witness of C19: the call of `TestFeeSuccess`. -/
theorem escrowFee_spec_witness :
    testDb.Allocated ∧ (0 : Nat) < testDb.NextId ∧
      ∃ d', testDb.EscrowFee (ctxOf "user.near" 1 10) 0 "cid-1" 129 = .ok d' ∧
        get2 d'.ResultTTL 0 "cid-1" = some 129 :=
  have hal : testDb.Allocated :=
    run_allocated [(ctxOf "sender.near" 0 10, .deploy (manifestOf 1000))]
  ⟨hal, by decide,
   let ⟨d', h1, _, _, h2, _⟩ :=
     (escrowFee_spec testDb (ctxOf "user.near" 1 10) 0 "cid-1" 129 hal).2.2.2.1
       (by decide) (by decide)
   ⟨d', h1, h2⟩⟩

theorem wrapInt64_of_range {x : Int} (h1 : -(2 ^ 63) ≤ x) (h2 : x < 2 ^ 63) :
    wrapInt64 x = x := by
  unfold wrapInt64
  norm_num at h1 h2 ⊢
  omega

theorem Settle_error_unknown {d : DB3} {ctx : CallContext} {dbid : DBId} {qid : QueryCID}
    {rid : ResultCID} (h : dbid ≥ d.NextId) :
    d.Settle ctx dbid qid rid = .error "Database id does not exist" := by
  simp [DB3.Settle, h]

theorem Settle_error_low {d : DB3} {ctx : CallContext} {dbid : DBId} {qid : QueryCID}
    {rid : ResultCID} (h1 : dbid < d.NextId)
    (h2 : d.depositOf dbid ctx.Caller < SECURITY_DEPOSIT) :
    d.Settle ctx dbid qid rid = .error "Security deposit too low" := by
  unfold DB3.depositOf at h2
  simp [DB3.Settle, not_le.2 h1, h2]

theorem storeResult_storedVote {d d' : DB3} {ctx : CallContext} {dbid : DBId} {qid : QueryCID}
    {rid : ResultCID} (h : d.storeResult ctx dbid qid rid = .ok d') :
    d.storedVote d' dbid qid ctx.Caller rid := by
  obtain ⟨e, _, _, hv⟩ := storeResult_inv h
  refine ⟨?_, ?_, ?_⟩
  · rw [hv]; simp
  · intro k q b hne
    rw [hv, if_neg hne]
  · rw [e]

/-- C20 (amended): `Settle(dbid, qid, rid)` panics when `dbid >= NextId` and when the caller's
deposit for `dbid` is below `SECURITY_DEPOSIT`; the runtime then leaves the state as it was.
Otherwise, in a state that has the maps `Deploy` allocates: when `ResultTTL[dbid][qid]` is absent
it becomes the `int64` sum of `ctx.Height` and `MAX_BLOCKS_TO_SETTLE`, which is
`ctx.Height + 120` whenever that is in the `int64` range, and no other TTL changes; when it is
present and greater than `ctx.Height` no TTL changes; and in both cases
`PendingResults[dbid][qid][caller]` becomes `rid`, every other vote stays as it was, and
`PendingFees`, `Deposits`, `Slashed` and the settled balances are unchanged. In scenario 1 the
vote of `h1` is stored and the TTL 110 set by `EscrowFee` is kept; a first result at height 11
without an escrowed fee sets the TTL to 131. -/
theorem settle_spec (d : DB3) (ctx : CallContext) (dbid : DBId) (qid : QueryCID)
    (rid : ResultCID) (hal : d.Allocated) :
    (dbid ≥ d.NextId → d.Settle ctx dbid qid rid = .error "Database id does not exist") ∧
      (dbid < d.NextId → d.depositOf dbid ctx.Caller < SECURITY_DEPOSIT →
        d.Settle ctx dbid qid rid = .error "Security deposit too low") ∧
      (∀ w : World, w.db = d →
        (dbid ≥ d.NextId ∨ d.depositOf dbid ctx.Caller < SECURITY_DEPOSIT) →
        w.exec (ctx, .settle dbid qid rid) = w) ∧
      (dbid < d.NextId → SECURITY_DEPOSIT ≤ d.depositOf dbid ctx.Caller →
        get2 d.ResultTTL dbid qid = none →
        ∃ d', d.Settle ctx dbid qid rid = .ok d' ∧
          get2 d'.ResultTTL dbid qid = some (wrapInt64 (ctx.Height + MAX_BLOCKS_TO_SETTLE)) ∧
          (-(2 ^ 63) ≤ ctx.Height + 120 → ctx.Height + 120 < 2 ^ 63 →
            get2 d'.ResultTTL dbid qid = some (ctx.Height + 120)) ∧
          (∀ k q, ¬ (k = dbid ∧ q = qid) → get2 d'.ResultTTL k q = get2 d.ResultTTL k q) ∧
          d.storedVote d' dbid qid ctx.Caller rid) ∧
      (∀ ttl, dbid < d.NextId → SECURITY_DEPOSIT ≤ d.depositOf dbid ctx.Caller →
        get2 d.ResultTTL dbid qid = some ttl → ctx.Height < ttl →
        ∃ d', d.Settle ctx dbid qid rid = .ok d' ∧ d'.ResultTTL = d.ResultTTL ∧
          d.storedVote d' dbid qid ctx.Caller rid) ∧
      ((NewWorld.run scenario1).db.voteOf 0 "cid-Q" "h1",
        get2 (NewWorld.run scenario1).db.ResultTTL 0 "cid-Q") = (some "cid-R", some 110) ∧
      ((testDb.Deposit (ctxOf "h1" 10000 10) 0).bind
          (fun d₁ => d₁.Settle (ctxOf "h1" 0 11) 0 "cid-Q" "cid-R")).toOption.map
        (fun d₂ => (d₂.voteOf 0 "cid-Q" "h1", get2 d₂.ResultTTL 0 "cid-Q")) =
          some (some "cid-R", some 131) := by
  refine ⟨Settle_error_unknown, Settle_error_low, ?_, ?_, ?_, by decide, by decide⟩
  · intro w hw hcase
    subst hw
    by_cases h1 : dbid ≥ w.db.NextId
    · exact exec_settle_abort (Settle_error_unknown h1)
    · rcases hcase with h | h
      · exact absurd h h1
      · exact exec_settle_abort (Settle_error_low (not_le.1 h1) h)
  · intro h1 h2 hnone
    have h3 : dbid ∈ d.ResultTTL.keys := (hal dbid h1).2.2.1
    have h4 : dbid ∈ d.PendingResults.keys := (hal dbid h1).2.2.2.1
    have h2' : ¬ (get2 d.Deposits dbid ctx.Caller).getD 0 < SECURITY_DEPOSIT := not_lt.2 h2
    obtain ⟨d', hs⟩ := storeResult_ok
      { d with ResultTTL := d.ResultTTL.modify dbid (fun inner =>
          inner.set qid (wrapInt64 (ctx.Height + MAX_BLOCKS_TO_SETTLE))) } ctx dbid qid rid h4
    have hok : d.Settle ctx dbid qid rid = .ok d' := by
      simp only [DB3.Settle, ge_iff_le, not_le.2 h1, if_false, h2', hnone,
        set2_ok _ _ _ _ h3, ok_bind]
      exact hs
    obtain ⟨sv1, sv2, _⟩ := storeResult_storedVote hs
    obtain ⟨e, _, _, _⟩ := storeResult_inv hs
    have httl : d'.ResultTTL = d.ResultTTL.modify dbid (fun inner =>
        inner.set qid (wrapInt64 (ctx.Height + MAX_BLOCKS_TO_SETTLE))) := by
      rw [e]
    have hget : get2 d'.ResultTTL dbid qid =
        some (wrapInt64 (ctx.Height + MAX_BLOCKS_TO_SETTLE)) := by
      rw [httl]; exact get2_modify_set_self _ _ _ _ h3
    refine ⟨d', hok, hget, ?_, ?_, sv1, ?_, ?_⟩
    · intro hlo hhi
      rw [hget]
      exact congrArg some (wrapInt64_of_range hlo hhi)
    · intro k q hne
      rw [httl]
      exact get2_modify_set_of_ne _ _ _ _ _ _ (fun hh => hne ⟨hh.1.symm, hh.2.symm⟩)
    · intro k q b hne
      rw [sv2 k q b hne]
      rfl
    · rw [e]
  · intro ttl h1 h2 hsome hgt
    have h4 : dbid ∈ d.PendingResults.keys := (hal dbid h1).2.2.2.1
    have h2' : ¬ (get2 d.Deposits dbid ctx.Caller).getD 0 < SECURITY_DEPOSIT := not_lt.2 h2
    obtain ⟨d', hs⟩ := storeResult_ok d ctx dbid qid rid h4
    have hok : d.Settle ctx dbid qid rid = .ok d' := by
      simp only [DB3.Settle, ge_iff_le, not_le.2 h1, if_false, h2', hsome, not_le.2 hgt]
      exact hs
    obtain ⟨sv1, sv2, sv3⟩ := storeResult_storedVote hs
    obtain ⟨e, _, _, _⟩ := storeResult_inv hs
    exact ⟨d', hok, by rw [e], sv1, sv2, sv3⟩

/-- A witness of C20: the first result for a query, submitted at height 11 by a host with a
deposit of 10000. -/
theorem settle_spec_witness :
    (NewWorld.run [(ctxOf "sender.near" 0 10, .deploy (manifestOf 1000)),
        (ctxOf "h1" 10000 10, .deposit 0)]).db.Allocated ∧
      ∃ d', (NewWorld.run [(ctxOf "sender.near" 0 10, .deploy (manifestOf 1000)),
          (ctxOf "h1" 10000 10, .deposit 0)]).db.Settle (ctxOf "h1" 0 11) 0 "cid-Q" "cid-R" =
            .ok d' ∧
        get2 d'.ResultTTL 0 "cid-Q" = some (wrapInt64 ((ctxOf "h1" 0 11).Height + 120)) :=
  ⟨run_allocated _,
   let ⟨d', h1, h2, _⟩ := (settle_spec _ (ctxOf "h1" 0 11) 0 "cid-Q" "cid-R"
      (run_allocated _)).2.2.2.1 (by decide) (by decide) (by decide)
   ⟨d', h1, h2⟩⟩

theorem admissible_of_eq {d d' : DB3} (hA : d.Admissible)
    (hr : d'.ApiRegistry = d.ApiRegistry) (hd : d'.Deposits = d.Deposits) : d'.Admissible := by
  intro k h uri hu
  rw [hr] at hu
  unfold DB3.depositOf
  rw [hd]
  exact hA k h uri hu

theorem Deploy_admissible (d : DB3) (ctx : CallContext) (m : Manifest) (hA : d.Admissible) :
    (d.Deploy ctx m).1.Admissible := by
  intro k h uri hu
  have hr : (d.Deploy ctx m).1.ApiRegistry = d.ApiRegistry.set d.NextId [] := rfl
  have hd : (d.Deploy ctx m).1.Deposits = d.Deposits.set d.NextId [] := rfl
  rw [hr, get2_set_nil] at hu
  unfold DB3.depositOf
  rw [hd, get2_set_nil]
  by_cases hk : d.NextId = k
  · simp [hk] at hu
  · rw [if_neg hk] at hu ⊢
    exact hA k h uri hu

theorem Deposit_admissible {d d' : DB3} {ctx : CallContext} {dbid : DBId}
    (h : d.Deposit ctx dbid = .ok d') (hA : d.Admissible) : d'.Admissible := by
  obtain ⟨_, hge, hk, e⟩ := Deposit_inv h
  intro k a uri hu
  have hr : d'.ApiRegistry = d.ApiRegistry := by rw [e]
  have hd : d'.Deposits = d.Deposits.modify dbid (fun inner =>
      inner.set ctx.Caller (Money.add (d.depositOf dbid ctx.Caller) ctx.Amount)) := by rw [e]
  rw [hr] at hu
  unfold DB3.depositOf
  rw [hd]
  by_cases hka : dbid = k ∧ ctx.Caller = a
  · obtain ⟨rfl, rfl⟩ := hka
    rw [get2_modify_set_self _ _ _ _ hk]
    exact not_lt.1 hge
  · rw [get2_modify_set_of_ne _ _ _ _ _ _ hka]
    exact hA k a uri hu

theorem Withdraw_admissible {d d' : DB3} {ctx : CallContext} {dbid : DBId}
    {out : List Transfer} (h : d.Withdraw ctx dbid = .ok (d', out)) (hA : d.Admissible)
    (hn : get2 d.ApiRegistry dbid ctx.Caller = none) : d'.Admissible := by
  obtain ⟨_, dep, _, e, _⟩ := Withdraw_inv h
  intro k a uri hu
  have hr : d'.ApiRegistry = d.ApiRegistry := by rw [e]
  have hd : d'.Deposits = del2 d.Deposits dbid ctx.Caller := by rw [e]
  rw [hr] at hu
  unfold DB3.depositOf
  rw [hd]
  have hka : ¬ (dbid = k ∧ ctx.Caller = a) := by
    rintro ⟨rfl, rfl⟩
    rw [hn] at hu
    exact Option.noConfusion hu
  rw [get2_del2_of_ne _ _ _ _ _ hka]
  exact hA k a uri hu

theorem Register_admissible {d d' : DB3} {ctx : CallContext} {dbid : DBId} {uri : ApiEndpoint}
    (h : d.Register ctx dbid uri = .ok d') (hA : d.Admissible) : d'.Admissible := by
  obtain ⟨_, hge, hcase⟩ := Register_inv h
  intro k a u hu
  rcases hcase with ⟨_, e⟩ | ⟨_, hk, e⟩
  · have hr : d'.ApiRegistry = del2 d.ApiRegistry dbid ctx.Caller := by rw [e]
    have hd : d'.Deposits = d.Deposits := by rw [e]
    rw [hr] at hu
    unfold DB3.depositOf
    rw [hd]
    by_cases hka : dbid = k ∧ ctx.Caller = a
    · obtain ⟨rfl, rfl⟩ := hka
      rw [get2_del2_self] at hu
      exact Option.noConfusion hu
    · rw [get2_del2_of_ne _ _ _ _ _ hka] at hu
      exact hA k a u hu
  · have hr : d'.ApiRegistry =
        d.ApiRegistry.modify dbid (fun inner => inner.set ctx.Caller uri) := by rw [e]
    have hd : d'.Deposits = d.Deposits := by rw [e]
    rw [hr] at hu
    by_cases hka : dbid = k ∧ ctx.Caller = a
    · obtain ⟨rfl, rfl⟩ := hka
      unfold DB3.depositOf
      rw [hd]
      exact hge
    · rw [get2_modify_set_of_ne _ _ _ _ _ _ hka] at hu
      unfold DB3.depositOf
      rw [hd]
      exact hA k a u hu

theorem storeResult_admissible {d d' : DB3} {ctx : CallContext} {dbid : DBId} {qid : QueryCID}
    {rid : ResultCID} (h : d.storeResult ctx dbid qid rid = .ok d') (hA : d.Admissible) :
    d'.Admissible := by
  obtain ⟨e, _⟩ := storeResult_inv h
  exact admissible_of_eq hA (by rw [e]) (by rw [e])

theorem Settle_admissible {d d' : DB3} {ctx : CallContext} {dbid : DBId} {qid : QueryCID}
    {rid : ResultCID} (h : d.Settle ctx dbid qid rid = .ok d') (hA : d.Admissible) :
    d'.Admissible := by
  obtain ⟨_, _, hcase⟩ := Settle_inv h
  rcases hcase with ⟨_, _, hs⟩ | ⟨ttl, _, _, e⟩ | ⟨ttl, _, _, hs⟩
  · exact storeResult_admissible hs (admissible_of_eq hA rfl rfl)
  · rw [e]; exact hA
  · exact storeResult_admissible hs hA

/-- One successful call keeps registry admissibility, unless it is a `Withdraw` by a listed
host or a finalization that changes `Deposits`. -/
theorem call_admissible {d d' : DB3} {ctx : CallContext} {op : Op} {out : List Transfer}
    (h : d.call ctx op = .ok (d', out)) (hA : d.Admissible)
    (hw : ∀ dbid, op = .withdraw dbid → get2 d.ApiRegistry dbid ctx.Caller = none)
    (hf : op = .claimFees ∨ op = .claimRoyalties → d'.Deposits = d.Deposits) :
    d'.Admissible := by
  cases op with
  | deploy m =>
    simp only [DB3.call, Except.ok.injEq, Prod.mk.injEq] at h
    rw [← h.1]
    exact Deploy_admissible d ctx m hA
  | deposit dbid =>
    simp only [DB3.call] at h
    cases hd : d.Deposit ctx dbid with
    | error e => simp [hd, Except.map] at h
    | ok d₁ =>
      simp only [hd, Except.map, Except.ok.injEq, Prod.mk.injEq] at h
      rw [← h.1]
      exact Deposit_admissible hd hA
  | withdraw dbid =>
    simp only [DB3.call] at h
    exact Withdraw_admissible h hA (hw dbid rfl)
  | register dbid uri =>
    simp only [DB3.call] at h
    cases hd : d.Register ctx dbid uri with
    | error e => simp [hd, Except.map] at h
    | ok d₁ =>
      simp only [hd, Except.map, Except.ok.injEq, Prod.mk.injEq] at h
      rw [← h.1]
      exact Register_admissible hd hA
  | escrowFee dbid qid ttl =>
    simp only [DB3.call] at h
    cases hd : d.EscrowFee ctx dbid qid ttl with
    | error e => simp [hd, Except.map] at h
    | ok d₁ =>
      simp only [hd, Except.map, Except.ok.injEq, Prod.mk.injEq] at h
      rw [← h.1]
      obtain ⟨_, _, _, _, e⟩ := EscrowFee_inv hd
      exact admissible_of_eq hA (by rw [e]) (by rw [e])
  | settle dbid qid rid =>
    simp only [DB3.call] at h
    cases hd : d.Settle ctx dbid qid rid with
    | error e => simp [hd, Except.map] at h
    | ok d₁ =>
      simp only [hd, Except.map, Except.ok.injEq, Prod.mk.injEq] at h
      rw [← h.1]
      exact Settle_admissible hd hA
  | claimFees =>
    simp only [DB3.call] at h
    exact admissible_of_eq hA (ClaimFees_static h).2.2.2.2.1 (hf (Or.inl rfl))
  | claimRoyalties =>
    simp only [DB3.call] at h
    exact admissible_of_eq hA (ClaimRoyalties_static h).2.2.2.2.1 (hf (Or.inr rfl))
  | recover amount target =>
    simp only [DB3.call] at h
    obtain ⟨_, _, e, _⟩ := Recover_inv h
    exact admissible_of_eq hA (by rw [e]) (by rw [e])

theorem exec_admissible (w : World) (c : CallContext × Op) (cs : List (CallContext × Op))
    (hA : w.db.Admissible) (hk : w.keepsRegistered (c :: cs) = true) :
    (w.exec c).db.Admissible ∧ (w.exec c).keepsRegistered cs = true := by
  simp only [World.keepsRegistered, Bool.and_eq_true] at hk
  refine ⟨?_, hk.2⟩
  rcases exec_db w c with h | ⟨d', out, hc, h⟩
  · rw [h]; exact hA
  · rw [h]
    refine call_admissible hc hA ?_ ?_
    · intro dbid hop
      have h1 := hk.1
      rw [hop] at h1
      simpa using h1
    · intro hop
      have h1 := hk.1
      rw [← h]
      rcases hop with hop | hop <;> rw [hop] at h1 <;> simpa using h1

theorem run_admissible (cs : List (CallContext × Op)) :
    ∀ w : World, w.db.Admissible → w.keepsRegistered cs = true → (w.run cs).db.Admissible := by
  induction cs with
  | nil => intro w hA _; exact hA
  | cons c cs ih =>
    intro w hA hk
    obtain ⟨h1, h2⟩ := exec_admissible w c cs hA hk
    exact ih (w.exec c) h1 h2

theorem NewDB3_admissible : NewDB3.Admissible := by
  intro k h uri hu
  simp [NewDB3, get2, GoMap.get?] at hu

/-- C18, the counterexample: after a deploy, the deposit and the registration of `"h1"`, the
withdrawal of `"h1"` succeeds and pays 10000 back, and `"h1"` is still listed in
`ApiRegistry[0]` (and returned by `Discover`) with a deposit of zero: the reached state is not
admissible. -/
theorem withdraw_keeps_registry :
    ¬ (NewWorld.run withdrawRegistered).db.Admissible ∧
      get2 (NewWorld.run withdrawRegistered).db.ApiRegistry 0 "h1" = some "u1" ∧
      (NewWorld.run withdrawRegistered).db.depositOf 0 "h1" = 0 ∧
      get2 (NewWorld.run withdrawRegistered).db.Deposits 0 "h1" = none ∧
      ((NewWorld.run withdrawRegistered).db.Discover 0).toOption = some ["u1"] ∧
      (NewWorld.run withdrawRegistered).out = [("h1", 10000)] ∧
      (NewWorld.run withdrawRegistered).calls = withdrawRegistered := by
  refine ⟨?_, by decide, by decide, by decide, by decide, by decide, by decide⟩
  intro hA
  have h := hA 0 "h1" "u1" (by decide)
  revert h
  decide

/-- C18, amended: in every state reached from `NewDB3` by a sequence of contract calls that
contains no `Withdraw` by a caller listed in the registry of that database at the time of the
call and no finalization that changes `Deposits`, every host with an entry in
`ApiRegistry[dbid]` has `Deposits[dbid][host] >= SECURITY_DEPOSIT`. -/
theorem registry_admissible (cs : List (CallContext × Op))
    (hk : NewWorld.keepsRegistered cs = true) :
    (NewWorld.run cs).db.Admissible ∧
      ∀ dbid h uri, get2 (NewWorld.run cs).db.ApiRegistry dbid h = some uri →
        SECURITY_DEPOSIT ≤ (get2 (NewWorld.run cs).db.Deposits dbid h).getD 0 :=
  ⟨run_admissible cs NewWorld NewDB3_admissible hk,
   run_admissible cs NewWorld NewDB3_admissible hk⟩

/-- A witness of C18 (amended): scenario 1, then the deposit and withdrawal of a host that never
registered, and the claim of `"h1"` after the TTL. -/
theorem registry_admissible_witness :
    NewWorld.keepsRegistered (scenario1 ++ [(ctxOf "h2" 10000 12, .deposit 0),
        (ctxOf "h2" 0 13, .withdraw 0), (ctxOf "h1" 0 200, .claimFees)]) = true ∧
      (NewWorld.run (scenario1 ++ [(ctxOf "h2" 10000 12, .deposit 0),
        (ctxOf "h2" 0 13, .withdraw 0), (ctxOf "h1" 0 200, .claimFees)])).db.Admissible :=
  ⟨by decide, (registry_admissible _ (by decide)).1⟩

/-! ## Late results, recovery of slashed funds, money arithmetic -/

/-- C21: for a known database, a caller whose deposit is at least `SECURITY_DEPOSIT` and a query
whose `ResultTTL[dbid][qid]` exists and is at most `ctx.Height`, `Settle` does not panic and
returns the state it was given: nothing is inserted into `PendingResults` and the TTL is kept.
Under the runtime the call is recorded and the contract state is unchanged. In scenario 4 (TTL
100, result submitted at height 101) the state after the call is the state before it and no
result is pending. -/
theorem late_settle_noop (d : DB3) (ctx : CallContext) (dbid : DBId) (qid : QueryCID)
    (rid : ResultCID) (ttl : Int) (h1 : dbid < d.NextId)
    (h2 : SECURITY_DEPOSIT ≤ d.depositOf dbid ctx.Caller)
    (h3 : get2 d.ResultTTL dbid qid = some ttl) (h4 : ttl ≤ ctx.Height) :
    d.Settle ctx dbid qid rid = .ok d ∧
      (∀ w : World, w.db = d →
        (w.exec (ctx, .settle dbid qid rid)).db = d ∧
          (w.exec (ctx, .settle dbid qid rid)).out = w.out ∧
          (w.exec (ctx, .settle dbid qid rid)).calls = w.calls ++ [(ctx, .settle dbid qid rid)]) ∧
      (NewWorld.run scenarioLate).db = (NewWorld.run scenarioLate.dropLast).db ∧
      (NewWorld.run scenarioLate).calls = scenarioLate ∧
      get2 (NewWorld.run scenarioLate).db.PendingResults 0 "cid-Q" = none ∧
      get2 (NewWorld.run scenarioLate).db.ResultTTL 0 "cid-Q" = some 100 := by
  have hok : d.Settle ctx dbid qid rid = .ok d := by
    have h2' : ¬ (get2 d.Deposits dbid ctx.Caller).getD 0 < SECURITY_DEPOSIT := not_lt.2 h2
    simp only [DB3.Settle, ge_iff_le, not_le.2 h1, if_false, h2', h3, h4, if_true]
  refine ⟨hok, ?_, by decide, by decide, by decide, by decide⟩
  intro w hw
  subst hw
  simp [World.exec, DB3.call, hok, Except.map, sent]

/-- A witness of C21: the late result of scenario 4. -/
theorem late_settle_noop_witness :
    (NewWorld.run scenarioLate.dropLast).db.Settle (ctxOf "h1" 0 101) 0 "cid-Q" "cid-R" =
      .ok (NewWorld.run scenarioLate.dropLast).db :=
  (late_settle_noop (NewWorld.run scenarioLate.dropLast).db (ctxOf "h1" 0 101) 0 "cid-Q" "cid-R"
    100 (by decide) (by decide) (by decide) (by decide)).1

theorem Recover_error_owner {d : DB3} {ctx : CallContext} {amount : Money} {target : AccountID}
    (h : ctx.Caller ≠ d.Owner) :
    d.Recover ctx amount target = .error "Must be contract owner to recover funds" := by
  simp [DB3.Recover, h]

theorem Recover_error_funds {d : DB3} {ctx : CallContext} {amount : Money} {target : AccountID}
    (h1 : ctx.Caller = d.Owner) (h2 : d.Slashed < amount) :
    d.Recover ctx amount target = .error "Amount is smaller than available funds" := by
  simp [DB3.Recover, h1, h2]

theorem Recover_ok {d : DB3} {ctx : CallContext} {amount : Money} {target : AccountID}
    (h1 : ctx.Caller = d.Owner) (h2 : amount ≤ d.Slashed) :
    d.Recover ctx amount target =
      .ok ({ d with Slashed := Money.sub d.Slashed amount }, [(target, amount)]) := by
  simp [DB3.Recover, h1, not_lt.2 h2, TransferTo]

theorem exec_recover_abort {w : World} {ctx : CallContext} {amount : Money} {target : AccountID}
    {e : String} (h : w.db.Recover ctx amount target = .error e) :
    w.exec (ctx, .recover amount target) = w := by
  apply exec_abort (e := e)
  simp [DB3.call, h]

/-- A successful call that is neither `Recover` nor a claim leaves `Slashed` as it was. -/
theorem call_slashed {d d' : DB3} {ctx : CallContext} {op : Op} {out : List Transfer}
    (h : d.call ctx op = .ok (d', out)) (hc : op.isClaim = false) (hr : op.isRecover = false) :
    d'.Slashed = d.Slashed := by
  cases op with
  | deploy m =>
    simp only [DB3.call, Except.ok.injEq, Prod.mk.injEq] at h
    rw [← h.1]; rfl
  | deposit dbid =>
    simp only [DB3.call] at h
    cases hd : d.Deposit ctx dbid with
    | error e => simp [hd, Except.map] at h
    | ok d₁ =>
      simp only [hd, Except.map, Except.ok.injEq, Prod.mk.injEq] at h
      obtain ⟨_, _, _, e⟩ := Deposit_inv hd
      rw [← h.1, e]
  | withdraw dbid =>
    simp only [DB3.call] at h
    obtain ⟨_, _, _, e, _⟩ := Withdraw_inv h
    rw [e]
  | register dbid uri =>
    simp only [DB3.call] at h
    cases hd : d.Register ctx dbid uri with
    | error e => simp [hd, Except.map] at h
    | ok d₁ =>
      simp only [hd, Except.map, Except.ok.injEq, Prod.mk.injEq] at h
      rw [← h.1]
      obtain ⟨_, _, hcase⟩ := Register_inv hd
      rcases hcase with ⟨_, e⟩ | ⟨_, _, e⟩ <;> rw [e]
  | escrowFee dbid qid ttl =>
    simp only [DB3.call] at h
    cases hd : d.EscrowFee ctx dbid qid ttl with
    | error e => simp [hd, Except.map] at h
    | ok d₁ =>
      simp only [hd, Except.map, Except.ok.injEq, Prod.mk.injEq] at h
      obtain ⟨_, _, _, _, e⟩ := EscrowFee_inv hd
      rw [← h.1, e]
  | settle dbid qid rid =>
    simp only [DB3.call] at h
    cases hd : d.Settle ctx dbid qid rid with
    | error e => simp [hd, Except.map] at h
    | ok d₁ =>
      simp only [hd, Except.map, Except.ok.injEq, Prod.mk.injEq] at h
      rw [← h.1]
      obtain ⟨_, _, hcase⟩ := Settle_inv hd
      rcases hcase with ⟨_, _, hs⟩ | ⟨ttl, _, _, e⟩ | ⟨ttl, _, _, hs⟩
      · obtain ⟨e, _⟩ := storeResult_inv hs
        rw [e]
      · rw [e]
      · obtain ⟨e, _⟩ := storeResult_inv hs
        rw [e]
  | claimFees => simp [Op.isClaim] at hc
  | claimRoyalties => simp [Op.isClaim] at hc
  | recover amount target => simp [Op.isRecover] at hr

theorem Money.ofInt_of_range {n : Int} (h0 : 0 ≤ n) (h1 : n < 2 ^ 63) :
    Money.ofInt n = n.toNat := by
  obtain ⟨k, rfl⟩ := Int.eq_ofNat_of_zero_le h0
  rw [Money.ofInt_natCast, Int.toNat_ofNat]
  apply Nat.mod_eq_of_lt
  rw [U64_eq]
  norm_num at h1
  omega

/-- C25, the counterexample: `Money.Mul` wraps around. `Money(2^63).Mul(2)` is 0 and
`Money(2^63 + 1).Mul(2)` is 2, where the saturating product is `2^64 - 1`. -/
theorem mul_wraps :
    Money.Mul (2 ^ 63) 2 = 0 ∧ Money.Mul (2 ^ 63 + 1) 2 = 2 ∧
      2 ^ 63 * 2 ≥ U64 ∧ Money.Mul (2 ^ 63) 2 ≠ U64 - 1 ∧ Money.Mul (2 ^ 63 + 1) 2 < 2 ^ 63 + 1 := by
  decide

/-- C25, amended: for every `Money` value `m` and every non-negative `int` `n`, `m.Mul(n)` is
the product reduced modulo `2^64` (the product itself when it is below `2^64`), and for every
`n > 0`, `m.Div(n)` does not panic and is the quotient of `m` by `n` truncated toward zero. -/
theorem money_arith (m : Money) (n : Int) (h0 : 0 ≤ n) (h1 : n < 2 ^ 63) :
    Money.Mul m n = (m * n.toNat) % U64 ∧
      (m * n.toNat < U64 → Money.Mul m n = m * n.toNat) ∧
      (0 < n → Money.Div m n = .ok (m / n.toNat) ∧
        ((m / n.toNat : Nat) : Int) = Int.tdiv (m : Int) n) := by
  refine ⟨?_, fun h => Money.mul_of_lt h0 h, ?_⟩
  · unfold Money.Mul
    rw [Money.ofInt_of_range h0 h1]
  · intro hpos
    have hne : n.toNat ≠ 0 := by omega
    refine ⟨?_, ?_⟩
    · unfold Money.Div
      rw [Money.ofInt_of_range h0 h1, if_neg hne]
    · obtain ⟨k, rfl⟩ := Int.eq_ofNat_of_zero_le h0
      simp [Int.tdiv]

/-- A witness of C25 (amended): the royalty product and quotient of scenario 1. -/
theorem money_arith_witness :
    Money.Mul 1000000 1000 = 1000000 * 1000 ∧ Money.Div 1000000000 10000 = .ok 100000 :=
  ⟨(money_arith 1000000 1000 (by decide) (by decide)).2.1 (by decide),
   ((money_arith 1000000000 10000 (by decide) (by decide)).2.2 (by decide)).1⟩

/-! ## The election: one winner, and a non-empty super-majority in the payout cases -/

theorem Election.count_add_le (e : Election) {c₁ c₂ : ResultCID} (h : c₁ ≠ c₂) :
    e.count c₁ + e.count c₂ ≤ e.NumVoters := by
  unfold Election.count Election.NumVoters
  induction e.votes with
  | nil => simp
  | cons v vs ih =>
    have h12 : ¬ (v.ResultCID = c₁ ∧ v.ResultCID = c₂) := fun hh => h (hh.1.symm.trans hh.2)
    simp only [List.filter_cons, List.length_cons]
    by_cases h1 : v.ResultCID = c₁ <;> by_cases h2 : v.ResultCID = c₂
    · exact absurd ⟨h1, h2⟩ h12
    · simp only [h1, h2, h, Ne.symm h, decide_True, decide_False, if_true, List.length_cons,
        Bool.false_eq_true, if_false]
      omega
    · simp only [h1, h2, h, Ne.symm h, decide_True, decide_False, if_true, List.length_cons,
        Bool.false_eq_true, if_false]
      omega
    · simp only [h1, h2, decide_False]
      simp only [Bool.false_eq_true, if_false]
      omega

/-- Two different results cannot both meet the threshold in an election with a vote. -/
theorem Election.threshold_unique (e : Election) {c₁ c₂ : ResultCID} (hn : 0 < e.NumVoters)
    (h₁ : meetsThreshold (e.count c₁) e.NumVoters)
    (h₂ : meetsThreshold (e.count c₂) e.NumVoters) : c₁ = c₂ := by
  by_contra hne
  have h := e.count_add_le hne
  rw [threshold_iff] at h₁ h₂
  omega

/-- C27: in an election built by `AddVote` from at least one vote, all votes returned by
`SuperMajority()` name the same result, and two distinct results never both meet the threshold
`results[cid]*100 >= 200*numVoters/3` (neither in the tally `results` nor by their number of
votes). -/
theorem single_winner (l : List (AccountID × ResultCID)) (hne : l ≠ []) :
    (∀ v ∈ (Election.ofVotes l).SuperMajority, ∀ w ∈ (Election.ofVotes l).SuperMajority,
        v.ResultCID = w.ResultCID) ∧
      (∀ c₁ c₂, c₁ ≠ c₂ →
        ¬ (((Election.ofVotes l).results.get? c₁).getD 0 * 100 ≥ (Election.ofVotes l).cutoff ∧
           ((Election.ofVotes l).results.get? c₂).getD 0 * 100 ≥ (Election.ofVotes l).cutoff)) ∧
      (∀ c₁ c₂, c₁ ≠ c₂ →
        ¬ (100 * (Election.ofVotes l).count c₁ ≥ 200 * (Election.ofVotes l).NumVoters / 3 ∧
           100 * (Election.ofVotes l).count c₂ ≥ 200 * (Election.ofVotes l).NumVoters / 3)) := by
  have hc := Election.consistent_ofVotes l
  have hn : 0 < (Election.ofVotes l).NumVoters := by
    unfold Election.NumVoters
    rw [Election.votes_ofVotes, List.length_map]
    exact List.length_pos.2 hne
  refine ⟨?_, ?_, ?_⟩
  · intro v hv w hw
    exact Election.threshold_unique _ hn ((hc.mem_SuperMajority v).1 hv).2
      ((hc.mem_SuperMajority w).1 hw).2
  · intro c₁ c₂ hne12 h
    rw [hc.getD, hc.getD] at h
    exact hne12 (Election.threshold_unique _ hn h.1 h.2)
  · intro c₁ c₂ hne12 h
    refine hne12 (Election.threshold_unique _ hn ?_ ?_)
    · unfold meetsThreshold; omega
    · unfold meetsThreshold; omega

/-- A witness of C27: the two super-majority votes of `TestMajority3` name the same result. -/
theorem single_winner_witness :
    ({ AccountId := "A", ResultCID := "cid-1" } : Vote) ∈
        (Election.ofVotes [("A", "cid-1"), ("B", "cid-1"), ("C", "cid-2")]).SuperMajority ∧
      ({ AccountId := "B", ResultCID := "cid-1" } : Vote) ∈
        (Election.ofVotes [("A", "cid-1"), ("B", "cid-1"), ("C", "cid-2")]).SuperMajority ∧
      ({ AccountId := "A", ResultCID := "cid-1" } : Vote).ResultCID =
        ({ AccountId := "B", ResultCID := "cid-1" } : Vote).ResultCID :=
  ⟨by decide, by decide,
   (single_winner [("A", "cid-1"), ("B", "cid-1"), ("C", "cid-2")] (by decide)).1
     { AccountId := "A", ResultCID := "cid-1" } (by decide)
     { AccountId := "B", ResultCID := "cid-1" } (by decide)⟩

theorem foldlM_ne_error {α σ : Type} (f : σ → α → Except String σ) (e : String)
    (hf : ∀ s a, f s a ≠ .error e) : ∀ (l : List α) (s : σ), l.foldlM f s ≠ .error e := by
  intro l
  induction l with
  | nil => intro s h; exact Except.noConfusion h
  | cons a l ih =>
    intro s
    rw [List.foldlM_cons]
    cases hfa : f s a with
    | error e' =>
      intro h
      apply hf s a
      rw [hfa]
      simpa using h
    | ok s' =>
      simp only [ok_bind]
      exact ih s'

theorem slashVote_ne_div (dbid : DBId) (d : DB3) (v : Vote) :
    DB3.slashVote dbid d v ≠ .error "integer divide by zero" := by
  simp only [DB3.slashVote, set2]
  cases d.Deposits.get? dbid with
  | none =>
    simp only [error_bind]
    intro h
    have : nilMapPanic = "integer divide by zero" := by simpa using h
    revert this
    decide
  | some x => simp

theorem settleElection_ne_div (d : DB3) (dbid : DBId) (l : List (AccountID × ResultCID))
    (R : Money) :
    DB3.settleElection d dbid (Election.ofVotes l) R ≠ .error "integer divide by zero" := by
  have hc := Election.consistent_ofVotes l
  unfold DB3.settleElection
  split
  · next hu =>
    rw [payout_ok d _ R (Nat.pos_iff_ne_zero.1 (hc.numSuperMajority_pos (Or.inl hu)))]
    intro h; exact Except.noConfusion h
  · split
    · next hs =>
      rw [payout_ok d _ R (Nat.pos_iff_ne_zero.1 (hc.numSuperMajority_pos (Or.inr hs)))]
      simp only [ok_bind]
      exact foldlM_ne_error _ _ (slashVote_ne_div dbid) _ _
    · intro h; exact Except.noConfusion h

theorem finalizeQuery_ne_div (ctx : CallContext) (dbid : DBId) (rb : Int) (d : DB3)
    (e : QueryCID × Int) :
    DB3.finalizeQuery ctx dbid rb d e ≠ .error "integer divide by zero" := by
  obtain ⟨q, t⟩ := e
  by_cases ht : t > ctx.Height
  · rw [finalizeQuery_skip ctx dbid rb d q t ht]
    intro h; exact Except.noConfusion h
  · by_cases hfee : 0 < (get2 d.PendingFees dbid q).getD 0
    · rw [finalizeQuery_expired ctx dbid rb d q t (not_lt.1 ht) hfee, splitFee_eq]
      have := settleElection_ne_div (d.creditRoyalty dbid rb ((get2 d.PendingFees dbid q).getD 0))
        dbid ((get2 d.PendingResults dbid q).getD [])
        (feeAfterRoyalty ((get2 d.PendingFees dbid q).getD 0) rb)
      intro h
      apply this
      unfold DB3.election at h
      cases hs : DB3.settleElection
          (d.creditRoyalty dbid rb ((get2 d.PendingFees dbid q).getD 0)) dbid
          (Election.ofVotes ((get2 d.PendingResults dbid q).getD []))
          (feeAfterRoyalty ((get2 d.PendingFees dbid q).getD 0) rb) with
      | error e' =>
        rw [hs] at h
        simpa [Except.map] using h
      | ok s' =>
        rw [hs] at h
        simp [Except.map] at h
    · rw [finalizeQuery_free ctx dbid rb d q t (not_lt.1 ht) (Nat.eq_zero_of_not_pos hfee)]
      intro h; exact Except.noConfusion h

theorem finalizeResults_ne_div (d : DB3) (ctx : CallContext) :
    d.finalizeResults ctx ≠ .error "integer divide by zero" := by
  unfold DB3.finalizeResults
  apply foldlM_ne_error
  intro s a
  unfold DB3.finalizeDb
  exact foldlM_ne_error _ _ (fun s' e => finalizeQuery_ne_div ctx a.1 _ s' e) _ _

/-- C28: in an election built by `AddVote`, `IsUnanimous()` or `IsSuperMajority()` implies
`NumSuperMajority() >= 1`, so the payout `10000 / NumSuperMajority()` of both cases is defined
and does not panic; an election without votes is neither unanimous nor a super-majority and
takes the default case; and `finalizeResults` never panics with a division by zero. -/
theorem no_division_by_zero (l : List (AccountID × ResultCID)) :
    (((Election.ofVotes l).IsUnanimous = true ∨ (Election.ofVotes l).IsSuperMajority = true) →
        1 ≤ (Election.ofVotes l).NumSuperMajority ∧
          ∀ (d : DB3) (R : Money), ∃ d', DB3.payout d (Election.ofVotes l) R = .ok d') ∧
      (Election.ofVotes []).IsUnanimous = false ∧
      (Election.ofVotes []).IsSuperMajority = false ∧
      (∀ (d : DB3) (dbid : DBId) (R : Money),
        DB3.settleElection d dbid (Election.ofVotes []) R =
          .ok { d with Slashed := Money.add d.Slashed R }) ∧
      (∀ (d : DB3) (dbid : DBId) (R : Money),
        DB3.settleElection d dbid (Election.ofVotes l) R ≠ .error "integer divide by zero") ∧
      (∀ (d : DB3) (ctx : CallContext),
        d.finalizeResults ctx ≠ .error "integer divide by zero") := by
  refine ⟨?_, by decide, by decide, ?_, fun d dbid R => settleElection_ne_div d dbid l R,
    finalizeResults_ne_div⟩
  · intro h
    have hpos := (Election.consistent_ofVotes l).numSuperMajority_pos h
    exact ⟨hpos, fun d R => ⟨_, payout_ok d _ R (Nat.pos_iff_ne_zero.1 hpos)⟩⟩
  · intro d dbid R
    rfl

/-- A witness of C28: the votes of `TestMajority3` have a super-majority of two. -/
theorem no_division_by_zero_witness :
    1 ≤ (Election.ofVotes [("A", "cid-1"), ("B", "cid-1"), ("C", "cid-2")]).NumSuperMajority :=
  ((no_division_by_zero [("A", "cid-1"), ("B", "cid-1"), ("C", "cid-2")]).1
    (Or.inr (by decide))).1

/-! ## Claims -/

theorem ClaimFees_ok {d d₁ : DB3} {ctx : CallContext} (h : d.finalizeResults ctx = .ok d₁) :
    d.ClaimFees ctx = .ok
      (if 0 < balanceOf d₁.SettledFees ctx.Caller then
        ({ d₁ with SettledFees := d₁.SettledFees.set ctx.Caller 0 },
          [(ctx.Caller, balanceOf d₁.SettledFees ctx.Caller)])
      else (d₁, [])) := by
  unfold DB3.ClaimFees balanceOf
  rw [h]
  simp only [ok_bind, gt_iff_lt, Money.sub_self, TransferTo, List.nil_append, pure_eq_ok]
  split <;> rfl

theorem ClaimRoyalties_ok {d d₁ : DB3} {ctx : CallContext}
    (h : d.finalizeResults ctx = .ok d₁) :
    d.ClaimRoyalties ctx = .ok
      (if 0 < balanceOf d₁.SettledRoyalties ctx.Caller then
        ({ d₁ with SettledRoyalties := d₁.SettledRoyalties.set ctx.Caller 0 },
          [(ctx.Caller, balanceOf d₁.SettledRoyalties ctx.Caller)])
      else (d₁, [])) := by
  unfold DB3.ClaimRoyalties balanceOf
  rw [h]
  simp only [ok_bind, gt_iff_lt, Money.sub_self, TransferTo, List.nil_append, pure_eq_ok]
  split <;> rfl

/-- The payout of a claim from the map `m` of settled balances: the new map and the transfers. -/
theorem claim_payout (m : GoMap AccountID Money) (a : AccountID) :
    balanceOf (if 0 < balanceOf m a then m.set a 0 else m) a = 0 ∧
      (∀ b, b ≠ a → (if 0 < balanceOf m a then m.set a 0 else m).get? b = m.get? b) ∧
      sent (if 0 < balanceOf m a then [(a, balanceOf m a)] else []) = balanceOf m a := by
  by_cases h : 0 < balanceOf m a
  · simp only [h, if_true]
    refine ⟨?_, ?_, ?_⟩
    · simp [balanceOf, GoMap.get?_set]
    · intro b hb
      exact GoMap.get?_set_of_ne m (Ne.symm hb) 0
    · simp [sent]
  · simp only [h, if_false]
    refine ⟨Nat.eq_zero_of_not_pos h, fun _ _ => trivial, ?_⟩
    rw [Nat.eq_zero_of_not_pos h]
    rfl

/-- C22: in a state in which every database with a pending query has a deposits map (as
`Deploy` creates), `ClaimFees` runs the finalizer and then, with `earned` the value of
`SettledFees[caller]` after the finalizer, transfers exactly `earned` to the caller (one
transfer when `earned > 0`, none otherwise), leaves `SettledFees[caller]` at 0, and changes no
other account's `SettledFees` and no other part of the finalized state; `ClaimRoyalties` does
the same with `SettledRoyalties`. In scenario 1 the claim of `h1` at height 200 pays the 900000
earned by the query finalized in the same call, and the claim of `dev.near` pays the royalty of
100000. -/
theorem claim_spec (d : DB3) (ctx : CallContext)
    (hdep : ∀ k ∈ d.ResultTTL.keys, k ∈ d.Deposits.keys) :
    ∃ d₁, d.finalizeResults ctx = .ok d₁ ∧
      (∃ d' out, d.ClaimFees ctx = .ok (d', out) ∧
        out = (if 0 < balanceOf d₁.SettledFees ctx.Caller then
          [(ctx.Caller, balanceOf d₁.SettledFees ctx.Caller)] else []) ∧
        sent out = balanceOf d₁.SettledFees ctx.Caller ∧
        balanceOf d'.SettledFees ctx.Caller = 0 ∧
        (∀ a, a ≠ ctx.Caller → d'.SettledFees.get? a = d₁.SettledFees.get? a) ∧
        d' = { d₁ with SettledFees := d'.SettledFees }) ∧
      (∃ d' out, d.ClaimRoyalties ctx = .ok (d', out) ∧
        out = (if 0 < balanceOf d₁.SettledRoyalties ctx.Caller then
          [(ctx.Caller, balanceOf d₁.SettledRoyalties ctx.Caller)] else []) ∧
        sent out = balanceOf d₁.SettledRoyalties ctx.Caller ∧
        balanceOf d'.SettledRoyalties ctx.Caller = 0 ∧
        (∀ a, a ≠ ctx.Caller → d'.SettledRoyalties.get? a = d₁.SettledRoyalties.get? a) ∧
        d' = { d₁ with SettledRoyalties := d'.SettledRoyalties }) ∧
      ((NewWorld.run scenario1).db.ClaimFees (ctxOf "h1" 0 200)).toOption.map
          (fun r => (r.2, balanceOf r.1.SettledFees "h1",
            balanceOf r.1.SettledRoyalties "dev.near")) =
        some ([("h1", 900000)], 0, 100000) ∧
      ((NewWorld.run scenario1).db.ClaimRoyalties (ctxOf "dev.near" 0 200)).toOption.map
          (fun r => (r.2, balanceOf r.1.SettledRoyalties "dev.near",
            balanceOf r.1.SettledFees "h1")) =
        some ([("dev.near", 100000)], 0, 900000) := by
  obtain ⟨d₁, hf, _⟩ := finalizeResults_ok d ctx hdep
  refine ⟨d₁, hf, ?_, ?_, by decide, by decide⟩
  · obtain ⟨p1, p2, p3⟩ := claim_payout d₁.SettledFees ctx.Caller
    by_cases h : 0 < balanceOf d₁.SettledFees ctx.Caller
    · refine ⟨_, _, (ClaimFees_ok hf).trans (by rw [if_pos h]), by rw [if_pos h], ?_, ?_, ?_, rfl⟩
      · simpa [h] using p3
      · simpa [h] using p1
      · simpa [h] using p2
    · refine ⟨_, _, (ClaimFees_ok hf).trans (by rw [if_neg h]), by rw [if_neg h], ?_, ?_, ?_, rfl⟩
      · simpa [h] using p3
      · simpa [h] using p1
      · intro a _; rfl
  · obtain ⟨p1, p2, p3⟩ := claim_payout d₁.SettledRoyalties ctx.Caller
    by_cases h : 0 < balanceOf d₁.SettledRoyalties ctx.Caller
    · refine ⟨_, _, (ClaimRoyalties_ok hf).trans (by rw [if_pos h]), by rw [if_pos h],
        ?_, ?_, ?_, rfl⟩
      · simpa [h] using p3
      · simpa [h] using p1
      · simpa [h] using p2
    · refine ⟨_, _, (ClaimRoyalties_ok hf).trans (by rw [if_neg h]), by rw [if_neg h],
        ?_, ?_, ?_, rfl⟩
      · simpa [h] using p3
      · simpa [h] using p1
      · intro a _; rfl

/-- A witness of C22: the claim of `h1` at height 200 in scenario 1. -/
theorem claim_spec_witness :
    ∃ d₁, (NewWorld.run scenario1).db.finalizeResults (ctxOf "h1" 0 200) = .ok d₁ ∧
      ∃ d' out, (NewWorld.run scenario1).db.ClaimFees (ctxOf "h1" 0 200) = .ok (d', out) ∧
        sent out = balanceOf d₁.SettledFees (ctxOf "h1" 0 200).Caller :=
  let ⟨d₁, h1, ⟨d', out, h2, _, h3, _⟩, _⟩ :=
    claim_spec (NewWorld.run scenario1).db (ctxOf "h1" 0 200) (by decide)
  ⟨d₁, h1, d', out, h2, h3⟩

/-! ## Invariants of the reachable states: databases and pending entries -/

/-- A call other than `Deploy` leaves the manifests and the owners as they were. -/
theorem call_manifests {d d' : DB3} {ctx : CallContext} {op : Op} {out : List Transfer}
    (h : d.call ctx op = .ok (d', out)) (hop : op.isDeploy = false) :
    d'.Manifests = d.Manifests ∧ d'.Owners = d.Owners := by
  cases op with
  | deploy m => simp [Op.isDeploy] at hop
  | deposit dbid =>
    simp only [DB3.call] at h
    cases hd : d.Deposit ctx dbid with
    | error e => simp [hd, Except.map] at h
    | ok d₁ =>
      simp only [hd, Except.map, Except.ok.injEq, Prod.mk.injEq] at h
      obtain ⟨_, _, _, e⟩ := Deposit_inv hd
      rw [← h.1, e]
      exact ⟨rfl, rfl⟩
  | withdraw dbid =>
    simp only [DB3.call] at h
    obtain ⟨_, _, _, e, _⟩ := Withdraw_inv h
    rw [e]
    exact ⟨rfl, rfl⟩
  | register dbid uri =>
    simp only [DB3.call] at h
    cases hd : d.Register ctx dbid uri with
    | error e => simp [hd, Except.map] at h
    | ok d₁ =>
      simp only [hd, Except.map, Except.ok.injEq, Prod.mk.injEq] at h
      rw [← h.1, Register_frame hd]
      exact ⟨rfl, rfl⟩
  | escrowFee dbid qid ttl =>
    simp only [DB3.call] at h
    cases hd : d.EscrowFee ctx dbid qid ttl with
    | error e => simp [hd, Except.map] at h
    | ok d₁ =>
      simp only [hd, Except.map, Except.ok.injEq, Prod.mk.injEq] at h
      obtain ⟨_, _, _, _, e⟩ := EscrowFee_inv hd
      rw [← h.1, e]
      exact ⟨rfl, rfl⟩
  | settle dbid qid rid =>
    simp only [DB3.call] at h
    cases hd : d.Settle ctx dbid qid rid with
    | error e => simp [hd, Except.map] at h
    | ok d₁ =>
      simp only [hd, Except.map, Except.ok.injEq, Prod.mk.injEq] at h
      rw [← h.1, Settle_frame hd]
      exact ⟨rfl, rfl⟩
  | claimFees =>
    simp only [DB3.call] at h
    exact ⟨(ClaimFees_static h).2.2.2.1, (ClaimFees_static h).2.2.1⟩
  | claimRoyalties =>
    simp only [DB3.call] at h
    exact ⟨(ClaimRoyalties_static h).2.2.2.1, (ClaimRoyalties_static h).2.2.1⟩
  | recover amount target =>
    simp only [DB3.call] at h
    obtain ⟨_, _, e, _⟩ := Recover_inv h
    rw [e]
    exact ⟨rfl, rfl⟩

theorem exec_manifests (w : World) (c : CallContext × Op) (hop : c.2.isDeploy = false) :
    (w.exec c).db.Manifests = w.db.Manifests ∧ (w.exec c).db.Owners = w.db.Owners := by
  rcases exec_db w c with h | ⟨d', out, hc, h⟩
  · rw [h]; exact ⟨rfl, rfl⟩
  · rw [h]; exact call_manifests hc hop

theorem deploysOf_cons_deploy (ctx : CallContext) (m : Manifest) (cs : List (CallContext × Op)) :
    deploysOf ((ctx, .deploy m) :: cs) = (ctx.Caller, m) :: deploysOf cs := rfl

theorem deploysOf_cons_other (c : CallContext × Op) (cs : List (CallContext × Op))
    (hop : c.2.isDeploy = false) : deploysOf (c :: cs) = deploysOf cs := by
  obtain ⟨ctx, op⟩ := c
  cases op <;> first | rfl | simp [Op.isDeploy] at hop

theorem deploysOf_append (cs cs' : List (CallContext × Op)) :
    deploysOf (cs ++ cs') = deploysOf cs ++ deploysOf cs' := by
  unfold deploysOf
  exact List.filterMap_append _ _ _

theorem deploysOf_length_le (cs : List (CallContext × Op)) :
    (deploysOf cs).length ≤ cs.length := by
  unfold deploysOf
  exact List.length_filterMap_le _ _

theorem Deploy_registered {d : DB3} {L : List (AccountID × Manifest)} (ctx : CallContext)
    (m : Manifest) (h : d.Registered L) (hlen : L.length + 1 < U64) :
    (d.Deploy ctx m).1.Registered (L ++ [(ctx.Caller, m)]) := by
  obtain ⟨hn, hk⟩ := h
  constructor
  · show (d.NextId + 1) % U64 = _
    rw [hn, List.length_append, List.length_singleton]
    exact Nat.mod_eq_of_lt hlen
  · intro k
    have hm : (d.Deploy ctx m).1.Manifests = d.Manifests.set d.NextId m := rfl
    have ho : (d.Deploy ctx m).1.Owners = d.Owners.set d.NextId ctx.Caller := rfl
    rw [hm, ho, GoMap.get?_set, GoMap.get?_set, hn]
    by_cases hkl : L.length = k
    · subst hkl
      simp
    · rw [if_neg hkl, if_neg hkl, (hk k).1, (hk k).2]
      by_cases hlt : k < L.length
      · rw [List.getElem?_append_left hlt]
        exact ⟨rfl, rfl⟩
      · have hgt : L.length < k := lt_of_le_of_ne (not_lt.1 hlt) hkl
        rw [List.getElem?_eq_none (by omega), List.getElem?_eq_none]
        · exact ⟨rfl, rfl⟩
        · rw [List.length_append, List.length_singleton]; omega

theorem run_registered (cs : List (CallContext × Op)) :
    ∀ (w : World) (L : List (AccountID × Manifest)), w.db.Registered L →
      L.length + cs.length < U64 → (w.run cs).db.Registered (L ++ deploysOf cs) := by
  induction cs with
  | nil => intro w L h _; simpa [deploysOf, World.run] using h
  | cons c cs ih =>
    intro w L h hlen
    rw [List.length_cons] at hlen
    show ((w.exec c).run cs).db.Registered _
    cases hop : c.2.isDeploy with
    | false =>
      rw [deploysOf_cons_other c cs hop]
      refine ih (w.exec c) L ?_ (by omega)
      obtain ⟨e1, e2⟩ := exec_manifests w c hop
      refine ⟨(exec_nextId w c hop).trans h.1, fun k => ?_⟩
      rw [e1, e2]
      exact h.2 k
    | true =>
      obtain ⟨ctx, op⟩ := c
      cases op with
      | deploy m =>
        rw [deploysOf_cons_deploy, ← List.singleton_append, ← List.append_assoc]
        refine ih _ _ ?_ ?_
        · rw [exec_deploy]
          exact Deploy_registered ctx m h (by omega)
        · rw [List.length_append, List.length_singleton]; omega
      | _ => simp [Op.isDeploy] at hop

theorem NewDB3_registered : NewDB3.Registered [] := by
  refine ⟨rfl, fun k => ?_⟩
  simp [NewDB3, GoMap.get?]

theorem run_append (w : World) (cs cs' : List (CallContext × Op)) :
    w.run (cs ++ cs') = (w.run cs).run cs' := by
  unfold World.run
  exact List.foldl_append _ _ _ _

theorem deployIds_length (cs : List (CallContext × Op)) :
    ∀ w : World, (w.deployIds cs).length = (deploysOf cs).length := by
  induction cs with
  | nil => intro w; rfl
  | cons c cs ih =>
    intro w
    cases hop : c.2.isDeploy with
    | false => rw [deployIds_cons_other w c cs hop, deploysOf_cons_other c cs hop, ih]
    | true =>
      obtain ⟨ctx, op⟩ := c
      cases op with
      | deploy m =>
        rw [deployIds_cons_deploy, deploysOf_cons_deploy, List.length_cons, List.length_cons, ih]
      | _ => simp [Op.isDeploy] at hop

/-- C24: in the state reached from `NewDB3` by any sequence of fewer than `2^64` contract calls,
`NextId` is the number of `Deploy` calls, the `k`-th of them returned the id `k`, and for every
assigned id `k < NextId` the entries `Manifests[k]` and `Owners[k]` exist, hold the manifest and
the caller of the `Deploy` that returned `k`, and `ApiRegistry[k]`, `Deposits[k]`,
`ResultTTL[k]`, `PendingResults[k]` and `PendingFees[k]` exist; ids from `NextId` on have no
manifest and no owner; and no later call removes or replaces `Manifests[k]` or `Owners[k]`.
After the two deploys of `TestDeploy` the ids 0 and 1 have their manifests and the owner
`sender.near`. -/
theorem database_exists (cs : List (CallContext × Op)) (hlen : cs.length < U64) :
    (NewWorld.run cs).db.NextId = (deploysOf cs).length ∧
      NewWorld.deployIds cs = List.range (deploysOf cs).length ∧
      (∀ k, k < (NewWorld.run cs).db.NextId →
        ∃ c, (deploysOf cs)[k]? = some c ∧
          (NewWorld.run cs).db.Manifests.get? k = some c.2 ∧
          (NewWorld.run cs).db.Owners.get? k = some c.1 ∧
          k ∈ (NewWorld.run cs).db.ApiRegistry.keys ∧ k ∈ (NewWorld.run cs).db.Deposits.keys ∧
          k ∈ (NewWorld.run cs).db.ResultTTL.keys ∧
          k ∈ (NewWorld.run cs).db.PendingResults.keys ∧
          k ∈ (NewWorld.run cs).db.PendingFees.keys) ∧
      (∀ k, (NewWorld.run cs).db.NextId ≤ k →
        (NewWorld.run cs).db.Manifests.get? k = none ∧
          (NewWorld.run cs).db.Owners.get? k = none) ∧
      (∀ cs' : List (CallContext × Op), (cs ++ cs').length < U64 →
        ∀ k, k < (NewWorld.run cs).db.NextId →
          (NewWorld.run (cs ++ cs')).db.Manifests.get? k =
              (NewWorld.run cs).db.Manifests.get? k ∧
            (NewWorld.run (cs ++ cs')).db.Owners.get? k =
              (NewWorld.run cs).db.Owners.get? k) ∧
      (NewWorld.run testDeploy).db.Manifests.get? 0 = some m1 ∧
      ((NewWorld.run testDeploy).db.Manifests.get? 1).map (fun m => m.Name) =
        some "Second without author" ∧
      (NewWorld.run testDeploy).db.Owners.get? 0 = some "sender.near" ∧
      (NewWorld.run testDeploy).db.Owners.get? 1 = some "sender.near" ∧
      (NewWorld.run testDeploy).db.Manifests.get? 2 = none := by
  have hreg : ∀ cs : List (CallContext × Op), cs.length < U64 →
      (NewWorld.run cs).db.Registered (deploysOf cs) := by
    intro cs hlen
    have := run_registered cs NewWorld [] NewDB3_registered (by simpa using hlen)
    simpa using this
  have h := hreg cs hlen
  refine ⟨h.1, ?_, ?_, ?_, ?_, by decide, by decide, by decide, by decide, by decide⟩
  · have hr := deployIds_range cs NewWorld (by simpa [NewWorld, NewDB3] using hlen)
    rw [deployIds_length] at hr
    rw [hr, List.range_eq_range']
    rfl
  · intro k hk
    rw [h.1] at hk
    have hget : (deploysOf cs)[k]? = some ((deploysOf cs)[k]) := List.getElem?_eq_getElem hk
    have hal := run_allocated cs k (by rw [h.1]; exact hk)
    refine ⟨_, hget, ?_, ?_, hal⟩
    · rw [(h.2 k).1, hget]; rfl
    · rw [(h.2 k).2, hget]; rfl
  · intro k hk
    rw [h.1] at hk
    rw [(h.2 k).1, (h.2 k).2, List.getElem?_eq_none hk]
    exact ⟨rfl, rfl⟩
  · intro cs' hlen' k hk
    rw [h.1] at hk
    have h' := hreg (cs ++ cs') hlen'
    rw [(h'.2 k).1, (h'.2 k).2, (h.2 k).1, (h.2 k).2, deploysOf_append,
      List.getElem?_append_left hk]
    exact ⟨rfl, rfl⟩

/-- A witness of C24: the two deploys of `TestDeploy` followed by a deposit. -/
theorem database_exists_witness :
    (NewWorld.run (testDeploy ++ [(ctxOf "h1" 10000 10, Op.deposit 0)])).db.NextId =
      (deploysOf (testDeploy ++ [(ctxOf "h1" 10000 10, Op.deposit 0)])).length :=
  (database_exists (testDeploy ++ [(ctxOf "h1" 10000 10, Op.deposit 0)]) (by decide)).1

theorem get2_modify_modify_of_ne {A B V : Type} [DecidableEq A] [DecidableEq B]
    (m : GoMap A (GoMap B V)) (a a' : A) (b b' : B) (f : V → V) (h : ¬ (a = a' ∧ b = b')) :
    get2 (m.modify a (fun inner => inner.modify b f)) a' b' = get2 m a' b' := by
  unfold get2
  by_cases ha : a = a'
  · subst ha
    have hb : b ≠ b' := fun hb => h ⟨rfl, hb⟩
    rw [GoMap.get?_modify_self]
    cases m.get? a <;> simp [GoMap.get?_modify_of_ne _ hb]
  · rw [GoMap.get?_modify_of_ne _ ha]

/-- The end of `Settle` touches the pending results of no other query. -/
theorem storeResult_other {d d' : DB3} {ctx : CallContext} {dbid : DBId} {qid : QueryCID}
    {rid : ResultCID} (h : d.storeResult ctx dbid qid rid = .ok d') (k : DBId) (q : QueryCID)
    (hne : ¬ (dbid = k ∧ qid = q)) :
    get2 d'.PendingResults k q = get2 d.PendingResults k q := by
  simp only [DB3.storeResult] at h
  split at h
  · cases hs : set2 d.PendingResults dbid qid ([] : GoMap AccountID ResultCID) with
    | error e => simp [hs] at h
    | ok m =>
      simp only [hs, ok_bind, pure_eq_ok, Except.ok.injEq] at h
      obtain ⟨_, rfl⟩ := set2_eq_ok hs
      rw [← h]
      show get2 (GoMap.modify _ dbid _) k q = _
      rw [get2_modify_modify_of_ne _ _ _ _ _ _ hne, get2_modify_set_of_ne _ _ _ _ _ _ hne]
  · simp only [ok_bind, pure_eq_ok, Except.ok.injEq] at h
    rw [← h]
    exact get2_modify_modify_of_ne _ _ _ _ _ _ hne

theorem timed_of_eq {d d' : DB3} (h : d.Timed) (h1 : d'.ResultTTL = d.ResultTTL)
    (h2 : d'.PendingFees = d.PendingFees) (h3 : d'.PendingResults = d.PendingResults) :
    d'.Timed := by
  intro k q hn
  rw [h1] at hn
  rw [h2, h3]
  exact h k q hn

theorem Deploy_timed (d : DB3) (ctx : CallContext) (m : Manifest) (h : d.Timed) :
    (d.Deploy ctx m).1.Timed := by
  intro k q hn
  have e1 : (d.Deploy ctx m).1.ResultTTL = d.ResultTTL.set d.NextId [] := rfl
  have e2 : (d.Deploy ctx m).1.PendingFees = d.PendingFees.set d.NextId [] := rfl
  have e3 : (d.Deploy ctx m).1.PendingResults = d.PendingResults.set d.NextId [] := rfl
  rw [e1, get2_set_nil] at hn
  rw [e2, e3, get2_set_nil, get2_set_nil]
  by_cases hk : d.NextId = k
  · simp [hk]
  · rw [if_neg hk] at hn ⊢
    rw [if_neg hk]
    exact h k q hn

theorem EscrowFee_timed {d d' : DB3} {ctx : CallContext} {dbid : DBId} {qid : QueryCID}
    {ttl : Int} (hc : d.EscrowFee ctx dbid qid ttl = .ok d') (h : d.Timed) : d'.Timed := by
  obtain ⟨_, _, _, hk, e⟩ := EscrowFee_inv hc
  intro k q hn
  have e1 : d'.ResultTTL = d.ResultTTL.modify dbid (fun inner => inner.set qid ttl) := by rw [e]
  have e2 : d'.PendingFees = d.PendingFees.modify dbid (fun inner =>
      inner.set qid (Money.add ((get2 d.PendingFees dbid qid).getD 0) ctx.Amount)) := by rw [e]
  have e3 : d'.PendingResults = d.PendingResults := by rw [e]
  rw [e1] at hn
  by_cases hkq : dbid = k ∧ qid = q
  · obtain ⟨rfl, rfl⟩ := hkq
    rw [get2_modify_set_self _ _ _ _ hk] at hn
    exact Option.noConfusion hn
  · rw [get2_modify_set_of_ne _ _ _ _ _ _ hkq] at hn
    rw [e2, e3, get2_modify_set_of_ne _ _ _ _ _ _ hkq]
    exact h k q hn

theorem Settle_timed {d d' : DB3} {ctx : CallContext} {dbid : DBId} {qid : QueryCID}
    {rid : ResultCID} (hc : d.Settle ctx dbid qid rid = .ok d') (h : d.Timed) : d'.Timed := by
  obtain ⟨_, _, hcase⟩ := Settle_inv hc
  rcases hcase with ⟨_, hk, hs⟩ | ⟨ttl, _, _, e⟩ | ⟨ttl, hsome, _, hs⟩
  · obtain ⟨e, _⟩ := storeResult_inv hs
    intro k q hn
    have e1 : d'.ResultTTL = d.ResultTTL.modify dbid (fun inner =>
        inner.set qid (wrapInt64 (ctx.Height + MAX_BLOCKS_TO_SETTLE))) := by rw [e]
    have e2 : d'.PendingFees = d.PendingFees := by rw [e]
    rw [e1] at hn
    by_cases hkq : dbid = k ∧ qid = q
    · obtain ⟨rfl, rfl⟩ := hkq
      rw [get2_modify_set_self _ _ _ _ hk] at hn
      exact Option.noConfusion hn
    · rw [get2_modify_set_of_ne _ _ _ _ _ _ hkq] at hn
      rw [e2, storeResult_other hs k q hkq]
      exact h k q hn
  · rw [e]; exact h
  · obtain ⟨e, _⟩ := storeResult_inv hs
    intro k q hn
    have e1 : d'.ResultTTL = d.ResultTTL := by rw [e]
    have e2 : d'.PendingFees = d.PendingFees := by rw [e]
    rw [e1] at hn
    have hkq : ¬ (dbid = k ∧ qid = q) := by
      rintro ⟨rfl, rfl⟩
      rw [hsome] at hn
      exact Option.noConfusion hn
    rw [e2, storeResult_other hs k q hkq]
    exact h k q hn

theorem finalizeQuery_timed {ctx : CallContext} {dbid : DBId} {rb : Int} {s s' : DB3}
    {e : QueryCID × Int} (hc : DB3.finalizeQuery ctx dbid rb s e = .ok s') (h : s.Timed) :
    s'.Timed := by
  obtain ⟨q₀, t⟩ := e
  rcases finalizeQuery_pending hc with ⟨_, rfl⟩ | ⟨_, e1, e2, e3⟩
  · exact h
  · intro k q hn
    rw [e3] at hn
    rw [e1, e2]
    by_cases hkq : dbid = k ∧ q₀ = q
    · obtain ⟨rfl, rfl⟩ := hkq
      exact ⟨get2_del2_self _ _ _, get2_del2_self _ _ _⟩
    · rw [get2_del2_of_ne _ _ _ _ _ hkq] at hn
      rw [get2_del2_of_ne _ _ _ _ _ hkq, get2_del2_of_ne _ _ _ _ _ hkq]
      exact h k q hn

theorem finalizeResults_timed {d d' : DB3} {ctx : CallContext}
    (hc : d.finalizeResults ctx = .ok d') (h : d.Timed) : d'.Timed := by
  unfold DB3.finalizeResults at hc
  refine foldlM_inv DB3.Timed (DB3.finalizeDb ctx) ?_ _ _ _ h hc
  intro s a s' hs hstep
  unfold DB3.finalizeDb at hstep
  exact foldlM_inv DB3.Timed _ (fun s₁ e s₂ h₁ h₂ => finalizeQuery_timed h₂ h₁) _ _ _ hs hstep

theorem call_timed {d d' : DB3} {ctx : CallContext} {op : Op} {out : List Transfer}
    (h : d.call ctx op = .ok (d', out)) (ht : d.Timed) : d'.Timed := by
  cases op with
  | deploy m =>
    simp only [DB3.call, Except.ok.injEq, Prod.mk.injEq] at h
    rw [← h.1]
    exact Deploy_timed d ctx m ht
  | deposit dbid =>
    simp only [DB3.call] at h
    cases hd : d.Deposit ctx dbid with
    | error e => simp [hd, Except.map] at h
    | ok d₁ =>
      simp only [hd, Except.map, Except.ok.injEq, Prod.mk.injEq] at h
      obtain ⟨_, _, _, e⟩ := Deposit_inv hd
      rw [← h.1]
      exact timed_of_eq ht (by rw [e]) (by rw [e]) (by rw [e])
  | withdraw dbid =>
    simp only [DB3.call] at h
    obtain ⟨_, _, _, e, _⟩ := Withdraw_inv h
    exact timed_of_eq ht (by rw [e]) (by rw [e]) (by rw [e])
  | register dbid uri =>
    simp only [DB3.call] at h
    cases hd : d.Register ctx dbid uri with
    | error e => simp [hd, Except.map] at h
    | ok d₁ =>
      simp only [hd, Except.map, Except.ok.injEq, Prod.mk.injEq] at h
      rw [← h.1]
      have e := Register_frame hd
      exact timed_of_eq ht (by rw [e]) (by rw [e]) (by rw [e])
  | escrowFee dbid qid ttl =>
    simp only [DB3.call] at h
    cases hd : d.EscrowFee ctx dbid qid ttl with
    | error e => simp [hd, Except.map] at h
    | ok d₁ =>
      simp only [hd, Except.map, Except.ok.injEq, Prod.mk.injEq] at h
      rw [← h.1]
      exact EscrowFee_timed hd ht
  | settle dbid qid rid =>
    simp only [DB3.call] at h
    cases hd : d.Settle ctx dbid qid rid with
    | error e => simp [hd, Except.map] at h
    | ok d₁ =>
      simp only [hd, Except.map, Except.ok.injEq, Prod.mk.injEq] at h
      rw [← h.1]
      exact Settle_timed hd ht
  | claimFees =>
    simp only [DB3.call] at h
    obtain ⟨d₁, hf, e⟩ := ClaimFees_pending h
    exact timed_of_eq (finalizeResults_timed hf ht) (by rw [e]) (by rw [e]) (by rw [e])
  | claimRoyalties =>
    simp only [DB3.call] at h
    obtain ⟨d₁, hf, e⟩ := ClaimRoyalties_pending h
    exact timed_of_eq (finalizeResults_timed hf ht) (by rw [e]) (by rw [e]) (by rw [e])
  | recover amount target =>
    simp only [DB3.call] at h
    obtain ⟨_, _, e, _⟩ := Recover_inv h
    exact timed_of_eq ht (by rw [e]) (by rw [e]) (by rw [e])

theorem run_timed (cs : List (CallContext × Op)) :
    ∀ w : World, w.db.Timed → (w.run cs).db.Timed := by
  induction cs with
  | nil => intro w h; exact h
  | cons c cs ih =>
    intro w h
    refine ih (w.exec c) ?_
    rcases exec_db w c with e | ⟨d', out, hc, e⟩
    · rw [e]; exact h
    · rw [e]; exact call_timed hc h

/-- In every reachable state `ResultTTL` and `Deposits` have maps for the same databases. -/
theorem run_ttl_keys (cs : List (CallContext × Op)) :
    ∀ w : World, w.db.ResultTTL.keys = w.db.Deposits.keys →
      (w.run cs).db.ResultTTL.keys = (w.run cs).db.Deposits.keys := by
  induction cs with
  | nil => intro w h; exact h
  | cons c cs ih =>
    intro w h
    refine ih (w.exec c) ?_
    cases hop : c.2.isDeploy with
    | false =>
      rcases exec_db w c with e | ⟨d', out, hc, e⟩
      · rw [e]; exact h
      · rw [e]
        obtain ⟨_, _, a3, a4, _, _⟩ := call_sameIds hc hop
        rw [a3, a4]
        exact h
    | true =>
      obtain ⟨ctx, op⟩ := c
      cases op with
      | deploy m =>
        rw [exec_deploy]
        show (w.db.ResultTTL.set w.db.NextId []).keys = (w.db.Deposits.set w.db.NextId []).keys
        rw [GoMap.keys_set, GoMap.keys_set, h]
      | _ => simp [Op.isDeploy] at hop

/-- C29: in every state reached from `NewDB3` by contract calls, every `(dbid, qid)` that has an
entry in `PendingFees` or in `PendingResults` has an entry in `ResultTTL`; hence the finalizer,
which does not panic in such a state, visits it, and once its TTL is at most the height of a
claim, the entries of `(dbid, qid)` in `PendingFees`, `PendingResults` and `ResultTTL` are
removed. In scenario 1 the pending query `cid-Q` has the TTL 110 and is gone after a claim at
height 200. -/
theorem pending_has_ttl (cs : List (CallContext × Op)) :
    (∀ k q, ((∃ fee, get2 (NewWorld.run cs).db.PendingFees k q = some fee) ∨
          (∃ votes, get2 (NewWorld.run cs).db.PendingResults k q = some votes)) →
        ∃ ttl, get2 (NewWorld.run cs).db.ResultTTL k q = some ttl) ∧
      (∀ ctx : CallContext, ∃ d', (NewWorld.run cs).db.finalizeResults ctx = .ok d' ∧
        (∀ k q ttl, get2 (NewWorld.run cs).db.ResultTTL k q = some ttl → ttl ≤ ctx.Height →
          d'.noEntry k q) ∧
        ∀ k q, ((∃ fee, get2 d'.PendingFees k q = some fee) ∨
            (∃ votes, get2 d'.PendingResults k q = some votes)) →
          ∃ ttl, get2 d'.ResultTTL k q = some ttl) ∧
      (get2 (NewWorld.run scenario1).db.PendingFees 0 "cid-Q",
        get2 (NewWorld.run scenario1).db.PendingResults 0 "cid-Q",
        get2 (NewWorld.run scenario1).db.ResultTTL 0 "cid-Q") =
          (some 1000000, some [("h1", "cid-R")], some 110) ∧
      (get2 (NewWorld.run (scenario1 ++ [(ctxOf "h1" 0 200, .claimFees)])).db.PendingFees
          0 "cid-Q",
        get2 (NewWorld.run (scenario1 ++ [(ctxOf "h1" 0 200, .claimFees)])).db.PendingResults
          0 "cid-Q",
        get2 (NewWorld.run (scenario1 ++ [(ctxOf "h1" 0 200, .claimFees)])).db.ResultTTL
          0 "cid-Q") = (none, none, none) := by
  have key : ∀ d : DB3, d.Timed → ∀ k q, ((∃ fee, get2 d.PendingFees k q = some fee) ∨
      (∃ votes, get2 d.PendingResults k q = some votes)) →
        ∃ ttl, get2 d.ResultTTL k q = some ttl := by
    intro d ht k q hp
    cases hn : get2 d.ResultTTL k q with
    | some ttl => exact ⟨ttl, rfl⟩
    | none =>
      obtain ⟨h1, h2⟩ := ht k q hn
      rcases hp with ⟨fee, hf⟩ | ⟨votes, hv⟩
      · rw [h1] at hf; exact Option.noConfusion hf
      · rw [h2] at hv; exact Option.noConfusion hv
  have h0 : NewDB3.Timed := by
    intro k q _
    exact ⟨rfl, rfl⟩
  have ht := run_timed cs NewWorld h0
  refine ⟨key _ ht, ?_, by decide, by decide⟩
  intro ctx
  have hkeys := run_ttl_keys cs NewWorld rfl
  obtain ⟨d', hf, _⟩ := finalizeResults_ok (NewWorld.run cs).db ctx
    (fun k hk => by rw [← hkeys]; exact hk)
  refine ⟨d', hf, ?_, key _ (finalizeResults_timed hf ht)⟩
  intro k q ttl hget hle
  exact finalizeResults_expired hget hle hf

/-! ## Views of updated maps -/

theorem GoMap.view_set {K V : Type} [DecidableEq K] (m : GoMap K V) (k : K) (v : V) :
    (m.set k v).view = Function.update m.view k (some v) := by
  funext k'
  unfold GoMap.view
  rw [GoMap.get?_set]
  by_cases h : k = k'
  · subst h; simp
  · rw [if_neg h, Function.update_noteq (Ne.symm h)]

theorem GoMap.view_del {K V : Type} [DecidableEq K] (m : GoMap K V) (k : K) :
    (m.del k).view = Function.update m.view k none := by
  funext k'
  unfold GoMap.view
  by_cases h : k = k'
  · subst h; simp
  · rw [GoMap.get?_del_of_ne m h, Function.update_noteq (Ne.symm h)]

theorem view2_modify {A B V : Type} [DecidableEq A] [DecidableEq B] (m : GoMap A (GoMap B V))
    (a : A) (f : GoMap B V → GoMap B V) (g : (B → Option V) → (B → Option V))
    (hf : ∀ inner, (f inner).view = g inner.view) :
    view2 (m.modify a f) = Function.update (view2 m) a ((view2 m a).map g) := by
  funext a'
  unfold view2
  rw [GoMap.get?_modify]
  by_cases h : a = a'
  · subst h
    simp only [if_true, Function.update_same, Option.map_map]
    cases m.get? a with
    | none => rfl
    | some inner => simp [hf]
  · rw [if_neg h, Function.update_noteq (Ne.symm h)]

theorem view3_modify {A B C V : Type} [DecidableEq A] [DecidableEq B] [DecidableEq C]
    (m : GoMap A (GoMap B (GoMap C V))) (a : A)
    (f : GoMap B (GoMap C V) → GoMap B (GoMap C V))
    (g : (B → Option (C → Option V)) → (B → Option (C → Option V)))
    (hf : ∀ inner, view2 (f inner) = g (view2 inner)) :
    view3 (m.modify a f) = Function.update (view3 m) a ((view3 m a).map g) := by
  funext a'
  unfold view3
  rw [GoMap.get?_modify]
  by_cases h : a = a'
  · subst h
    simp only [if_true, Function.update_same, Option.map_map]
    cases m.get? a with
    | none => rfl
    | some inner => simp [hf]
  · rw [if_neg h, Function.update_noteq (Ne.symm h)]

theorem view2_del {A B V : Type} [DecidableEq A] [DecidableEq B] (m : GoMap A (GoMap B V))
    (a : A) : view2 (m.del a) = Function.update (view2 m) a none := by
  funext a'
  unfold view2
  by_cases h : a = a'
  · subst h; simp
  · rw [GoMap.get?_del_of_ne m h, Function.update_noteq (Ne.symm h)]

theorem view2_set2 {A B V : Type} [DecidableEq A] [DecidableEq B] (m : GoMap A (GoMap B V))
    (a : A) (b : B) (x : V) :
    view2 (m.modify a (fun inner => inner.set b x)) = upd2 (view2 m) a b (fun _ => some x) :=
  view2_modify m a _ _ (fun inner => GoMap.view_set inner b x)

theorem view2_del2 {A B V : Type} [DecidableEq A] [DecidableEq B] (m : GoMap A (GoMap B V))
    (a : A) (b : B) : view2 (del2 m a b) = upd2 (view2 m) a b (fun _ => none) :=
  view2_modify m a _ _ (fun inner => GoMap.view_del inner b)

theorem view3_del2 {A B C V : Type} [DecidableEq A] [DecidableEq B] [DecidableEq C]
    (m : GoMap A (GoMap B (GoMap C V))) (a : A) (b : B) :
    view3 (del2 m a b) = upd2 (view3 m) a b (fun _ => none) :=
  view3_modify m a _ _ (fun inner => view2_del inner b)

theorem get2_eq_view2 {A B V : Type} [DecidableEq A] [DecidableEq B] (m : GoMap A (GoMap B V))
    (a : A) (b : B) : get2 m a b = (view2 m a).bind (fun f => f b) := by
  unfold get2 view2
  cases m.get? a <;> rfl

/-! ## The single updates commute -/

theorem Money.add_right_comm (s x y : Money) :
    Money.add (Money.add s x) y = Money.add (Money.add s y) x := by
  unfold Money.add
  simp only [Money] at *
  rw [Nat.mod_add_mod, Nat.mod_add_mod, Nat.add_right_comm]

theorem creditV_comm (f : AccountID → Option Money) (a b : AccountID) (x y : Money) :
    creditV (creditV f a x) b y = creditV (creditV f b y) a x := by
  unfold creditV
  by_cases h : a = b
  · subst h
    simp only [Function.update_same, Function.update_idem, Option.getD_some]
    rw [Money.add_right_comm]
  · rw [Function.update_noteq (Ne.symm h), Function.update_noteq h, Function.update_comm h]

theorem upd2_read {A B V : Type} [DecidableEq A] [DecidableEq B] (f : A → Option (B → Option V))
    (a a' : A) (b b' : B) (g : Option V → Option V) (h : ¬ (a = a' ∧ b = b')) :
    (upd2 f a b g a').bind (fun m => m b') = (f a').bind (fun m => m b') := by
  unfold upd2
  by_cases ha : a = a'
  · subst ha
    have hb : b ≠ b' := fun hb => h ⟨rfl, hb⟩
    rw [Function.update_same]
    cases f a with
    | none => rfl
    | some inner => simp [Function.update_noteq (Ne.symm hb)]
  · rw [Function.update_noteq (Ne.symm ha)]

theorem upd2_comm {A B V : Type} [DecidableEq A] [DecidableEq B] (f : A → Option (B → Option V))
    (a a' : A) (b b' : B) (g g' : Option V → Option V) (h : ¬ (a = a' ∧ b = b')) :
    upd2 (upd2 f a b g) a' b' g' = upd2 (upd2 f a' b' g') a b g := by
  by_cases ha : a = a'
  · subst ha
    have hb : b ≠ b' := fun hb => h ⟨rfl, hb⟩
    unfold upd2
    simp only [Function.update_same, Function.update_idem, Option.map_map]
    cases f a with
    | none => rfl
    | some inner =>
      simp only [Option.map_some', Function.comp_apply, Function.update_noteq hb,
        Function.update_noteq (Ne.symm hb)]
      rw [Function.update_comm hb]
  · unfold upd2
    rw [Function.update_noteq ha, Function.update_noteq (Ne.symm ha), Function.update_comm ha]

/-- Any two single updates of the finalizer commute. -/
theorem View.apply_comm (v : View) (a b : Atom) : (v.apply a).apply b = (v.apply b).apply a := by
  by_cases hab : a = b
  · rw [hab]
  cases a <;> cases b <;> try rfl
  · next a x b y =>
    simp only [View.apply]
    rw [creditV_comm]
  · next a x b y =>
    simp only [View.apply]
    rw [creditV_comm]
  · next x y =>
    simp only [View.apply]
    rw [Money.add_right_comm]
  · next x k h =>
    simp only [View.apply]
    rw [Money.add_right_comm]
  · next k h x =>
    simp only [View.apply]
    rw [Money.add_right_comm]
  · next k h k' h' =>
    have hne : ¬ (k = k' ∧ h = h') := fun hh => hab (by rw [hh.1, hh.2])
    have hne' : ¬ (k' = k ∧ h' = h) := fun hh => hne ⟨hh.1.symm, hh.2.symm⟩
    simp only [View.apply]
    rw [upd2_read _ _ _ _ _ _ hne, upd2_read _ _ _ _ _ _ hne', Money.add_right_comm,
      upd2_comm _ _ _ _ _ _ _ hne]
  · next k q k' q' =>
    have hne : ¬ (k = k' ∧ q = q') := fun hh => hab (by rw [hh.1, hh.2])
    simp only [View.apply]
    rw [upd2_comm v.PendingFees _ _ _ _ _ _ hne, upd2_comm v.PendingResults _ _ _ _ _ _ hne,
      upd2_comm v.ResultTTL _ _ _ _ _ _ hne]

/-- The updates of a list take the view to the same view in every order. -/
theorem foldl_apply_perm {l₁ l₂ : List Atom} (h : l₁.Perm l₂) (v : View) :
    l₁.foldl View.apply v = l₂.foldl View.apply v :=
  h.foldl_eq' (fun a _ b _ z => View.apply_comm z a b) v

/-! ## The steps of the finalizer as single updates of the view -/

theorem creditRoyalty_view (d : DB3) (k : DBId) (rb : Int) (F : Money) :
    (d.creditRoyalty k rb F).view =
      (if rb > 0 then [Atom.royalty ((d.Owners.get? k).getD "") (royaltyOf F rb)]
        else []).foldl View.apply d.view := by
  unfold DB3.creditRoyalty
  by_cases h : rb > 0
  · simp only [h, if_true, List.foldl_cons, List.foldl_nil, View.apply, DB3.view,
      GoMap.view_set]
    rfl
  · simp only [h, if_false, List.foldl_nil]

theorem payFold_dust (s : Money) (vs : List Vote) :
    ∀ (R : Money) (sf : GoMap AccountID Money),
      (vs.foldl (DB3.payShare s) (R, sf)).1 = dustOf R s vs.length := by
  induction vs with
  | nil => intro R sf; rfl
  | cons v vs ih =>
    intro R sf
    rw [List.foldl_cons]
    show (vs.foldl (DB3.payShare s) (Money.sub R s, _)).1 = _
    rw [ih]
    rfl

theorem payFold_view (s : Money) (vs : List Vote) :
    ∀ (acc : Money × GoMap AccountID Money),
      (vs.foldl (DB3.payShare s) acc).2.view =
        vs.foldl (fun f v => creditV f v.AccountId s) acc.2.view := by
  induction vs with
  | nil => intro acc; rfl
  | cons v vs ih =>
    intro acc
    rw [List.foldl_cons, List.foldl_cons, ih]
    congr 1
    exact GoMap.view_set _ _ _

theorem foldl_fee_atoms (s : Money) (vs : List Vote) :
    ∀ v : View, (vs.map (fun x => Atom.fee x.AccountId s)).foldl View.apply v =
      { v with SettledFees := vs.foldl (fun f x => creditV f x.AccountId s) v.SettledFees } := by
  induction vs with
  | nil => intro v; rfl
  | cons x vs ih =>
    intro v
    rw [List.map_cons, List.foldl_cons, List.foldl_cons, ih]
    rfl

theorem payout_view {d d' : DB3} {e : Election} {R : Money} (h : DB3.payout d e R = .ok d') :
    d'.view = (payoutOps e R).foldl View.apply d.view := by
  have hn : e.NumSuperMajority ≠ 0 := by
    intro h0
    simp [DB3.payout, h0] at h
  rw [payout_ok d e R hn] at h
  simp only [Except.ok.injEq] at h
  rw [← h]
  unfold payoutOps
  rw [List.foldl_append, foldl_fee_atoms]
  simp only [List.foldl_cons, List.foldl_nil, View.apply, DB3.view, payFold_view, payFold_dust]
  rfl

theorem upd2_const {A B V : Type} [DecidableEq A] [DecidableEq B]
    (f : A → Option (B → Option V)) (a : A) (b : B) (g : Option V → Option V) :
    upd2 f a b (fun _ => g ((f a).bind (fun m => m b))) = upd2 f a b g := by
  unfold upd2
  cases f a <;> rfl

theorem slashVote_view {k : DBId} {d d' : DB3} {v : Vote}
    (h : DB3.slashVote k d v = .ok d') : d'.view = d.view.apply (Atom.slash k v.AccountId) := by
  simp only [DB3.slashVote] at h
  cases hs : set2 d.Deposits k v.AccountId
      (Money.sub ((get2 d.Deposits k v.AccountId).getD 0)
        (((get2 d.Deposits k v.AccountId).getD 0 * 10000 % U64) / SLASHED_DEPOSIT_BIPS)) with
  | error e => simp [hs] at h
  | ok m =>
    simp only [hs, ok_bind, pure_eq_ok, Except.ok.injEq] at h
    obtain ⟨_, rfl⟩ := set2_eq_ok hs
    rw [← h]
    simp only [DB3.view, View.apply, view2_set2, get2_eq_view2, slashAmount]
    rw [← upd2_const (view2 d.Deposits) k v.AccountId
      (fun o => some (Money.sub (o.getD 0) ((o.getD 0 * 10000 % U64) / SLASHED_DEPOSIT_BIPS)))]

theorem slashFold_view {k : DBId} (vs : List Vote) :
    ∀ {d d' : DB3}, vs.foldlM (DB3.slashVote k) d = .ok d' →
      d'.view = (vs.map (fun v => Atom.slash k v.AccountId)).foldl View.apply d.view := by
  induction vs with
  | nil =>
    intro d d' h
    simp only [List.foldlM_nil, pure_eq_ok, Except.ok.injEq] at h
    rw [← h]; rfl
  | cons v vs ih =>
    intro d d' h
    rw [List.foldlM_cons] at h
    cases hv : DB3.slashVote k d v with
    | error e => simp [hv] at h
    | ok d₁ =>
      simp only [hv, ok_bind] at h
      rw [ih h, slashVote_view hv]
      rfl

theorem settleElection_view {k : DBId} {d d' : DB3} {e : Election} {R : Money}
    (h : DB3.settleElection d k e R = .ok d') :
    d'.view = (electionOps k e R).foldl View.apply d.view := by
  unfold DB3.settleElection at h
  unfold electionOps
  cases hu : e.IsUnanimous with
  | true =>
    simp only [hu, if_true] at h ⊢
    exact payout_view h
  | false =>
    cases hs : e.IsSuperMajority with
    | true =>
      simp only [hu, hs, if_true, if_false, Bool.false_eq_true] at h ⊢
      cases hp : DB3.payout d e R with
      | error x => simp [hp] at h
      | ok d₁ =>
        simp only [hp, ok_bind] at h
        rw [List.foldl_append, ← payout_view hp]
        exact slashFold_view _ h
    | false =>
      simp only [hu, hs, if_false, Bool.false_eq_true, pure_eq_ok, Except.ok.injEq] at h ⊢
      rw [← h]
      rfl

theorem cleanUp_view (d : DB3) (k : DBId) (q : QueryCID) :
    (d.cleanUp k q).view = d.view.apply (Atom.clean k q) := by
  simp only [DB3.cleanUp, DB3.view, View.apply, view2_del2, view3_del2]

/-- One step of the finalizer, as the updates computed from the state it runs in. -/
theorem finalizeQuery_view {ctx : CallContext} {k : DBId} {s s' : DB3} {q : QueryCID} {t : Int}
    (h : DB3.finalizeQuery ctx k (s.royaltyBips k) s (q, t) = .ok s') :
    s'.view = (s.stepOps ctx.Height (k, q, t)).foldl View.apply s.view := by
  unfold DB3.stepOps
  rcases finalizeQuery_cases h with ⟨ht, rfl⟩ | ⟨ht, s₁, rfl, hcase⟩
  · simp only [ht, if_true, List.foldl_nil]
  · have ht' : ¬ t > ctx.Height := not_lt.2 ht
    simp only [ht', if_false]
    rw [List.foldl_append, cleanUp_view]
    rcases hcase with ⟨h0, rfl⟩ | ⟨hpos, hsplit⟩
    · have h0' : ¬ 0 < (get2 s₁.PendingFees k q).getD 0 := by rw [h0]; exact lt_irrefl 0
      simp only [h0', if_false]
      rfl
    · simp only [hpos, if_true]
      rw [splitFee_eq] at hsplit
      rw [List.foldl_append, settleElection_view hsplit, creditRoyalty_view]
      rfl

/-! ## The finalizer as the updates computed from its start state -/

theorem stepOps_congr {s d : DB3} (H : Int) {k : DBId} {q : QueryCID} (t : Int)
    (hm : s.Manifests = d.Manifests) (ho : s.Owners = d.Owners)
    (hf : get2 s.PendingFees k q = get2 d.PendingFees k q)
    (hr : get2 s.PendingResults k q = get2 d.PendingResults k q) :
    s.stepOps H (k, q, t) = d.stepOps H (k, q, t) := by
  simp only [DB3.stepOps, DB3.royaltyBips, DB3.ownerOf, DB3.election, hm, ho, hf, hr]

/-- One step of the finalizer leaves the pending fee and results of every other query. -/
theorem finalizeQuery_reads {ctx : CallContext} {k : DBId} {rb : Int} {s s' : DB3}
    {q : QueryCID} {t : Int} (h : DB3.finalizeQuery ctx k rb s (q, t) = .ok s')
    (k' : DBId) (q' : QueryCID) (hne : ¬ (k = k' ∧ q = q')) :
    get2 s'.PendingFees k' q' = get2 s.PendingFees k' q' ∧
      get2 s'.PendingResults k' q' = get2 s.PendingResults k' q' := by
  rcases finalizeQuery_pending h with ⟨_, rfl⟩ | ⟨_, e1, e2, _⟩
  · exact ⟨rfl, rfl⟩
  · rw [e1, e2]
    exact ⟨get2_del2_of_ne _ _ _ _ _ hne, get2_del2_of_ne _ _ _ _ _ hne⟩

theorem finalizeDb_view (ctx : CallContext) (d : DB3) (k : DBId) :
    ∀ (ttls : GoMap QueryCID Int) (s s' : DB3), ttls.keys.Nodup →
      s.Manifests = d.Manifests → s.Owners = d.Owners →
      (∀ q ∈ ttls.keys, get2 s.PendingFees k q = get2 d.PendingFees k q ∧
        get2 s.PendingResults k q = get2 d.PendingResults k q) →
      ttls.foldlM (DB3.finalizeQuery ctx k (d.royaltyBips k)) s = .ok s' →
      s'.view = (ttls.flatMap (fun e => d.stepOps ctx.Height (k, e.1, e.2))).foldl
          View.apply s.view ∧
        s'.Manifests = d.Manifests ∧ s'.Owners = d.Owners ∧
        ∀ k' q', ¬ (k' = k ∧ q' ∈ ttls.keys) →
          get2 s'.PendingFees k' q' = get2 s.PendingFees k' q' ∧
            get2 s'.PendingResults k' q' = get2 s.PendingResults k' q' := by
  intro ttls
  induction ttls with
  | nil =>
    intro s s' _ hm ho _ h
    simp only [List.foldlM_nil, pure_eq_ok, Except.ok.injEq] at h
    rw [← h]
    exact ⟨rfl, hm, ho, fun _ _ _ => ⟨rfl, rfl⟩⟩
  | cons e ttls ih =>
    obtain ⟨q, t⟩ := e
    intro s s' hnd hm ho hreads h
    simp only [GoMap.keys_cons, List.nodup_cons] at hnd
    rw [List.foldlM_cons] at h
    cases hq : DB3.finalizeQuery ctx k (d.royaltyBips k) s (q, t) with
    | error x => simp [hq] at h
    | ok s₁ =>
      simp only [hq, ok_bind] at h
      have hrb : d.royaltyBips k = s.royaltyBips k := by
        unfold DB3.royaltyBips; rw [hm]
      have hst := finalizeQuery_static hq
      have hm₁ : s₁.Manifests = d.Manifests := hst.2.2.2.1.trans hm
      have ho₁ : s₁.Owners = d.Owners := hst.2.2.1.trans ho
      have hview : s₁.view = (d.stepOps ctx.Height (k, q, t)).foldl View.apply s.view := by
        have hr0 := hreads q (by simp [GoMap.keys])
        rw [← stepOps_congr ctx.Height t hm ho hr0.1 hr0.2]
        rw [hrb] at hq
        exact finalizeQuery_view hq
      have hreads₁ : ∀ q' ∈ GoMap.keys ttls,
          get2 s₁.PendingFees k q' = get2 d.PendingFees k q' ∧
            get2 s₁.PendingResults k q' = get2 d.PendingResults k q' := by
        intro q' hq'
        have hne : ¬ (k = k ∧ q = q') := fun hh => hnd.1 (hh.2 ▸ hq')
        obtain ⟨r1, r2⟩ := finalizeQuery_reads hq k q' hne
        obtain ⟨r3, r4⟩ := hreads q' (by simp [GoMap.keys] at hq' ⊢; exact Or.inr hq')
        exact ⟨r1.trans r3, r2.trans r4⟩
      obtain ⟨v, m', o', fr⟩ := ih s₁ s' hnd.2 hm₁ ho₁ hreads₁ h
      refine ⟨?_, m', o', ?_⟩
      · rw [v, hview, List.flatMap_cons, List.foldl_append]
      · intro k' q' hne
        have hne₁ : ¬ (k' = k ∧ q' ∈ GoMap.keys ttls) := by
          rintro ⟨h1, h2⟩
          exact hne ⟨h1, by simp [GoMap.keys] at h2 ⊢; exact Or.inr h2⟩
        have hne₂ : ¬ (k = k' ∧ q = q') := by
          rintro ⟨h1, h2⟩
          exact hne ⟨h1.symm, by simp [GoMap.keys, h2]⟩
        obtain ⟨r1, r2⟩ := fr k' q' hne₁
        obtain ⟨r3, r4⟩ := finalizeQuery_reads hq k' q' hne₂
        exact ⟨r1.trans r3, r2.trans r4⟩

theorem finalizeOuter_view (ctx : CallContext) (d : DB3) :
    ∀ (outer : GoMap DBId (GoMap QueryCID Int)) (s s' : DB3), outer.keys.Nodup →
      (∀ kv ∈ outer, kv.2.keys.Nodup) → s.Manifests = d.Manifests → s.Owners = d.Owners →
      (∀ kv ∈ outer, ∀ q ∈ kv.2.keys,
        get2 s.PendingFees kv.1 q = get2 d.PendingFees kv.1 q ∧
          get2 s.PendingResults kv.1 q = get2 d.PendingResults kv.1 q) →
      outer.foldlM (DB3.finalizeDb ctx) s = .ok s' →
      s'.view = (outer.flatMap (fun kv =>
        kv.2.flatMap (fun e => d.stepOps ctx.Height (kv.1, e.1, e.2)))).foldl
          View.apply s.view := by
  intro outer
  induction outer with
  | nil =>
    intro s s' _ _ _ _ _ h
    simp only [List.foldlM_nil, pure_eq_ok, Except.ok.injEq] at h
    rw [← h]
    rfl
  | cons kv outer ih =>
    obtain ⟨k, ttls⟩ := kv
    intro s s' hnd hin hm ho hreads h
    simp only [GoMap.keys_cons, List.nodup_cons] at hnd
    rw [List.foldlM_cons] at h
    cases hdb : DB3.finalizeDb ctx s (k, ttls) with
    | error x => simp [hdb] at h
    | ok s₁ =>
      simp only [hdb, ok_bind] at h
      have hrb : s.royaltyBips k = d.royaltyBips k := by
        unfold DB3.royaltyBips; rw [hm]
      have hdb' : ttls.foldlM (DB3.finalizeQuery ctx k (d.royaltyBips k)) s = .ok s₁ := by
        rw [← hrb]; exact hdb
      obtain ⟨v, m', o', fr⟩ := finalizeDb_view ctx d k ttls s s₁
        (hin (k, ttls) (List.mem_cons_self _ _)) hm ho
        (hreads (k, ttls) (List.mem_cons_self _ _)) hdb'
      have hreads₁ : ∀ kv ∈ outer, ∀ q ∈ kv.2.keys,
          get2 s₁.PendingFees kv.1 q = get2 d.PendingFees kv.1 q ∧
            get2 s₁.PendingResults kv.1 q = get2 d.PendingResults kv.1 q := by
        intro kv hkv q hq
        have hne : ¬ (kv.1 = k ∧ q ∈ GoMap.keys ttls) := by
          rintro ⟨h1, _⟩
          apply hnd.1
          rw [← h1]
          exact List.mem_map.2 ⟨kv, hkv, rfl⟩
        obtain ⟨r1, r2⟩ := fr kv.1 q hne
        obtain ⟨r3, r4⟩ := hreads kv (List.mem_cons_of_mem _ hkv) q hq
        exact ⟨r1.trans r3, r2.trans r4⟩
      rw [ih s₁ s' hnd.2 (fun kv hkv => hin kv (List.mem_cons_of_mem _ hkv)) m' o' hreads₁ h,
        v, List.flatMap_cons, List.foldl_append]

theorem flatMap_flatTTL {β : Type} (f : DBId × QueryCID × Int → List β)
    (outer : GoMap DBId (GoMap QueryCID Int)) :
    outer.flatMap (fun kv => kv.2.flatMap (fun e => f (kv.1, e.1, e.2))) =
      (flatTTL outer).flatMap f := by
  unfold flatTTL
  induction outer with
  | nil => rfl
  | cons kv outer ih =>
    rw [List.flatMap_cons, List.flatMap_cons, List.flatMap_append, ih]
    congr 1
    induction kv.2 with
    | nil => rfl
    | cons e es ihe => rw [List.flatMap_cons, List.map_cons, List.flatMap_cons, ihe]

/-- The view of the state after `finalizeResults` is the view of the start state after the
updates of all entries of `ResultTTL`, each computed from the start state. -/
theorem finalizeResults_view {d d' : DB3} {ctx : CallContext}
    (h : d.finalizeResults ctx = .ok d') (hk : d.ResultTTL.keys.Nodup)
    (hq : ∀ kv ∈ d.ResultTTL, kv.2.keys.Nodup) :
    d'.view = ((flatTTL d.ResultTTL).flatMap (d.stepOps ctx.Height)).foldl View.apply d.view := by
  rw [← flatMap_flatTTL]
  exact finalizeOuter_view ctx d d.ResultTTL d d' hk hq rfl rfl (fun _ _ _ _ => ⟨rfl, rfl⟩) h

/-! ## Two iteration orders of the same state -/

theorem GoMap.nodup_of_keys {K V : Type} [DecidableEq K] {m : GoMap K V} (h : m.keys.Nodup) :
    List.Nodup m :=
  List.Nodup.of_map Prod.fst h

theorem GoMap.mem_iff_get? {K V : Type} [DecidableEq K] {m : GoMap K V} (h : m.keys.Nodup)
    (k : K) (v : V) : (k, v) ∈ m ↔ m.get? k = some v :=
  ⟨fun hm => GoMap.get?_of_mem h hm, fun hg => GoMap.mem_of_get? hg⟩

/-- Two association lists with distinct keys and the same lookups are permutations of each
other. -/
theorem GoMap.perm_of_view_eq {K V : Type} [DecidableEq K] {m₁ m₂ : GoMap K V}
    (h₁ : m₁.keys.Nodup) (h₂ : m₂.keys.Nodup) (hv : m₁.view = m₂.view) : m₁.Perm m₂ := by
  rw [List.perm_ext_iff_of_nodup (GoMap.nodup_of_keys h₁) (GoMap.nodup_of_keys h₂)]
  rintro ⟨k, v⟩
  rw [GoMap.mem_iff_get? h₁, GoMap.mem_iff_get? h₂]
  have := congrFun hv k
  unfold GoMap.view at this
  rw [this]

theorem mem_flatTTL {m : GoMap DBId (GoMap QueryCID Int)} (hk : m.keys.Nodup)
    (hq : ∀ kv ∈ m, kv.2.keys.Nodup) (k : DBId) (q : QueryCID) (t : Int) :
    (k, q, t) ∈ flatTTL m ↔ get2 m k q = some t := by
  unfold flatTTL
  rw [List.mem_flatMap]
  constructor
  · rintro ⟨⟨k', inner⟩, hkv, hx⟩
    obtain ⟨⟨q', t'⟩, he, heq⟩ := List.mem_map.1 hx
    simp only [Prod.mk.injEq] at heq
    obtain ⟨rfl, rfl, rfl⟩ := heq
    unfold get2
    rw [GoMap.get?_of_mem hk hkv]
    exact GoMap.get?_of_mem (hq _ hkv) he
  · intro hg
    obtain ⟨inner, h1, h2⟩ := get2_eq_some hg
    exact ⟨(k, inner), GoMap.mem_of_get? h1,
      List.mem_map.2 ⟨(q, t), GoMap.mem_of_get? h2, rfl⟩⟩

theorem nodup_flatTTL (m : GoMap DBId (GoMap QueryCID Int)) (hk : m.keys.Nodup)
    (hq : ∀ kv ∈ m, kv.2.keys.Nodup) : (flatTTL m).Nodup := by
  unfold flatTTL
  induction m with
  | nil => exact List.nodup_nil
  | cons kv m ih =>
    simp only [GoMap.keys_cons, List.nodup_cons] at hk
    rw [List.flatMap_cons]
    refine List.Nodup.append ?_ (ih hk.2 (fun kv' h => hq kv' (List.mem_cons_of_mem _ h))) ?_
    · refine List.Nodup.map ?_ (GoMap.nodup_of_keys (hq kv (List.mem_cons_self _ _)))
      intro a b hab
      simp only [Prod.mk.injEq] at hab
      exact Prod.ext hab.2.1 hab.2.2
    · intro x hx hx'
      obtain ⟨e, _, rfl⟩ := List.mem_map.1 hx
      obtain ⟨kv', hkv', hx''⟩ := List.mem_flatMap.1 hx'
      obtain ⟨e', _, heq⟩ := List.mem_map.1 hx''
      simp only [Prod.mk.injEq] at heq
      apply hk.1
      rw [← heq.1]
      exact List.mem_map.2 ⟨kv', hkv', rfl⟩

theorem perm_flatTTL {m₁ m₂ : GoMap DBId (GoMap QueryCID Int)} (hk₁ : m₁.keys.Nodup)
    (hq₁ : ∀ kv ∈ m₁, kv.2.keys.Nodup) (hk₂ : m₂.keys.Nodup)
    (hq₂ : ∀ kv ∈ m₂, kv.2.keys.Nodup) (hv : view2 m₁ = view2 m₂) :
    (flatTTL m₁).Perm (flatTTL m₂) := by
  rw [List.perm_ext_iff_of_nodup (nodup_flatTTL m₁ hk₁ hq₁) (nodup_flatTTL m₂ hk₂ hq₂)]
  rintro ⟨k, q, t⟩
  rw [mem_flatTTL hk₁ hq₁, mem_flatTTL hk₂ hq₂, get2_eq_view2, get2_eq_view2, hv]

theorem get2_map_view {A B C V : Type} [DecidableEq A] [DecidableEq B] [DecidableEq C]
    (m : GoMap A (GoMap B (GoMap C V))) (a : A) (b : B) :
    (get2 m a b).map GoMap.view = (view3 m a).bind (fun f => f b) := by
  unfold get2 view3
  cases m.get? a with
  | none => rfl
  | some inner => rfl

theorem votes_nodup {d : DB3} (hd : d.Distinct) (k : DBId) (q : QueryCID) :
    (((get2 d.PendingResults k q).getD []).keys).Nodup := by
  cases hg : get2 d.PendingResults k q with
  | none => exact List.nodup_nil
  | some l =>
    obtain ⟨inner, h1, h2⟩ := get2_eq_some hg
    exact hd.2.2 _ (GoMap.mem_of_get? h1) _ (GoMap.mem_of_get? h2)

theorem perm_of_option_view {K V : Type} [DecidableEq K] (o₁ o₂ : Option (GoMap K V))
    (hm : o₁.map GoMap.view = o₂.map GoMap.view) (hn₁ : ((o₁.getD []).keys).Nodup)
    (hn₂ : ((o₂.getD []).keys).Nodup) : (o₁.getD []).Perm (o₂.getD []) := by
  cases o₁ with
  | none =>
    cases o₂ with
    | none => exact List.Perm.refl _
    | some l₂ => exact Option.noConfusion hm
  | some l₁ =>
    cases o₂ with
    | none => exact Option.noConfusion hm
    | some l₂ =>
      simp only [Option.map_some', Option.some.injEq, Option.getD_some] at hm hn₁ hn₂ ⊢
      exact GoMap.perm_of_view_eq hn₁ hn₂ hm

theorem bind_get?_of_option_view {K V : Type} [DecidableEq K] (o₁ o₂ : Option (GoMap K V))
    (hm : o₁.map GoMap.view = o₂.map GoMap.view) (k : K) :
    o₁.bind (fun m => m.get? k) = o₂.bind (fun m => m.get? k) := by
  cases o₁ with
  | none =>
    cases o₂ with
    | none => rfl
    | some l₂ => exact Option.noConfusion hm
  | some l₁ =>
    cases o₂ with
    | none => exact Option.noConfusion hm
    | some l₂ =>
      simp only [Option.map_some', Option.some.injEq] at hm
      exact congrFun hm k

/-- In two presentations of the same state, the votes of a query are the same up to the order. -/
theorem votes_perm {d₁ d₂ : DB3} (hd₁ : d₁.Distinct) (hd₂ : d₂.Distinct)
    (hv : view3 d₁.PendingResults = view3 d₂.PendingResults) (k : DBId) (q : QueryCID) :
    ((get2 d₁.PendingResults k q).getD []).Perm ((get2 d₂.PendingResults k q).getD []) := by
  refine perm_of_option_view _ _ ?_ (votes_nodup hd₁ k q) (votes_nodup hd₂ k q)
  rw [get2_map_view, get2_map_view, hv]

theorem electionOps_perm (k : DBId) (R : Money) {l₁ l₂ : List (AccountID × ResultCID)}
    (h : l₁.Perm l₂) :
    (electionOps k (Election.ofVotes l₁) R).Perm (electionOps k (Election.ofVotes l₂) R) := by
  have hv : (Election.ofVotes l₁).votes.Perm (Election.ofVotes l₂).votes := by
    rw [Election.votes_ofVotes, Election.votes_ofVotes]
    exact h.map _
  obtain ⟨p1, p2, p3, p4⟩ :=
    (Election.consistent_ofVotes l₁).perm (Election.consistent_ofVotes l₂) hv
  have hn : (Election.ofVotes l₁).NumSuperMajority = (Election.ofVotes l₂).NumSuperMajority :=
    p1.length_eq
  have hpay : (payoutOps (Election.ofVotes l₁) R).Perm (payoutOps (Election.ofVotes l₂) R) := by
    unfold payoutOps
    rw [hn]
    exact List.Perm.append_right _ (p1.map _)
  unfold electionOps
  rw [p3, p4]
  split
  · exact hpay
  · split
    · exact List.Perm.append hpay (p2.map _)
    · exact List.Perm.refl _

/-- In two presentations of the same state, the updates of an entry are the same up to the
order. -/
theorem stepOps_perm {d₁ d₂ : DB3} (hd₁ : d₁.Distinct) (hd₂ : d₂.Distinct)
    (hv : d₁.view = d₂.view) (H : Int) (x : DBId × QueryCID × Int) :
    (d₁.stepOps H x).Perm (d₂.stepOps H x) := by
  have hfee : get2 d₁.PendingFees x.1 x.2.1 = get2 d₂.PendingFees x.1 x.2.1 := by
    have := congrArg View.PendingFees hv
    simp only [DB3.view] at this
    rw [get2_eq_view2, get2_eq_view2, this]
  have hrb : d₁.royaltyBips x.1 = d₂.royaltyBips x.1 := by
    have := congrFun (congrArg View.Manifests hv) x.1
    simp only [DB3.view, GoMap.view] at this
    unfold DB3.royaltyBips
    rw [this]
  have hown : d₁.ownerOf x.1 = d₂.ownerOf x.1 := by
    have := congrFun (congrArg View.Owners hv) x.1
    simp only [DB3.view, GoMap.view] at this
    unfold DB3.ownerOf
    rw [this]
  have hvotes := votes_perm hd₁ hd₂ (congrArg View.PendingResults hv) x.1 x.2.1
  unfold DB3.stepOps
  rw [hfee, hrb, hown]
  split
  · exact List.Perm.refl _
  · refine List.Perm.append_right _ ?_
    split
    · exact List.Perm.append_left _ (electionOps_perm x.1 _ hvotes)
    · exact List.Perm.refl _

theorem mem_keys_iff_view2 {A B V : Type} [DecidableEq A] [DecidableEq B]
    (m : GoMap A (GoMap B V)) (a : A) : a ∈ m.keys ↔ view2 m a ≠ none := by
  rw [GoMap.mem_keys_iff]
  unfold view2
  cases m.get? a <;> simp

/-- C26: take two presentations `d₁` and `d₂` of the same contract state, that is, two states
whose Go maps hold the same entries (the same `view`), listed in whatever orders, with distinct
keys as the keys of a Go map are, and with a deposits map for every database that has a TTL
map. At every height `finalizeResults` succeeds on both, and the two results are again the same
state: `Slashed`, `SettledFees`, `SettledRoyalties`, `Deposits`, and the remaining entries of
`PendingFees`, `PendingResults` and `ResultTTL` agree. So the result does not depend on the
order in which `range` visits the entries of `ResultTTL` nor on the order in which the votes of
`PendingResults[dbid][qid]` are added to the election. -/
theorem finalizer_deterministic (d₁ d₂ : DB3) (ctx : CallContext) (hv : d₁.view = d₂.view)
    (hd₁ : d₁.Distinct) (hd₂ : d₂.Distinct)
    (hdep : ∀ k ∈ d₁.ResultTTL.keys, k ∈ d₁.Deposits.keys) :
    ∃ r₁ r₂, d₁.finalizeResults ctx = .ok r₁ ∧ d₂.finalizeResults ctx = .ok r₂ ∧
      r₁.view = r₂.view ∧ r₁.Slashed = r₂.Slashed ∧
      (∀ a, r₁.SettledFees.get? a = r₂.SettledFees.get? a) ∧
      (∀ a, r₁.SettledRoyalties.get? a = r₂.SettledRoyalties.get? a) ∧
      (∀ k h, get2 r₁.Deposits k h = get2 r₂.Deposits k h) ∧
      (∀ k q, get2 r₁.PendingFees k q = get2 r₂.PendingFees k q) ∧
      (∀ k q, get2 r₁.ResultTTL k q = get2 r₂.ResultTTL k q) ∧
      (∀ k q h, r₁.voteOf k q h = r₂.voteOf k q h) := by
  have hdep₂ : ∀ k ∈ d₂.ResultTTL.keys, k ∈ d₂.Deposits.keys := by
    intro k hk
    have e1 : view2 d₁.ResultTTL = view2 d₂.ResultTTL := congrArg View.ResultTTL hv
    have e2 : view2 d₁.Deposits = view2 d₂.Deposits := congrArg View.Deposits hv
    rw [mem_keys_iff_view2, ← e2, ← mem_keys_iff_view2]
    apply hdep
    rw [mem_keys_iff_view2, e1, ← mem_keys_iff_view2]
    exact hk
  obtain ⟨r₁, h₁, _⟩ := finalizeResults_ok d₁ ctx hdep
  obtain ⟨r₂, h₂, _⟩ := finalizeResults_ok d₂ ctx hdep₂
  have hperm : ((flatTTL d₁.ResultTTL).flatMap (d₁.stepOps ctx.Height)).Perm
      ((flatTTL d₂.ResultTTL).flatMap (d₂.stepOps ctx.Height)) :=
    (List.Perm.flatMap_left _ (fun x _ => stepOps_perm hd₁ hd₂ hv ctx.Height x)).trans
      (List.Perm.flatMap_right _
        (perm_flatTTL hd₁.1 hd₁.2.1 hd₂.1 hd₂.2.1 (congrArg View.ResultTTL hv)))
  have hres : r₁.view = r₂.view := by
    rw [finalizeResults_view h₁ hd₁.1 hd₁.2.1, finalizeResults_view h₂ hd₂.1 hd₂.2.1, hv]
    exact foldl_apply_perm hperm _
  refine ⟨r₁, r₂, h₁, h₂, hres, congrArg View.Slashed hres,
    fun a => congrFun (congrArg View.SettledFees hres) a,
    fun a => congrFun (congrArg View.SettledRoyalties hres) a, ?_, ?_, ?_, ?_⟩
  · intro k h
    have := congrArg View.Deposits hres
    simp only [DB3.view] at this
    rw [get2_eq_view2, get2_eq_view2, this]
  · intro k q
    have := congrArg View.PendingFees hres
    simp only [DB3.view] at this
    rw [get2_eq_view2, get2_eq_view2, this]
  · intro k q
    have := congrArg View.ResultTTL hres
    simp only [DB3.view] at this
    rw [get2_eq_view2, get2_eq_view2, this]
  · intro k q h
    have := congrArg View.PendingResults hres
    simp only [DB3.view] at this
    have e := get2_map_view r₁.PendingResults k q
    have e' := get2_map_view r₂.PendingResults k q
    rw [this, ← e'] at e
    exact bind_get?_of_option_view _ _ e h

theorem GoMap.view_eq_of_perm {K V : Type} [DecidableEq K] {m₁ m₂ : GoMap K V}
    (h : m₁.Perm m₂) (hn : m₁.keys.Nodup) : m₁.view = m₂.view := by
  have hn₂ : m₂.keys.Nodup := (h.map Prod.fst).nodup_iff.1 hn
  funext k
  unfold GoMap.view
  cases h1 : m₁.get? k with
  | some v =>
    exact (GoMap.get?_of_mem hn₂ (h.mem_iff.1 (GoMap.mem_of_get? h1))).symm
  | none =>
    symm
    rw [GoMap.get?_eq_none_iff] at h1 ⊢
    intro hk
    exact h1 ((h.map Prod.fst).mem_iff.2 hk)

theorem view2_single {A B V : Type} [DecidableEq A] [DecidableEq B] (a : A)
    {l₁ l₂ : GoMap B V} (h : l₁.view = l₂.view) :
    view2 [(a, l₁)] = view2 [(a, l₂)] := by
  funext a'
  unfold view2
  by_cases ha : a = a' <;> simp [GoMap.get?, ha, h]

theorem view3_single {A B C V : Type} [DecidableEq A] [DecidableEq B] [DecidableEq C] (a : A)
    {l₁ l₂ : GoMap B (GoMap C V)} (h : view2 l₁ = view2 l₂) :
    view3 [(a, l₁)] = view3 [(a, l₂)] := by
  funext a'
  unfold view3
  by_cases ha : a = a' <;> simp [GoMap.get?, ha, h]

/-- A witness of C26: the state of scenario 4 and the same state with the entries of
`ResultTTL`, `PendingFees` and the votes of `cid-Q` listed in another order, finalized at
height 600. -/
theorem finalizer_deterministic_witness :
    (NewWorld.run scenario4).db.view = scenario4Reordered.view ∧
      ∃ r₁ r₂, (NewWorld.run scenario4).db.finalizeResults (ctxOf "h1" 0 600) = .ok r₁ ∧
        scenario4Reordered.finalizeResults (ctxOf "h1" 0 600) = .ok r₂ ∧
        r₁.Slashed = r₂.Slashed ∧
        ∀ a, r₁.SettledFees.get? a = r₂.SettledFees.get? a :=
  have e1 : (NewWorld.run scenario4).db.ResultTTL = [(0, [("cid-Q", 110), ("cid-Z", 500)])] := by
    decide
  have e2 : (NewWorld.run scenario4).db.PendingFees = [(0, [("cid-Q", 1000), ("cid-Z", 5)])] := by
    decide
  have e3 : (NewWorld.run scenario4).db.PendingResults =
      [(0, [("cid-Q", [("h1", "cid-A"), ("h2", "cid-A"), ("h3", "cid-B")])])] := by
    decide
  have hv : (NewWorld.run scenario4).db.view = scenario4Reordered.view := by
    have v1 : view2 (NewWorld.run scenario4).db.ResultTTL = view2 scenario4Reordered.ResultTTL := by
      rw [e1]
      exact view2_single 0 (GoMap.view_eq_of_perm (by decide) (by decide))
    have v2 : view2 (NewWorld.run scenario4).db.PendingFees =
        view2 scenario4Reordered.PendingFees := by
      rw [e2]
      exact view2_single 0 (GoMap.view_eq_of_perm (by decide) (by decide))
    have v3 : view3 (NewWorld.run scenario4).db.PendingResults =
        view3 scenario4Reordered.PendingResults := by
      rw [e3]
      exact view3_single 0 (view2_single "cid-Q"
        (GoMap.view_eq_of_perm (by decide) (by decide)))
    unfold DB3.view
    rw [v1, v2, v3]
    rfl
  ⟨hv,
   let ⟨r₁, r₂, h1, h2, _, h3, h4, _⟩ :=
     finalizer_deterministic (NewWorld.run scenario4).db scenario4Reordered (ctxOf "h1" 0 600) hv
       ⟨by decide, by decide, by decide⟩ ⟨by decide, by decide, by decide⟩ (by decide)
   ⟨r₁, r₂, h1, h2, h3, h4⟩⟩

/-! ## Exact accounting: the books without wrap-around -/

/-! ## Exact books: no addition wraps while the accounted funds stay below `2^64` -/

theorem Money.add_of_lt {a b : Money} (h : a + b < U64) : Money.add a b = a + b := by
  unfold Money.add
  exact Nat.mod_eq_of_lt h

theorem get_le_sum1 {K : Type} [DecidableEq K] (m : GoMap K Money) (k : K) :
    (m.get? k).getD 0 ≤ sum1 m := by
  have := sum1_set m k 0
  simp only [Money] at *
  omega

theorem get2_le_sum2 {A B : Type} [DecidableEq A] [DecidableEq B] (m : GoMap A (GoMap B Money))
    (a : A) (b : B) (hm : ∀ kv ∈ m, kv.2.keys.Nodup) : (get2 m a b).getD 0 ≤ sum2 m := by
  have := sum2_del2 m a b hm
  simp only [Money] at *
  omega

theorem creditRoyalty_exact (d : DB3) (k : DBId) (rb : Int) (F : Money)
    (h : sum1 d.SettledRoyalties + royaltyOf F rb < U64) :
    sum1 (d.creditRoyalty k rb F).SettledRoyalties = sum1 d.SettledRoyalties + royaltyOf F rb := by
  unfold DB3.creditRoyalty
  by_cases hrb : rb > 0
  · simp only [hrb, if_true]
    have hs := sum1_set d.SettledRoyalties ((d.Owners.get? k).getD "")
      (Money.add ((d.SettledRoyalties.get? ((d.Owners.get? k).getD "")).getD 0) (royaltyOf F rb))
    have hle := get_le_sum1 d.SettledRoyalties ((d.Owners.get? k).getD "")
    have hadd : Money.add ((d.SettledRoyalties.get? ((d.Owners.get? k).getD "")).getD 0)
        (royaltyOf F rb) =
        (d.SettledRoyalties.get? ((d.Owners.get? k).getD "")).getD 0 + royaltyOf F rb :=
      Money.add_of_lt (by simp only [Money] at *; omega)
    rw [hadd] at hs ⊢
    simp only [Money] at *
    omega
  · simp only [hrb, if_false]
    have : royaltyOf F rb = 0 := by simp [royaltyOf, hrb]
    rw [this]
    rfl

theorem payFold_exact (s : Money) (vs : List Vote) :
    ∀ acc : Money × GoMap AccountID Money, vs.length * s ≤ acc.1 → acc.1 + sum1 acc.2 < U64 →
      (vs.foldl (DB3.payShare s) acc).1 + sum1 (vs.foldl (DB3.payShare s) acc).2 =
        acc.1 + sum1 acc.2 := by
  induction vs with
  | nil => intro acc _ _; rfl
  | cons v vs ih =>
    intro acc hle hb
    rw [List.foldl_cons]
    rw [List.length_cons, Nat.add_mul, Nat.one_mul] at hle
    have hs : s ≤ acc.1 := le_trans (Nat.le_add_left _ _) hle
    have h1 : (DB3.payShare s acc v).1 = acc.1 - s := by
      show Money.sub acc.1 s = _
      exact Money.sub_of_le hs (by simp only [Money] at *; omega)
    have hget := get_le_sum1 acc.2 v.AccountId
    have hset := sum1_set acc.2 v.AccountId
      (Money.add ((acc.2.get? v.AccountId).getD 0) s)
    have hadd : Money.add ((acc.2.get? v.AccountId).getD 0) s =
        (acc.2.get? v.AccountId).getD 0 + s :=
      Money.add_of_lt (by simp only [Money] at *; omega)
    rw [hadd] at hset
    have h2 : sum1 (DB3.payShare s acc v).2 = sum1 acc.2 + s := by
      show sum1 (acc.2.set v.AccountId (Money.add ((acc.2.get? v.AccountId).getD 0) s)) = _
      rw [hadd]
      simp only [Money] at *
      omega
    have := ih (DB3.payShare s acc v) (by rw [h1]; simp only [Money] at *; omega)
      (by rw [h1, h2]; simp only [Money] at *; omega)
    rw [this, h1, h2]
    simp only [Money] at *
    omega

theorem feeToShare_mul_le (R : Money) (n : Nat) : n * feeToShareOf R n ≤ R := by
  refine le_trans (Nat.mul_le_mul_left _ ?_) (share_mul_le R n)
  unfold feeToShareOf
  rw [Money.mul_natCast]
  exact Nat.div_le_div_right (Nat.mod_le _ _)

theorem payout_exact {d d' : DB3} {e : Election} {R : Money} (h : DB3.payout d e R = .ok d')
    (hb : d.Slashed + sum1 d.SettledFees + R < U64) :
    d'.Slashed + sum1 d'.SettledFees = d.Slashed + sum1 d.SettledFees + R ∧
      d.Slashed ≤ d'.Slashed := by
  have hn : e.NumSuperMajority ≠ 0 := by
    intro h0
    simp [DB3.payout, h0] at h
  rw [payout_ok d e R hn] at h
  simp only [Except.ok.injEq] at h
  have hx := payFold_exact (feeToShareOf R e.NumSuperMajority) e.SuperMajority
    (R, d.SettledFees) (feeToShare_mul_le R _) (by simp only [Money] at *; omega)
  rw [← h]
  simp only at hx ⊢
  rw [Money.add_of_lt (by simp only [Money] at *; omega)]
  simp only [Money] at *
  omega

theorem isSplit_false {e : Election} (h : e.IsSplit = false) :
    e.IsUnanimous = true ∨ e.IsSuperMajority = false := by
  unfold Election.IsSplit at h
  cases hu : e.IsUnanimous <;> cases hs : e.IsSuperMajority <;> simp [hu, hs] at h ⊢

theorem settleElection_exact {k : DBId} {d d' : DB3} {e : Election} {R : Money}
    (h : DB3.settleElection d k e R = .ok d') (hns : e.IsSplit = false)
    (hb : d.Slashed + sum1 d.SettledFees + R < U64) :
    d'.Slashed + sum1 d'.SettledFees = d.Slashed + sum1 d.SettledFees + R ∧
      d.Slashed ≤ d'.Slashed ∧
      d' = { d with SettledFees := d'.SettledFees, Slashed := d'.Slashed } := by
  unfold DB3.settleElection at h
  cases hu : e.IsUnanimous with
  | true =>
    simp only [hu, if_true] at h
    obtain ⟨h1, h2⟩ := payout_exact h hb
    exact ⟨h1, h2, payout_frame h⟩
  | false =>
    have hs : e.IsSuperMajority = false := by
      rcases isSplit_false hns with h' | h'
      · rw [hu] at h'; exact absurd h' (by simp)
      · exact h'
    simp only [hu, hs, if_false, Bool.false_eq_true, pure_eq_ok, Except.ok.injEq] at h
    rw [← h]
    simp only
    rw [Money.add_of_lt (by simp only [Money] at *; omega)]
    refine ⟨?_, Nat.le_add_right _ _, ?_⟩
    · simp only [Money] at *
      omega
    · first
        | rfl
        | trivial

theorem feeAfterRoyalty_eq (F : Money) (rb : Int) (hrb : rb ≤ 10000) (hF : F < U64) :
    royaltyOf F rb ≤ F ∧ feeAfterRoyalty F rb = F - royaltyOf F rb := by
  have hle := royaltyOf_le F rb hrb
  refine ⟨hle, ?_⟩
  unfold feeAfterRoyalty
  by_cases h : rb > 0
  · simp only [h, if_true]
    exact Money.sub_of_le hle hF
  · simp only [h, if_false]
    have : royaltyOf F rb = 0 := by simp [royaltyOf, h]
    rw [this]
    rfl

theorem splitFee_exact {k : DBId} {d d' : DB3} {rb : Int} {q : QueryCID} {F : Money}
    (h : DB3.splitFee d k rb q F = .ok d') (hrb : rb ≤ 10000)
    (hns : (d.election k q).IsSplit = false)
    (hb : d.Slashed + sum1 d.SettledFees + sum1 d.SettledRoyalties + F < U64) :
    d'.Slashed + sum1 d'.SettledFees + sum1 d'.SettledRoyalties =
        d.Slashed + sum1 d.SettledFees + sum1 d.SettledRoyalties + F ∧
      d.Slashed ≤ d'.Slashed ∧ d'.Deposits = d.Deposits ∧ d'.PendingFees = d.PendingFees := by
  rw [splitFee_eq] at h
  obtain ⟨hle, hR⟩ := feeAfterRoyalty_eq F rb hrb (by simp only [Money] at *; omega)
  have hcr := creditRoyalty_frame d k rb F
  have hsr := creditRoyalty_exact d k rb F (by simp only [Money] at *; omega)
  have e1 : (d.creditRoyalty k rb F).Slashed = d.Slashed := by rw [hcr]
  have e2 : (d.creditRoyalty k rb F).SettledFees = d.SettledFees := by rw [hcr]
  have e3 : (d.creditRoyalty k rb F).Deposits = d.Deposits := by rw [hcr]
  have e4 : (d.creditRoyalty k rb F).PendingFees = d.PendingFees := by rw [hcr]
  obtain ⟨x1, x2, x3⟩ := settleElection_exact h hns
    (by rw [e1, e2, hR]; simp only [Money] at *; omega)
  rw [e1, e2, hR] at x1
  rw [e1] at x2
  have e5 : d'.SettledRoyalties = (d.creditRoyalty k rb F).SettledRoyalties := by rw [x3]
  have e6 : d'.Deposits = d.Deposits := by rw [x3]; exact e3
  have e7 : d'.PendingFees = d.PendingFees := by rw [x3]; exact e4
  refine ⟨?_, x2, e6, e7⟩
  rw [e5, hsr]
  simp only [Money] at *
  omega

/-- One step of the finalizer keeps the accounted funds and does not lower `Slashed`, when the
royalty is at most 10000 bips, the election is not split and the accounted funds are below
`2^64`. -/
theorem finalizeQuery_exact {ctx : CallContext} {k : DBId} {rb : Int} {s s' : DB3}
    {q : QueryCID} {t : Int} (h : DB3.finalizeQuery ctx k rb s (q, t) = .ok s') (hwf : s.WF)
    (hA : s.accounted < U64) (hrb : rb ≤ 10000)
    (hns : t ≤ ctx.Height → 0 < (get2 s.PendingFees k q).getD 0 →
      (s.election k q).IsSplit = false) :
    s'.accounted = s.accounted ∧ s.Slashed ≤ s'.Slashed := by
  rcases finalizeQuery_cases h with ⟨_, rfl⟩ | ⟨ht, s₁, rfl, ⟨h0, rfl⟩ | ⟨hpos, hsp⟩⟩
  · exact ⟨rfl, le_refl _⟩
  · have hc := (cleanUp_conserves s₁ k q hwf).2.2
    rw [h0] at hc
    exact ⟨hc, le_refl _⟩
  · have hfee := get2_le_sum2 s.PendingFees k q hwf.2.2.2
    have hA' : s.Slashed + sum1 s.SettledFees + sum1 s.SettledRoyalties +
        (get2 s.PendingFees k q).getD 0 < U64 := by
      unfold DB3.accounted at hA
      simp only [Money] at *
      omega
    obtain ⟨x1, x2, x3, x4⟩ := splitFee_exact hsp hrb (hns ht hpos) hA'
    have hwf₁ := (splitFee_conserves hsp hwf).1
    have hc := (cleanUp_conserves s₁ k q hwf₁).2.2
    rw [x4] at hc
    refine ⟨?_, x2⟩
    have ha₁ : s₁.accounted = s.accounted + (get2 s.PendingFees k q).getD 0 := by
      unfold DB3.accounted
      rw [x3, x4]
      simp only [Money] at *
      omega
    simp only [Money] at *
    omega

theorem noSplit_iff (d : DB3) (H : Int) : d.noSplit H = true ↔ DB3.NoSplitOn d.ResultTTL H d := by
  unfold DB3.noSplit DB3.NoSplitOn
  simp only [List.all_eq_true, Bool.not_eq_true', Bool.and_eq_false_imp, Bool.and_eq_true,
    decide_eq_true_eq, and_imp]

theorem finalizeQuery_noSplitOn {T : GoMap DBId (GoMap QueryCID Int)} {ctx : CallContext}
    {H : Int} {k : DBId} {rb : Int} {s s' : DB3} {q : QueryCID} {t : Int}
    (h : DB3.finalizeQuery ctx k rb s (q, t) = .ok s') (hs : DB3.NoSplitOn T H s) :
    DB3.NoSplitOn T H s' := by
  intro kv hkv e he hexp hfee
  rcases finalizeQuery_pending h with ⟨_, rfl⟩ | ⟨_, e1, e2, _⟩
  · exact hs kv hkv e he hexp hfee
  · by_cases hkq : k = kv.1 ∧ q = e.1
    · rw [e1, ← hkq.1, ← hkq.2, get2_del2_self] at hfee
      exact absurd hfee (lt_irrefl 0)
    · rw [e1, get2_del2_of_ne _ _ _ _ _ hkq] at hfee
      have := hs kv hkv e he hexp hfee
      unfold DB3.election at this ⊢
      rw [e2, get2_del2_of_ne _ _ _ _ _ hkq]
      exact this

/-- The finalizer keeps the accounted funds and does not lower `Slashed`, in a state whose
accounted funds are below `2^64`, whose royalties are at most 10000 bips, and in which no
expired query with a fee has a split election. -/
theorem finalizeResults_exact {d d' : DB3} {ctx : CallContext}
    (h : d.finalizeResults ctx = .ok d') (hwf : d.WF) (hA : d.accounted < U64)
    (hroy : ∀ k, d.royaltyBips k ≤ 10000) (hns : d.noSplit ctx.Height = true) :
    d'.accounted = d.accounted ∧ d.Slashed ≤ d'.Slashed := by
  have hns' := (noSplit_iff d ctx.Height).1 hns
  have key : d'.WF ∧ d'.accounted = d.accounted ∧ d.Slashed ≤ d'.Slashed ∧
      d'.Manifests = d.Manifests ∧ DB3.NoSplitOn d.ResultTTL ctx.Height d' := by
    unfold DB3.finalizeResults at h
    refine foldlM_inv_mem
      (fun s => s.WF ∧ s.accounted = d.accounted ∧ d.Slashed ≤ s.Slashed ∧
        s.Manifests = d.Manifests ∧ DB3.NoSplitOn d.ResultTTL ctx.Height s)
      (DB3.finalizeDb ctx) d.ResultTTL ?_ d d' ⟨hwf, rfl, le_refl _, rfl, hns'⟩ h
    intro s kv s' hkv hs hstep
    unfold DB3.finalizeDb at hstep
    have hrb : ((s.Manifests.get? kv.1).map (fun m => m.RoyaltyBips)).getD 0 ≤ 10000 := by
      rw [hs.2.2.2.1]
      exact hroy kv.1
    refine foldlM_inv_mem
      (fun s => s.WF ∧ s.accounted = d.accounted ∧ d.Slashed ≤ s.Slashed ∧
        s.Manifests = d.Manifests ∧ DB3.NoSplitOn d.ResultTTL ctx.Height s)
      _ kv.2 ?_ s s' hs hstep
    intro s₁ e s₂ he hs₁ hq
    obtain ⟨q, t⟩ := e
    obtain ⟨w1, a1, l1, m1, n1⟩ := hs₁
    obtain ⟨x1, x2⟩ := finalizeQuery_exact hq w1 (by rw [a1]; exact hA) hrb
      (fun hexp hfee => n1 kv hkv (q, t) he hexp hfee)
    exact ⟨(finalizeQuery_conserves hq w1).1, x1.trans a1, le_trans l1 x2,
      (finalizeQuery_static hq).2.2.2.1.trans m1, finalizeQuery_noSplitOn hq n1⟩
  exact ⟨key.2.1, key.2.2.1⟩

theorem ClaimFees_exact {d d' : DB3} {ctx : CallContext} {out : List Transfer}
    (h : d.ClaimFees ctx = .ok (d', out)) (hwf : d.WF) (hA : d.accounted < U64)
    (hroy : ∀ k, d.royaltyBips k ≤ 10000) (hns : d.noSplit ctx.Height = true) :
    d'.accounted + sent out = d.accounted ∧ d.Slashed ≤ d'.Slashed := by
  obtain ⟨d₁, hf, _⟩ := ClaimFees_pending h
  obtain ⟨x1, x2⟩ := finalizeResults_exact hf hwf hA hroy hns
  rw [ClaimFees_ok hf] at h
  simp only [Except.ok.injEq] at h
  by_cases he : 0 < balanceOf d₁.SettledFees ctx.Caller
  · rw [if_pos he] at h
    simp only [Prod.mk.injEq] at h
    obtain ⟨rfl, rfl⟩ := h
    refine ⟨?_, x2⟩
    have hs := sum1_set d₁.SettledFees ctx.Caller 0
    rw [← x1]
    unfold DB3.accounted balanceOf sent
    simp only [List.map_cons, List.map_nil, List.sum_cons, List.sum_nil]
    simp only [Money] at *
    omega
  · rw [if_neg he] at h
    simp only [Prod.mk.injEq] at h
    obtain ⟨rfl, rfl⟩ := h
    exact ⟨by rw [sent_nil, x1]; rfl, x2⟩

theorem ClaimRoyalties_exact {d d' : DB3} {ctx : CallContext} {out : List Transfer}
    (h : d.ClaimRoyalties ctx = .ok (d', out)) (hwf : d.WF) (hA : d.accounted < U64)
    (hroy : ∀ k, d.royaltyBips k ≤ 10000) (hns : d.noSplit ctx.Height = true) :
    d'.accounted + sent out = d.accounted ∧ d.Slashed ≤ d'.Slashed := by
  obtain ⟨d₁, hf, _⟩ := ClaimRoyalties_pending h
  obtain ⟨x1, x2⟩ := finalizeResults_exact hf hwf hA hroy hns
  rw [ClaimRoyalties_ok hf] at h
  simp only [Except.ok.injEq] at h
  by_cases he : 0 < balanceOf d₁.SettledRoyalties ctx.Caller
  · rw [if_pos he] at h
    simp only [Prod.mk.injEq] at h
    obtain ⟨rfl, rfl⟩ := h
    refine ⟨?_, x2⟩
    have hs := sum1_set d₁.SettledRoyalties ctx.Caller 0
    rw [← x1]
    unfold DB3.accounted balanceOf sent
    simp only [List.map_cons, List.map_nil, List.sum_cons, List.sum_nil]
    simp only [Money] at *
    omega
  · rw [if_neg he] at h
    simp only [Prod.mk.injEq] at h
    obtain ⟨rfl, rfl⟩ := h
    exact ⟨by rw [sent_nil, x1]; rfl, x2⟩

theorem Deposit_exact {d d' : DB3} {ctx : CallContext} {dbid : DBId}
    (h : d.Deposit ctx dbid = .ok d') (hwf : d.WF) (hA : d.accounted + ctx.Amount < U64) :
    d'.accounted = d.accounted + ctx.Amount ∧ d'.Slashed = d.Slashed := by
  obtain ⟨_, _, hk, e⟩ := Deposit_inv h
  have hset := sum2_set2 (set2_ok d.Deposits dbid ctx.Caller
    (Money.add (d.depositOf dbid ctx.Caller) ctx.Amount) hk)
  have hle := get2_le_sum2 d.Deposits dbid ctx.Caller hwf.2.2.1
  have hadd : Money.add (d.depositOf dbid ctx.Caller) ctx.Amount =
      d.depositOf dbid ctx.Caller + ctx.Amount := by
    apply Money.add_of_lt
    unfold DB3.depositOf DB3.accounted at *
    simp only [Money] at *
    omega
  rw [hadd] at hset e
  rw [e]
  refine ⟨?_, rfl⟩
  unfold DB3.accounted DB3.depositOf at *
  simp only [Money] at *
  omega

theorem EscrowFee_exact {d d' : DB3} {ctx : CallContext} {dbid : DBId} {qid : QueryCID}
    {ttl : Int} (h : d.EscrowFee ctx dbid qid ttl = .ok d') (hwf : d.WF)
    (hA : d.accounted + ctx.Amount < U64) :
    d'.accounted = d.accounted + ctx.Amount ∧ d'.Slashed = d.Slashed := by
  obtain ⟨_, _, hk, _, e⟩ := EscrowFee_inv h
  have hset := sum2_set2 (set2_ok d.PendingFees dbid qid
    (Money.add ((get2 d.PendingFees dbid qid).getD 0) ctx.Amount) hk)
  have hle := get2_le_sum2 d.PendingFees dbid qid hwf.2.2.2
  have hadd : Money.add ((get2 d.PendingFees dbid qid).getD 0) ctx.Amount =
      (get2 d.PendingFees dbid qid).getD 0 + ctx.Amount := by
    apply Money.add_of_lt
    unfold DB3.accounted at *
    simp only [Money] at *
    omega
  rw [hadd] at hset e
  rw [e]
  refine ⟨?_, rfl⟩
  unfold DB3.accounted at *
  simp only [Money] at *
  omega

theorem Recover_exact {d d' : DB3} {ctx : CallContext} {amount : Money} {target : AccountID}
    {out : List Transfer} (h : d.Recover ctx amount target = .ok (d', out))
    (hA : d.accounted < U64) : d'.accounted + sent out = d.accounted := by
  obtain ⟨_, hle, e, rfl⟩ := Recover_inv h
  have hsub : Money.sub d.Slashed amount = d.Slashed - amount := by
    apply Money.sub_of_le hle
    unfold DB3.accounted at hA
    simp only [Money] at *
    omega
  rw [hsub] at e
  rw [e]
  unfold DB3.accounted sent
  simp only [List.map_cons, List.map_nil, List.sum_cons, List.sum_nil]
  simp only [Money] at *
  omega

/-- One successful call keeps the books exactly, and does not lower `Slashed` unless it is a
`Recover`, in a state whose accounted funds plus the credited amount are below `2^64`, whose
royalties are at most 10000 bips, and, for a claim, in which the finalizer slashes no
deposit. -/
theorem call_exact {d d' : DB3} {ctx : CallContext} {op : Op} {out : List Transfer}
    (h : d.call ctx op = .ok (d', out)) (hwf : d.WF) (hid : d.NextId + 1 < U64)
    (hA : d.accounted + credited (ctx, op) < U64) (hroy : ∀ k, d.royaltyBips k ≤ 10000)
    (hns : op.isClaim = true → d.noSplit ctx.Height = true) :
    d'.accounted + sent out = d.accounted + credited (ctx, op) ∧
      (op.isRecover = false → d.Slashed ≤ d'.Slashed) := by
  cases op with
  | deploy m =>
    simp only [DB3.call, Except.ok.injEq, Prod.mk.injEq] at h
    obtain ⟨rfl, rfl⟩ := h
    obtain ⟨_, _, c⟩ := Deploy_conserves d ctx m hwf hid
    exact ⟨by rw [c]; rfl, fun _ => le_refl _⟩
  | deposit dbid =>
    simp only [DB3.call] at h
    cases hd : d.Deposit ctx dbid with
    | error e => simp [hd, Except.map] at h
    | ok d₁ =>
      simp only [hd, Except.map, Except.ok.injEq, Prod.mk.injEq] at h
      obtain ⟨rfl, rfl⟩ := h
      obtain ⟨x1, x2⟩ := Deposit_exact hd hwf hA
      exact ⟨by rw [sent_nil, x1]; rfl, fun _ => le_of_eq x2.symm⟩
  | withdraw dbid =>
    simp only [DB3.call] at h
    obtain ⟨_, _, c⟩ := Withdraw_conserves h hwf
    obtain ⟨_, _, _, e, _⟩ := Withdraw_inv h
    exact ⟨by rw [c]; rfl, fun _ => by rw [e]⟩
  | register dbid uri =>
    simp only [DB3.call] at h
    cases hd : d.Register ctx dbid uri with
    | error e => simp [hd, Except.map] at h
    | ok d₁ =>
      simp only [hd, Except.map, Except.ok.injEq, Prod.mk.injEq] at h
      obtain ⟨rfl, rfl⟩ := h
      have hf := Register_frame hd
      exact ⟨by rw [hf]; rfl, fun _ => by rw [hf]⟩
  | escrowFee dbid qid ttl =>
    simp only [DB3.call] at h
    cases hd : d.EscrowFee ctx dbid qid ttl with
    | error e => simp [hd, Except.map] at h
    | ok d₁ =>
      simp only [hd, Except.map, Except.ok.injEq, Prod.mk.injEq] at h
      obtain ⟨rfl, rfl⟩ := h
      obtain ⟨x1, x2⟩ := EscrowFee_exact hd hwf hA
      exact ⟨by rw [sent_nil, x1]; rfl, fun _ => le_of_eq x2.symm⟩
  | settle dbid qid rid =>
    simp only [DB3.call] at h
    cases hd : d.Settle ctx dbid qid rid with
    | error e => simp [hd, Except.map] at h
    | ok d₁ =>
      simp only [hd, Except.map, Except.ok.injEq, Prod.mk.injEq] at h
      obtain ⟨rfl, rfl⟩ := h
      have hf := Settle_frame hd
      exact ⟨by rw [hf]; rfl, fun _ => by rw [hf]⟩
  | claimFees =>
    simp only [DB3.call] at h
    obtain ⟨x1, x2⟩ := ClaimFees_exact h hwf (by simp only [credited] at hA; exact hA) hroy
      (hns rfl)
    exact ⟨by rw [x1]; rfl, fun _ => x2⟩
  | claimRoyalties =>
    simp only [DB3.call] at h
    obtain ⟨x1, x2⟩ := ClaimRoyalties_exact h hwf (by simp only [credited] at hA; exact hA) hroy
      (hns rfl)
    exact ⟨by rw [x1]; rfl, fun _ => x2⟩
  | recover amount target =>
    simp only [DB3.call] at h
    have x1 := Recover_exact h (by simp only [credited] at hA; exact hA)
    exact ⟨by rw [x1]; rfl, fun hr => by simp [Op.isRecover] at hr⟩

theorem call_royalty {d d' : DB3} {ctx : CallContext} {op : Op} {out : List Transfer}
    (h : d.call ctx op = .ok (d', out)) (hroy : ∀ k, d.royaltyBips k ≤ 10000)
    (hop : ∀ m, op = .deploy m → m.RoyaltyBips ≤ 10000) : ∀ k, d'.royaltyBips k ≤ 10000 := by
  cases hd : op.isDeploy with
  | false =>
    intro k
    unfold DB3.royaltyBips
    rw [(call_manifests h hd).1]
    exact hroy k
  | true =>
    cases op with
    | deploy m =>
      simp only [DB3.call, Except.ok.injEq, Prod.mk.injEq] at h
      intro k
      rw [← h.1]
      show (((d.Manifests.set d.NextId m).get? k).map (fun m => m.RoyaltyBips)).getD 0 ≤ 10000
      rw [GoMap.get?_set]
      by_cases hk : d.NextId = k
      · simp only [hk, if_true, Option.map_some', Option.getD_some]
        exact hop m rfl
      · rw [if_neg hk]
        exact hroy k
    | _ => simp [Op.isDeploy] at hd

theorem exec_paidIn_le (w : World) (c : CallContext × Op) : w.paidIn ≤ (w.exec c).paidIn := by
  unfold World.exec
  cases w.db.call c.1 c.2 with
  | error e => exact le_refl _
  | ok r =>
    simp only
    split
    · exact le_refl _
    · simp only [World.paidIn, List.map_append, List.sum_append]
      exact Nat.le_add_right _ _

theorem run_paidIn_le (cs : List (CallContext × Op)) :
    ∀ w : World, w.paidIn ≤ (w.run cs).paidIn := by
  induction cs with
  | nil => intro w; exact le_refl _
  | cons c cs ih => intro w; exact le_trans (exec_paidIn_le w c) (ih (w.exec c))

/-- The invariant of the exact books along a run. -/
theorem run_exact (cs : List (CallContext × Op)) :
    ∀ w : World, w.db.WF → w.db.NextId + cs.length < U64 → (∀ k, w.db.royaltyBips k ≤ 10000) →
      (∀ x ∈ deploysOf cs, x.2.RoyaltyBips ≤ 10000) → w.slashFree cs = true →
      (w.run cs).paidIn < U64 → w.db.accounted + sent w.out = w.paidIn →
      (w.run cs).db.accounted + sent (w.run cs).out = (w.run cs).paidIn := by
  induction cs with
  | nil => intro w _ _ _ _ _ _ h; exact h
  | cons c cs ih =>
    intro w hwf hid hroy hdep hsf hpaid hbooks
    simp only [List.length_cons] at hid
    simp only [World.slashFree, Bool.and_eq_true] at hsf
    have hpaid' : (w.exec c).paidIn < U64 := lt_of_le_of_lt (run_paidIn_le cs (w.exec c)) hpaid
    have hdep' : ∀ x ∈ deploysOf cs, x.2.RoyaltyBips ≤ 10000 := by
      intro x hx
      apply hdep
      cases hop : c.2.isDeploy with
      | false => rw [deploysOf_cons_other c cs hop]; exact hx
      | true =>
        obtain ⟨ctx, op⟩ := c
        cases op with
        | deploy m => rw [deploysOf_cons_deploy]; exact List.mem_cons_of_mem _ hx
        | _ => simp [Op.isDeploy] at hop
    have hid' : w.db.NextId + 1 < U64 := by simp only [DBId] at *; omega
    have hstep : (w.exec c).db.WF ∧ (w.exec c).db.NextId ≤ w.db.NextId + 1 ∧
        (∀ k, (w.exec c).db.royaltyBips k ≤ 10000) ∧
        (w.exec c).db.accounted + sent (w.exec c).out = (w.exec c).paidIn := by
      obtain ⟨ctx, op⟩ := c
      have hcons := exec_conserves w (ctx, op) hwf hid' (by rw [hbooks])
      refine ⟨hcons.1, hcons.2.1, ?_, ?_⟩
      · rcases exec_db w (ctx, op) with e | ⟨d', out, hc, e⟩
        · rw [e]; exact hroy
        · rw [e]
          refine call_royalty hc hroy ?_
          intro m hm
          apply hdep (ctx.Caller, m)
          simp only at hm
          rw [hm, deploysOf_cons_deploy]
          exact List.mem_cons_self _ _
      · revert hpaid'
        unfold World.exec
        cases hcall : w.db.call ctx op with
        | error e => intro _; exact hbooks
        | ok r =>
          obtain ⟨db, out⟩ := r
          simp only
          split
          · intro _; exact hbooks
          · intro hp
            simp only [World.paidIn, List.map_append, List.sum_append, List.map_cons,
              List.map_nil, List.sum_cons, List.sum_nil, sent_append, Nat.add_zero] at hp ⊢
            have hA : w.db.accounted + credited (ctx, op) < U64 := by
              unfold World.paidIn at hbooks
              omega
            obtain ⟨x1, _⟩ := call_exact hcall hwf hid' hA hroy (fun hc => by
              have := hsf.1
              simp only [hc, if_true] at this
              exact this)
            unfold World.paidIn at hbooks
            omega
    exact ih (w.exec c) hstep.1 (by have := hstep.2.1; simp only [DBId] at *; omega)
      hstep.2.2.1 hdep' hsf.2 hpaid hstep.2.2.2

theorem run_wf (cs : List (CallContext × Op)) :
    ∀ w : World, w.db.WF → w.db.NextId + cs.length < U64 → (w.run cs).db.WF := by
  induction cs with
  | nil => intro w h _; exact h
  | cons c cs ih =>
    intro w hwf hid
    simp only [List.length_cons] at hid
    have hid' : w.db.NextId + 1 < U64 := by simp only [DBId] at *; omega
    have hstep : (w.exec c).db.WF ∧ (w.exec c).db.NextId ≤ w.db.NextId + 1 := by
      rcases exec_db w c with e | ⟨d', out, hc, e⟩
      · rw [e]; exact ⟨hwf, Nat.le_succ _⟩
      · rw [e]
        obtain ⟨x1, x2, _⟩ := call_conserves hc hwf hid'
        exact ⟨x1, x2⟩
    exact ih (w.exec c) hstep.1 (by have := hstep.2; simp only [DBId] at *; omega)

theorem run_royalty (cs : List (CallContext × Op)) :
    ∀ w : World, (∀ k, w.db.royaltyBips k ≤ 10000) →
      (∀ x ∈ deploysOf cs, x.2.RoyaltyBips ≤ 10000) →
      ∀ k, (w.run cs).db.royaltyBips k ≤ 10000 := by
  induction cs with
  | nil => intro w h _; exact h
  | cons c cs ih =>
    intro w hroy hdep
    obtain ⟨ctx, op⟩ := c
    have hdep' : ∀ x ∈ deploysOf cs, x.2.RoyaltyBips ≤ 10000 := by
      intro x hx
      apply hdep
      cases hop : op.isDeploy with
      | false => rw [deploysOf_cons_other (ctx, op) cs hop]; exact hx
      | true =>
        cases op with
        | deploy m => rw [deploysOf_cons_deploy]; exact List.mem_cons_of_mem _ hx
        | _ => simp [Op.isDeploy] at hop
    refine ih (w.exec (ctx, op)) ?_ hdep'
    rcases exec_db w (ctx, op) with e | ⟨d', out, hc, e⟩
    · rw [e]; exact hroy
    · rw [e]
      refine call_royalty hc hroy ?_
      intro m hm
      apply hdep (ctx.Caller, m)
      simp only at hm
      rw [hm, deploysOf_cons_deploy]
      exact List.mem_cons_self _ _

theorem NewWorld_wf : NewWorld.db.WF := by
  refine ⟨?_, ?_, ?_, ?_⟩ <;> intro k hk <;> simp [NewWorld, NewDB3] at hk

theorem NewWorld_royalty (k : DBId) : NewWorld.db.royaltyBips k ≤ 10000 := by
  simp [NewWorld, NewDB3, DB3.royaltyBips, GoMap.get?]

/-! ## The claims on overflow, conservation and the slashed pool -/

set_option maxRecDepth 100000

/-- C3 (amended): when the election of an expired query with a positive fee `F` has no
super-majority (as is the case when no result was submitted), the finalizer adds the fee left
after the royalty to `Slashed` in `uint64` arithmetic, changes neither `SettledFees` nor
`Deposits`, and removes the query's entries of `PendingFees`, `PendingResults` and `ResultTTL`.
When `royaltyBips <= 10000` and `Slashed + F` is below `2^64`, the royalty does not exceed `F`
and `Slashed` grows by exactly `F - royalty`; the royalty is `F * royaltyBips / 10000` when
`royaltyBips` is positive and the product is below `2^64`, and 0 when `royaltyBips` is not
positive. -/
theorem no_superMajority (ctx : CallContext) (dbid : DBId) (rb : Int) (d : DB3)
    (qid : QueryCID) (ttl : Int) (hexp : ttl ≤ ctx.Height)
    (hfee : 0 < (get2 d.PendingFees dbid qid).getD 0)
    (hno : (d.election dbid qid).IsSuperMajority = false) :
    ∃ d', DB3.finalizeQuery ctx dbid rb d (qid, ttl) = .ok d' ∧
      d'.Slashed = Money.add d.Slashed (feeAfterRoyalty ((get2 d.PendingFees dbid qid).getD 0) rb) ∧
      d'.SettledFees = d.SettledFees ∧ d'.Deposits = d.Deposits ∧
      get2 d'.PendingFees dbid qid = none ∧ get2 d'.PendingResults dbid qid = none ∧
      get2 d'.ResultTTL dbid qid = none ∧
      (Election.ofVotes []).IsSuperMajority = false ∧
      (rb ≤ 10000 → d.Slashed + (get2 d.PendingFees dbid qid).getD 0 < U64 →
        royaltyOf ((get2 d.PendingFees dbid qid).getD 0) rb ≤ (get2 d.PendingFees dbid qid).getD 0 ∧
          d'.Slashed = d.Slashed + ((get2 d.PendingFees dbid qid).getD 0 -
            royaltyOf ((get2 d.PendingFees dbid qid).getD 0) rb)) ∧
      (0 < rb → (get2 d.PendingFees dbid qid).getD 0 * rb.toNat < U64 →
        royaltyOf ((get2 d.PendingFees dbid qid).getD 0) rb =
          (get2 d.PendingFees dbid qid).getD 0 * rb.toNat / 10000) ∧
      (rb ≤ 0 → royaltyOf ((get2 d.PendingFees dbid qid).getD 0) rb = 0) := by
  have hu : (d.election dbid qid).IsUnanimous = false := by
    cases hu : (d.election dbid qid).IsUnanimous with
    | false => rfl
    | true =>
      have hs : (d.election dbid qid).IsSuperMajority = true :=
        ((Election.consistent_ofVotes _).unanimous_superMajority hu).1
      rw [hno] at hs
      exact absurd hs (by simp)
  have hS : ∀ F : Money, Money.add (d.creditRoyalty dbid rb F).Slashed (feeAfterRoyalty F rb) =
      Money.add d.Slashed (feeAfterRoyalty F rb) := by
    intro F
    rw [creditRoyalty_frame]
  rw [finalizeQuery_expired ctx dbid rb d qid ttl hexp hfee, splitFee_eq]
  simp only [DB3.settleElection, hu, hno, Bool.false_eq_true, if_false, pure_eq_ok]
  refine ⟨_, rfl, hS _, ?_, ?_, get2_del2_self _ _ _, get2_del2_self _ _ _,
    get2_del2_self _ _ _, by decide, ?_, ?_, ?_⟩
  · show (d.creditRoyalty dbid rb _).SettledFees = _
    rw [creditRoyalty_frame]
  · show (d.creditRoyalty dbid rb _).Deposits = _
    rw [creditRoyalty_frame]
  · intro hrb hlt
    have hF : (get2 d.PendingFees dbid qid).getD 0 < U64 := by
      simp only [Money] at *
      omega
    obtain ⟨h1, h2⟩ := feeAfterRoyalty_eq ((get2 d.PendingFees dbid qid).getD 0) rb hrb hF
    refine ⟨h1, ?_⟩
    show Money.add (d.creditRoyalty dbid rb _).Slashed _ = _
    rw [hS, h2]
    apply Money.add_of_lt
    simp only [Money] at *
    omega
  · intro hb hlt
    simp only [royaltyOf, gt_iff_lt, hb, if_true]
    rw [Money.mul_of_lt (le_of_lt hb) hlt]
  · intro hb
    simp only [royaltyOf, gt_iff_lt, not_lt.2 hb, if_false]

/-- A witness of C3: the three-way tie of scenario 3, finalized at height 200. -/
theorem no_superMajority_witness :
    ((110 : Int) ≤ (ctxOf "h1" 0 200).Height) ∧
      (get2 (NewWorld.run scenario3).db.PendingFees 0 "cid-Q").getD 0 = 1000 ∧
      ((NewWorld.run scenario3).db.election 0 "cid-Q").IsSuperMajority = false ∧
      ∃ d', DB3.finalizeQuery (ctxOf "h1" 0 200) 0 0 (NewWorld.run scenario3).db ("cid-Q", 110) =
          .ok d' ∧
        d'.Slashed = (NewWorld.run scenario3).db.Slashed +
          ((get2 (NewWorld.run scenario3).db.PendingFees 0 "cid-Q").getD 0 -
            royaltyOf ((get2 (NewWorld.run scenario3).db.PendingFees 0 "cid-Q").getD 0) 0) ∧
        d'.SettledFees = (NewWorld.run scenario3).db.SettledFees ∧
        d'.Deposits = (NewWorld.run scenario3).db.Deposits ∧
        get2 d'.PendingFees 0 "cid-Q" = none ∧ get2 d'.PendingResults 0 "cid-Q" = none ∧
        get2 d'.ResultTTL 0 "cid-Q" = none :=
  ⟨by decide, by decide, by decide,
   let ⟨d', h1, _, h3, h4, h5, h6, h7, _, h9, _⟩ :=
     no_superMajority (ctxOf "h1" 0 200) 0 0 (NewWorld.run scenario3).db "cid-Q" 110
       (by decide) (by decide) (by decide)
   ⟨d', h1, (h9 (by decide) (by decide)).2, h3, h4, h5, h6, h7⟩⟩

/-- C3 as stated fails in two ways. With a royalty of 20000 bips (which `Deploy` accepts) the
royalty of a fee of 1000 is 2000, the fee left wraps to `2^64 - 1000`, and the finalizer raises
`Slashed` from 0 to `2^64 - 1000`, far more than the fee. With `Slashed = 2^64 - 1` and no
royalty, a fee of 2 wraps the sum and `Slashed` falls to 1. -/
theorem no_superMajority_wraps :
    ((NewWorld.run royaltyAbove).db.royaltyBips 0,
        (get2 (NewWorld.run royaltyAbove).db.PendingFees 0 "cid-Q").getD 0,
        ((NewWorld.run royaltyAbove).db.election 0 "cid-Q").IsSuperMajority,
        (NewWorld.run royaltyAbove).db.Slashed) = (20000, 1000, false, 0) ∧
      (DB3.finalizeQuery (ctxOf "h1" 0 200) 0 20000 (NewWorld.run royaltyAbove).db
          ("cid-Q", 110)).toOption.map (fun d' => d'.Slashed) = some (2 ^ 64 - 1000) ∧
      (NewWorld.run (royaltyAbove ++ [(ctxOf "h1" 0 200, .claimFees)])).db.Slashed =
        2 ^ 64 - 1000 ∧
      ((NewWorld.run slashedFull).db.royaltyBips 0,
        (get2 (NewWorld.run slashedFull).db.PendingFees 0 "cid-Q").getD 0,
        ((NewWorld.run slashedFull).db.election 0 "cid-Q").IsSuperMajority,
        (NewWorld.run slashedFull).db.Slashed) = (0, 2, false, 2 ^ 64 - 1) ∧
      (DB3.finalizeQuery (ctxOf "h1" 0 200) 0 0 (NewWorld.run slashedFull).db
          ("cid-Q", 110)).toOption.map (fun d' => d'.Slashed) = some 1 ∧
      (NewWorld.run (slashedFull ++ [(ctxOf "h1" 0 200, .claimFees)])).db.Slashed = 1 := by
  decide

/-- C15 as stated fails when the sum does not fit 64 bits. With a deposit of 10005, a `Deposit`
with `ctx.Amount = 2^64 - 1` succeeds and stores 10004, not the previous value plus the amount;
a `Deposit` with `ctx.Amount = 2^64 - 10005` panics although the previous value plus the amount
is `2^64`, which is not below `SECURITY_DEPOSIT`. -/
theorem deposit_wraps :
    testDeposited5.toOption.map (fun d => d.depositOf 0 "sender.near") = some 10005 ∧
      (testDeposited5.bind (fun d =>
          d.Deposit (ctxOf "sender.near" (2 ^ 64 - 1) 10) 0)).toOption.map
        (fun d' => d'.depositOf 0 "sender.near") = some 10004 ∧
      10005 + (2 ^ 64 - 1) ≠ 10004 ∧
      (testDeposited5.bind (fun d =>
          d.Deposit (ctxOf "sender.near" (2 ^ 64 - 10005) 10) 0)).toOption = none ∧
      ¬ (10005 + (2 ^ 64 - 10005) < SECURITY_DEPOSIT) := by
  decide

/-- C19 as stated fails when the sum does not fit 64 bits: with a pending fee of 8 for `cid-1`,
an `EscrowFee` with `ctx.Amount = 2^64 - 1` succeeds and leaves a pending fee of 7, not the
previous value plus the amount. -/
theorem escrowFee_wraps :
    (testDb.EscrowFee (ctxOf "user.near" 8 10) 0 "cid-1" 129).toOption.map
        (fun d => get2 d.PendingFees 0 "cid-1") = some (some 8) ∧
      ((testDb.EscrowFee (ctxOf "user.near" 8 10) 0 "cid-1" 129).bind (fun d =>
          d.EscrowFee (ctxOf "user.near" (2 ^ 64 - 1) 10) 0 "cid-1" 129)).toOption.map
        (fun d' => get2 d'.PendingFees 0 "cid-1") = some (some 7) ∧
      8 + (2 ^ 64 - 1) ≠ 7 := by
  decide

/-- C20 as stated fails when `ctx.Height + 120` does not fit an `int64`: the first result for a
query submitted at height `2^63 - 11` is stored, and the TTL is initialized to
`-9223372036854775699`, not to `ctx.Height + MAX_BLOCKS_TO_SETTLE`. -/
theorem settle_ttl_wraps :
    ((testDb.Deposit (ctxOf "h1" 10000 10) 0).bind
        (fun d₁ => d₁.Settle (ctxOf "h1" 0 (2 ^ 63 - 11)) 0 "cid-Q" "cid-R")).toOption.map
      (fun d₂ => (d₂.voteOf 0 "cid-Q" "h1", get2 d₂.ResultTTL 0 "cid-Q")) =
        some (some "cid-R", some (-9223372036854775699)) ∧
      (2 ^ 63 - 11 : Int) + MAX_BLOCKS_TO_SETTLE ≠ -9223372036854775699 ∧
      (2 ^ 63 - 11 : Int) < 2 ^ 63 := by
  decide

/-- C23 (amended): `Recover(amount, target)` panics when the caller is not `d.Owner` and when
`d.Slashed < amount`; the runtime then leaves the state as it was. Otherwise it succeeds, lowers
`Slashed` by exactly `amount`, transfers exactly `amount` to `target` and changes nothing else.
For a caller who is not the owner: a `Recover` never succeeds, every other successful call except
a claim leaves `Slashed` as it was, a claim leaves `Slashed` as the finalizer left it, and no
successful call lowers `Slashed` in a state with the invariant `DB3.WF` of the maps (which every
state reached from `NewDB3` has) in which the funds held are below `2^64`, every royalty is at
most 10000 bips and the finalizer slashes no deposit. Scenario 6 evaluates as stated. -/
theorem recover_spec (d : DB3) (ctx : CallContext) (amount : Money) (target : AccountID) :
    (ctx.Caller ≠ d.Owner →
        d.Recover ctx amount target = .error "Must be contract owner to recover funds") ∧
      (ctx.Caller = d.Owner → d.Slashed < amount →
        d.Recover ctx amount target = .error "Amount is smaller than available funds") ∧
      (∀ w : World, w.db = d → (ctx.Caller ≠ d.Owner ∨ d.Slashed < amount) →
        w.exec (ctx, .recover amount target) = w) ∧
      (ctx.Caller = d.Owner → amount ≤ d.Slashed →
        d.Recover ctx amount target =
            .ok ({ d with Slashed := Money.sub d.Slashed amount }, [(target, amount)]) ∧
          (d.Slashed < U64 → Money.sub d.Slashed amount = d.Slashed - amount)) ∧
      (∀ (op : Op) (d' : DB3) (out : List Transfer), ctx.Caller ≠ d.Owner →
        d.call ctx op = .ok (d', out) →
          op.isRecover = false ∧ (op.isClaim = false → d'.Slashed = d.Slashed) ∧
            (op.isClaim = true →
              ∃ d₁, d.finalizeResults ctx = .ok d₁ ∧ d'.Slashed = d₁.Slashed) ∧
            (d.WF → d.accounted < U64 → (∀ k, d.royaltyBips k ≤ 10000) →
              d.noSplit ctx.Height = true → d.Slashed ≤ d'.Slashed)) ∧
      (NewWorld.run scenarioSlashed).db.Slashed = 1000 ∧
      ((NewWorld.run scenarioSlashed).db.Recover (ctxOf "h1" 0 201) 400 "h1").toOption = none ∧
      ((NewWorld.run scenarioSlashed).db.Recover
        (ctxOf "blockwatch.near" 0 201) 1001 "dao.near").toOption = none ∧
      ((NewWorld.run scenarioSlashed).db.Recover
          (ctxOf "blockwatch.near" 0 201) 400 "dao.near").toOption.map
        (fun r => (r.1.Slashed, r.2)) = some (600, [("dao.near", 400)]) := by
  refine ⟨Recover_error_owner, Recover_error_funds, ?_, ?_, ?_, by decide, by decide,
    by decide, by decide⟩
  · intro w hw hcase
    subst hw
    by_cases h1 : ctx.Caller = w.db.Owner
    · rcases hcase with h | h
      · exact absurd h1 h
      · exact exec_recover_abort (Recover_error_funds h1 h)
    · exact exec_recover_abort (Recover_error_owner h1)
  · intro h1 h2
    exact ⟨Recover_ok h1 h2, fun hlt => Money.sub_of_le h2 hlt⟩
  · intro op d' out hno hcall
    have hr : op.isRecover = false := by
      cases op with
      | recover a t =>
        simp only [DB3.call] at hcall
        rw [Recover_error_owner hno] at hcall
        exact Except.noConfusion hcall
      | _ => rfl
    refine ⟨hr, fun hc => call_slashed hcall hc hr, ?_, ?_⟩
    · intro hc
      cases op with
      | claimFees =>
        simp only [DB3.call] at hcall
        obtain ⟨d₁, hf, e⟩ := ClaimFees_pending hcall
        exact ⟨d₁, hf, by rw [e]⟩
      | claimRoyalties =>
        simp only [DB3.call] at hcall
        obtain ⟨d₁, hf, e⟩ := ClaimRoyalties_pending hcall
        exact ⟨d₁, hf, by rw [e]⟩
      | _ => simp [Op.isClaim] at hc
    · intro hwf hA hroy hns
      cases hc : op.isClaim with
      | false => exact le_of_eq (call_slashed hcall hc hr).symm
      | true =>
        cases op with
        | claimFees =>
          simp only [DB3.call] at hcall
          exact (ClaimFees_exact hcall hwf hA hroy hns).2
        | claimRoyalties =>
          simp only [DB3.call] at hcall
          exact (ClaimRoyalties_exact hcall hwf hA hroy hns).2
        | _ => simp [Op.isClaim] at hc

/-- A witness of C23: the owner recovers 400 of the 1000 slashed in scenario 3; and the claim of
`h1`, who is not the owner, at height 200 of scenario 3 does not lower `Slashed`. -/
theorem recover_spec_witness :
    (NewWorld.run scenarioSlashed).db.Recover (ctxOf "blockwatch.near" 0 201) 400 "dao.near" =
        .ok ({ (NewWorld.run scenarioSlashed).db with
                Slashed := Money.sub (NewWorld.run scenarioSlashed).db.Slashed 400 },
             [("dao.near", 400)]) ∧
      Money.sub (NewWorld.run scenarioSlashed).db.Slashed 400 =
        (NewWorld.run scenarioSlashed).db.Slashed - 400 ∧
      (NewWorld.run scenario3).db.accounted < U64 ∧
      (NewWorld.run scenario3).db.noSplit (ctxOf "h1" 0 200).Height = true ∧
      ∃ d' out, (NewWorld.run scenario3).db.call (ctxOf "h1" 0 200) .claimFees = .ok (d', out) ∧
        (NewWorld.run scenario3).db.Slashed ≤ d'.Slashed := by
  refine ⟨((recover_spec (NewWorld.run scenarioSlashed).db (ctxOf "blockwatch.near" 0 201) 400
      "dao.near").2.2.2.1 (by decide) (by decide)).1,
    ((recover_spec (NewWorld.run scenarioSlashed).db (ctxOf "blockwatch.near" 0 201) 400
      "dao.near").2.2.2.1 (by decide) (by decide)).2 (by decide), by decide, by decide, ?_⟩
  have hsome : ((NewWorld.run scenario3).db.call (ctxOf "h1" 0 200) .claimFees).toOption.isSome =
      true := by decide
  have hwf : (NewWorld.run scenario3).db.WF := run_wf scenario3 NewWorld NewWorld_wf (by decide)
  have hroy : ∀ k, (NewWorld.run scenario3).db.royaltyBips k ≤ 10000 :=
    run_royalty scenario3 NewWorld NewWorld_royalty (by decide)
  cases h : (NewWorld.run scenario3).db.call (ctxOf "h1" 0 200) .claimFees with
  | error e =>
    rw [h] at hsome
    exact absurd hsome (by simp [Except.toOption])
  | ok r =>
    obtain ⟨d', out⟩ := r
    exact ⟨d', out, rfl,
      ((recover_spec (NewWorld.run scenario3).db (ctxOf "h1" 0 200) 0 "h1").2.2.2.2.1
        .claimFees d' out (by decide) h).2.2.2 hwf (by decide) hroy (by decide)⟩

/-- C23 as stated fails in its last sentence: calls of accounts other than the owner lower
`Slashed`. With 5000 in the pool, `mallory.near` deploys a database with a royalty of 60000 bips
and escrows a fee of 1000; the claim of the royalty at height 200 wraps the fee left to
`2^64 - 5000`, `Slashed` falls from 5000 to 0 and 6000 are transferred to `mallory.near`. With
`Slashed = 2^64 - 1` a claim that finalizes an unanswered fee of 2 leaves `Slashed = 1`. With
`Slashed = 2^64 - 100000` and funds of `2^64 - 69999` in all, a claim that finalizes a split
election slashes the minority voter by 100000 and leaves `Slashed = 1`. -/
theorem recover_bypassed :
    (NewWorld.run royaltyDrain).db.Slashed = 5000 ∧
      (NewWorld.run royaltyDrain).db.Owner ≠ "mallory.near" ∧
      ((NewWorld.run royaltyDrain).db.call (ctxOf "mallory.near" 0 200) .claimRoyalties).toOption.map
        (fun r => (r.1.Slashed, r.2)) = some (0, [("mallory.near", 6000)]) ∧
      (NewWorld.run (royaltyDrain ++ [(ctxOf "mallory.near" 0 200, .claimRoyalties)])).out =
        [("mallory.near", 6000)] ∧
      (NewWorld.run slashedFull).db.Slashed = 2 ^ 64 - 1 ∧
      (NewWorld.run slashedFull).db.Owner ≠ "h1" ∧
      ((NewWorld.run slashedFull).db.call (ctxOf "h1" 0 200) .claimFees).toOption.map
        (fun r => r.1.Slashed) = some 1 ∧
      ((NewWorld.run slashedSplit).db.Slashed, (NewWorld.run slashedSplit).db.accounted) =
        (2 ^ 64 - 100000, 2 ^ 64 - 69999) ∧
      ((NewWorld.run slashedSplit).db.call (ctxOf "h1" 0 200) .claimFees).toOption.map
        (fun r => r.1.Slashed) = some 1 := by
  decide

/-- C5 (amended): for every sequence of fewer than `2^64` calls starting from `NewDB3` in which
every deployed royalty is at most 10000 bips, no claim finalizes a split election (the finalizer
slashes no deposit), and the amounts attached to the `Deposit` and `EscrowFee` calls that did not
abort sum to less than `2^64`, the sum of all deposits, the slashed pool, the pending fees, the
settled fees, the settled royalties and all amounts transferred out equals the sum of
`ctx.Amount` over the `Deposit` and `EscrowFee` calls that did not abort. -/
theorem conservation (cs : List (CallContext × Op)) (hlen : cs.length < U64)
    (hroy : ∀ x ∈ deploysOf cs, x.2.RoyaltyBips ≤ 10000)
    (hns : NewWorld.slashFree cs = true) (hpaid : (NewWorld.run cs).paidIn < U64) :
    (NewWorld.run cs).db.accounted + sent (NewWorld.run cs).out = (NewWorld.run cs).paidIn := by
  exact run_exact cs NewWorld NewWorld_wf (by simpa [NewWorld, NewDB3] using hlen)
    NewWorld_royalty hroy hns hpaid (by rfl)

/-- A witness of C5: scenario 1 followed by the claim of `h1` at height 200, in which 1010000 are
paid in, 900000 are transferred to `h1`, and 110000 stay in the contract. -/
theorem conservation_witness :
    (scenario1 ++ [(ctxOf "h1" 0 200, Op.claimFees)]).length < U64 ∧
      NewWorld.slashFree (scenario1 ++ [(ctxOf "h1" 0 200, Op.claimFees)]) = true ∧
      (NewWorld.run (scenario1 ++ [(ctxOf "h1" 0 200, Op.claimFees)])).paidIn = 1010000 ∧
      sent (NewWorld.run (scenario1 ++ [(ctxOf "h1" 0 200, Op.claimFees)])).out = 900000 ∧
      (NewWorld.run (scenario1 ++ [(ctxOf "h1" 0 200, Op.claimFees)])).db.accounted +
          sent (NewWorld.run (scenario1 ++ [(ctxOf "h1" 0 200, Op.claimFees)])).out =
        (NewWorld.run (scenario1 ++ [(ctxOf "h1" 0 200, Op.claimFees)])).paidIn :=
  ⟨by decide, by decide, by decide, by decide,
   conservation (scenario1 ++ [(ctxOf "h1" 0 200, Op.claimFees)]) (by decide) (by decide)
     (by decide) (by decide)⟩

/-- C5 as stated fails, and each condition of the amended claim is needed. Each line gives the
number of calls that did not abort, the sum of `ctx.Amount` over them, the sum over the
`Deposit` and `EscrowFee` calls among them, and the funds held plus the amounts transferred out.
`Deploy` with 10000 attached (as in `TestDepositSuccess`) credits nothing. A fee of `2^64 - 1`
followed by a fee of 2 wraps the slashed pool, and the books end at 1. A royalty of 20000 bips
wraps the fee left, and a fee of 1000 ends as `2^64 + 1000` in the books. The split election of
scenario 2 wraps the deposit of the minority voter, and 31000 paid in end as `2^64 + 31000`. -/
theorem conservation_fails :
    ((NewWorld.run [(ctxOf "sender.near" 10000 10, Op.deploy (manifestOf 1000))]).calls.length,
        (NewWorld.run [(ctxOf "sender.near" 10000 10, Op.deploy (manifestOf 1000))]).attached,
        (NewWorld.run [(ctxOf "sender.near" 10000 10, Op.deploy (manifestOf 1000))]).paidIn,
        (NewWorld.run [(ctxOf "sender.near" 10000 10, Op.deploy (manifestOf 1000))]).db.accounted +
          sent (NewWorld.run [(ctxOf "sender.near" 10000 10, Op.deploy (manifestOf 1000))]).out) =
        (1, 10000, 0, 0) ∧
      ((NewWorld.run (slashedFull ++ [(ctxOf "h1" 0 200, .claimFees)])).calls.length,
        (NewWorld.run (slashedFull ++ [(ctxOf "h1" 0 200, .claimFees)])).attached,
        (NewWorld.run (slashedFull ++ [(ctxOf "h1" 0 200, .claimFees)])).paidIn,
        (NewWorld.run (slashedFull ++ [(ctxOf "h1" 0 200, .claimFees)])).db.accounted +
          sent (NewWorld.run (slashedFull ++ [(ctxOf "h1" 0 200, .claimFees)])).out) =
        (5, 2 ^ 64 + 1, 2 ^ 64 + 1, 1) ∧
      ((NewWorld.run (royaltyAbove ++ [(ctxOf "h1" 0 200, .claimFees)])).calls.length,
        (NewWorld.run (royaltyAbove ++ [(ctxOf "h1" 0 200, .claimFees)])).attached,
        (NewWorld.run (royaltyAbove ++ [(ctxOf "h1" 0 200, .claimFees)])).paidIn,
        (NewWorld.run (royaltyAbove ++ [(ctxOf "h1" 0 200, .claimFees)])).db.accounted +
          sent (NewWorld.run (royaltyAbove ++ [(ctxOf "h1" 0 200, .claimFees)])).out) =
        (3, 1000, 1000, 2 ^ 64 + 1000) ∧
      ((NewWorld.run (scenario2 ++ [(ctxOf "h1" 0 200, .claimFees)])).calls.length,
        (NewWorld.run (scenario2 ++ [(ctxOf "h1" 0 200, .claimFees)])).attached,
        (NewWorld.run (scenario2 ++ [(ctxOf "h1" 0 200, .claimFees)])).paidIn,
        (NewWorld.run (scenario2 ++ [(ctxOf "h1" 0 200, .claimFees)])).db.accounted +
          sent (NewWorld.run (scenario2 ++ [(ctxOf "h1" 0 200, .claimFees)])).out) =
        (9, 31000, 31000, 2 ^ 64 + 31000) ∧
      NewWorld.slashFree (scenario2 ++ [(ctxOf "h1" 0 200, .claimFees)]) = false := by
  decide

end Db3
